import Mathlib

/-! GraphAlignment: the linear assignment solver and the binner.

A shallow embedding of `lap.c` (`LAP_lap`, `LAP_checklap`), of
`GA_linear_assignment_solve`, `GA_compute_M`, `GA_encode_directed_graph` and
`GA_msg_R` (`GraphAlignment.c`), of `GA_msg_default` (`GA_message.c`), of
`GA_get_bin_number`,
`GA_vector_to_bin_real`, `GA_vector_get_elt_int` and
`GA_invert_permutation_int` (`GA_vector.c`) and of `GA_matrix_to_bin_real` and
`GA_matrix_get_elt_int` (`GA_matrix.c`), with the properties of the
specification proved about them.

Conventions of the embedding.

* C `int` values (`row`, `col`, `cost`) are unbounded integers `Int`: the
  properties are stated for runs without arithmetic overflow.  The
  definitions whose name ends in `32` form the sums and differences of costs
  in 32-bit arithmetic instead (`wrap32`).
* An `int*` buffer is a function `Int → Int` from index to content; a write
  is `Function.update`.  The initial content of every buffer is a parameter.
* A pointer to an element of a buffer is the index of the element; the null
  pointer is `none`.
* `for` loops with a fixed trip count are folds over the index range; loops
  whose trip count depends on the data (`while`, `do … while`) take a fuel
  argument and return `none` when it runs out.
* A `double` is a rational number.  The additions of `GA_compute_M` are the
  additions of IEEE 754 binary64 (`addDouble`: the exact sum, rounded to
  nearest, ties to even, each expression evaluated in the type `double`);
  infinities, NaN and a sum beyond the largest finite value are not modelled.
* The message function behind `GA_msg()` is a parameter (`GAMessageFunc`) of
  the functions that report: `GA_msg_default`, the initial one, prints and
  returns; `GA_msg_R`, which `R_init_GraphAlignment` installs, calls `error()`
  at the level `GA_MSG_ERROR` and does not return.  A call of such a function
  ends in an `Outcome`: it returns a value, it is left at an error message, or
  it runs into undefined behaviour (a store through the null pointer, a read
  or a store outside of an array), each with the messages reported so far.
-/

namespace LAP

/-- The constant `BIG` of `lap.h`. -/
def BIG : Int := 2147483647

/-- The counting loop `for (i = lo; i < lo + n; i++) s = body i s`. -/
def forRange {σ : Type} (lo : Int) : Nat → (Int → σ → σ) → σ → σ
  | 0, _, s => s
  | n + 1, body, s => body (lo + n) (forRange lo n body s)

/-- The descending loop `for (j = n - 1; j >= 0; j--) s = body j s`. -/
def forDown {σ : Type} : Nat → (Int → σ → σ) → σ → σ
  | 0, _, s => s
  | n + 1, body, s => forDown n body (body n s)

/-- The buffers of `LAP_lap` (the four output arrays of the caller and the
five work arrays; `matchcnt` is the array `matches`) and the two scalars
that live across its phases. -/
structure St where
  rowsol : Int → Int
  colsol : Int → Int
  u : Int → Int
  v : Int → Int
  rfree : Int → Int
  collist : Int → Int
  matchcnt : Int → Int
  d : Int → Int
  pred : Int → Int
  numfree : Int
  j2 : Int

/-- Minimum of column `j` over the rows and the first row attaining it:
`min = assigncost[0][j]; imin = 0; for (i = 1; i < dim; i++) …`. -/
def colMin (dim : Nat) (c : Int → Int → Int) (j : Int) : Int × Int :=
  forRange 1 (dim - 1)
    (fun i (p : Int × Int) => if c i j < p.1 then (c i j, i) else p)
    (c 0 j, 0)

/-- Body of the COLUMN REDUCTION loop for column `j`. -/
def colRedStep (dim : Nat) (c : Int → Int → Int) (j : Int) (s : St) : St :=
  let p := colMin dim c j
  let min := p.1
  let imin := p.2
  let v := Function.update s.v j min
  let matchcnt := Function.update s.matchcnt imin (s.matchcnt imin + 1)
  if matchcnt imin = 1 then
    { s with v := v, matchcnt := matchcnt,
             rowsol := Function.update s.rowsol imin j,
             colsol := Function.update s.colsol j imin }
  else
    { s with v := v, matchcnt := matchcnt,
             colsol := Function.update s.colsol j (-1) }

/-- COLUMN REDUCTION: `for (j = dim-1; j >= 0; j--)`. -/
def colReduction (dim : Nat) (c : Int → Int → Int) (s : St) : St :=
  forDown dim (colRedStep dim c) s

/-- Inner loop of REDUCTION TRANSFER: the minimum of `BIG` and of the reduced
costs of row `i` over the columns other than `j1`. -/
def transferMin (dim : Nat) (c : Int → Int → Int) (v : Int → Int) (i j1 : Int) : Int :=
  forRange 0 dim
    (fun j (min : Int) => if j ≠ j1 then (if c i j - v j < min then c i j - v j else min) else min)
    BIG

/-- Body of the REDUCTION TRANSFER loop for row `i`. -/
def transferStep (dim : Nat) (c : Int → Int → Int) (i : Int) (s : St) : St :=
  if s.matchcnt i = 0 then
    { s with rfree := Function.update s.rfree s.numfree i, numfree := s.numfree + 1 }
  else if s.matchcnt i = 1 then
    let j1 := s.rowsol i
    let min := transferMin dim c s.v i j1
    { s with v := Function.update s.v j1 (s.v j1 - min) }
  else s

/-- REDUCTION TRANSFER: `for (i = 0; i < dim; i++)`. -/
def reductionTransfer (dim : Nat) (c : Int → Int → Int) (s : St) : St :=
  forRange 0 dim (transferStep dim c) s

/-- Result of the scan of a free row in AUGMENTING ROW REDUCTION. -/
structure Scan where
  umin : Int
  usubmin : Int
  j1 : Int
  j2 : Int

/-- One column of the scan for the minimum and second minimum reduced cost. -/
def scanStep (c : Int → Int → Int) (v : Int → Int) (i : Int) (j : Int) (r : Scan) : Scan :=
  let h := c i j - v j
  if h < r.usubmin then
    if h ≥ r.umin then { r with usubmin := h, j2 := j }
    else { umin := h, usubmin := r.umin, j1 := j, j2 := r.j1 }
  else r

/-- Minimum and second minimum reduced cost of row `i` over the columns;
`j2` enters with the value left by the previous scan. -/
def scanRow (dim : Nat) (c : Int → Int → Int) (v : Int → Int) (i : Int) (j2 : Int) : Scan :=
  forRange 1 (dim - 1) (scanStep c v i)
    { umin := c i 0 - v 0, usubmin := BIG, j1 := 0, j2 := j2 }

/-- Body of the `while (k < prvnumfree)` loop of AUGMENTING ROW REDUCTION;
the state is the buffers and the loop index `k`. -/
def arrStep (dim : Nat) (c : Int → Int → Int) (p : St × Int) : St × Int :=
  let s := p.1
  let i := s.rfree p.2
  let k := p.2 + 1
  let r := scanRow dim c s.v i s.j2
  let i0 := s.colsol r.j1
  let v := if r.umin < r.usubmin then
      Function.update s.v r.j1 (s.v r.j1 - (r.usubmin - r.umin)) else s.v
  let j1 := if r.umin < r.usubmin then r.j1 else if i0 ≥ 0 then r.j2 else r.j1
  let i0 := if r.umin < r.usubmin then i0 else if i0 ≥ 0 then s.colsol r.j2 else i0
  let rowsol := Function.update s.rowsol i j1
  let colsol := Function.update s.colsol j1 i
  let s := { s with v := v, rowsol := rowsol, colsol := colsol, j2 := r.j2 }
  if i0 ≥ 0 then
    if r.umin < r.usubmin then
      ({ s with rfree := Function.update s.rfree (k - 1) i0 }, k - 1)
    else
      ({ s with rfree := Function.update s.rfree s.numfree i0, numfree := s.numfree + 1 }, k)
  else (s, k)

/-- The loop `while (k < prvnumfree)`; `fuel` bounds the number of times the
body runs. -/
def arrLoop (dim : Nat) (c : Int → Int → Int) (prvnumfree : Int) : Nat → St × Int → Option St
  | 0, p => if p.2 < prvnumfree then none else some p.1
  | fuel + 1, p =>
    if p.2 < prvnumfree then arrLoop dim c prvnumfree fuel (arrStep dim c p) else some p.1

/-- One pass of AUGMENTING ROW REDUCTION over the current list of free rows. -/
def arrPass (fuel : Nat) (dim : Nat) (c : Int → Int → Int) (s : St) : Option St :=
  arrLoop dim c s.numfree fuel ({ s with numfree := 0 }, 0)

/-- State of the shortest path search of one free row. -/
structure Search where
  collist : Int → Int
  d : Int → Int
  pred : Int → Int
  low : Int
  up : Int
  last : Int
  min : Int
  endofpath : Int
  found : Bool

/-- Loop that collects, between `low` and `up`, the columns of
`collist[up..dim-1]` at which the new minimum of `d` occurs. -/
def minScanStep (k : Int) (q : Search) : Search :=
  let j := q.collist k
  let h := q.d j
  if h ≤ q.min then
    let up := if h < q.min then q.low else q.up
    let min := if h < q.min then h else q.min
    { q with min := min, up := up + 1,
             collist := Function.update (Function.update q.collist k (q.collist up)) up j }
  else q

/-- Loop `for (k = low; k < up; k++) if (colsol[collist[k]] < 0) … break`;
`n` is the number of indices left. -/
def findUnassigned (colsol : Int → Int) (collist : Int → Int) (k : Int) : Nat → Option Int
  | 0 => none
  | n + 1 => if colsol (collist k) < 0 then some (collist k)
             else findUnassigned colsol collist (k + 1) n

/-- The branch `if (up == low)` of the search loop. -/
def newMinimum (dim : Nat) (colsol : Int → Int) (q : Search) : Search :=
  let q := { q with last := q.low - 1, min := q.d (q.collist q.up), up := q.up + 1 }
  let q := forRange q.up ((dim : Int) - q.up).toNat minScanStep q
  match findUnassigned colsol q.collist q.low (q.up - q.low).toNat with
  | some j => { q with endofpath := j, found := true }
  | none => q

/-- Loop that updates the distances of the unscanned columns via row `i` of
the column just scanned; `k` is the loop index, `n` the number of indices left. -/
def relax (c : Int → Int → Int) (v colsol : Int → Int) (i h : Int) (k : Int) : Nat → Search → Search
  | 0, q => q
  | n + 1, q =>
    let j := q.collist k
    let v2 := c i j - v j - h
    if v2 < q.d j then
      let q := { q with pred := Function.update q.pred j i }
      if v2 = q.min then
        if colsol j < 0 then { q with endofpath := j, found := true }
        else
          let q := { q with collist := Function.update (Function.update q.collist k (q.collist q.up)) q.up j,
                            up := q.up + 1 }
          relax c v colsol i h (k + 1) n { q with d := Function.update q.d j v2 }
      else relax c v colsol i h (k + 1) n { q with d := Function.update q.d j v2 }
    else relax c v colsol i h (k + 1) n q

/-- The branch `if (!unassignedfound)` of the search loop. -/
def scanColumn (dim : Nat) (c : Int → Int → Int) (v colsol : Int → Int) (q : Search) : Search :=
  let j1 := q.collist q.low
  let q := { q with low := q.low + 1 }
  let i := colsol j1
  let h := c i j1 - v j1 - q.min
  relax c v colsol i h q.up ((dim : Int) - q.up).toNat q

/-- Body of the `do … while (!unassignedfound)` loop. -/
def searchStep (dim : Nat) (c : Int → Int → Int) (v colsol : Int → Int) (q : Search) : Search :=
  let q := if q.up = q.low then newMinimum dim colsol q else q
  if q.found then q else scanColumn dim c v colsol q

/-- The loop `do … while (!unassignedfound)`. -/
def searchLoop (dim : Nat) (c : Int → Int → Int) (v colsol : Int → Int) : Nat → Search → Option Search
  | 0, _ => none
  | fuel + 1, q =>
    let q := searchStep dim c v colsol q
    if q.found then some q else searchLoop dim c v colsol fuel q

/-- The loop `do … while (i != freerow)` that resets the assignments along
the alternating path ending in column `endofpath`. -/
def flipPath (pred : Int → Int) (freerow : Int) :
    Nat → Int → (Int → Int) × (Int → Int) → Option ((Int → Int) × (Int → Int))
  | 0, _, _ => none
  | fuel + 1, endofpath, (rowsol, colsol) =>
    let i := pred endofpath
    let colsol := Function.update colsol endofpath i
    let j1 := endofpath
    let endofpath := rowsol i
    let rowsol := Function.update rowsol i j1
    if i ≠ freerow then flipPath pred freerow fuel endofpath (rowsol, colsol)
    else some (rowsol, colsol)

/-- Initialisation of the search for the free row `freerow`. -/
def searchInit (dim : Nat) (c : Int → Int → Int) (freerow : Int) (s : St) : Search :=
  let q : Search := { collist := s.collist, d := s.d, pred := s.pred,
                      low := 0, up := 0, last := 0, min := 0, endofpath := 0, found := false }
  let q := forRange 0 dim (fun j (q : Search) =>
      { q with d := Function.update q.d j (c freerow j - s.v j),
               pred := Function.update q.pred j freerow,
               collist := Function.update q.collist j j }) q
  q

/-- Body of the loop AUGMENT SOLUTION for the `f`-th free row. -/
def augmentStep (fuel : Nat) (dim : Nat) (c : Int → Int → Int) (f : Int) (s : St) : Option St :=
  let freerow := s.rfree f
  match searchLoop dim c s.v s.colsol fuel (searchInit dim c freerow s) with
  | none => none
  | some q =>
    let v := forRange 0 (q.last + 1).toNat
      (fun k (v : Int → Int) =>
        Function.update v (q.collist k) (v (q.collist k) + q.d (q.collist k) - q.min)) s.v
    match flipPath q.pred freerow fuel q.endofpath (s.rowsol, s.colsol) with
    | none => none
    | some (rowsol, colsol) =>
      some { s with v := v, rowsol := rowsol, colsol := colsol,
                    collist := q.collist, d := q.d, pred := q.pred }

/-- AUGMENT SOLUTION: `for (f = 0; f < numfree; f++)`; `n` counts the free
rows already handled. -/
def augment (fuel : Nat) (dim : Nat) (c : Int → Int → Int) : Nat → St → Option St
  | 0, s => some s
  | n + 1, s =>
    match augment fuel dim c n s with
    | none => none
    | some s => augmentStep fuel dim c n s

/-- Body of the final loop: the row dual and the cost of row `i`. -/
def finalStep (c : Int → Int → Int) (rowsol v : Int → Int) (i : Int)
    (p : (Int → Int) × Int) : (Int → Int) × Int :=
  let j := rowsol i
  (Function.update p.1 i (c i j - v j), p.2 + c i j)

/-- Value returned by `LAP_lap` and the content of its four output buffers. -/
structure Result where
  lapcost : Int
  rowsol : Int → Int
  colsol : Int → Int
  u : Int → Int
  v : Int → Int

/-- The function `LAP_lap` of `lap.c`.  `s0` holds the initial content of the
buffers; `fuel` bounds the trip count of each data-dependent loop. -/
def LAP_lap (fuel : Nat) (dim : Nat) (c : Int → Int → Int) (s0 : St) : Option Result :=
  let s := { s0 with numfree := 0, j2 := 0 }
  let s := { s with matchcnt := forRange 0 dim (fun i m => Function.update m i 0) s.matchcnt }
  let s := colReduction dim c s
  let s := reductionTransfer dim c s
  match arrPass fuel dim c s with
  | none => none
  | some s =>
    match arrPass fuel dim c s with
    | none => none
    | some s =>
      match augment fuel dim c s.numfree.toNat s with
      | none => none
      | some s =>
        let p := forRange 0 dim (finalStep c s.rowsol s.v) (s.u, 0)
        some { lapcost := p.2, rowsol := s.rowsol, colsol := s.colsol, u := p.1, v := s.v }

/-- What `LAP_checklap` prints when a check fails. -/
inductive Report where
  | negativeReducedCost (i j redcost : Int)
  | nonNullReducedCost (i soli redcost : Int)
  | columnMatchedTwice (i soli : Int)
  | rowSolution (i soli solsoli : Int)
  | colSolution (j solj solsolj : Int)
  deriving DecidableEq, Repr

/-- A loop `for (k = lo; k < lo + n; k++) if (bad k) { report; break; }`:
the report of the first index at which the test fires. -/
def firstReport (bad : Int → Option Report) (k : Int) : Nat → Option Report
  | 0 => none
  | n + 1 =>
    match bad k with
    | some r => some r
    | none => firstReport bad (k + 1) n

/-- The third loop of `LAP_checklap`, over the rows from `i` on, with the
array `matched`. -/
def matchedLoop (rowsol : Int → Int) (i : Int) : Nat → (Int → Int) → Option Report
  | 0, _ => none
  | n + 1, matched =>
    if matched (rowsol i) ≠ 0 then some (Report.columnMatchedTwice i (rowsol i))
    else matchedLoop rowsol (i + 1) n (Function.update matched (rowsol i) 1)

/-- The function `LAP_checklap` of `lap.c` as a pure verifier: the list of
the reports it prints, in order (the key press it waits for after each report
is not modelled).  `matched0` is the initial content of the array `matched`. -/
def LAP_checklap (dim : Nat) (c : Int → Int → Int) (rowsol colsol u v : Int → Int)
    (matched0 : Int → Int) : List Report :=
  let neg : List Report := forRange 0 dim (fun i (out : List Report) =>
      out ++ (firstReport (fun j =>
        if c i j - u i - v j < 0 then some (Report.negativeReducedCost i j (c i j - u i - v j))
        else none) 0 dim).toList) []
  let nonnull := firstReport (fun i =>
      if c i (rowsol i) - u i - v (rowsol i) ≠ 0 then
        some (Report.nonNullReducedCost i (rowsol i) (c i (rowsol i) - u i - v (rowsol i)))
      else none) 0 dim
  let matched := forRange 0 dim (fun j m => Function.update m j 0) matched0
  let twice := matchedLoop rowsol 0 dim matched
  let rowerr := firstReport (fun i =>
      if colsol (rowsol i) ≠ i then some (Report.rowSolution i (rowsol i) (colsol (rowsol i)))
      else none) 0 dim
  let colerr := firstReport (fun j =>
      if rowsol (colsol j) ≠ j then some (Report.colSolution j (colsol j) (rowsol (colsol j)))
      else none) 0 dim
  neg ++ nonnull.toList ++ twice.toList ++ rowerr.toList ++ colerr.toList

end LAP

/-- Message levels of `GA_message.h`. -/
inductive GAMessageLevel where
  | GA_MSG_DEBUG
  | GA_MSG_INFO
  | GA_MSG_WARNING
  | GA_MSG_ERROR
  deriving DecidableEq, Repr

/-- Clamp modes of `GA_vector.h`. -/
inductive GAClampMode where
  | GA_CLAMP_ENABLED
  | GA_CLAMP_DISABLED
  deriving DecidableEq, Repr

/-- The struct `GAVectorInt`: `size` elements behind the pointer `elts`
(the reference count is not modelled). -/
structure GAVectorInt where
  size : Nat
  elts : Int → Int

/-- The struct `GAVectorReal`; a `double` is modelled by a rational number. -/
structure GAVectorReal where
  size : Nat
  elts : Int → ℚ

/-- The struct `GAMatrixInt`: `rows × cols` elements behind `elts`. -/
structure GAMatrixInt where
  rows : Nat
  cols : Nat
  elts : Int → Int → Int

/-- The function `GA_vector_init_zero_int`, on the buffer of a vector of
`size` elements. -/
def GA_vector_init_zero_int (size : Nat) (elts : Int → Int) : Int → Int :=
  LAP.forRange 0 size (fun i e => Function.update e i 0) elts

/-- An observable action of `GA_linear_assignment_solve`: a message handed to
the message function, or a call of `LAP_lap`. -/
inductive SolveEvent where
  | message (text : String) (level : GAMessageLevel)
  | lapCall (dim : Nat)
  deriving DecidableEq, Repr

/-- What `GA_linear_assignment_solve` does: the actions in order and the
vector returned (`none` is the null pointer). -/
structure SolveOutcome where
  events : List SolveEvent
  result : Option GAVectorInt

/-- The function `GA_linear_assignment_solve` of `GraphAlignment.c`.
Allocation is taken to succeed; `mem` is the content of freshly allocated
memory.  The value is `none` when `LAP_lap` does not return within `fuel`. -/
def GA_linear_assignment_solve (fuel : Nat) (costMatrix : GAMatrixInt) (mem : LAP.St) :
    Option SolveOutcome :=
  if costMatrix.rows ≠ costMatrix.cols then
    some { events := [SolveEvent.message
             "[GA_linear_assignment_solve] Cost matrix is not a square matrix"
             GAMessageLevel.GA_MSG_ERROR],
           result := none }
  else
    let resultRows := GA_vector_init_zero_int costMatrix.rows mem.rowsol
    let resultCols := GA_vector_init_zero_int costMatrix.rows mem.colsol
    let u := GA_vector_init_zero_int costMatrix.rows mem.u
    let v := GA_vector_init_zero_int costMatrix.rows mem.v
    match LAP.LAP_lap fuel costMatrix.rows costMatrix.elts
        { mem with rowsol := resultRows, colsol := resultCols, u := u, v := v } with
    | none => none
    | some r =>
      some { events := [SolveEvent.lapCall costMatrix.rows],
             result := some { size := costMatrix.rows, elts := r.colsol } }

/-- The `while` loop of `GA_get_bin_number`; `fuel` bounds the number of times
the body runs. -/
def binLoop (x : ℚ) (lookup : GAVectorReal) : Nat → Int → Int
  | 0, result => result
  | fuel + 1, result =>
    if result + 1 < (lookup.size : Int) - 1 ∧ x ≥ lookup.elts (result + 1) then
      binLoop x lookup fuel (result + 1)
    else result

/-- The value that the function `GA_get_bin_number` of `GA_vector.c` returns.
The loop runs at most `size` times.  Before each `return -1` the function
hands a message of the level `GA_MSG_ERROR` to the message function: the call
with its messages, which does not return -1 when the message function does not
return, is `GA_get_bin_number_run`. -/
def GA_get_bin_number (x : ℚ) (lookup : GAVectorReal) (clamp : GAClampMode) : Int :=
  if lookup.size = 0 then -1
  else if lookup.size = 1 then
    if clamp = GAClampMode.GA_CLAMP_DISABLED ∧ x ≠ lookup.elts 0 then -1 else 0
  else if x < lookup.elts 0 ∨ x > lookup.elts ((lookup.size : Int) - 1) then
    if clamp = GAClampMode.GA_CLAMP_DISABLED then -1
    else if x < lookup.elts 0 then 0
    else if x > lookup.elts ((lookup.size : Int) - 1) then (lookup.size : Int) - 2
    else binLoop x lookup lookup.size 0
  else binLoop x lookup lookup.size 0

/-! ## Invariants and auxiliary definitions of the correctness proof -/

namespace LAP

/-- Row `i` is free: no column of `0..dim-1` is assigned to it. -/
def FreeRow (dim : Nat) (colsol : Int → Int) (i : Int) : Prop :=
  ∀ j : Int, 0 ≤ j → j < dim → colsol j ≠ i

/-- State of the buffers when the columns `k..dim-1` have been reduced. -/
structure ColRedInv (dim : Nat) (c : Int → Int → Int) (k : Nat) (s : St) : Prop where
  vle : ∀ i j : Int, 0 ≤ i → i < dim → k ≤ j → j < dim → s.v j ≤ c i j
  vatt : ∀ j : Int, k ≤ j → j < dim → ∃ i : Int, 0 ≤ i ∧ i < dim ∧ s.v j = c i j
  col_lt : ∀ j : Int, k ≤ j → j < dim → s.colsol j < dim
  col_row : ∀ j : Int, k ≤ j → j < dim → 0 ≤ s.colsol j →
    s.rowsol (s.colsol j) = j ∧ c (s.colsol j) j = s.v j ∧ 1 ≤ s.matchcnt (s.colsol j)
  m_nonneg : ∀ i : Int, 0 ≤ i → i < dim → 0 ≤ s.matchcnt i
  m_zero : ∀ i : Int, 0 ≤ i → i < dim → s.matchcnt i = 0 →
    ∀ j : Int, k ≤ j → j < dim → s.colsol j ≠ i
  m_pos : ∀ i : Int, 0 ≤ i → i < dim → 1 ≤ s.matchcnt i →
    k ≤ s.rowsol i ∧ s.rowsol i < dim ∧ s.colsol (s.rowsol i) = i
  numfree_eq : s.numfree = 0

/-- The partial assignment is consistent and every assigned row is assigned
to a column of minimum reduced cost in that row. -/
structure PartialSol (dim : Nat) (c : Int → Int → Int) (rowsol colsol v : Int → Int) : Prop where
  col_lt : ∀ j : Int, 0 ≤ j → j < dim → colsol j < dim
  col_row : ∀ j : Int, 0 ≤ j → j < dim → 0 ≤ colsol j → rowsol (colsol j) = j
  tight : ∀ j : Int, 0 ≤ j → j < dim → 0 ≤ colsol j →
    ∀ j' : Int, 0 ≤ j' → j' < dim → c (colsol j) j - v j ≤ c (colsol j) j' - v j'

/-- The entries of `rfree` at the indices `0..numfree-1` and `k..prv-1` are
exactly the free rows, each listed once. -/
structure FreeList (dim : Nat) (colsol rfree : Int → Int) (numfree k prv : Int) : Prop where
  range : ∀ t : Int, (0 ≤ t ∧ t < numfree) ∨ (k ≤ t ∧ t < prv) →
    0 ≤ rfree t ∧ rfree t < dim ∧ FreeRow dim colsol (rfree t)
  inj : ∀ t t' : Int, (0 ≤ t ∧ t < numfree) ∨ (k ≤ t ∧ t < prv) →
    (0 ≤ t' ∧ t' < numfree) ∨ (k ≤ t' ∧ t' < prv) → rfree t = rfree t' → t = t'
  complete : ∀ i : Int, 0 ≤ i → i < dim → FreeRow dim colsol i →
    ∃ t : Int, ((0 ≤ t ∧ t < numfree) ∨ (k ≤ t ∧ t < prv)) ∧ rfree t = i

/-- State of the buffers when the rows `0..k-1` have been handled by the
reduction transfer. -/
structure TransferInv (dim : Nat) (c : Int → Int → Int) (k : Nat) (s : St) : Prop where
  sol : PartialSol dim c s.rowsol s.colsol s.v
  vle : ∀ i j : Int, 0 ≤ i → i < dim → 0 ≤ j → j < dim → s.v j ≤ c i j
  un_v : ∀ j : Int, 0 ≤ j → j < dim → s.colsol j < 0 →
    ∃ i : Int, 0 ≤ i ∧ i < dim ∧ s.v j = c i j
  vlow : ∀ j : Int, 0 ≤ j → j < dim → ∃ i : Int, 0 ≤ i ∧ i < dim ∧ c i j - BIG ≤ s.v j
  m_nonneg : ∀ i : Int, 0 ≤ i → i < dim → 0 ≤ s.matchcnt i
  m_zero : ∀ i : Int, 0 ≤ i → i < dim → s.matchcnt i = 0 → FreeRow dim s.colsol i
  m_pos : ∀ i : Int, 0 ≤ i → i < dim → 1 ≤ s.matchcnt i →
    0 ≤ s.rowsol i ∧ s.rowsol i < dim ∧ s.colsol (s.rowsol i) = i
  pend : ∀ i : Int, k ≤ i → i < dim → 1 ≤ s.matchcnt i → c i (s.rowsol i) = s.v (s.rowsol i)
  nf0 : 0 ≤ s.numfree
  nfk : s.numfree ≤ k
  rf_range : ∀ t : Int, 0 ≤ t → t < s.numfree →
    0 ≤ s.rfree t ∧ s.rfree t < k ∧ s.matchcnt (s.rfree t) = 0
  rf_inj : ∀ t t' : Int, 0 ≤ t → t < s.numfree → 0 ≤ t' → t' < s.numfree →
    s.rfree t = s.rfree t' → t = t'
  rf_complete : ∀ i : Int, 0 ≤ i → i < k → s.matchcnt i = 0 →
    ∃ t : Int, 0 ≤ t ∧ t < s.numfree ∧ s.rfree t = i

/-- Sum of the column prices `v[0..dim-1]`. -/
def vsum (dim : Nat) (v : Int → Int) : Int := ∑ j in Finset.range dim, v (j : Int)

/-- Invariant of the loop `while (k < prvnumfree)` of the augmenting row
reduction, for costs between `lo` and `hi`. -/
structure ArrInv (dim : Nat) (c : Int → Int → Int) (lo : Int) (prv : Int)
    (p : St × Int) : Prop where
  sol : PartialSol dim c p.1.rowsol p.1.colsol p.1.v
  un_v : ∀ j : Int, 0 ≤ j → j < dim → p.1.colsol j < 0 → lo ≤ p.1.v j
  vlow : ∀ j : Int, 0 ≤ j → j < dim → lo - BIG ≤ p.1.v j
  nf0 : 0 ≤ p.1.numfree
  nfk : p.1.numfree ≤ p.2
  kprv : p.2 ≤ prv
  fl : FreeList dim p.1.colsol p.1.rfree p.1.numfree p.2 prv

/-- The array `collist` holds every column of `0..dim-1` exactly once. -/
structure IsPerm (dim : Nat) (cl : Int → Int) : Prop where
  range : ∀ t : Int, 0 ≤ t → t < dim → 0 ≤ cl t ∧ cl t < dim
  inj : ∀ t t' : Int, 0 ≤ t → t < dim → 0 ≤ t' → t' < dim → cl t = cl t' → t = t'
  surj : ∀ j : Int, 0 ≤ j → j < dim → ∃ t : Int, 0 ≤ t ∧ t < dim ∧ cl t = j

/-- Facts about the shortest path search of the free row `f0` that hold at
every point of the search loop.  The columns `collist[0..low-1]` are ready,
`collist[low..up-1]` wait to be scanned at the current minimum. -/
structure SearchCore (dim : Nat) (c : Int → Int → Int) (v colsol : Int → Int) (f0 : Int)
    (q : Search) : Prop where
  low0 : 0 ≤ q.low
  lowup : q.low ≤ q.up
  updim : q.up ≤ dim
  perm : IsPerm dim q.collist
  asg : ∀ t : Int, 0 ≤ t → t < q.up → 0 ≤ colsol (q.collist t)
  d_ready : ∀ t : Int, 0 ≤ t → t < q.low → q.d (q.collist t) ≤ q.min
  d_last : ∀ t : Int, 0 ≤ t → q.last < t → t < q.up → q.d (q.collist t) = q.min
  d_le0 : ∀ j : Int, 0 ≤ j → j < dim → q.d j ≤ c f0 j - v j
  pred : ∀ j : Int, 0 ≤ j → j < dim →
    (q.pred j = f0 ∧ q.d j = c f0 j - v j) ∨
    (∃ t : Int, 0 ≤ t ∧ t < q.low ∧ q.pred j = colsol (q.collist t) ∧
      (∀ t' : Int, 0 ≤ t' → t' ≤ t → q.collist t' ≠ j) ∧
      q.d j = q.d (q.collist t) + (c (q.pred j) j - v j) -
        (c (q.pred j) (q.collist t) - v (q.collist t)))

/-- Invariant of the loop `do … while (!unassignedfound)` at its head. -/
structure SearchInv (dim : Nat) (c : Int → Int → Int) (v colsol : Int → Int) (f0 : Int)
    (q : Search) : Prop where
  core : SearchCore dim c v colsol f0 q
  notfound : q.found = false
  last_lt : q.low < q.up → q.last < q.low
  d_todo : 0 < q.up → ∀ t : Int, q.up ≤ t → t < dim → q.min < q.d (q.collist t)
  relaxed : ∀ t : Int, 0 ≤ t → t < q.low → ∀ j' : Int, 0 ≤ j' → j' < dim →
    q.d j' ≤ q.d (q.collist t) + (c (colsol (q.collist t)) j' - v j') -
      (c (colsol (q.collist t)) (q.collist t) - v (q.collist t))

/-- State of the search when it has found the unassigned column `endofpath`. -/
structure SearchDone (dim : Nat) (c : Int → Int → Int) (v colsol : Int → Int) (f0 : Int)
    (q : Search) : Prop where
  found : q.found = true
  low0 : 0 ≤ q.low
  lowdim : q.low ≤ dim
  last_lt : q.last < q.low
  perm : IsPerm dim q.collist
  e0 : 0 ≤ q.endofpath
  e1 : q.endofpath < dim
  eun : colsol q.endofpath < 0
  epos : ∀ t : Int, 0 ≤ t → t < q.low → q.collist t ≠ q.endofpath
  asg : ∀ t : Int, 0 ≤ t → t < q.low → 0 ≤ colsol (q.collist t)
  d_ready : ∀ t : Int, 0 ≤ t → t < q.low → q.d (q.collist t) ≤ q.min
  d_last : ∀ t : Int, 0 ≤ t → q.last < t → t < q.low → q.d (q.collist t) = q.min
  d_rest : ∀ t : Int, q.low ≤ t → t < dim → q.min ≤ q.d (q.collist t)
  d_le0 : ∀ j : Int, 0 ≤ j → j < dim → q.d j ≤ c f0 j - v j
  relaxed : ∀ t : Int, 0 ≤ t → t < q.low → ∀ j' : Int, 0 ≤ j' → j' < dim →
    q.d (q.collist t) = q.min ∨
    q.d j' ≤ q.d (q.collist t) + (c (colsol (q.collist t)) j' - v j') -
      (c (colsol (q.collist t)) (q.collist t) - v (q.collist t))
  pred_e : (q.pred q.endofpath = f0 ∧ q.min = c f0 q.endofpath - v q.endofpath) ∨
    (∃ t : Int, 0 ≤ t ∧ t < q.low ∧ q.pred q.endofpath = colsol (q.collist t) ∧
      q.min = q.d (q.collist t) + (c (q.pred q.endofpath) q.endofpath - v q.endofpath) -
        (c (q.pred q.endofpath) (q.collist t) - v (q.collist t)))
  pred_ready : ∀ t : Int, 0 ≤ t → t < q.low →
    (q.pred (q.collist t) = f0 ∧ q.d (q.collist t) = c f0 (q.collist t) - v (q.collist t)) ∨
    (∃ t' : Int, 0 ≤ t' ∧ t' < t ∧ q.pred (q.collist t) = colsol (q.collist t') ∧
      q.d (q.collist t) = q.d (q.collist t') +
        (c (q.pred (q.collist t)) (q.collist t) - v (q.collist t)) -
        (c (q.pred (q.collist t)) (q.collist t') - v (q.collist t')))

/-- Invariant of the loop of `newMinimum` over `collist[up..dim-1]`, when the
positions below `K` have been looked at; `q0` is the state on entry. -/
structure MinScanInv (dim : Nat) (q0 : Search) (K : Int) (q : Search) : Prop where
  low_eq : q.low = q0.low
  last_eq : q.last = q0.low - 1
  d_eq : q.d = q0.d
  pred_eq : q.pred = q0.pred
  found_eq : q.found = false
  lowup : q.low < q.up
  upK : q.up ≤ K
  perm : IsPerm dim q.collist
  ready_eq : ∀ t : Int, 0 ≤ t → t < q0.low → q.collist t = q0.collist t
  scan_d : ∀ t : Int, q.low ≤ t → t < q.up → q.d (q.collist t) = q.min
  todo_d : ∀ t : Int, q.up ≤ t → t < K → q.min < q.d (q.collist t)
  sep : ∀ t t' : Int, 0 ≤ t → t < q.low → q.low ≤ t' → t' < dim →
    q.d (q.collist t) ≤ q.d (q.collist t')

/-- Invariant of the loop `relax` that updates the distances via row `i` of
the column `collist[low-1]` just scanned, when the positions below `k` have
been handled. -/
structure RelaxInv (dim : Nat) (c : Int → Int → Int) (v colsol : Int → Int) (f0 : Int)
    (i h : Int) (k : Int) (q : Search) : Prop where
  core : SearchCore dim c v colsol f0 q
  notfound : q.found = false
  low1 : 1 ≤ q.low
  last_lt : q.last < q.low
  upk : q.up ≤ k
  kdim : k ≤ dim
  d_todo : ∀ t : Int, q.up ≤ t → t < dim → q.min < q.d (q.collist t)
  relaxed : ∀ t : Int, 0 ≤ t → t < q.low - 1 → ∀ j' : Int, 0 ≤ j' → j' < dim →
    q.d j' ≤ q.d (q.collist t) + (c (colsol (q.collist t)) j' - v j') -
      (c (colsol (q.collist t)) (q.collist t) - v (q.collist t))
  row : i = colsol (q.collist (q.low - 1))
  hval : h = c i (q.collist (q.low - 1)) - v (q.collist (q.low - 1)) - q.min
  dj1 : q.d (q.collist (q.low - 1)) = q.min
  done : ∀ t : Int, 0 ≤ t → t < k → q.d (q.collist t) ≤ c i (q.collist t) - v (q.collist t) - h

/-- What the augmentation of the free row `f0` needs from the search: with the
new prices `v'`, every old pair and every pair (`pred[x]`, `x`) of a ready
column or of the end of the path is tight, and `pred` leads back to `f0`
through ready columns of decreasing position. -/
structure AugReady (dim : Nat) (c : Int → Int → Int) (colsol v' pred cl : Int → Int)
    (low e f0 : Int) : Prop where
  perm : IsPerm dim cl
  low0 : 0 ≤ low
  lowdim : low ≤ dim
  e0 : 0 ≤ e
  e1 : e < dim
  eun : colsol e < 0
  epos : ∀ t : Int, 0 ≤ t → t < low → cl t ≠ e
  asg : ∀ t : Int, 0 ≤ t → t < low → 0 ≤ colsol (cl t)
  good_old : ∀ j : Int, 0 ≤ j → j < dim → 0 ≤ colsol j →
    ∀ j' : Int, 0 ≤ j' → j' < dim → c (colsol j) j - v' j ≤ c (colsol j) j' - v' j'
  good_e : ∀ j' : Int, 0 ≤ j' → j' < dim → c (pred e) e - v' e ≤ c (pred e) j' - v' j'
  good_ready : ∀ t : Int, 0 ≤ t → t < low → ∀ j' : Int, 0 ≤ j' → j' < dim →
    c (pred (cl t)) (cl t) - v' (cl t) ≤ c (pred (cl t)) j' - v' j'
  path_e : pred e = f0 ∨ ∃ t : Int, 0 ≤ t ∧ t < low ∧ pred e = colsol (cl t)
  path_ready : ∀ t : Int, 0 ≤ t → t < low →
    pred (cl t) = f0 ∨ ∃ t' : Int, 0 ≤ t' ∧ t' < t ∧ pred (cl t) = colsol (cl t')

/-- Invariant of the loop that resets the assignments along the alternating
path: `x` is the column to be assigned next, the ready columns at positions
below `B` and their rows are untouched, and `rs`, `cs` are consistent and
tight (for the prices `v'`) at every column but `x`. -/
structure FlipInv (dim : Nat) (c : Int → Int → Int) (colsol v' cl : Int → Int)
    (low e f0 : Int) (B x : Int) (rs cs : Int → Int) : Prop where
  xb : (x = e ∧ B = low) ∨ (0 ≤ B ∧ B < low ∧ x = cl B)
  cs_x : cs x = colsol x
  cs_un : ∀ t : Int, 0 ≤ t → t < B → cs (cl t) = colsol (cl t)
  rs_un : ∀ t : Int, 0 ≤ t → t < B → rs (colsol (cl t)) = cl t
  cs_lt : ∀ j : Int, 0 ≤ j → j < dim → cs j < dim
  cons : ∀ j : Int, 0 ≤ j → j < dim → j ≠ x → 0 ≤ cs j → rs (cs j) = j
  good : ∀ j : Int, 0 ≤ j → j < dim → j ≠ x → 0 ≤ cs j →
    ∀ j' : Int, 0 ≤ j' → j' < dim → c (cs j) j - v' j ≤ c (cs j) j' - v' j'
  f0free : ∀ j : Int, 0 ≤ j → j < dim → j ≠ x → cs j ≠ f0
  frees : ∀ r : Int, 0 ≤ r → r ≠ f0 →
    ((∀ j : Int, 0 ≤ j → j < dim → j ≠ x → cs j ≠ r) ↔ FreeRow dim colsol r)

/-- Invariant of the loop AUGMENT SOLUTION when the free rows
`rfree[0..f-1]` have been assigned. -/
structure AugInv (dim : Nat) (c : Int → Int → Int) (f : Int) (s : St) : Prop where
  sol : PartialSol dim c s.rowsol s.colsol s.v
  fl : FreeList dim s.colsol s.rfree 0 f s.numfree
  f0 : 0 ≤ f
  fle : f ≤ s.numfree

/-- A valid cost matrix: every entry of the `dim × dim` matrix lies between
`lo` and `hi`, with `2 * (hi - lo) < BIG`, so that no reduced cost formed by
the algorithm reaches `BIG`. -/
def ValidCost (dim : Nat) (c : Int → Int → Int) : Prop :=
  ∃ lo hi : Int, (∀ i : Nat, i < dim → ∀ j : Nat, j < dim → lo ≤ c i j ∧ c i j ≤ hi) ∧
    2 * (hi - lo) < BIG

/-- The output of `LAP_lap` is a solution with its certificate: `rowsol` and
`colsol` are mutually inverse on `0..dim-1`, the duals are feasible and
complementary slack, and the value returned is the cost of the assignment. -/
structure LapGood (dim : Nat) (c : Int → Int → Int) (r : Result) : Prop where
  row_range : ∀ i : Nat, i < dim → 0 ≤ r.rowsol i ∧ r.rowsol i < dim
  col_range : ∀ j : Nat, j < dim → 0 ≤ r.colsol j ∧ r.colsol j < dim
  col_row : ∀ i : Nat, i < dim → r.colsol (r.rowsol i) = i
  row_col : ∀ j : Nat, j < dim → r.rowsol (r.colsol j) = j
  feas : ∀ i : Nat, i < dim → ∀ j : Nat, j < dim → c i j - r.u i - r.v j ≥ 0
  slack : ∀ i : Nat, i < dim → c i (r.rowsol i) - r.u i - r.v (r.rowsol i) = 0
  cost : r.lapcost = ∑ i in Finset.range dim, c i (r.rowsol i)

/-- The cost matrix with the given rows, as `LAP_lap` reads it. -/
def matrixOf (rows : List (List Int)) : Int → Int → Int :=
  fun i j => (rows.getD i.toNat []).getD j.toNat 0

/-- Buffers filled with zeros. -/
def zeroSt : St :=
  { rowsol := fun _ => 0, colsol := fun _ => 0, u := fun _ => 0, v := fun _ => 0,
    rfree := fun _ => 0, collist := fun _ => 0, matchcnt := fun _ => 0, d := fun _ => 0,
    pred := fun _ => 0, numfree := 0, j2 := 0 }

/-- The cost matrix of the end-to-end scenario of the specification. -/
def cost3 : Int → Int → Int := matrixOf [[1, 2, 3], [2, 4, 6], [3, 6, 9]]

/-- The permutation of `Fin dim` that a solution's `rowsol` is. -/
def rowPerm (dim : Nat) (c : Int → Int → Int) (r : Result) (h : LapGood dim c r) :
    Equiv.Perm (Fin dim) where
  toFun i := ⟨(r.rowsol (i.val : Int)).toNat, by
    have := h.row_range i.val i.isLt; omega⟩
  invFun j := ⟨(r.colsol (j.val : Int)).toNat, by
    have := h.col_range j.val j.isLt; omega⟩
  left_inv i := by
    apply Fin.ext
    have a := h.row_range i.val i.isLt
    have b := h.col_row i.val i.isLt
    show (r.colsol (((r.rowsol (i.val : Int)).toNat : Nat) : Int)).toNat = i.val
    rw [Int.toNat_of_nonneg a.1, b]
    simp
  right_inv j := by
    apply Fin.ext
    have a := h.col_range j.val j.isLt
    have b := h.row_col j.val j.isLt
    show (r.rowsol (((r.colsol (j.val : Int)).toNat : Nat) : Int)).toNat = j.val
    rw [Int.toNat_of_nonneg a.1, b]
    simp

end LAP

/-- A 3 × 3 cost matrix whose only assignment of cost 0 is the cycle
`rowsol = (1,2,0)`, `colsol = (2,0,1)`. -/
def cycle3 : GAMatrixInt :=
  { rows := 3, cols := 3, elts := LAP.matrixOf [[9, 0, 9], [9, 9, 0], [0, 9, 9]] }

/-- The buffers `GA_linear_assignment_solve` hands to `LAP_lap` for a matrix
of `n` rows, when freshly allocated memory holds `mem`. -/
def solveBuffers (n : Nat) (mem : LAP.St) : LAP.St :=
  { mem with rowsol := GA_vector_init_zero_int n mem.rowsol,
             colsol := GA_vector_init_zero_int n mem.colsol,
             u := GA_vector_init_zero_int n mem.u,
             v := GA_vector_init_zero_int n mem.v }

/-! ## Vectors: the binner on lookup vectors, element access, permutations -/

/-- The vector of real numbers with the given elements. -/
def vectorOfReal (l : List ℚ) : GAVectorReal :=
  { size := l.length, elts := fun i => l.getD i.toNat 0 }

/-- The invariant of a lookup vector: its elements are in non-decreasing
order. -/
def NonDecreasing (lookup : GAVectorReal) : Prop :=
  ∀ i j : Int, 0 ≤ i → i ≤ j → j < lookup.size → lookup.elts i ≤ lookup.elts j

/-- A lookup vector whose elements are in strictly increasing order. -/
def StrictlyIncreasing (lookup : GAVectorReal) : Prop :=
  ∀ i j : Int, 0 ≤ i → i < j → j < lookup.size → lookup.elts i < lookup.elts j

/-- The lookup vector `[0, 1, 2]` of the boundary law of the specification. -/
def lookup012 : GAVectorReal := vectorOfReal [0, 1, 2]

/-- The struct `GAMatrixReal`: `rows × cols` elements behind `elts`; a
`double` is modelled by a rational number. -/
structure GAMatrixReal where
  rows : Nat
  cols : Nat
  elts : Int → Int → ℚ

/-- The vector of integers with the given elements. -/
def vectorOfInt (l : List Int) : GAVectorInt :=
  { size := l.length, elts := fun i => l.getD i.toNat 0 }

/-- The matrix of real numbers with the given rows, each of `cols` elements. -/
def matrixOfReal (cols : Nat) (l : List (List ℚ)) : GAMatrixReal :=
  { rows := l.length, cols := cols, elts := fun i j => (l.getD i.toNat []).getD j.toNat 0 }

/-- A message handed to the message function `GA_msg()`. -/
structure GAMessage where
  text : String
  level : GAMessageLevel
  deriving DecidableEq, Repr

/-- What a checked element access does: the messages it reports and the
pointer it returns, given by the index of the element it points to (the
offset from `elts`); `none` is the null pointer. -/
structure EltAccess (ι : Type) where
  events : List GAMessage
  result : Option ι

/-- The function `GA_vector_get_elt_int` of `GA_vector.c`. -/
def GA_vector_get_elt_int (vec : GAVectorInt) (index : Int) : EltAccess Int :=
  if index < vec.size then { events := [], result := some index }
  else
    { events := [{ text := "[GA_vector_get_elt_int] Index out of range.",
                   level := GAMessageLevel.GA_MSG_ERROR }],
      result := none }

/-- The function `GA_matrix_get_elt_int` of `GA_matrix.c`; the pointer
`matrix->elts[row] + col` is given by the pair `(row, col)`. -/
def GA_matrix_get_elt_int (matrix : GAMatrixInt) (row col : Int) : EltAccess (Int × Int) :=
  if row < matrix.rows ∧ col < matrix.cols then { events := [], result := some (row, col) }
  else
    { events :=
        (if row ≥ matrix.rows then
          [{ text := "[GA_matrix_get_elt_int] Row index out of range.",
             level := GAMessageLevel.GA_MSG_ERROR }]
         else []) ++
        (if col ≥ matrix.cols then
          [{ text := "[GA_matrix_get_elt_int] Column index out of range.",
             level := GAMessageLevel.GA_MSG_ERROR }]
         else []),
      result := none }

/-- The message functions of the library: `GA_msg_default` of `GA_message.c`,
the initial value of `GA_MSG_FUNC`, and `GA_msg_R` of `GraphAlignment.c`,
which `R_init_GraphAlignment` installs when the package is loaded. -/
inductive GAMessageFunc where
  | GA_msg_default
  | GA_msg_R
  deriving DecidableEq, Repr

/-- Whether the message function returns to its caller.  `GA_msg_default`
prints the message and returns.  `GA_msg_R` prints a message of the levels
debug, info and warning and returns, but hands a message of the level
`GA_MSG_ERROR` to `error()` of R, which does not return. -/
def GAMessageFunc.returns : GAMessageFunc → GAMessageLevel → Bool
  | GAMessageFunc.GA_msg_R, GAMessageLevel.GA_MSG_ERROR => false
  | _, _ => true

/-- A read of an element of a container: the name of the container, its
dimensions and the indices used. -/
inductive IndexedRead where
  | vector (name : String) (size : Nat) (index : Int)
  | matrix (name : String) (rows cols : Nat) (row col : Int)
  deriving DecidableEq, Repr

/-- The indices of the read are within the bounds of the container. -/
def IndexedRead.inBounds : IndexedRead → Prop
  | IndexedRead.vector _ size index => 0 ≤ index ∧ index < size
  | IndexedRead.matrix _ rows cols row col => 0 ≤ row ∧ row < rows ∧ 0 ≤ col ∧ col < cols

/-- An operation whose behaviour the C language leaves undefined: in pass `i`
of the loop of `GA_invert_permutation_int` the store through the null
pointer, or the store at `result->elts[index]` with `index < 0`, before the
first element; or a read of an element outside the bounds of its container. -/
inductive Fault where
  | nullStore (i : Int)
  | storeOutside (i index : Int)
  | readOutside (read : IndexedRead)
  deriving DecidableEq, Repr

/-- How a call of a function of the library ends, and the messages handed to
the message function up to then, in order.  The call returns `value`; or the
message function does not return from the last of the messages (`GA_msg_R`
and a message of the level `GA_MSG_ERROR`), so that the call is left without
a result; or the call comes to an operation with undefined behaviour. -/
inductive Outcome (α : Type) where
  | returned (events : List GAMessage) (value : α)
  | aborted (events : List GAMessage)
  | undefined (events : List GAMessage) (fault : Fault)

/-- Two steps in a row: the second step runs on the value that the first one
returns; nothing runs after a step that does not return. -/
def Outcome.bind {α β : Type} (o : Outcome α) (f : α → Outcome β) : Outcome β :=
  match o with
  | Outcome.returned ev a =>
    match f a with
    | Outcome.returned ev2 b => Outcome.returned (ev ++ ev2) b
    | Outcome.aborted ev2 => Outcome.aborted (ev ++ ev2)
    | Outcome.undefined ev2 c => Outcome.undefined (ev ++ ev2) c
  | Outcome.aborted ev => Outcome.aborted ev
  | Outcome.undefined ev c => Outcome.undefined ev c

/-- The call `GA_msg()(text, level)` with the message function `msg`. -/
def report (msg : GAMessageFunc) (text : String) (level : GAMessageLevel) : Outcome Unit :=
  if msg.returns level then Outcome.returned [{ text := text, level := level }] ()
  else Outcome.aborted [{ text := text, level := level }]

/-- The calls of the message function `msg` with the messages of a list, in
order. -/
def reportAll (msg : GAMessageFunc) : List GAMessage → Outcome Unit
  | [] => Outcome.returned [] ()
  | m :: ms => (report msg m.text m.level).bind (fun _ => reportAll msg ms)

/-- The text of the message of `GA_get_bin_number` for an empty lookup
vector. -/
def binEmptyText : String := "[GA_get_bin_number] Lookup vector is empty."

/-- The message of `GA_get_bin_number` for a lookup vector with one value that
is not the argument.  The text is the format string handed to `snprintf`: the
numbers printed into it are not modelled. -/
def binSingleText : String :=
  "[GA_get_bin_number] There is only a single lookup value and clamping is " ++
  "disabled, but the input value is not equal to the lookup value. Please make sure " ++
  "you have provided the correct lookup range and clamp mode (x = %f, lookup = %f).\n"

/-- The message of `GA_get_bin_number` for an argument outside of the lookup
range.  The text is the format string handed to `snprintf`: the numbers
printed into it are not modelled. -/
def binRangeText : String :=
  "[GA_get_bin_number] Argument is outside of lookup range and clamping is disabled. " ++
  "Please make sure you have provided the correct lookup range and clamp mode " ++
  "(x = %f, lower = %f, upper = %f).\n"

/-- A call of the function `GA_get_bin_number` of `GA_vector.c` with the
message function `msg`.  Before each `return -1` the function hands a message
of the level `GA_MSG_ERROR` to the message function; the value -1 is returned
only if that call returns.  The values returned are those of
`GA_get_bin_number`. -/
def GA_get_bin_number_run (msg : GAMessageFunc) (x : ℚ) (lookup : GAVectorReal)
    (clamp : GAClampMode) : Outcome Int :=
  if lookup.size = 0 then
    (report msg binEmptyText GAMessageLevel.GA_MSG_ERROR).bind
      (fun _ => Outcome.returned [] (-1))
  else if lookup.size = 1 then
    if clamp = GAClampMode.GA_CLAMP_DISABLED ∧ x ≠ lookup.elts 0 then
      (report msg binSingleText GAMessageLevel.GA_MSG_ERROR).bind
        (fun _ => Outcome.returned [] (-1))
    else Outcome.returned [] 0
  else if x < lookup.elts 0 ∨ x > lookup.elts ((lookup.size : Int) - 1) then
    if clamp = GAClampMode.GA_CLAMP_DISABLED then
      (report msg binRangeText GAMessageLevel.GA_MSG_ERROR).bind
        (fun _ => Outcome.returned [] (-1))
    else if x < lookup.elts 0 then Outcome.returned [] 0
    else if x > lookup.elts ((lookup.size : Int) - 1) then
      Outcome.returned [] ((lookup.size : Int) - 2)
    else Outcome.returned [] (binLoop x lookup lookup.size 0)
  else Outcome.returned [] (binLoop x lookup lookup.size 0)

/-- How a run of `GA_invert_permutation_int` ends: it returns the vector
`result`; or in pass `i` the pointer `GA_vector_get_elt_int` returned, after
reporting `events`, is null and the store through it is undefined behaviour;
or in pass `i` the pointer is `result->elts + index` with `index < 0`, and the
store through it, before the first element, is undefined behaviour. -/
inductive InvertOutcome where
  | returned (result : GAVectorInt)
  | nullStore (i : Int) (events : List GAMessage)
  | storeOutside (i index : Int)

/-- The loop of `GA_invert_permutation_int` from index `i` on, for `n` passes,
on the elements `e` of `result`: each pass runs
`*GA_vector_get_elt_int(result, vec->elts[i]) = i`. -/
def invertLoop (vec : GAVectorInt) : Int → Nat → (Int → Int) → InvertOutcome
  | _, 0, e => InvertOutcome.returned { size := vec.size, elts := e }
  | i, n + 1, e =>
    match GA_vector_get_elt_int { size := vec.size, elts := e } (vec.elts i) with
    | { events := ev, result := none } => InvertOutcome.nullStore i ev
    | { events := _, result := some k } =>
      if k < 0 then InvertOutcome.storeOutside i k
      else invertLoop vec (i + 1) n (Function.update e k i)

/-- The function `GA_invert_permutation_int` of `GA_vector.c`.  Allocation is
taken to succeed; `mem` is the content of the freshly allocated elements. -/
def GA_invert_permutation_int (vec : GAVectorInt) (mem : Int → Int) : InvertOutcome :=
  invertLoop vec 0 vec.size mem

/-- The function `GA_vector_to_bin_real` of `GA_vector.c`, called with the
message function `msg`.  Allocation is taken to succeed, so that the null
pointer `none` is never returned; `mem` is the content of the freshly
allocated elements. -/
def GA_vector_to_bin_real (msg : GAMessageFunc) (vec : GAVectorReal) (lookup : GAVectorReal)
    (clamp : GAClampMode) (mem : Int → Int) : Outcome (Option GAVectorInt) :=
  (LAP.forRange 0 vec.size
    (fun i (o : Outcome (Int → Int)) => o.bind (fun e =>
      (GA_get_bin_number_run msg (vec.elts i) lookup clamp).bind (fun bin =>
        Outcome.returned [] (Function.update e i bin))))
    (Outcome.returned [] mem)).bind
    (fun e => Outcome.returned [] (some { size := vec.size, elts := e }))

/-- The function `GA_matrix_to_bin_real` of `GA_matrix.c`, called with the
message function `msg`.  Allocation is taken to succeed, so that the null
pointer `none` is never returned; `mem` is the content of the freshly
allocated elements. -/
def GA_matrix_to_bin_real (msg : GAMessageFunc) (matrix : GAMatrixReal)
    (lookup : GAVectorReal) (clamp : GAClampMode) (mem : Int → Int → Int) :
    Outcome (Option GAMatrixInt) :=
  (LAP.forRange 0 matrix.rows
    (fun i (o : Outcome (Int → Int → Int)) => o.bind (fun e =>
      LAP.forRange 0 matrix.cols
        (fun j (o : Outcome (Int → Int → Int)) => o.bind (fun e =>
          (GA_get_bin_number_run msg (matrix.elts i j) lookup clamp).bind (fun bin =>
            Outcome.returned [] (Function.update e i (Function.update (e i) j bin)))))
        (Outcome.returned [] e)))
    (Outcome.returned [] mem)).bind
    (fun e => Outcome.returned [] (some { rows := matrix.rows, cols := matrix.cols,
                                          elts := e }))

/-- A vector that is a permutation of `0..size-1`: its elements are indices
of the vector and pairwise distinct. -/
def IsPermutation (p : GAVectorInt) : Prop :=
  (∀ k : Int, 0 ≤ k → k < p.size → 0 ≤ p.elts k ∧ p.elts k < p.size) ∧
  (∀ k l : Int, 0 ≤ k → k < p.size → 0 ≤ l → l < p.size → p.elts k = p.elts l → k = l)

/-! ## Definitions for the score matrix, the encoding of directed graphs and the first phases of the solver -/

/-- What a function that returns a matrix of real numbers does: the messages
it reports itself and the matrix it returns; `none` is the null pointer. -/
structure MatrixOutcome where
  events : List GAMessage
  result : Option GAMatrixReal

/-- The store `elts[i][j] = x`. -/
def setElt {α : Type} (e : Int → Int → α) (i j : Int) (x : α) : Int → Int → α :=
  Function.update e i (Function.update (e i) j x)

/-- The function `GA_matrix_init_zero_real` of `GA_matrix.c`, on the elements
of a matrix of `rows × cols` elements. -/
def GA_matrix_init_zero_real (rows cols : Nat) (elts : Int → Int → ℚ) : Int → Int → ℚ :=
  LAP.forRange 0 rows (fun i e => LAP.forRange 0 cols (fun j e => setElt e i j 0) e) elts

/-- The two nested loops of `GA_encode_directed_graph` over the `n × n`
elements.  The test of the inner `if` is `key i ≤ key j`, where `key` is the
identity in the branch without a permutation (`i <= j`) and `p->elts` in the
other (`p->elts[i] <= p->elts[j]`). -/
def encodeLoop (n : Nat) (matrix : GAMatrixReal) (key : Int → Int) (e : Int → Int → ℚ) :
    Int → Int → ℚ :=
  LAP.forRange 0 n (fun i e => LAP.forRange 0 n (fun j e =>
    if matrix.elts i j = 1 then
      if key i ≤ key j then setElt (setElt e i j 1) j i 1
      else setElt (setElt e i j (-1)) j i (-1)
    else e) e) e

/-- The function `GA_encode_directed_graph` of `GraphAlignment.c`; `p = none`
is the null pointer.  Allocation is taken to succeed; `mem` is the content of
the freshly allocated elements. -/
def GA_encode_directed_graph (matrix : GAMatrixReal) (p : Option GAVectorInt)
    (mem : Int → Int → ℚ) : MatrixOutcome :=
  if matrix.rows ≠ matrix.cols then
    { events := [{ text := "[GA_encode_directed_graph] Input matrix is not a square matrix.",
                   level := GAMessageLevel.GA_MSG_ERROR }],
      result := none }
  else
    let result := GA_matrix_init_zero_real matrix.rows matrix.rows mem
    match p with
    | none =>
      { events := [],
        result := some { rows := matrix.rows, cols := matrix.rows,
                         elts := encodeLoop matrix.rows matrix (fun i => i) result } }
    | some p =>
      if (matrix.rows : Int) > p.size then
        { events := [{ text := "[GA_encode_directed_graph] " ++
                         "Not enough elements in the permutation vector.",
                       level := GAMessageLevel.GA_MSG_ERROR }],
          result := none }
      else
        { events := [],
          result := some { rows := matrix.rows, cols := matrix.rows,
                           elts := encodeLoop matrix.rows matrix p.elts result } }

/-- The content of freshly allocated memory that `GA_compute_M` works on: the
elements of `pInv`, of the three matrices of bin numbers and of the result. -/
structure ComputeMem where
  pInv : Int → Int
  aBin : Int → Int → Int
  bBin : Int → Int → Int
  rBin : Int → Int → Int
  result : Int → Int → ℚ

/-- The integer nearest to `x`, and of two nearest integers the even one. -/
def roundHalfEven (x : ℚ) : Int :=
  if x - ⌊x⌋ < 1 / 2 then ⌊x⌋
  else if 1 / 2 < x - ⌊x⌋ then ⌊x⌋ + 1
  else if ⌊x⌋ % 2 = 0 then ⌊x⌋ else ⌊x⌋ + 1

/-- The value of type `double` nearest to the rational number `q`: IEEE 754
binary64 with rounding to nearest, ties to even.  The significand has 53 bits
and the exponent is at least -1022, below which the spacing of the values
stays `2^-1074`.  The exponent is not bounded above: a result beyond the
largest finite `double` is not modelled. -/
def roundDouble (q : ℚ) : ℚ :=
  if q = 0 then 0
  else
    (roundHalfEven (q / (2 : ℚ) ^ (max (Int.log 2 |q|) (-1022) - 52)) : ℚ) *
      (2 : ℚ) ^ (max (Int.log 2 |q|) (-1022) - 52)

/-- The sum `x + y` of two values of type `double`: the exact sum, rounded. -/
def addDouble (x y : ℚ) : ℚ := roundDouble (x + y)

/-- The value of `s` after `s = 0.0` and `s += x` for the elements `x` of the
list, in order. -/
def sumDouble (l : List ℚ) : ℚ := l.foldl addDouble 0

/-- The read `vec->elts[index]` of a vector of integers; outside of the bounds
of the vector the behaviour is undefined. -/
def readVectorInt (name : String) (vec : GAVectorInt) (index : Int) : Outcome Int :=
  if 0 ≤ index ∧ index < vec.size then Outcome.returned [] (vec.elts index)
  else Outcome.undefined [] (Fault.readOutside (IndexedRead.vector name vec.size index))

/-- The read `vec->elts[index]` of a vector of real numbers. -/
def readVectorReal (name : String) (vec : GAVectorReal) (index : Int) : Outcome ℚ :=
  if 0 ≤ index ∧ index < vec.size then Outcome.returned [] (vec.elts index)
  else Outcome.undefined [] (Fault.readOutside (IndexedRead.vector name vec.size index))

/-- The read `matrix->elts[row][col]` of a matrix of integers; outside of the
bounds of the matrix the behaviour is undefined. -/
def readMatrixInt (name : String) (matrix : GAMatrixInt) (row col : Int) : Outcome Int :=
  if 0 ≤ row ∧ row < matrix.rows ∧ 0 ≤ col ∧ col < matrix.cols then
    Outcome.returned [] (matrix.elts row col)
  else
    Outcome.undefined []
      (Fault.readOutside (IndexedRead.matrix name matrix.rows matrix.cols row col))

/-- The read `matrix->elts[row][col]` of a matrix of real numbers. -/
def readMatrixReal (name : String) (matrix : GAMatrixReal) (row col : Int) : Outcome ℚ :=
  if 0 ≤ row ∧ row < matrix.rows ∧ 0 ≤ col ∧ col < matrix.cols then
    Outcome.returned [] (matrix.elts row col)
  else
    Outcome.undefined []
      (Fault.readOutside (IndexedRead.matrix name matrix.rows matrix.cols row col))

/-- Pass `k` of the loop of `GA_compute_M` that sums the link scores:
`if ((k != j) && (p->elts[k] != i) && (p->elts[k] < b->rows))
linkScoreSum += linkScore->elts[aBin->elts[j][k]][bBin->elts[i][p->elts[k]]];`.
The operands of `&&` are evaluated from left to right, as far as needed. -/
def linkScoreStep (b : GAMatrixReal) (p : GAVectorInt) (linkScore : GAMatrixReal)
    (aBin bBin : GAMatrixInt) (i j k : Int) (linkScoreSum : ℚ) : Outcome ℚ :=
  if k ≠ j then
    (readVectorInt "p" p k).bind (fun pk =>
      if pk ≠ i ∧ pk < b.rows then
        (readMatrixInt "aBin" aBin j k).bind (fun x =>
          (readMatrixInt "bBin" bBin i pk).bind (fun y =>
            (readMatrixReal "linkScore" linkScore x y).bind (fun z =>
              Outcome.returned [] (addDouble linkScoreSum z))))
      else Outcome.returned [] linkScoreSum)
  else Outcome.returned [] linkScoreSum

/-- Pass `k` of the first loop of `GA_compute_M` over the node scores:
`if ((p->elts[k] >= b->rows) && (k != j))
nodeScoreSum += nodeScore2->elts[rBin->elts[k][i]];`. -/
def nodeScoreStepA (b : GAMatrixReal) (p : GAVectorInt) (nodeScore2 : GAVectorReal)
    (rBin : GAMatrixInt) (i j k : Int) (nodeScoreSum : ℚ) : Outcome ℚ :=
  (readVectorInt "p" p k).bind (fun pk =>
    if pk ≥ b.rows ∧ k ≠ j then
      (readMatrixInt "rBin" rBin k i).bind (fun x =>
        (readVectorReal "nodeScore2" nodeScore2 x).bind (fun z =>
          Outcome.returned [] (addDouble nodeScoreSum z)))
    else Outcome.returned [] nodeScoreSum)

/-- Pass `k` of the second loop of `GA_compute_M` over the node scores:
`if ((pInv->elts[k] >= a->rows) && (k != i))
nodeScoreSum += nodeScore2->elts[rBin->elts[j][k]];`. -/
def nodeScoreStepB (a : GAMatrixReal) (pInv : GAVectorInt) (nodeScore2 : GAVectorReal)
    (rBin : GAMatrixInt) (i j k : Int) (nodeScoreSum : ℚ) : Outcome ℚ :=
  (readVectorInt "pInv" pInv k).bind (fun pk =>
    if pk ≥ a.rows ∧ k ≠ i then
      (readMatrixInt "rBin" rBin j k).bind (fun x =>
        (readVectorReal "nodeScore2" nodeScore2 x).bind (fun z =>
          Outcome.returned [] (addDouble nodeScoreSum z)))
    else Outcome.returned [] nodeScoreSum)

/-- The body of the two nested loops of `GA_compute_M`: the value stored at
`result->elts[i][j]`, the sum of `linkScoreSum`, `selfLinkScoreSum` and
`nodeScoreSum`, each of which starts at `0.0`.  The sums are sums of values
of type `double`; a read outside of the bounds of a container is undefined
behaviour. -/
def computeCell (a b : GAMatrixReal) (p pInv : GAVectorInt)
    (linkScore selfLinkScore : GAMatrixReal) (nodeScore1 nodeScore2 : GAVectorReal)
    (aBin bBin rBin : GAMatrixInt) (i j : Int) : Outcome ℚ :=
  (if i < b.rows ∧ j < a.rows then
    LAP.forRange 0 a.rows
      (fun k (o : Outcome ℚ) => o.bind (linkScoreStep b p linkScore aBin bBin i j k))
      (Outcome.returned [] 0)
   else Outcome.returned [] 0).bind (fun linkScoreSum =>
  (if i < b.rows ∧ j < a.rows then
    (readMatrixInt "aBin" aBin j j).bind (fun x =>
      (readMatrixInt "bBin" bBin i i).bind (fun y =>
        (readMatrixReal "selfLinkScore" selfLinkScore x y).bind (fun z =>
          Outcome.returned [] (addDouble 0 z))))
   else Outcome.returned [] 0).bind (fun selfLinkScoreSum =>
  (if i < b.rows ∧ j < a.rows then
    (readMatrixInt "rBin" rBin j i).bind (fun x =>
      (readVectorReal "nodeScore1" nodeScore1 x).bind (fun z =>
        (LAP.forRange 0 a.rows
          (fun k (o : Outcome ℚ) => o.bind (nodeScoreStepA b p nodeScore2 rBin i j k))
          (Outcome.returned [] (addDouble 0 z))).bind (fun nodeScoreSum =>
        LAP.forRange 0 b.rows
          (fun k (o : Outcome ℚ) => o.bind (nodeScoreStepB a pInv nodeScore2 rBin i j k))
          (Outcome.returned [] nodeScoreSum))))
   else Outcome.returned [] 0).bind (fun nodeScoreSum =>
  Outcome.returned [] (addDouble (addDouble linkScoreSum selfLinkScoreSum) nodeScoreSum))))

/-- The two nested loops of `GA_compute_M` over the cells of the result. -/
def computeLoop (a b : GAMatrixReal) (p pInv : GAVectorInt)
    (linkScore selfLinkScore : GAMatrixReal) (nodeScore1 nodeScore2 : GAVectorReal)
    (aBin bBin rBin : GAMatrixInt) (e : Int → Int → ℚ) : Outcome (Int → Int → ℚ) :=
  LAP.forRange 0 p.size
    (fun i (o : Outcome (Int → Int → ℚ)) => o.bind (fun e =>
      LAP.forRange 0 p.size
        (fun j (o : Outcome (Int → Int → ℚ)) => o.bind (fun e =>
          (computeCell a b p pInv linkScore selfLinkScore nodeScore1 nodeScore2
            aBin bBin rBin i j).bind (fun x => Outcome.returned [] (setElt e i j x))))
        (Outcome.returned [] e)))
    (Outcome.returned [] e)

/-- An error of `GA_compute_M`: the message of the level `GA_MSG_ERROR` and,
if the message function returns, `return 0`. -/
def computeError (msg : GAMessageFunc) (text : String) : Outcome (Option GAMatrixReal) :=
  (report msg text GAMessageLevel.GA_MSG_ERROR).bind (fun _ => Outcome.returned [] none)

/-- The function `GA_compute_M` of `GraphAlignment.c`, called with the message
function `msg`.  Allocation is taken to succeed and `mem` is the content of
the freshly allocated memory.  The run is `undefined` when the inversion of
`p` stores through a null pointer or before the first element of `pInv`, and
when a read of the loops over the cells is outside of the bounds of its
container. -/
def GA_compute_M (msg : GAMessageFunc) (a b r : GAMatrixReal) (p : GAVectorInt)
    (linkScore selfLinkScore : GAMatrixReal) (nodeScore1 nodeScore2 : GAVectorReal)
    (lookupLink lookupNode : GAVectorReal) (clamp : GAClampMode) (mem : ComputeMem) :
    Outcome (Option GAMatrixReal) :=
  match GA_invert_permutation_int p mem.pInv with
  | InvertOutcome.nullStore i ev =>
    (reportAll msg ev).bind (fun _ => Outcome.undefined [] (Fault.nullStore i))
  | InvertOutcome.storeOutside i index => Outcome.undefined [] (Fault.storeOutside i index)
  | InvertOutcome.returned pInv =>
    if a.rows ≠ a.cols then
      computeError msg
        "[GA_compute_M] Adjacency matrix for network A is not a square matrix."
    else if b.rows ≠ b.cols then
      computeError msg
        "[GA_compute_M] Adjacency matrix for network B is not a square matrix."
    else if r.rows ≠ a.rows ∨ r.cols ≠ b.rows then
      computeError msg
        ("[GA_compute_M] Node similarity matrix R has wrong dimensions (" ++
          toString r.rows ++ ", " ++ toString r.cols ++ ") (expected (" ++
          toString a.rows ++ ", " ++ toString b.rows ++ ")).")
    else if (linkScore.rows : Int) < (lookupLink.size : Int) - 1
        ∨ (linkScore.cols : Int) < (lookupLink.size : Int) - 1 then
      computeError msg
        ("[GA_compute_M] Link score matrix dimension does not match number of bins " ++
          "(dim(linkScore) = (" ++ toString linkScore.rows ++ ", " ++
          toString linkScore.cols ++ "), length(lookupLink) = " ++
          toString lookupLink.size ++ ").")
    else if (selfLinkScore.rows : Int) < (lookupLink.size : Int) - 1
        ∨ (selfLinkScore.cols : Int) < (lookupLink.size : Int) - 1 then
      computeError msg
        ("[GA_compute_M] Self link score matrix dimension does not match number of bins " ++
          "(dim(linkScore) = (" ++ toString linkScore.rows ++ ", " ++
          toString linkScore.cols ++ "), length(lookupLink) = " ++
          toString lookupLink.size ++ ").")
    else if (nodeScore1.size : Int) < (lookupNode.size : Int) - 1 then
      computeError msg
        ("[GA_compute_M] Length of node score vector (s1) does not match number of bins " ++
          "(length(nodeScore1) = " ++ toString nodeScore1.size ++
          ", length(lookupNode) = " ++ toString lookupNode.size ++ ").")
    else if (nodeScore2.size : Int) < (lookupNode.size : Int) - 1 then
      computeError msg
        ("[GA_compute_M] Length of node score vector (s2) does not match number of bins " ++
          "(length(nodeScore2) = " ++ toString nodeScore2.size ++
          ", length(lookupNode) = " ++ toString lookupNode.size ++ ").")
    else
      (GA_matrix_to_bin_real msg a lookupLink clamp mem.aBin).bind (fun aBin =>
        match aBin with
        | none => Outcome.returned [] none
        | some aBin =>
          (GA_matrix_to_bin_real msg b lookupLink clamp mem.bBin).bind (fun bBin =>
            match bBin with
            | none => Outcome.returned [] none
            | some bBin =>
              (GA_matrix_to_bin_real msg r lookupNode clamp mem.rBin).bind (fun rBin =>
                match rBin with
                | none => Outcome.returned [] none
                | some rBin =>
                  (computeLoop a b p pInv linkScore selfLinkScore nodeScore1 nodeScore2
                    aBin bBin rBin
                    (GA_matrix_init_zero_real p.size p.size mem.result)).bind (fun e =>
                    Outcome.returned []
                      (some { rows := p.size, cols := p.size, elts := e })))))

/-- The 1 × 1 matrix of real numbers with the element `x`. -/
def oneByOne (x : ℚ) : GAMatrixReal := matrixOfReal 1 [[x]]

/-- Freshly allocated memory that holds zeros. -/
def zeroMem : ComputeMem :=
  { pInv := fun _ => 0, aBin := fun _ _ => 0, bBin := fun _ _ => 0, rBin := fun _ _ => 0,
    result := fun _ _ => 0 }

/-- The lookup vector `[0, 1]`, with the single bin 0. -/
def lookup01 : GAVectorReal := vectorOfReal [0, 1]

/-- The permutation `[0]` of one element. -/
def perm1 : GAVectorInt := vectorOfInt [0]

namespace LAP

/-- The buffers of `LAP_lap` on entry to COLUMN REDUCTION: `numfree` and `j2`
are 0 and `matches[0..dim-1]` has been set to 0. -/
def lapInit (dim : Nat) (s0 : St) : St :=
  { s0 with numfree := 0, j2 := 0,
            matchcnt := forRange 0 dim (fun i m => Function.update m i 0) s0.matchcnt }

/-- The number of the columns `j` of `k..dim-1` whose minimum row, the row
`imin` that the column reduction finds for `j`, is `i`. -/
def chosenCount (dim : Nat) (c : Int → Int → Int) (k : Nat) (i : Int) : Nat :=
  ((Finset.range dim).filter (fun j : Nat => k ≤ j ∧ (colMin dim c (j : Int)).2 = i)).card

/-- State of the buffers when the columns `k..dim-1` have been reduced, in
terms of the minimum rows of the columns. -/
structure ColRedTrack (dim : Nat) (c : Int → Int → Int) (k : Nat) (s : St) : Prop where
  v_eq : ∀ j : Int, k ≤ j → j < dim → s.v j = (colMin dim c j).1
  count : ∀ i : Int, 0 ≤ i → i < dim → s.matchcnt i = (chosenCount dim c k i : Int)
  top : ∀ i : Int, 0 ≤ i → i < dim → 1 ≤ s.matchcnt i →
    (k : Int) ≤ s.rowsol i ∧ s.rowsol i < dim ∧ (colMin dim c (s.rowsol i)).2 = i ∧
    s.colsol (s.rowsol i) = i ∧
    ∀ j : Int, k ≤ j → j < dim → (colMin dim c j).2 = i → j ≤ s.rowsol i
  others : ∀ j : Int, k ≤ j → j < dim → j ≠ s.rowsol (colMin dim c j).2 → s.colsol j = -1

/-- The buffers of `LAP_lap` after COLUMN REDUCTION. -/
def afterColRed (dim : Nat) (c : Int → Int → Int) (s0 : St) : St :=
  colReduction dim c (lapInit dim s0)

/-- The buffers when REDUCTION TRANSFER, started in the state `s1`, has
handled the rows `0..k-1`. -/
def transferRun (dim : Nat) (c : Int → Int → Int) (s1 : St) (k : Nat) : St :=
  forRange 0 k (transferStep dim c) s1

/-- The buffers of `LAP_lap` after REDUCTION TRANSFER. -/
def afterTransfer (dim : Nat) (c : Int → Int → Int) (s0 : St) : St :=
  reductionTransfer dim c (afterColRed dim c s0)

/-- State of the buffers when the reduction transfer that started in `s1` has
handled the rows `0..k-1`, in terms of `s1`. -/
structure TransferTrack (dim : Nat) (c : Int → Int → Int) (s1 : St) (k : Nat) (s : St) :
    Prop where
  run_eq : s = transferRun dim c s1 k
  rows_eq : s.rowsol = s1.rowsol
  cols_eq : s.colsol = s1.colsol
  m_eq : s.matchcnt = s1.matchcnt
  v_le : ∀ j : Int, s.v j ≤ s1.v j
  v_same : ∀ j : Int,
    (∀ i : Int, 0 ≤ i → i < k → s1.matchcnt i = 1 → s1.rowsol i ≠ j) → s.v j = s1.v j
  v_done : ∀ i : Int, 0 ≤ i → i < k → s1.matchcnt i = 1 →
    s.v (s1.rowsol i) = s1.v (s1.rowsol i) -
      transferMin dim c (transferRun dim c s1 i.toNat).v i (s1.rowsol i)
  rf_mono : ∀ t t' : Int, 0 ≤ t → t < t' → t' < s.numfree → s.rfree t < s.rfree t'

end LAP

/-! ## Definitions for the termination of the solver -/

namespace LAP

/-- The partial assignment `rowsol`, `colsol` is consistent: `PartialSol` for
the cost matrix 0 and the prices 0, where every pair is tight. -/
def StructSol (dim : Nat) (rowsol colsol : Int → Int) : Prop :=
  PartialSol dim (fun _ _ => 0) rowsol colsol (fun _ => 0)

/-- Invariant of the loop `while (k < prvnumfree)` of the augmenting row
reduction that holds for every cost matrix with entries between `lo` and
`hi`: the assignment and the list of free rows are consistent and the prices
are bounded from below. -/
structure ArrTerm (dim : Nat) (lo hi prv : Int) (p : St × Int) : Prop where
  sol : StructSol dim p.1.rowsol p.1.colsol
  v0 : 0 < dim → lo - BIG ≤ p.1.v 0
  vlow : ∀ j : Int, 0 ≤ j → j < dim → 2 * lo - hi - BIG ≤ p.1.v j
  j2r : 0 ≤ p.1.j2 ∧ (p.1.j2 < dim ∨ p.1.j2 = 0)
  nf0 : 0 ≤ p.1.numfree
  nfk : p.1.numfree ≤ p.2
  kprv : p.2 ≤ prv
  fl : FreeList dim p.1.colsol p.1.rfree p.1.numfree p.2 prv

/-- Every entry of `pred` is the free row `f0` or the row of a ready column
`collist[t]`, `t < low`, that was ready before the column of the entry. -/
def PredPath (dim : Nat) (colsol : Int → Int) (f0 : Int) (cl pred : Int → Int)
    (low : Int) : Prop :=
  ∀ j : Int, 0 ≤ j → j < dim → pred j = f0 ∨
    ∃ t : Int, 0 ≤ t ∧ t < low ∧ pred j = colsol (cl t) ∧
      ∀ t' : Int, 0 ≤ t' → t' ≤ t → cl t' ≠ j

/-- The part of the invariant of the search loop that does not depend on the
costs: the columns `collist[0..up-1]` are assigned. -/
structure SearchStruct (dim : Nat) (colsol : Int → Int) (f0 : Int) (q : Search) : Prop where
  low0 : 0 ≤ q.low
  lowup : q.low ≤ q.up
  updim : q.up ≤ dim
  perm : IsPerm dim q.collist
  asg : ∀ t : Int, 0 ≤ t → t < q.up → 0 ≤ colsol (q.collist t)
  pred : PredPath dim colsol f0 q.collist q.pred q.low
  notfound : q.found = false

/-- The part of the state of a finished search that does not depend on the
costs. -/
structure SearchEnd (dim : Nat) (colsol : Int → Int) (f0 : Int) (q : Search) : Prop where
  found : q.found = true
  low0 : 0 ≤ q.low
  lowdim : q.low ≤ dim
  perm : IsPerm dim q.collist
  e0 : 0 ≤ q.endofpath
  e1 : q.endofpath < dim
  eun : colsol q.endofpath < 0
  asg : ∀ t : Int, 0 ≤ t → t < q.low → 0 ≤ colsol (q.collist t)
  pred : PredPath dim colsol f0 q.collist q.pred q.low

/-- The part of the invariant of the loop of `newMinimum` that does not depend
on the costs. -/
structure MinScanStruct (dim : Nat) (q0 : Search) (K : Int) (q : Search) : Prop where
  low_eq : q.low = q0.low
  pred_eq : q.pred = q0.pred
  found_eq : q.found = false
  lowup : q.low < q.up
  upK : q.up ≤ K
  perm : IsPerm dim q.collist
  ready_eq : ∀ t : Int, 0 ≤ t → t < q0.low → q.collist t = q0.collist t

/-- The part of the invariant of the loop `relax` that does not depend on the
costs; `i` is the row of the column `collist[low-1]` just scanned. -/
structure RelaxStruct (dim : Nat) (colsol : Int → Int) (f0 : Int) (i : Int) (k : Int)
    (q : Search) : Prop where
  core : SearchStruct dim colsol f0 q
  low1 : 1 ≤ q.low
  upk : q.up ≤ k
  kdim : k ≤ dim
  row : i = colsol (q.collist (q.low - 1))

/-- The part of the invariant of the loop AUGMENT SOLUTION that does not depend
on the costs. -/
structure AugTerm (dim : Nat) (f : Int) (s : St) : Prop where
  sol : StructSol dim s.rowsol s.colsol
  fl : FreeList dim s.colsol s.rfree 0 f s.numfree
  f0 : 0 ≤ f
  fle : f ≤ s.numfree

/-- The value that the 32-bit two's complement arithmetic of `int` gives when
the exact result is `x`: the number of `-2^31 .. 2^31 - 1` congruent to `x`
modulo `2^32`. -/
def wrap32 (x : Int) : Int := (x + 2147483648) % 4294967296 - 2147483648

/-- The function `transferMin` with the differences `assigncost[i][j] - v[j]`
formed in 32-bit arithmetic. -/
def transferMin32 (dim : Nat) (c : Int → Int → Int) (v : Int → Int) (i j1 : Int) : Int :=
  forRange 0 dim
    (fun j (min : Int) =>
      if j ≠ j1 then (if wrap32 (c i j - v j) < min then wrap32 (c i j - v j) else min)
      else min)
    BIG

/-- The function `transferStep` in 32-bit arithmetic. -/
def transferStep32 (dim : Nat) (c : Int → Int → Int) (i : Int) (s : St) : St :=
  if s.matchcnt i = 0 then
    { s with rfree := Function.update s.rfree s.numfree i, numfree := s.numfree + 1 }
  else if s.matchcnt i = 1 then
    let j1 := s.rowsol i
    let min := transferMin32 dim c s.v i j1
    { s with v := Function.update s.v j1 (wrap32 (s.v j1 - min)) }
  else s

/-- REDUCTION TRANSFER in 32-bit arithmetic. -/
def reductionTransfer32 (dim : Nat) (c : Int → Int → Int) (s : St) : St :=
  forRange 0 dim (transferStep32 dim c) s

/-- The function `scanStep` with `h = assigncost[i][j] - v[j]` formed in 32-bit
arithmetic. -/
def scanStep32 (c : Int → Int → Int) (v : Int → Int) (i : Int) (j : Int) (r : Scan) : Scan :=
  let h := wrap32 (c i j - v j)
  if h < r.usubmin then
    if h ≥ r.umin then { r with usubmin := h, j2 := j }
    else { umin := h, usubmin := r.umin, j1 := j, j2 := r.j1 }
  else r

/-- The function `scanRow` in 32-bit arithmetic. -/
def scanRow32 (dim : Nat) (c : Int → Int → Int) (v : Int → Int) (i : Int) (j2 : Int) : Scan :=
  forRange 1 (dim - 1) (scanStep32 c v i)
    { umin := wrap32 (c i 0 - v 0), usubmin := BIG, j1 := 0, j2 := j2 }

/-- Body of the `while (k < prvnumfree)` loop of AUGMENTING ROW REDUCTION in
32-bit arithmetic: the function `arrStep` with the reduced costs of the scan
and `v[j1] = v[j1] - (usubmin - umin)` formed in 32-bit arithmetic.  The
counters `k` and `numfree` stay between 0 and `dim` and are exact. -/
def arrStep32 (dim : Nat) (c : Int → Int → Int) (p : St × Int) : St × Int :=
  let s := p.1
  let i := s.rfree p.2
  let k := p.2 + 1
  let r := scanRow32 dim c s.v i s.j2
  let i0 := s.colsol r.j1
  let v := if r.umin < r.usubmin then
      Function.update s.v r.j1 (wrap32 (s.v r.j1 - wrap32 (r.usubmin - r.umin))) else s.v
  let j1 := if r.umin < r.usubmin then r.j1 else if i0 ≥ 0 then r.j2 else r.j1
  let i0 := if r.umin < r.usubmin then i0 else if i0 ≥ 0 then s.colsol r.j2 else i0
  let rowsol := Function.update s.rowsol i j1
  let colsol := Function.update s.colsol j1 i
  let s := { s with v := v, rowsol := rowsol, colsol := colsol, j2 := r.j2 }
  if i0 ≥ 0 then
    if r.umin < r.usubmin then
      ({ s with rfree := Function.update s.rfree (k - 1) i0 }, k - 1)
    else
      ({ s with rfree := Function.update s.rfree s.numfree i0, numfree := s.numfree + 1 }, k)
  else (s, k)

/-- The loop `while (k < prvnumfree)` in 32-bit arithmetic; `fuel` bounds the
number of times the body runs. -/
def arrLoop32 (dim : Nat) (c : Int → Int → Int) (prvnumfree : Int) :
    Nat → St × Int → Option St
  | 0, p => if p.2 < prvnumfree then none else some p.1
  | fuel + 1, p =>
    if p.2 < prvnumfree then arrLoop32 dim c prvnumfree fuel (arrStep32 dim c p) else some p.1

/-- One pass of AUGMENTING ROW REDUCTION in 32-bit arithmetic. -/
def arrPass32 (fuel : Nat) (dim : Nat) (c : Int → Int → Int) (s : St) : Option St :=
  arrLoop32 dim c s.numfree fuel ({ s with numfree := 0 }, 0)

/-- The run of `LAP_lap` in 32-bit arithmetic up to the entry of AUGMENT
SOLUTION: the initialisation and the column reduction (which form no sum or
difference of costs), the reduction transfer and the two passes of the
augmenting row reduction.  The result is `none` when a `while` loop needs more
than `fuel` turns. -/
def arrPhase32 (fuel : Nat) (dim : Nat) (c : Int → Int → Int) (s0 : St) : Option St :=
  match arrPass32 fuel dim c (reductionTransfer32 dim c (afterColRed dim c s0)) with
  | none => none
  | some s => arrPass32 fuel dim c s

/-- The function `searchInit` with `d[j] = assigncost[freerow][j] - v[j]`
formed in 32-bit arithmetic. -/
def searchInit32 (dim : Nat) (c : Int → Int → Int) (freerow : Int) (s : St) : Search :=
  let q : Search := { collist := s.collist, d := s.d, pred := s.pred,
                      low := 0, up := 0, last := 0, min := 0, endofpath := 0, found := false }
  let q := forRange 0 dim (fun j (q : Search) =>
      { q with d := Function.update q.d j (wrap32 (c freerow j - s.v j)),
               pred := Function.update q.pred j freerow,
               collist := Function.update q.collist j j }) q
  q

/-- The function `relax` with `v2 = assigncost[i][j] - v[j] - h` formed in
32-bit arithmetic. -/
def relax32 (c : Int → Int → Int) (v colsol : Int → Int) (i h : Int) (k : Int) :
    Nat → Search → Search
  | 0, q => q
  | n + 1, q =>
    let j := q.collist k
    let v2 := wrap32 (wrap32 (c i j - v j) - h)
    if v2 < q.d j then
      let q := { q with pred := Function.update q.pred j i }
      if v2 = q.min then
        if colsol j < 0 then { q with endofpath := j, found := true }
        else
          let q := { q with collist := Function.update (Function.update q.collist k (q.collist q.up)) q.up j,
                            up := q.up + 1 }
          relax32 c v colsol i h (k + 1) n { q with d := Function.update q.d j v2 }
      else relax32 c v colsol i h (k + 1) n { q with d := Function.update q.d j v2 }
    else relax32 c v colsol i h (k + 1) n q

/-- The function `scanColumn` with `h = assigncost[i][j1] - v[j1] - min`
formed in 32-bit arithmetic. -/
def scanColumn32 (dim : Nat) (c : Int → Int → Int) (v colsol : Int → Int) (q : Search) :
    Search :=
  let j1 := q.collist q.low
  let q := { q with low := q.low + 1 }
  let i := colsol j1
  let h := wrap32 (wrap32 (c i j1 - v j1) - q.min)
  relax32 c v colsol i h q.up ((dim : Int) - q.up).toNat q

/-- The function `searchStep` in 32-bit arithmetic. -/
def searchStep32 (dim : Nat) (c : Int → Int → Int) (v colsol : Int → Int) (q : Search) :
    Search :=
  let q := if q.up = q.low then newMinimum dim colsol q else q
  if q.found then q else scanColumn32 dim c v colsol q

/-- The function `searchLoop` in 32-bit arithmetic. -/
def searchLoop32 (dim : Nat) (c : Int → Int → Int) (v colsol : Int → Int) :
    Nat → Search → Option Search
  | 0, _ => none
  | fuel + 1, q =>
    let q := searchStep32 dim c v colsol q
    if q.found then some q else searchLoop32 dim c v colsol fuel q

/-- The function `augmentStep` in 32-bit arithmetic: the search and
`v[j1] = v[j1] + d[j1] - min`. -/
def augmentStep32 (fuel : Nat) (dim : Nat) (c : Int → Int → Int) (f : Int) (s : St) :
    Option St :=
  let freerow := s.rfree f
  match searchLoop32 dim c s.v s.colsol fuel (searchInit32 dim c freerow s) with
  | none => none
  | some q =>
    let v := forRange 0 (q.last + 1).toNat
      (fun k (v : Int → Int) =>
        Function.update v (q.collist k)
          (wrap32 (wrap32 (v (q.collist k) + q.d (q.collist k)) - q.min))) s.v
    match flipPath q.pred freerow fuel q.endofpath (s.rowsol, s.colsol) with
    | none => none
    | some (rowsol, colsol) =>
      some { s with v := v, rowsol := rowsol, colsol := colsol,
                    collist := q.collist, d := q.d, pred := q.pred }

/-- The function `augment` in 32-bit arithmetic. -/
def augment32 (fuel : Nat) (dim : Nat) (c : Int → Int → Int) : Nat → St → Option St
  | 0, s => some s
  | n + 1, s =>
    match augment32 fuel dim c n s with
    | none => none
    | some s => augmentStep32 fuel dim c n s

/-- The function `finalStep` in 32-bit arithmetic. -/
def finalStep32 (c : Int → Int → Int) (rowsol v : Int → Int) (i : Int)
    (p : (Int → Int) × Int) : (Int → Int) × Int :=
  let j := rowsol i
  (Function.update p.1 i (wrap32 (c i j - v j)), wrap32 (p.2 + c i j))

/-- The function `LAP_lap` of `lap.c` with the sums and differences of costs
formed in 32-bit arithmetic, as the type `int` of `cost` has it.  The value is
`none` when a loop needs more than `fuel` turns. -/
def LAP_lap32 (fuel : Nat) (dim : Nat) (c : Int → Int → Int) (s0 : St) : Option Result :=
  match arrPhase32 fuel dim c s0 with
  | none => none
  | some s =>
    match augment32 fuel dim c s.numfree.toNat s with
    | none => none
    | some s =>
      let p := forRange 0 dim (finalStep32 c s.rowsol s.v) (s.u, 0)
      some { lapcost := p.2, rowsol := s.rowsol, colsol := s.colsol, u := p.1, v := s.v }

/-- A cost matrix with entries 0, 1000000000 and 2000000000, all below `BIG`,
on which a difference `assigncost[i][0] - v[0]` exceeds `INT_MAX`. -/
def costWrap : Int → Int → Int :=
  matrixOf [[0, 0, 0], [0, 1000000000, 1000000000], [2000000000, 0, 0]]

/-- State of the first pass of the augmenting row reduction on `costWrap`
before its first turn. -/
structure WrapStart (p : St × Int) : Prop where
  k : p.2 = 0
  v0 : p.1.v 0 = 0
  v1 : p.1.v 1 = 0
  v2 : p.1.v 2 = 0
  c0 : p.1.colsol 0 = -1
  r0 : p.1.rfree 0 = 1
  r1 : p.1.rfree 1 = 2

/-- The two states between which the first pass of the augmenting row
reduction on `costWrap` alternates in 32-bit arithmetic: the row `rfree[1]`
is 2 or 1, column 0 belongs to the other row, and `v[0]` is -1000000000 or
2000000000. -/
structure WrapCycle (b : Bool) (p : St × Int) : Prop where
  k : p.2 = 1
  v0 : p.1.v 0 = if b then -1000000000 else 2000000000
  v1 : p.1.v 1 = 0
  v2 : p.1.v 2 = 0
  c0 : p.1.colsol 0 = if b then 1 else 2
  r1 : p.1.rfree 1 = if b then 2 else 1

end LAP

/-- The function `GA_linear_assignment_solve` of `GraphAlignment.c` with
`LAP_lap` run in 32-bit arithmetic (`LAP_lap32`).  The value is `none` when
`LAP_lap` does not return within `fuel`. -/
def GA_linear_assignment_solve32 (fuel : Nat) (costMatrix : GAMatrixInt) (mem : LAP.St) :
    Option SolveOutcome :=
  if costMatrix.rows ≠ costMatrix.cols then
    some { events := [SolveEvent.message
             "[GA_linear_assignment_solve] Cost matrix is not a square matrix"
             GAMessageLevel.GA_MSG_ERROR],
           result := none }
  else
    let resultRows := GA_vector_init_zero_int costMatrix.rows mem.rowsol
    let resultCols := GA_vector_init_zero_int costMatrix.rows mem.colsol
    let u := GA_vector_init_zero_int costMatrix.rows mem.u
    let v := GA_vector_init_zero_int costMatrix.rows mem.v
    match LAP.LAP_lap32 fuel costMatrix.rows costMatrix.elts
        { mem with rowsol := resultRows, colsol := resultCols, u := u, v := v } with
    | none => none
    | some r =>
      some { events := [SolveEvent.lapCall costMatrix.rows],
             result := some { size := costMatrix.rows, elts := r.colsol } }

/-- The cost matrix `costWrap` as a matrix of 3 × 3 integers. -/
def costWrapMatrix : GAMatrixInt := { rows := 3, cols := 3, elts := LAP.costWrap }

/-! ## Definitions for the reads of the score matrix and for the augmentation -/

/-- The adjacency matrix of the path 0 - 1 - 2. -/
def path3 : GAMatrixReal := matrixOfReal 3 [[0, 1, 0], [1, 0, 1], [0, 1, 0]]

/-- The loop `for (k = 0; k < n; k++)` as the list of the reads of its
passes, in order. -/
def readsOfLoop (n : Nat) (body : Int → List IndexedRead) : List IndexedRead :=
  LAP.forRange 0 n (fun k acc => acc ++ body k) []

/-- The element reads of the body of the two nested loops of `GA_compute_M`
for the cell `(i, j)`, in the order of the source.  The operands of `&&` are
evaluated from left to right, as far as needed. -/
def computeCellReads (a b : GAMatrixReal) (p pInv : GAVectorInt)
    (linkScore selfLinkScore : GAMatrixReal) (nodeScore1 nodeScore2 : GAVectorReal)
    (aBin bBin rBin : GAMatrixInt) (i j : Int) : List IndexedRead :=
  (if i < b.rows ∧ j < a.rows then
    readsOfLoop a.rows (fun k =>
      if k ≠ j then
        IndexedRead.vector "p" p.size k ::
        (if p.elts k ≠ i then
          IndexedRead.vector "p" p.size k ::
          (if p.elts k < b.rows then
            [IndexedRead.matrix "aBin" aBin.rows aBin.cols j k,
             IndexedRead.vector "p" p.size k,
             IndexedRead.matrix "bBin" bBin.rows bBin.cols i (p.elts k),
             IndexedRead.matrix "linkScore" linkScore.rows linkScore.cols
               (aBin.elts j k) (bBin.elts i (p.elts k))]
          else [])
        else [])
      else [])
  else []) ++
  (if i < b.rows ∧ j < a.rows then
    [IndexedRead.matrix "aBin" aBin.rows aBin.cols j j,
     IndexedRead.matrix "bBin" bBin.rows bBin.cols i i,
     IndexedRead.matrix "selfLinkScore" selfLinkScore.rows selfLinkScore.cols
       (aBin.elts j j) (bBin.elts i i)]
  else []) ++
  (if i < b.rows ∧ j < a.rows then
    [IndexedRead.matrix "rBin" rBin.rows rBin.cols j i,
     IndexedRead.vector "nodeScore1" nodeScore1.size (rBin.elts j i)] ++
    readsOfLoop a.rows (fun k =>
      IndexedRead.vector "p" p.size k ::
      (if p.elts k ≥ b.rows ∧ k ≠ j then
        [IndexedRead.matrix "rBin" rBin.rows rBin.cols k i,
         IndexedRead.vector "nodeScore2" nodeScore2.size (rBin.elts k i)]
      else [])) ++
    readsOfLoop b.rows (fun k =>
      IndexedRead.vector "pInv" pInv.size k ::
      (if pInv.elts k ≥ a.rows ∧ k ≠ i then
        [IndexedRead.matrix "rBin" rBin.rows rBin.cols j k,
         IndexedRead.vector "nodeScore2" nodeScore2.size (rBin.elts j k)]
      else []))
  else [])

/-- The element reads of the two nested loops of `GA_compute_M` over the cells
of the result. -/
def computeReads (a b : GAMatrixReal) (p pInv : GAVectorInt)
    (linkScore selfLinkScore : GAMatrixReal) (nodeScore1 nodeScore2 : GAVectorReal)
    (aBin bBin rBin : GAMatrixInt) : List IndexedRead :=
  readsOfLoop p.size (fun i => readsOfLoop p.size (fun j =>
    computeCellReads a b p pInv linkScore selfLinkScore nodeScore1 nodeScore2
      aBin bBin rBin i j))

/-- The 2 × 2 matrix of zeros, a network of two nodes without links. -/
def zero2 : GAMatrixReal := matrixOfReal 2 [[0, 0], [0, 0]]

/-- The 2 × 1 matrix of zeros. -/
def zero21 : GAMatrixReal := matrixOfReal 1 [[0], [0]]

/-- The lookup vector `[0]` with a single value. -/
def lookup0 : GAVectorReal := vectorOfReal [0]

/-- The matrix without elements, of 0 × 0 elements. -/
def emptyMatrix : GAMatrixReal := matrixOfReal 0 []

namespace LAP

/-- The columns that the loop `do … while (i != freerow)` of the augmentation
assigns anew, in order: the successive values of `endofpath`, the columns of
the alternating path.  The arguments are those of `flipPath`. -/
def flipCols (pred : Int → Int) (freerow : Int) : Nat → Int → (Int → Int) → List Int
  | 0, _, _ => []
  | fuel + 1, endofpath, rowsol =>
    let i := pred endofpath
    endofpath ::
      (if i ≠ freerow then
        flipCols pred freerow fuel (rowsol i) (Function.update rowsol i endofpath)
      else [])

/-- The number of the columns `j` of `0..dim-1` with `colsol[j] = -1`. -/
def unassignedCount (dim : Nat) (colsol : Int → Int) : Nat :=
  ((Finset.Ico (0 : Int) dim).filter (fun j => colsol j = -1)).card

/-- No entry of `colsol[0..dim-1]` is below -1. -/
def ColLow (dim : Nat) (colsol : Int → Int) : Prop :=
  ∀ j : Int, 0 ≤ j → j < dim → -1 ≤ colsol j

/-- The partial assignment is consistent: each column `j` with
`colsol[j] = i ≥ 0` has `i < dim` and `rowsol[i] = j`. -/
def Consistent (dim : Nat) (rowsol colsol : Int → Int) : Prop :=
  ∀ j : Int, 0 ≤ j → j < dim → 0 ≤ colsol j → colsol j < dim ∧ rowsol (colsol j) = j

/-- The state of the loop `while (k < prvnumfree)` after `n` turns, or at its
end if it ends before. -/
def arrRun (dim : Nat) (c : Int → Int → Int) (prvnumfree : Int) : Nat → St × Int → St × Int
  | 0, p => p
  | n + 1, p => if p.2 < prvnumfree then arrRun dim c prvnumfree n (arrStep dim c p) else p

/-- The assignment in the state `s` is consistent, and `count`, the number of
the rows in the current list of free rows, is the number of the columns with
`colsol = -1`. -/
def ListedFree (dim : Nat) (s : St) (count : Int) : Prop :=
  Consistent dim s.rowsol s.colsol ∧ count = (unassignedCount dim s.colsol : Int)

/-- A cost matrix on which one row is still free after the augmenting row
reduction, so that the loop AUGMENT SOLUTION runs once. -/
def costAug : Int → Int → Int := matrixOf [[0, 0, 0], [1, 2, 0], [1, 2, 0]]

end LAP

/-! ## Definitions for the outcomes of the binner and of the score matrix -/

/-- The error messages of the level `GA_MSG_ERROR`: the list holds one of
them and nothing else. -/
def OneError (ev : List GAMessage) : Prop :=
  ∃ text : String, ev = [{ text := text, level := GAMessageLevel.GA_MSG_ERROR }]

/-- The value of `linkScoreSum` after pass `k` of the loop over the link
scores, when the pass returns. -/
def linkScoreAdd (b : GAMatrixReal) (p : GAVectorInt) (linkScore : GAMatrixReal)
    (aBin bBin : GAMatrixInt) (i j k : Int) (linkScoreSum : ℚ) : ℚ :=
  if k ≠ j ∧ p.elts k ≠ i ∧ p.elts k < b.rows then
    addDouble linkScoreSum (linkScore.elts (aBin.elts j k) (bBin.elts i (p.elts k)))
  else linkScoreSum

/-- The value of `nodeScoreSum` after pass `k` of the first loop over the node
scores, when the pass returns. -/
def nodeScoreAddA (b : GAMatrixReal) (p : GAVectorInt) (nodeScore2 : GAVectorReal)
    (rBin : GAMatrixInt) (i j k : Int) (nodeScoreSum : ℚ) : ℚ :=
  if p.elts k ≥ b.rows ∧ k ≠ j then addDouble nodeScoreSum (nodeScore2.elts (rBin.elts k i))
  else nodeScoreSum

/-- The value of `nodeScoreSum` after pass `k` of the second loop over the
node scores, when the pass returns. -/
def nodeScoreAddB (a : GAMatrixReal) (pInv : GAVectorInt) (nodeScore2 : GAVectorReal)
    (rBin : GAMatrixInt) (i j k : Int) (nodeScoreSum : ℚ) : ℚ :=
  if pInv.elts k ≥ a.rows ∧ k ≠ i then
    addDouble nodeScoreSum (nodeScore2.elts (rBin.elts j k))
  else nodeScoreSum

/-- The value that `computeCell` returns for the cell `(i, j)`, when it
returns. -/
def cellSum (a b : GAMatrixReal) (p pInv : GAVectorInt)
    (linkScore selfLinkScore : GAMatrixReal) (nodeScore1 nodeScore2 : GAVectorReal)
    (aBin bBin rBin : GAMatrixInt) (i j : Int) : ℚ :=
  if i < b.rows ∧ j < a.rows then
    addDouble
      (addDouble
        (LAP.forRange 0 a.rows (linkScoreAdd b p linkScore aBin bBin i j) 0)
        (addDouble 0 (selfLinkScore.elts (aBin.elts j j) (bBin.elts i i))))
      (LAP.forRange 0 b.rows (nodeScoreAddB a pInv nodeScore2 rBin i j)
        (LAP.forRange 0 a.rows (nodeScoreAddA b p nodeScore2 rBin i j)
          (addDouble 0 (nodeScore1.elts (rBin.elts j i)))))
  else addDouble (addDouble 0 0) 0

/-- The adjacency matrix of a network of two linked nodes. -/
def pair2 : GAMatrixReal := matrixOfReal 2 [[0, 1], [1, 0]]

/-- A node similarity matrix of 3 × 2 elements. -/
def sim32 : GAMatrixReal := matrixOfReal 2 [[0, 1], [1, 0], [1, 1]]

/-- A table of link scores for two bins. -/
def linkTable : GAMatrixReal := matrixOfReal 2 [[1, 2], [3, 4]]

/-- A table of self link scores for two bins. -/
def selfTable : GAMatrixReal := matrixOfReal 2 [[5, 6], [7, 8]]

/-- The adjacency matrix `[[0, 5], [0, 0]]`, whose element 5 is outside of the
range of the lookup vector `[0, 1]`. -/
def far2 : GAMatrixReal := matrixOfReal 2 [[0, 5], [0, 0]]

/-! ## Theorems -/

namespace LAP

theorem forRange_ind {σ : Type} (P : Nat → σ → Prop) (lo : Int) (n : Nat)
    (body : Int → σ → σ) (s : σ) (h0 : P 0 s)
    (hs : ∀ (k : Nat) (t : σ), k < n → P k t → P (k + 1) (body (lo + k) t)) :
    P n (forRange lo n body s) := by
  induction n with
  | zero => exact h0
  | succ m ih =>
    show P (m + 1) (body (lo + m) (forRange lo m body s))
    exact hs m _ (Nat.lt_succ_self m) (ih (fun k t hk hP => hs k t (Nat.lt_succ_of_lt hk) hP))

theorem forDown_ind {σ : Type} (P : Nat → σ → Prop) (n : Nat)
    (body : Int → σ → σ) (s : σ) (h0 : P n s)
    (hs : ∀ (k : Nat) (t : σ), k < n → P (k + 1) t → P k (body k t)) :
    P 0 (forDown n body s) := by
  induction n generalizing s with
  | zero => exact h0
  | succ m ih =>
    show P 0 (forDown m body (body m s))
    exact ih _ (hs m s (Nat.lt_succ_self m) h0)
      (fun k t hk hP => hs k t (Nat.lt_succ_of_lt hk) hP)

theorem colMin_spec (dim : Nat) (c : Int → Int → Int) (j : Int) (hd : 1 ≤ dim) :
    0 ≤ (colMin dim c j).2 ∧ (colMin dim c j).2 < dim ∧
    (colMin dim c j).1 = c (colMin dim c j).2 j ∧
    ∀ i : Int, 0 ≤ i → i < dim → (colMin dim c j).1 ≤ c i j := by
  have key := forRange_ind
    (fun (k : Nat) (p : Int × Int) => 0 ≤ p.2 ∧ p.2 < 1 + (k : Int) ∧ p.1 = c p.2 j ∧
      ∀ i : Int, 0 ≤ i → i < 1 + (k : Int) → p.1 ≤ c i j)
    1 (dim - 1) (fun i (p : Int × Int) => if c i j < p.1 then (c i j, i) else p) (c 0 j, 0)
    (by
      refine ⟨le_refl _, by simp, rfl, ?_⟩
      intro i h0 h1
      have : i = 0 := by simp at h1; omega
      subst this; exact le_refl _)
    (by
      intro k p _ ⟨h1, h2, h3, h4⟩
      dsimp only
      by_cases hlt : c (1 + (k : Int)) j < p.1
      · rw [if_pos hlt]
        refine ⟨by omega, by push_cast; omega, rfl, ?_⟩
        intro i hi0 hi1
        by_cases hik : i = 1 + (k : Int)
        · subst hik; exact le_refl _
        · have := h4 i hi0 (by push_cast at hi1; omega)
          simp only
          omega
      · rw [if_neg hlt]
        refine ⟨h1, by push_cast; omega, h3, ?_⟩
        intro i hi0 hi1
        by_cases hik : i = 1 + (k : Int)
        · subst hik; omega
        · exact h4 i hi0 (by push_cast at hi1; omega))
  obtain ⟨h1, h2, h3, h4⟩ := key
  have hcast : (1 : Int) + ((dim - 1 : Nat) : Int) = dim := by omega
  rw [hcast] at h2 h4
  exact ⟨h1, h2, h3, h4⟩

theorem colRedStep_inv (dim : Nat) (c : Int → Int → Int) (k : Nat) (s : St)
    (hk : k < dim) (h : ColRedInv dim c (k + 1) s) :
    ColRedInv dim c k (colRedStep dim c k s) := by
  obtain ⟨hi0, hi1, hmin, hle⟩ := colMin_spec dim c k (by omega)
  unfold colRedStep
  generalize colMin dim c (k : Int) = p at hi0 hi1 hmin hle
  obtain ⟨mn, imin⟩ := p
  simp only at hi0 hi1 hmin hle
  simp only [Function.update_same]
  have hm0 := h.m_nonneg imin hi0 hi1
  by_cases hfirst : s.matchcnt imin + 1 = 1
  · rw [if_pos hfirst]
    have hz : s.matchcnt imin = 0 := by omega
    have hfree := h.m_zero imin hi0 hi1 hz
    refine ⟨?_, ?_, ?_, ?_, ?_, ?_, ?_, ?_⟩
    · intro i j h1 h2 h3 h4
      simp only [Function.update_apply]
      split_ifs with hj
      · subst hj; exact hle i h1 h2
      · exact h.vle i j h1 h2 (by push_cast; omega) h4
    · intro j h3 h4
      simp only [Function.update_apply]
      split_ifs with hj
      · subst hj; exact ⟨imin, hi0, hi1, hmin⟩
      · exact h.vatt j (by push_cast; omega) h4
    · intro j h3 h4
      simp only [Function.update_apply]
      split_ifs with hj
      · exact hi1
      · exact h.col_lt j (by push_cast; omega) h4
    · intro j h3 h4
      simp only [Function.update_apply]
      by_cases hj : j = (k : Int)
      · subst hj
        simp only [if_true]
        intro _
        exact ⟨trivial, hmin.symm, by omega⟩
      · simp only [if_neg hj]
        intro hc
        have hj' : ((k + 1 : Nat) : Int) ≤ j := by push_cast; omega
        have hne : s.colsol j ≠ imin := hfree j hj' h4
        simp only [if_neg hne]
        exact h.col_row j hj' h4 hc
    · intro i h1 h2
      simp only [Function.update_apply]
      split_ifs
      · omega
      · exact h.m_nonneg i h1 h2
    · intro i h1 h2
      simp only [Function.update_apply]
      by_cases hi : i = imin
      · subst hi; simp only [if_true]; intro hc; omega
      · simp only [if_neg hi]
        intro hmz j h3 h4
        split_ifs with hj
        · exact fun e => hi e.symm
        · exact h.m_zero i h1 h2 hmz j (by push_cast; omega) h4
    · intro i h1 h2
      simp only [Function.update_apply]
      by_cases hi : i = imin
      · subst hi; simp only [if_true]
        intro _; exact ⟨le_refl _, by omega, trivial⟩
      · simp only [if_neg hi]
        intro hp
        obtain ⟨a, b, e⟩ := h.m_pos i h1 h2 hp
        have hne : s.rowsol i ≠ (k : Int) := by push_cast at a; omega
        simp only [if_neg hne]
        exact ⟨by push_cast at a; omega, b, e⟩
    · exact h.numfree_eq
  · rw [if_neg hfirst]
    have hp : 1 ≤ s.matchcnt imin := by omega
    obtain ⟨a, b, e⟩ := h.m_pos imin hi0 hi1 hp
    refine ⟨?_, ?_, ?_, ?_, ?_, ?_, ?_, ?_⟩
    · intro i j h1 h2 h3 h4
      simp only [Function.update_apply]
      split_ifs with hj
      · subst hj; exact hle i h1 h2
      · exact h.vle i j h1 h2 (by push_cast; omega) h4
    · intro j h3 h4
      simp only [Function.update_apply]
      split_ifs with hj
      · subst hj; exact ⟨imin, hi0, hi1, hmin⟩
      · exact h.vatt j (by push_cast; omega) h4
    · intro j h3 h4
      simp only [Function.update_apply]
      split_ifs with hj
      · omega
      · exact h.col_lt j (by push_cast; omega) h4
    · intro j h3 h4
      simp only [Function.update_apply]
      by_cases hj : j = (k : Int)
      · subst hj
        simp only [if_true]
        intro hc; omega
      · simp only [if_neg hj]
        intro hc
        have hj' : ((k + 1 : Nat) : Int) ≤ j := by push_cast; omega
        obtain ⟨x, y, z⟩ := h.col_row j hj' h4 hc
        refine ⟨x, y, ?_⟩
        split_ifs <;> omega
    · intro i h1 h2
      simp only [Function.update_apply]
      split_ifs
      · omega
      · exact h.m_nonneg i h1 h2
    · intro i h1 h2
      simp only [Function.update_apply]
      by_cases hi : i = imin
      · subst hi; simp only [if_true]; intro hc; omega
      · simp only [if_neg hi]
        intro hmz j h3 h4
        split_ifs with hj
        · omega
        · exact h.m_zero i h1 h2 hmz j (by push_cast; omega) h4
    · intro i h1 h2
      simp only [Function.update_apply]
      by_cases hi : i = imin
      · subst hi; simp only [if_true]
        intro _
        have hne : s.rowsol i ≠ (k : Int) := by push_cast at a; omega
        simp only [if_neg hne]
        exact ⟨by push_cast at a; omega, b, e⟩
      · simp only [if_neg hi]
        intro hp'
        obtain ⟨a', b', e'⟩ := h.m_pos i h1 h2 hp'
        have hne : s.rowsol i ≠ (k : Int) := by push_cast at a'; omega
        simp only [if_neg hne]
        exact ⟨by push_cast at a'; omega, b', e'⟩
    · exact h.numfree_eq

theorem colReduction_inv (dim : Nat) (c : Int → Int → Int) (s : St)
    (hm : ∀ i : Int, 0 ≤ i → i < dim → s.matchcnt i = 0) (hn : s.numfree = 0) :
    ColRedInv dim c 0 (colReduction dim c s) := by
  unfold colReduction
  apply forDown_ind (fun k t => ColRedInv dim c k t)
  · refine ⟨?_, ?_, ?_, ?_, ?_, ?_, ?_, hn⟩
    · intro i j _ _ h3 h4; omega
    · intro j h3 h4; omega
    · intro j h3 h4; omega
    · intro j h3 h4; omega
    · intro i h1 h2; rw [hm i h1 h2]
    · intro i _ _ _ j h3 h4; omega
    · intro i h1 h2 h3; rw [hm i h1 h2] at h3; omega
  · intro k t hk hP
    exact colRedStep_inv dim c k t hk hP

theorem matchcnt_init (dim : Nat) (m : Int → Int) (i : Int) (h0 : 0 ≤ i) (h1 : i < dim) :
    forRange 0 dim (fun i (m : Int → Int) => Function.update m i 0) m i = 0 := by
  have key := forRange_ind
    (fun (k : Nat) (m : Int → Int) => ∀ i : Int, 0 ≤ i → i < k → m i = 0)
    0 dim (fun i (m : Int → Int) => Function.update m i 0) m
    (by intro i h0 h1; simp at h1; omega)
    (by
      intro k t _ hP i h0 h1
      simp only [Function.update_apply]
      split_ifs with h
      · rfl
      · exact hP i h0 (by push_cast at h1; omega))
  exact key i h0 h1

theorem transferInv_init (dim : Nat) (c : Int → Int → Int) (s : St)
    (h : ColRedInv dim c 0 s) : TransferInv dim c 0 s := by
  have k0 : ∀ j : Int, 0 ≤ j → ((0 : Nat) : Int) ≤ j := fun j hj => by simpa using hj
  refine ⟨⟨?_, ?_, ?_⟩, ?_, ?_, ?_, h.m_nonneg, ?_, ?_, ?_, ?_, ?_, ?_, ?_, ?_⟩
  · intro j h0 h1; exact h.col_lt j (k0 j h0) h1
  · intro j h0 h1 hc; exact (h.col_row j (k0 j h0) h1 hc).1
  · intro j h0 h1 hc j' h0' h1'
    have e := (h.col_row j (k0 j h0) h1 hc).2.1
    have hr0 : 0 ≤ s.colsol j := hc
    have hr1 := h.col_lt j (k0 j h0) h1
    have := h.vle (s.colsol j) j' hr0 hr1 (k0 j' h0') h1'
    omega
  · intro i j h1 h2 h3 h4; exact h.vle i j h1 h2 (k0 j h3) h4
  · intro j h0 h1 _; exact h.vatt j (k0 j h0) h1
  · intro j h0 h1
    obtain ⟨i, a, b, e⟩ := h.vatt j (k0 j h0) h1
    exact ⟨i, a, b, by rw [e]; unfold BIG; omega⟩
  · intro i h1 h2 hz j h3 h4; exact h.m_zero i h1 h2 hz j (k0 j h3) h4
  · intro i h1 h2 hp
    obtain ⟨a, b, e⟩ := h.m_pos i h1 h2 hp
    exact ⟨by simpa using a, b, e⟩
  · intro i h1 h2 hp
    obtain ⟨a, b, e⟩ := h.m_pos i (by simpa using h1) h2 hp
    have a' : 0 ≤ s.rowsol i := by simpa using a
    have := (h.col_row (s.rowsol i) a b (by rw [e]; simpa using h1)).2.1
    rw [e] at this; exact this
  · rw [h.numfree_eq]
  · rw [h.numfree_eq]; simp
  · intro t h0 h1; rw [h.numfree_eq] at h1; omega
  · intro t t' h0 h1; rw [h.numfree_eq] at h1; omega
  · intro i h0 h1; simp at h1; omega

theorem transferMin_spec (dim : Nat) (c : Int → Int → Int) (v : Int → Int) (i j1 : Int)
    (hv : ∀ j : Int, 0 ≤ j → j < dim → v j ≤ c i j) :
    0 ≤ transferMin dim c v i j1 ∧ transferMin dim c v i j1 ≤ BIG ∧
    ∀ j : Int, 0 ≤ j → j < dim → j ≠ j1 → transferMin dim c v i j1 ≤ c i j - v j := by
  have key := forRange_ind
    (fun (k : Nat) (m : Int) => 0 ≤ m ∧ m ≤ BIG ∧
      ∀ j : Int, 0 ≤ j → j < k → j ≠ j1 → m ≤ c i j - v j)
    0 dim
    (fun j (min : Int) =>
      if j ≠ j1 then (if c i j - v j < min then c i j - v j else min) else min) BIG
    (by
      refine ⟨by unfold BIG; omega, le_refl _, ?_⟩
      intro j h0 h1; simp at h1; omega)
    (by
      intro k m hk ⟨h1, h2, h3⟩
      have hvk := hv (0 + (k : Int)) (by omega) (by omega)
      dsimp only
      refine ⟨?_, ?_, ?_⟩
      · split_ifs <;> omega
      · split_ifs <;> omega
      · intro j h0 hj hne
        by_cases hjk : j = 0 + (k : Int)
        · subst hjk
          rw [if_pos hne]
          split_ifs <;> omega
        · have := h3 j h0 (by push_cast at hj; omega) hne
          split_ifs <;> omega)
  exact key

theorem transferStep_inv (dim : Nat) (c : Int → Int → Int) (k : Nat) (s : St)
    (hk : k < dim) (h : TransferInv dim c k s) :
    TransferInv dim c (k + 1) (transferStep dim c (0 + (k : Int)) s) := by
  have hk0 : (0 : Int) + (k : Int) = k := by omega
  rw [hk0]
  have hkr0 : (0 : Int) ≤ (k : Int) := by omega
  have hkr1 : (k : Int) < dim := by omega
  unfold transferStep
  by_cases hz : s.matchcnt (k : Int) = 0
  · rw [if_pos hz]
    refine ⟨h.sol, h.vle, h.un_v, h.vlow, h.m_nonneg, h.m_zero, h.m_pos, ?_, ?_, ?_, ?_, ?_, ?_⟩
    · intro i h1 h2 hp; exact h.pend i (by push_cast at h1; omega) h2 hp
    · have := h.nf0; show 0 ≤ s.numfree + 1; omega
    · have := h.nfk; show s.numfree + 1 ≤ ((k + 1 : Nat) : Int); push_cast; omega
    · intro t h0 h1
      show 0 ≤ Function.update s.rfree s.numfree (k : Int) t ∧
        Function.update s.rfree s.numfree (k : Int) t < ((k + 1 : Nat) : Int) ∧
        s.matchcnt (Function.update s.rfree s.numfree (k : Int) t) = 0
      simp only [Function.update_apply]
      split_ifs with ht
      · exact ⟨hkr0, by push_cast; omega, hz⟩
      · have h1' : t < s.numfree := by
          have : t < s.numfree + 1 := h1
          omega
        obtain ⟨a, b, e⟩ := h.rf_range t h0 h1'
        exact ⟨a, by push_cast; omega, e⟩
    · intro t t' h0 h1 h0' h1'
      show Function.update s.rfree s.numfree (k : Int) t =
        Function.update s.rfree s.numfree (k : Int) t' → t = t'
      have h1a : t < s.numfree + 1 := h1
      have h1b : t' < s.numfree + 1 := h1'
      simp only [Function.update_apply]
      split_ifs with ht ht'
      · intro _; omega
      · intro e
        have := (h.rf_range t' h0' (by omega)).2.1
        omega
      · intro e
        have := (h.rf_range t h0 (by omega)).2.1
        omega
      · exact h.rf_inj t t' h0 (by omega) h0' (by omega)
    · intro i h0 h1 hm
      show ∃ t : Int, 0 ≤ t ∧ t < s.numfree + 1 ∧
        Function.update s.rfree s.numfree (k : Int) t = i
      by_cases hik : i = (k : Int)
      · exact ⟨s.numfree, h.nf0, by omega, by rw [Function.update_same]; exact hik.symm⟩
      · obtain ⟨t, a, b, e⟩ := h.rf_complete i h0 (by push_cast at h1; omega) hm
        refine ⟨t, a, by omega, ?_⟩
        rw [Function.update_noteq (by omega)]; exact e
  · rw [if_neg hz]
    by_cases ho : s.matchcnt (k : Int) = 1
    · rw [if_pos ho]
      dsimp only
      obtain ⟨r0, r1, rc⟩ := h.m_pos k hkr0 hkr1 (by omega)
      have hp := h.pend k (le_refl _) hkr1 (by omega)
      obtain ⟨m0, mB, mle⟩ := transferMin_spec dim c s.v k (s.rowsol k)
        (fun j a b => h.vle k j hkr0 hkr1 a b)
      generalize transferMin dim c s.v (k : Int) (s.rowsol k) = m at m0 mB mle
      refine ⟨⟨h.sol.col_lt, h.sol.col_row, ?_⟩, ?_, ?_, ?_, h.m_nonneg, h.m_zero, h.m_pos,
        ?_, h.nf0, ?_, ?_, h.rf_inj, ?_⟩
      · intro j h0 h1 hc j' h0' h1'
        show c (s.colsol j) j - Function.update s.v (s.rowsol k) (s.v (s.rowsol k) - m) j ≤
          c (s.colsol j) j' - Function.update s.v (s.rowsol k) (s.v (s.rowsol k) - m) j'
        have ht := h.sol.tight j h0 h1 hc j' h0' h1'
        simp only [Function.update_apply]
        by_cases hj : j = s.rowsol k
        · have hcj : s.colsol j = k := by rw [hj]; exact rc
          rw [if_pos hj]
          by_cases hj' : j' = s.rowsol k
          · rw [if_pos hj', hj, hj']
          · rw [if_neg hj', hcj, hj]
            have := mle j' h0' h1' hj'
            omega
        · rw [if_neg hj]
          by_cases hj' : j' = s.rowsol k
          · subst hj'
            rw [if_pos rfl]
            omega
          · rw [if_neg hj']; exact ht
      · intro i j h1 h2 h3 h4
        show Function.update s.v (s.rowsol k) (s.v (s.rowsol k) - m) j ≤ c i j
        have := h.vle i j h1 h2 h3 h4
        simp only [Function.update_apply]
        split_ifs with hj
        · rw [hj] at this ⊢; omega
        · exact this
      · intro j h0 h1 hc
        show ∃ i : Int, 0 ≤ i ∧ i < dim ∧
          Function.update s.v (s.rowsol k) (s.v (s.rowsol k) - m) j = c i j
        have hne : j ≠ s.rowsol k := by
          intro e; rw [e, rc] at hc; omega
        rw [Function.update_noteq hne]
        exact h.un_v j h0 h1 hc
      · intro j h0 h1
        show ∃ i : Int, 0 ≤ i ∧ i < dim ∧
          c i j - BIG ≤ Function.update s.v (s.rowsol k) (s.v (s.rowsol k) - m) j
        simp only [Function.update_apply]
        split_ifs with hj
        · refine ⟨k, hkr0, hkr1, ?_⟩
          rw [hj, hp]; omega
        · exact h.vlow j h0 h1
      · intro i h1 h2 hp'
        show c i (s.rowsol i) =
          Function.update s.v (s.rowsol k) (s.v (s.rowsol k) - m) (s.rowsol i)
        have h1' : (k : Int) ≤ i := by push_cast at h1; omega
        have hne : s.rowsol i ≠ s.rowsol k := by
          intro e
          have := (h.m_pos i (by omega) h2 hp').2.2
          rw [e, rc] at this
          push_cast at h1; omega
        rw [Function.update_noteq hne]
        exact h.pend i h1' h2 hp'
      · have := h.nfk; show s.numfree ≤ ((k + 1 : Nat) : Int); push_cast; omega
      · intro t h0 h1
        obtain ⟨a, b, e⟩ := h.rf_range t h0 h1
        exact ⟨a, by push_cast; omega, e⟩
      · intro i h0 h1 hm
        have hik : i ≠ (k : Int) := by intro e; rw [e] at hm; exact hz hm
        exact h.rf_complete i h0 (by push_cast at h1; omega) hm
    · rw [if_neg ho]
      refine ⟨h.sol, h.vle, h.un_v, h.vlow, h.m_nonneg, h.m_zero, h.m_pos, ?_, h.nf0, ?_, ?_,
        h.rf_inj, ?_⟩
      · intro i h1 h2 hp; exact h.pend i (by push_cast at h1; omega) h2 hp
      · have := h.nfk; push_cast; omega
      · intro t h0 h1
        obtain ⟨a, b, e⟩ := h.rf_range t h0 h1
        exact ⟨a, by push_cast; omega, e⟩
      · intro i h0 h1 hm
        have hik : i ≠ (k : Int) := by intro e; rw [e] at hm; exact hz hm
        exact h.rf_complete i h0 (by push_cast at h1; omega) hm

theorem reductionTransfer_inv (dim : Nat) (c : Int → Int → Int) (s : St)
    (h : ColRedInv dim c 0 s) : TransferInv dim c dim (reductionTransfer dim c s) := by
  unfold reductionTransfer
  apply forRange_ind (fun k t => TransferInv dim c k t)
  · exact transferInv_init dim c s h
  · intro k t hk hP
    exact transferStep_inv dim c k t hk hP

theorem vsum_update (dim : Nat) (v : Int → Int) (j1 x : Int) (h0 : 0 ≤ j1) (h1 : j1 < dim) :
    vsum dim (Function.update v j1 x) = vsum dim v - v j1 + x := by
  unfold vsum
  induction dim with
  | zero => simp at h1; omega
  | succ n ih =>
    rw [Finset.sum_range_succ, Finset.sum_range_succ]
    by_cases hj : j1 = (n : Int)
    · subst hj
      rw [Function.update_same]
      have : ∑ j in Finset.range n, Function.update v (n : Int) x (j : Int) =
          ∑ j in Finset.range n, v (j : Int) := by
        apply Finset.sum_congr rfl
        intro j hj
        rw [Function.update_noteq]
        have := Finset.mem_range.mp hj
        omega
      rw [this]; omega
    · rw [Function.update_noteq (Ne.symm hj), ih (by push_cast at h1; omega)]
      omega

theorem vsum_lower (dim : Nat) (v : Int → Int) (L : Int)
    (h : ∀ j : Int, 0 ≤ j → j < dim → L ≤ v j) : (dim : Int) * L ≤ vsum dim v := by
  unfold vsum
  induction dim with
  | zero => simp
  | succ n ih =>
    rw [Finset.sum_range_succ]
    have h1 := ih (fun j a b => h j a (by push_cast; omega))
    have h2 := h n (by omega) (by push_cast; omega)
    push_cast
    nlinarith

/-- A free row leaves a column unassigned. -/
theorem exists_unassigned (dim : Nat) (rowsol colsol : Int → Int)
    (hlt : ∀ j : Int, 0 ≤ j → j < dim → colsol j < dim)
    (hrow : ∀ j : Int, 0 ≤ j → j < dim → 0 ≤ colsol j → rowsol (colsol j) = j)
    (i : Int) (hi0 : 0 ≤ i) (hi1 : i < dim) (hfree : FreeRow dim colsol i) :
    ∃ j : Int, 0 ≤ j ∧ j < dim ∧ colsol j < 0 := by
  by_contra hcon
  have hall : ∀ j : Int, 0 ≤ j → j < dim → 0 ≤ colsol j := by
    intro j h0 h1
    by_contra hneg
    exact hcon ⟨j, h0, h1, by omega⟩
  let f : Fin dim → Fin dim := fun j =>
    ⟨(colsol (j.val : Int)).toNat, by
      have a := hall (j.val : Int) (by omega) (by have := j.isLt; omega)
      have b := hlt (j.val : Int) (by omega) (by have := j.isLt; omega)
      omega⟩
  have hinj : Function.Injective f := by
    intro a b hab
    have ha0 := hall (a.val : Int) (by omega) (by have := a.isLt; omega)
    have hb0 := hall (b.val : Int) (by omega) (by have := b.isLt; omega)
    have e : (colsol (a.val : Int)).toNat = (colsol (b.val : Int)).toNat := by
      have := congrArg Fin.val hab
      exact this
    have e2 : colsol (a.val : Int) = colsol (b.val : Int) := by omega
    have r1 := hrow (a.val : Int) (by omega) (by have := a.isLt; omega) ha0
    have r2 := hrow (b.val : Int) (by omega) (by have := b.isLt; omega) hb0
    rw [e2, r2] at r1
    apply Fin.ext
    omega
  have hsur : Function.Surjective f := Finite.injective_iff_surjective.mp hinj
  obtain ⟨j, hj⟩ := hsur ⟨i.toNat, by omega⟩
  have ha0 := hall (j.val : Int) (by omega) (by have := j.isLt; omega)
  have e : (colsol (j.val : Int)).toNat = i.toNat := congrArg Fin.val hj
  exact hfree (j.val : Int) (by omega) (by have := j.isLt; omega) (by omega)

theorem scanRow_spec (dim : Nat) (c : Int → Int → Int) (v : Int → Int) (i j2 : Int)
    (hd : 1 ≤ dim) (hB : ∀ j : Int, 0 ≤ j → j < dim → c i j - v j < BIG) :
    0 ≤ (scanRow dim c v i j2).j1 ∧ (scanRow dim c v i j2).j1 < dim ∧
    (scanRow dim c v i j2).umin = c i (scanRow dim c v i j2).j1 - v (scanRow dim c v i j2).j1 ∧
    (∀ j : Int, 0 ≤ j → j < dim → (scanRow dim c v i j2).umin ≤ c i j - v j) ∧
    (scanRow dim c v i j2).umin ≤ (scanRow dim c v i j2).usubmin ∧
    (scanRow dim c v i j2).usubmin ≤ BIG ∧
    (∀ j : Int, 0 ≤ j → j < dim → j ≠ (scanRow dim c v i j2).j1 →
      (scanRow dim c v i j2).usubmin ≤ c i j - v j) ∧
    (2 ≤ dim → 0 ≤ (scanRow dim c v i j2).j2 ∧ (scanRow dim c v i j2).j2 < dim ∧
      (scanRow dim c v i j2).j2 ≠ (scanRow dim c v i j2).j1 ∧
      (scanRow dim c v i j2).usubmin =
        c i (scanRow dim c v i j2).j2 - v (scanRow dim c v i j2).j2) ∧
    (dim = 1 → (scanRow dim c v i j2).usubmin = BIG) := by
  have key := forRange_ind
    (fun (k : Nat) (r : Scan) => (k : Int) < dim →
      0 ≤ r.j1 ∧ r.j1 < 1 + (k : Int) ∧ r.umin = c i r.j1 - v r.j1 ∧
      (∀ j : Int, 0 ≤ j → j < 1 + (k : Int) → r.umin ≤ c i j - v j) ∧
      r.umin ≤ r.usubmin ∧ r.usubmin ≤ BIG ∧
      (∀ j : Int, 0 ≤ j → j < 1 + (k : Int) → j ≠ r.j1 → r.usubmin ≤ c i j - v j) ∧
      (1 ≤ k → 0 ≤ r.j2 ∧ r.j2 < 1 + (k : Int) ∧ r.j2 ≠ r.j1 ∧
        r.usubmin = c i r.j2 - v r.j2) ∧ (k = 0 → r.usubmin = BIG))
    1 (dim - 1) (scanStep c v i)
    { umin := c i 0 - v 0, usubmin := BIG, j1 := 0, j2 := j2 }
    (by
      intro _
      have h0 := hB 0 (le_refl _) (by omega)
      refine ⟨le_refl _, by simp, rfl, ?_, by simp only; omega, le_refl _, ?_, ?_, ?_⟩
      · intro j a b
        have : j = 0 := by simp at b; omega
        subst this; exact le_refl _
      · intro j a b hne
        simp at b; simp only at hne; omega
      · intro h; omega
      · intro _; rfl)
    (by
      intro k r hk hP hk1
      obtain ⟨a1, a2, a3, a4, a5, a6, a7, a8, a9⟩ := hP (by omega)
      have hh := hB (1 + (k : Int)) (by omega) (by push_cast at hk1; omega)
      unfold scanStep
      dsimp only
      by_cases hlt : c i (1 + (k : Int)) - v (1 + (k : Int)) < r.usubmin
      · rw [if_pos hlt]
        by_cases hge : c i (1 + (k : Int)) - v (1 + (k : Int)) ≥ r.umin
        · rw [if_pos hge]
          dsimp only
          refine ⟨a1, by push_cast; omega, a3, ?_, hge, by omega, ?_, ?_, by omega⟩
          · intro j b0 b1
            by_cases hj : j = 1 + (k : Int)
            · subst hj; exact hge
            · exact a4 j b0 (by push_cast at b1; omega)
          · intro j b0 b1 hne
            by_cases hj : j = 1 + (k : Int)
            · subst hj; exact le_refl _
            · have := a7 j b0 (by push_cast at b1; omega) hne
              omega
          · intro _
            exact ⟨by omega, by push_cast; omega, by omega, rfl⟩
        · rw [if_neg hge]
          dsimp only
          refine ⟨by omega, by push_cast; omega, rfl, ?_, by omega,
            by omega, ?_, ?_, by omega⟩
          · intro j b0 b1
            by_cases hj : j = 1 + (k : Int)
            · subst hj; exact le_refl _
            · have := a4 j b0 (by push_cast at b1; omega)
              omega
          · intro j b0 b1 hne
            by_cases hj1 : j = r.j1
            · subst hj1; omega
            · exact le_trans a5 (a7 j b0 (by push_cast at b1; omega) hj1)
          · intro _
            exact ⟨a1, by push_cast; omega, by omega, a3⟩
      · rw [if_neg hlt]
        have hk1' : 1 ≤ k := by
          by_contra hk0
          have : k = 0 := by omega
          subst this
          have : r.usubmin = BIG := a9 rfl
          simp only [Nat.cast_zero, add_zero] at hlt hh
          omega
        obtain ⟨b1, b2, b3, b4⟩ := a8 hk1'
        refine ⟨a1, by push_cast; omega, a3, ?_, a5, a6, ?_, ?_, by omega⟩
        · intro j c0 c1
          by_cases hj : j = 1 + (k : Int)
          · subst hj; omega
          · exact a4 j c0 (by push_cast at c1; omega)
        · intro j c0 c1 hne
          by_cases hj : j = 1 + (k : Int)
          · subst hj; omega
          · exact a7 j c0 (by push_cast at c1; omega) hne
        · intro _
          exact ⟨b1, by push_cast; omega, b3, b4⟩)
  have hcast : (1 : Int) + ((dim - 1 : Nat) : Int) = dim := by omega
  obtain ⟨a1, a2, a3, a4, a5, a6, a7, a8, a9⟩ := key (by omega)
  rw [hcast] at a2 a4 a7 a8
  refine ⟨a1, a2, a3, a4, a5, a6, a7, ?_, ?_⟩
  · intro h2
    exact a8 (by omega)
  · intro h1
    exact a9 (by omega)

/-- Assigning a free row `i` to column `jn` keeps the partial solution
consistent, when the prices only go down, change at `jn` only, and `jn` has
minimum reduced cost in row `i`. -/
theorem assign_sol (dim : Nat) (c : Int → Int → Int) (rowsol colsol v v' : Int → Int)
    (i jn : Int) (h : PartialSol dim c rowsol colsol v)
    (hi1 : i < dim) (hfree : FreeRow dim colsol i)
    (hv1 : ∀ j : Int, 0 ≤ j → j < dim → v' j ≤ v j)
    (hv2 : ∀ j : Int, 0 ≤ j → j < dim → j ≠ jn → v' j = v j)
    (ht : ∀ j' : Int, 0 ≤ j' → j' < dim → c i jn - v' jn ≤ c i j' - v' j') :
    PartialSol dim c (Function.update rowsol i jn) (Function.update colsol jn i) v' := by
  refine ⟨?_, ?_, ?_⟩
  · intro j h0 h1
    simp only [Function.update_apply]
    split_ifs
    · exact hi1
    · exact h.col_lt j h0 h1
  · intro j h0 h1
    simp only [Function.update_apply]
    by_cases hj : j = jn
    · simp only [if_pos hj, if_true]
      intro _; exact hj.symm
    · simp only [if_neg hj]
      intro hc
      rw [if_neg (hfree j h0 h1)]
      exact h.col_row j h0 h1 hc
  · intro j h0 h1
    simp only [Function.update_apply]
    by_cases hj : j = jn
    · simp only [if_pos hj]
      intro _ j' h0' h1'
      rw [hj]
      exact ht j' h0' h1'
    · simp only [if_neg hj]
      intro hc j' h0' h1'
      have t := h.tight j h0 h1 hc j' h0' h1'
      have e := hv2 j h0 h1 hj
      have l := hv1 j' h0' h1'
      omega

theorem assign_free (dim : Nat) (c : Int → Int → Int) (rowsol colsol v : Int → Int)
    (i jn : Int) (h : PartialSol dim c rowsol colsol v)
    (hfree : FreeRow dim colsol i) (hj0 : 0 ≤ jn) (hj1 : jn < dim)
    (x : Int) (hx0 : 0 ≤ x) :
    FreeRow dim (Function.update colsol jn i) x ↔
      x ≠ i ∧ (FreeRow dim colsol x ∨ x = colsol jn) := by
  constructor
  · intro hf
    have hxi : x ≠ i := by
      intro e
      have := hf jn hj0 hj1
      rw [Function.update_same] at this
      exact this e.symm
    refine ⟨hxi, ?_⟩
    by_cases hx : x = colsol jn
    · exact Or.inr hx
    · left
      intro j h0 h1
      by_cases hj : j = jn
      · rw [hj]; exact fun e => hx e.symm
      · have := hf j h0 h1
        rw [Function.update_noteq hj] at this
        exact this
  · rintro ⟨hxi, hor⟩ j h0 h1
    simp only [Function.update_apply]
    split_ifs with hj
    · exact fun e => hxi e.symm
    · rcases hor with hf | hx
      · exact hf j h0 h1
      · intro e
        have r1 := h.col_row j h0 h1 (by omega)
        have r2 := h.col_row jn hj0 hj1 (by omega)
        rw [e, hx, r2] at r1
        exact hj r1.symm

/-- The free list after the row `rfree[k]` took an unassigned column. -/
theorem freeList_advance (dim : Nat) (c : Int → Int → Int) (rowsol colsol v rfree : Int → Int)
    (numfree k prv jn : Int) (h : PartialSol dim c rowsol colsol v)
    (F : FreeList dim colsol rfree numfree k prv) (hk : k < prv) (hnk : numfree ≤ k)
    (hj0 : 0 ≤ jn) (hj1 : jn < dim) (hun : colsol jn < 0) :
    FreeList dim (Function.update colsol jn (rfree k)) rfree numfree (k + 1) prv := by
  obtain ⟨i0, i1, ifree⟩ := F.range k (Or.inr ⟨le_refl _, hk⟩)
  have sub : ∀ t : Int, (0 ≤ t ∧ t < numfree) ∨ (k + 1 ≤ t ∧ t < prv) →
      (0 ≤ t ∧ t < numfree) ∨ (k ≤ t ∧ t < prv) := by
    intro t ht; omega
  have hne : ∀ t : Int, (0 ≤ t ∧ t < numfree) ∨ (k + 1 ≤ t ∧ t < prv) →
      rfree t ≠ rfree k := by
    intro t ht e
    have := F.inj t k (sub t ht) (Or.inr ⟨le_refl _, hk⟩) e
    omega
  refine ⟨?_, ?_, ?_⟩
  · intro t ht
    obtain ⟨a, b, f⟩ := F.range t (sub t ht)
    refine ⟨a, b, ?_⟩
    rw [assign_free dim c rowsol colsol v (rfree k) jn h ifree hj0 hj1 (rfree t) a]
    exact ⟨hne t ht, Or.inl f⟩
  · intro t t' ht ht'
    exact F.inj t t' (sub t ht) (sub t' ht')
  · intro x hx0 hx1 hf
    rw [assign_free dim c rowsol colsol v (rfree k) jn h ifree hj0 hj1 x hx0] at hf
    obtain ⟨hxi, hor⟩ := hf
    rcases hor with hf | hx
    · obtain ⟨t, ht, e⟩ := F.complete x hx0 hx1 hf
      refine ⟨t, ?_, e⟩
      have : t ≠ k := by intro e'; rw [e'] at e; exact hxi e.symm
      omega
    · omega

/-- The free list after the row `rfree[k]` displaced the row `colsol[jn]`,
which is scanned next. -/
theorem freeList_replace (dim : Nat) (c : Int → Int → Int) (rowsol colsol v rfree : Int → Int)
    (numfree k prv jn : Int) (h : PartialSol dim c rowsol colsol v)
    (F : FreeList dim colsol rfree numfree k prv) (hk : k < prv) (hnk : numfree ≤ k)
    (hj0 : 0 ≤ jn) (hj1 : jn < dim) (has : 0 ≤ colsol jn) :
    FreeList dim (Function.update colsol jn (rfree k))
      (Function.update rfree k (colsol jn)) numfree k prv := by
  obtain ⟨i0, i1, ifree⟩ := F.range k (Or.inr ⟨le_refl _, hk⟩)
  have hne : ∀ t : Int, (0 ≤ t ∧ t < numfree) ∨ (k ≤ t ∧ t < prv) → t ≠ k →
      rfree t ≠ rfree k := by
    intro t ht htk e
    exact htk (F.inj t k ht (Or.inr ⟨le_refl _, hk⟩) e)
  have hdis : colsol jn ≠ rfree k := fun e => ifree jn hj0 hj1 e
  have hnotfree : ¬ FreeRow dim colsol (colsol jn) := fun f => f jn hj0 hj1 rfl
  refine ⟨?_, ?_, ?_⟩
  · intro t ht
    simp only [Function.update_apply]
    by_cases htk : t = k
    · rw [if_pos htk]
      refine ⟨has, h.col_lt jn hj0 hj1, ?_⟩
      rw [assign_free dim c rowsol colsol v (rfree k) jn h ifree hj0 hj1 _ has]
      exact ⟨hdis, Or.inr rfl⟩
    · rw [if_neg htk]
      obtain ⟨a, b, f⟩ := F.range t ht
      refine ⟨a, b, ?_⟩
      rw [assign_free dim c rowsol colsol v (rfree k) jn h ifree hj0 hj1 (rfree t) a]
      exact ⟨hne t ht htk, Or.inl f⟩
  · intro t t' ht ht'
    simp only [Function.update_apply]
    by_cases htk : t = k
    · by_cases htk' : t' = k
      · intro _; rw [htk, htk']
      · rw [if_pos htk, if_neg htk']
        intro e
        exact absurd (e ▸ (F.range t' ht').2.2) hnotfree
    · by_cases htk' : t' = k
      · rw [if_neg htk, if_pos htk']
        intro e
        exact absurd (e ▸ (F.range t ht).2.2) hnotfree
      · rw [if_neg htk, if_neg htk']
        exact F.inj t t' ht ht'
  · intro x hx0 hx1 hf
    rw [assign_free dim c rowsol colsol v (rfree k) jn h ifree hj0 hj1 x hx0] at hf
    obtain ⟨hxi, hor⟩ := hf
    rcases hor with hf | hx
    · obtain ⟨t, ht, e⟩ := F.complete x hx0 hx1 hf
      have : t ≠ k := by intro e'; rw [e'] at e; exact hxi e.symm
      exact ⟨t, ht, by rw [Function.update_noteq this]; exact e⟩
    · exact ⟨k, Or.inr ⟨le_refl _, hk⟩, by rw [Function.update_same]; exact hx.symm⟩

/-- The free list after the row `rfree[k]` displaced the row `colsol[jn]`,
which is stored for the next phase. -/
theorem freeList_defer (dim : Nat) (c : Int → Int → Int) (rowsol colsol v rfree : Int → Int)
    (numfree k prv jn : Int) (h : PartialSol dim c rowsol colsol v)
    (F : FreeList dim colsol rfree numfree k prv) (hk : k < prv) (hnk : numfree ≤ k)
    (hn0 : 0 ≤ numfree)
    (hj0 : 0 ≤ jn) (hj1 : jn < dim) (has : 0 ≤ colsol jn) :
    FreeList dim (Function.update colsol jn (rfree k))
      (Function.update rfree numfree (colsol jn)) (numfree + 1) (k + 1) prv := by
  obtain ⟨i0, i1, ifree⟩ := F.range k (Or.inr ⟨le_refl _, hk⟩)
  have sub : ∀ t : Int, (0 ≤ t ∧ t < numfree + 1) ∨ (k + 1 ≤ t ∧ t < prv) → t ≠ numfree →
      ((0 ≤ t ∧ t < numfree) ∨ (k ≤ t ∧ t < prv)) ∧ t ≠ k := by
    intro t ht hne; omega
  have hne : ∀ t : Int, (0 ≤ t ∧ t < numfree) ∨ (k ≤ t ∧ t < prv) → t ≠ k →
      rfree t ≠ rfree k := by
    intro t ht htk e
    exact htk (F.inj t k ht (Or.inr ⟨le_refl _, hk⟩) e)
  have hdis : colsol jn ≠ rfree k := fun e => ifree jn hj0 hj1 e
  have hnotfree : ¬ FreeRow dim colsol (colsol jn) := fun f => f jn hj0 hj1 rfl
  refine ⟨?_, ?_, ?_⟩
  · intro t ht
    simp only [Function.update_apply]
    by_cases htn : t = numfree
    · rw [if_pos htn]
      refine ⟨has, h.col_lt jn hj0 hj1, ?_⟩
      rw [assign_free dim c rowsol colsol v (rfree k) jn h ifree hj0 hj1 _ has]
      exact ⟨hdis, Or.inr rfl⟩
    · rw [if_neg htn]
      obtain ⟨hidx, htk⟩ := sub t ht htn
      obtain ⟨a, b, f⟩ := F.range t hidx
      refine ⟨a, b, ?_⟩
      rw [assign_free dim c rowsol colsol v (rfree k) jn h ifree hj0 hj1 (rfree t) a]
      exact ⟨hne t hidx htk, Or.inl f⟩
  · intro t t' ht ht'
    simp only [Function.update_apply]
    by_cases htn : t = numfree
    · by_cases htn' : t' = numfree
      · intro _; rw [htn, htn']
      · rw [if_pos htn, if_neg htn']
        intro e
        exact absurd (e ▸ (F.range t' (sub t' ht' htn').1).2.2) hnotfree
    · by_cases htn' : t' = numfree
      · rw [if_neg htn, if_pos htn']
        intro e
        exact absurd (e ▸ (F.range t (sub t ht htn).1).2.2) hnotfree
      · rw [if_neg htn, if_neg htn']
        exact F.inj t t' (sub t ht htn).1 (sub t' ht' htn').1
  · intro x hx0 hx1 hf
    rw [assign_free dim c rowsol colsol v (rfree k) jn h ifree hj0 hj1 x hx0] at hf
    obtain ⟨hxi, hor⟩ := hf
    rcases hor with hf | hx
    · obtain ⟨t, ht, e⟩ := F.complete x hx0 hx1 hf
      have htk : t ≠ k := by intro e'; rw [e'] at e; exact hxi e.symm
      have htn : t ≠ numfree := by omega
      exact ⟨t, by omega, by rw [Function.update_noteq htn]; exact e⟩
    · exact ⟨numfree, by omega, by rw [Function.update_same]; exact hx.symm⟩

theorem arrStep_inv (dim : Nat) (c : Int → Int → Int) (lo hi prv : Int) (p : St × Int)
    (hc : ∀ i j : Int, 0 ≤ i → i < dim → 0 ≤ j → j < dim → lo ≤ c i j ∧ c i j ≤ hi)
    (hB : 2 * (hi - lo) < BIG)
    (h : ArrInv dim c lo prv p) (hk : p.2 < prv) :
    ArrInv dim c lo prv (arrStep dim c p) ∧
    vsum dim (arrStep dim c p).1.v + (prv - (arrStep dim c p).2) + 1 ≤
      vsum dim p.1.v + (prv - p.2) := by
  obtain ⟨s, k⟩ := p
  have hsol : PartialSol dim c s.rowsol s.colsol s.v := h.sol
  have hunv : ∀ j : Int, 0 ≤ j → j < dim → s.colsol j < 0 → lo ≤ s.v j := h.un_v
  have hvlow : ∀ j : Int, 0 ≤ j → j < dim → lo - BIG ≤ s.v j := h.vlow
  have hnf0 : 0 ≤ s.numfree := h.nf0
  have hnfk : s.numfree ≤ k := h.nfk
  have hkprv : k ≤ prv := h.kprv
  have hfl : FreeList dim s.colsol s.rfree s.numfree k prv := h.fl
  have hk' : k < prv := hk
  obtain ⟨i0, i1, ifree⟩ := hfl.range k (Or.inr ⟨le_refl _, hk'⟩)
  obtain ⟨ju, ju0, ju1, jun⟩ := exists_unassigned dim s.rowsol s.colsol hsol.col_lt
    hsol.col_row (s.rfree k) i0 i1 ifree
  have hlohi : lo ≤ hi := by
    have := hc (s.rfree k) ju i0 i1 ju0 ju1; omega
  have hvj : ∀ j : Int, 0 ≤ j → j < dim → 2 * lo - hi ≤ s.v j := by
    intro j j0 j1
    by_cases hcj : s.colsol j < 0
    · have := hunv j j0 j1 hcj; omega
    · have r0 : 0 ≤ s.colsol j := by omega
      have r1 := hsol.col_lt j j0 j1
      have t := hsol.tight j j0 j1 r0 ju ju0 ju1
      have b1 := hc (s.colsol j) j r0 r1 j0 j1
      have b2 := hc (s.colsol j) ju r0 r1 ju0 ju1
      have b3 := hunv ju ju0 ju1 jun
      omega
  have hred : ∀ j : Int, 0 ≤ j → j < dim → c (s.rfree k) j - s.v j < BIG := by
    intro j j0 j1
    have := hvj j j0 j1
    have := hc (s.rfree k) j i0 i1 j0 j1
    omega
  obtain ⟨a1, a2, a3, a4, a5, a6, a7, a8, a9⟩ :=
    scanRow_spec dim c s.v (s.rfree k) s.j2 (by omega) hred
  unfold arrStep
  dsimp only
  generalize scanRow dim c s.v (s.rfree k) s.j2 = r at a1 a2 a3 a4 a5 a6 a7 a8 a9
  have hcj1 := hc (s.rfree k) r.j1 i0 i1 a1 a2
  by_cases hlt : r.umin < r.usubmin
  · simp only [if_pos hlt]
    have hsol' : PartialSol dim c (Function.update s.rowsol (s.rfree k) r.j1)
        (Function.update s.colsol r.j1 (s.rfree k))
        (Function.update s.v r.j1 (s.v r.j1 - (r.usubmin - r.umin))) := by
      apply assign_sol dim c s.rowsol s.colsol s.v _ (s.rfree k) r.j1 hsol i1 ifree
      · intro j j0 j1
        simp only [Function.update_apply]
        split_ifs with hj
        · rw [hj]; omega
        · exact le_refl _
      · intro j j0 j1 hj
        rw [Function.update_noteq hj]
      · intro j' j0' j1'
        simp only [Function.update_apply, if_true]
        split_ifs with hj
        · rw [hj]
        · have := a7 j' j0' j1' hj
          omega
    have hunv' : ∀ j : Int, 0 ≤ j → j < dim →
        Function.update s.colsol r.j1 (s.rfree k) j < 0 →
        lo ≤ Function.update s.v r.j1 (s.v r.j1 - (r.usubmin - r.umin)) j := by
      intro j j0 j1
      simp only [Function.update_apply]
      split_ifs with hj
      · intro hneg; omega
      · exact hunv j j0 j1
    have hvlow' : ∀ j : Int, 0 ≤ j → j < dim →
        lo - BIG ≤ Function.update s.v r.j1 (s.v r.j1 - (r.usubmin - r.umin)) j := by
      intro j j0 j1
      simp only [Function.update_apply]
      split_ifs with hj
      · omega
      · exact hvlow j j0 j1
    have hsum := vsum_update dim s.v r.j1 (s.v r.j1 - (r.usubmin - r.umin)) a1 a2
    by_cases hi0 : s.colsol r.j1 ≥ 0
    · simp only [if_pos hi0]
      refine ⟨⟨hsol', hunv', hvlow', hnf0, ?_, ?_, ?_⟩, ?_⟩
      · show s.numfree ≤ k + 1 - 1; omega
      · show k + 1 - 1 ≤ prv; omega
      · show FreeList dim (Function.update s.colsol r.j1 (s.rfree k))
          (Function.update s.rfree (k + 1 - 1) (s.colsol r.j1)) s.numfree (k + 1 - 1) prv
        rw [add_sub_cancel_right]
        exact freeList_replace dim c s.rowsol s.colsol s.v s.rfree s.numfree k prv r.j1 hsol
          hfl hk' hnfk a1 a2 hi0
      · show vsum dim (Function.update s.v r.j1 (s.v r.j1 - (r.usubmin - r.umin))) +
          (prv - (k + 1 - 1)) + 1 ≤ vsum dim s.v + (prv - k)
        rw [hsum]; omega
    · simp only [if_neg hi0]
      refine ⟨⟨hsol', hunv', hvlow', hnf0, ?_, ?_, ?_⟩, ?_⟩
      · show s.numfree ≤ k + 1; omega
      · show k + 1 ≤ prv; omega
      · exact freeList_advance dim c s.rowsol s.colsol s.v s.rfree s.numfree k prv r.j1 hsol
          hfl hk' hnfk a1 a2 (by omega)
      · show vsum dim (Function.update s.v r.j1 (s.v r.j1 - (r.usubmin - r.umin))) +
          (prv - (k + 1)) + 1 ≤ vsum dim s.v + (prv - k)
        rw [hsum]; omega
  · simp only [if_neg hlt]
    have heq : r.umin = r.usubmin := by omega
    by_cases hi0 : s.colsol r.j1 ≥ 0
    · simp only [if_pos hi0]
      have hd2 : 2 ≤ dim := by
        by_contra hd
        have := a9 (by omega)
        have := hred r.j1 a1 a2
        omega
      obtain ⟨b1, b2, b3, b4⟩ := a8 hd2
      have hsol' : PartialSol dim c (Function.update s.rowsol (s.rfree k) r.j2)
          (Function.update s.colsol r.j2 (s.rfree k)) s.v := by
        apply assign_sol dim c s.rowsol s.colsol s.v _ (s.rfree k) r.j2 hsol i1 ifree
        · intro j j0 j1; exact le_refl _
        · intro j j0 j1 hj; rfl
        · intro j' j0' j1'
          have := a4 j' j0' j1'
          omega
      have hunv' : ∀ j : Int, 0 ≤ j → j < dim →
          Function.update s.colsol r.j2 (s.rfree k) j < 0 → lo ≤ s.v j := by
        intro j j0 j1
        simp only [Function.update_apply]
        split_ifs with hj
        · intro hneg; omega
        · exact hunv j j0 j1
      by_cases hi2 : s.colsol r.j2 ≥ 0
      · simp only [if_pos hi2]
        refine ⟨⟨hsol', hunv', hvlow, ?_, ?_, ?_, ?_⟩, ?_⟩
        · show 0 ≤ s.numfree + 1; omega
        · show s.numfree + 1 ≤ k + 1; omega
        · show k + 1 ≤ prv; omega
        · exact freeList_defer dim c s.rowsol s.colsol s.v s.rfree s.numfree k prv r.j2 hsol
            hfl hk' hnfk hnf0 b1 b2 hi2
        · show vsum dim s.v + (prv - (k + 1)) + 1 ≤ vsum dim s.v + (prv - k)
          omega
      · simp only [if_neg hi2]
        refine ⟨⟨hsol', hunv', hvlow, hnf0, ?_, ?_, ?_⟩, ?_⟩
        · show s.numfree ≤ k + 1; omega
        · show k + 1 ≤ prv; omega
        · exact freeList_advance dim c s.rowsol s.colsol s.v s.rfree s.numfree k prv r.j2 hsol
            hfl hk' hnfk b1 b2 (by omega)
        · show vsum dim s.v + (prv - (k + 1)) + 1 ≤ vsum dim s.v + (prv - k)
          omega
    · simp only [if_neg hi0]
      have hsol' : PartialSol dim c (Function.update s.rowsol (s.rfree k) r.j1)
          (Function.update s.colsol r.j1 (s.rfree k)) s.v := by
        apply assign_sol dim c s.rowsol s.colsol s.v _ (s.rfree k) r.j1 hsol i1 ifree
        · intro j j0 j1; exact le_refl _
        · intro j j0 j1 hj; rfl
        · intro j' j0' j1'
          have := a4 j' j0' j1'
          omega
      have hunv' : ∀ j : Int, 0 ≤ j → j < dim →
          Function.update s.colsol r.j1 (s.rfree k) j < 0 → lo ≤ s.v j := by
        intro j j0 j1
        simp only [Function.update_apply]
        split_ifs with hj
        · intro hneg; omega
        · exact hunv j j0 j1
      refine ⟨⟨hsol', hunv', hvlow, hnf0, ?_, ?_, ?_⟩, ?_⟩
      · show s.numfree ≤ k + 1; omega
      · show k + 1 ≤ prv; omega
      · exact freeList_advance dim c s.rowsol s.colsol s.v s.rfree s.numfree k prv r.j1 hsol
          hfl hk' hnfk a1 a2 (by omega)
      · show vsum dim s.v + (prv - (k + 1)) + 1 ≤ vsum dim s.v + (prv - k)
        omega

theorem arrLoop_total (dim : Nat) (c : Int → Int → Int) (lo hi prv : Int)
    (hc : ∀ i j : Int, 0 ≤ i → i < dim → 0 ≤ j → j < dim → lo ≤ c i j ∧ c i j ≤ hi)
    (hB : 2 * (hi - lo) < BIG) (m : Nat) (p : St × Int)
    (h : ArrInv dim c lo prv p)
    (hm : vsum dim p.1.v - (dim : Int) * (lo - BIG) + (prv - p.2) ≤ m) :
    ∃ s' : St, arrLoop dim c prv m p = some s' ∧ ArrInv dim c lo prv (s', prv) := by
  have hlow := vsum_lower dim p.1.v (lo - BIG) h.vlow
  induction m generalizing p with
  | zero =>
    have hk : ¬ p.2 < prv := by
      intro hk; push_cast at hm; omega
    refine ⟨p.1, by simp only [arrLoop, if_neg hk], ?_⟩
    have e : p.2 = prv := by have := h.kprv; omega
    have e2 : (p.1, prv) = p := by rw [← e]
    rw [e2]; exact h
  | succ n ih =>
    by_cases hk : p.2 < prv
    · obtain ⟨hinv, hdec⟩ := arrStep_inv dim c lo hi prv p hc hB h hk
      have := ih (arrStep dim c p) hinv (by push_cast at hm; omega)
        (vsum_lower dim _ (lo - BIG) hinv.vlow)
      simpa only [arrLoop, if_pos hk] using this
    · refine ⟨p.1, by simp only [arrLoop, if_neg hk], ?_⟩
      have e : p.2 = prv := by have := h.kprv; omega
      have e2 : (p.1, prv) = p := by rw [← e]
      rw [e2]; exact h

theorem arrLoop_mono (dim : Nat) (c : Int → Int → Int) (prv : Int) (m : Nat) (p : St × Int)
    (r : St) (h : arrLoop dim c prv m p = some r) : arrLoop dim c prv (m + 1) p = some r := by
  induction m generalizing p with
  | zero =>
    by_cases hk : p.2 < prv
    · simp only [arrLoop, if_pos hk] at h
      exact absurd h (by simp)
    · simp only [arrLoop, if_neg hk] at h ⊢
      exact h
  | succ n ih =>
    by_cases hk : p.2 < prv
    · simp only [arrLoop, if_pos hk] at h
      have := ih (arrStep dim c p) h
      rw [arrLoop, if_pos hk]
      exact this
    · simp only [arrLoop, if_neg hk] at h ⊢
      exact h

theorem arrInv_restart (dim : Nat) (c : Int → Int → Int) (lo prv : Int) (s : St)
    (h : ArrInv dim c lo prv (s, prv)) :
    ArrInv dim c lo s.numfree ({ s with numfree := 0 }, 0) := by
  have hfl : FreeList dim s.colsol s.rfree s.numfree prv prv := h.fl
  refine ⟨h.sol, h.un_v, h.vlow, le_refl _, le_refl _, h.nf0, ⟨?_, ?_, ?_⟩⟩
  · intro t ht
    have ht : (0 ≤ t ∧ t < (0 : Int)) ∨ (0 ≤ t ∧ t < s.numfree) := ht
    exact hfl.range t (by
      rcases ht with ht | ht
      · omega
      · exact Or.inl ht)
  · intro t t' ht ht'
    have ht : (0 ≤ t ∧ t < (0 : Int)) ∨ (0 ≤ t ∧ t < s.numfree) := ht
    have ht' : (0 ≤ t' ∧ t' < (0 : Int)) ∨ (0 ≤ t' ∧ t' < s.numfree) := ht'
    exact hfl.inj t t'
      (by rcases ht with ht | ht
          · omega
          · exact Or.inl ht)
      (by rcases ht' with ht' | ht'
          · omega
          · exact Or.inl ht')
  · intro i i0 i1 hf
    obtain ⟨t, ht, e⟩ := hfl.complete i i0 i1 hf
    refine ⟨t, ?_, e⟩
    rcases ht with ht | ht
    · exact Or.inr ht
    · omega

theorem arrPass_total (dim : Nat) (c : Int → Int → Int) (lo hi prv : Int)
    (hc : ∀ i j : Int, 0 ≤ i → i < dim → 0 ≤ j → j < dim → lo ≤ c i j ∧ c i j ≤ hi)
    (hB : 2 * (hi - lo) < BIG) (s : St) (h : ArrInv dim c lo prv (s, prv)) :
    ∃ (m : Nat) (s' : St), arrPass m dim c s = some s' ∧
      ArrInv dim c lo s.numfree (s', s.numfree) := by
  have h0 := arrInv_restart dim c lo prv s h
  obtain ⟨s', e, hinv⟩ := arrLoop_total dim c lo hi s.numfree hc hB
    (vsum dim s.v - (dim : Int) * (lo - BIG) + (s.numfree - 0)).toNat
    ({ s with numfree := 0 }, 0) h0 (by
      show vsum dim s.v - (dim : Int) * (lo - BIG) + (s.numfree - 0) ≤ _
      exact Int.self_le_toNat _)
  exact ⟨_, s', e, hinv⟩

theorem transferInv_arrInv (dim : Nat) (c : Int → Int → Int) (lo hi : Int) (s : St)
    (hc : ∀ i j : Int, 0 ≤ i → i < dim → 0 ≤ j → j < dim → lo ≤ c i j ∧ c i j ≤ hi)
    (h : TransferInv dim c dim s) : ArrInv dim c lo s.numfree (s, s.numfree) := by
  refine ⟨h.sol, ?_, ?_, h.nf0, le_refl _, le_refl _, ⟨?_, ?_, ?_⟩⟩
  · intro j j0 j1 hneg
    obtain ⟨i, i0, i1, e⟩ := h.un_v j j0 j1 hneg
    have := hc i j i0 i1 j0 j1
    show lo ≤ s.v j
    omega
  · intro j j0 j1
    obtain ⟨i, i0, i1, e⟩ := h.vlow j j0 j1
    have := hc i j i0 i1 j0 j1
    show lo - BIG ≤ s.v j
    omega
  · intro t ht
    have ht' : 0 ≤ t ∧ t < s.numfree := by
      rcases ht with ht | ht
      · exact ht
      · exfalso; have : s.numfree ≤ t ∧ t < s.numfree := ht; omega
    obtain ⟨a, b, e⟩ := h.rf_range t ht'.1 ht'.2
    exact ⟨a, b, h.m_zero _ a b e⟩
  · intro t t' ht ht'
    have a : 0 ≤ t ∧ t < s.numfree := by
      rcases ht with ht | ht
      · exact ht
      · exfalso; have : s.numfree ≤ t ∧ t < s.numfree := ht; omega
    have b : 0 ≤ t' ∧ t' < s.numfree := by
      rcases ht' with ht' | ht'
      · exact ht'
      · exfalso; have : s.numfree ≤ t' ∧ t' < s.numfree := ht'; omega
    exact h.rf_inj t t' a.1 a.2 b.1 b.2
  · intro i i0 i1 hf
    have hz : s.matchcnt i = 0 := by
      by_contra hne
      have := h.m_nonneg i i0 i1
      obtain ⟨a, b, e⟩ := h.m_pos i i0 i1 (by omega)
      exact hf _ a b e
    obtain ⟨t, a, b, e⟩ := h.rf_complete i i0 i1 hz
    exact ⟨t, Or.inl ⟨a, b⟩, e⟩

theorem isPerm_swap (dim : Nat) (cl : Int → Int) (a b : Int) (h : IsPerm dim cl)
    (a0 : 0 ≤ a) (a1 : a < dim) (b0 : 0 ≤ b) (b1 : b < dim) :
    IsPerm dim (Function.update (Function.update cl a (cl b)) b (cl a)) := by
  have val : ∀ t : Int, Function.update (Function.update cl a (cl b)) b (cl a) t =
      if t = b then cl a else if t = a then cl b else cl t := by
    intro t; simp only [Function.update_apply]
  refine ⟨?_, ?_, ?_⟩
  · intro t t0 t1
    rw [val]
    split_ifs
    · exact h.range a a0 a1
    · exact h.range b b0 b1
    · exact h.range t t0 t1
  · intro t t' t0 t1 t0' t1'
    rw [val, val]
    intro e
    split_ifs at e with h1 h2 h3 h4 h5 h6 h7 h8
    · omega
    · have := h.inj a b a0 a1 b0 b1 e; omega
    · have := h.inj a t' a0 a1 t0' t1' e; omega
    · have := h.inj b a b0 b1 a0 a1 e; omega
    · omega
    · have := h.inj b t' b0 b1 t0' t1' e; omega
    · have := h.inj t a t0 t1 a0 a1 e; omega
    · have := h.inj t b t0 t1 b0 b1 e; omega
    · exact h.inj t t' t0 t1 t0' t1' e
  · intro j j0 j1
    obtain ⟨t, t0, t1, e⟩ := h.surj j j0 j1
    by_cases hta : t = a
    · refine ⟨b, b0, b1, ?_⟩
      rw [val, if_pos rfl, ← hta]; exact e
    · by_cases htb : t = b
      · refine ⟨a, a0, a1, ?_⟩
        rw [val]
        by_cases hab : a = b
        · rw [if_pos hab, hab, ← htb]; exact e
        · rw [if_neg hab, if_pos rfl, ← htb]; exact e
      · refine ⟨t, t0, t1, ?_⟩
        rw [val, if_neg htb, if_neg hta]; exact e

theorem minScanStep_inv (dim : Nat) (q0 : Search) (K : Int) (q : Search)
    (h0 : 0 ≤ q0.low) (h : MinScanInv dim q0 K q) (hK : K < dim) :
    MinScanInv dim q0 (K + 1) (minScanStep K q) := by
  have hlow0 : 0 ≤ q.low := by rw [h.low_eq]; exact h0
  have hlu := h.lowup
  have huK := h.upK
  unfold minScanStep
  dsimp only
  by_cases hle : q.d (q.collist K) ≤ q.min
  · rw [if_pos hle]
    by_cases hlt : q.d (q.collist K) < q.min
    · simp only [if_pos hlt]
      have val : ∀ t : Int,
          Function.update (Function.update q.collist K (q.collist q.low)) q.low (q.collist K) t =
          if t = q.low then q.collist K else if t = K then q.collist q.low else q.collist t := by
        intro t; simp only [Function.update_apply]
      refine ⟨h.low_eq, h.last_eq, h.d_eq, h.pred_eq, h.found_eq, ?_, ?_, ?_, ?_, ?_, ?_, ?_⟩
      · show q.low < q.low + 1; omega
      · show q.low + 1 ≤ K + 1; omega
      · exact isPerm_swap dim q.collist K q.low h.perm (by omega) hK hlow0 (by omega)
      · intro t t0 t1
        show Function.update (Function.update q.collist K (q.collist q.low)) q.low
          (q.collist K) t = q0.collist t
        rw [val, if_neg (by rw [h.low_eq]; omega), if_neg (by rw [h.low_eq] at hlu; omega)]
        exact h.ready_eq t t0 t1
      · intro t t0 t1
        have t1' : t < q.low + 1 := t1
        have t0' : q.low ≤ t := t0
        have : t = q.low := by omega
        show q.d (Function.update (Function.update q.collist K (q.collist q.low)) q.low
          (q.collist K) t) = q.d (q.collist K)
        rw [val, if_pos this]
      · intro t t0 t1
        have t0' : q.low + 1 ≤ t := t0
        show q.d (q.collist K) < q.d (Function.update (Function.update q.collist K
          (q.collist q.low)) q.low (q.collist K) t)
        rw [val, if_neg (by omega)]
        by_cases htK : t = K
        · rw [if_pos htK]
          have := h.scan_d q.low (le_refl _) hlu
          omega
        · rw [if_neg htK]
          by_cases htu : t < q.up
          · have := h.scan_d t (by omega) htu
            omega
          · have := h.todo_d t (by omega) (by omega)
            omega
      · intro t t' t0 t1 t0' t1'
        have t1a : t < q.low := t1
        have t0a : q.low ≤ t' := t0'
        show q.d (Function.update (Function.update q.collist K (q.collist q.low)) q.low
          (q.collist K) t) ≤ q.d (Function.update (Function.update q.collist K
          (q.collist q.low)) q.low (q.collist K) t')
        rw [val, val, if_neg (by omega), if_neg (by omega)]
        split_ifs
        · exact h.sep t K t0 t1a (by omega) hK
        · exact h.sep t q.low t0 t1a (le_refl _) (by omega)
        · exact h.sep t t' t0 t1a t0a t1'
    · simp only [if_neg hlt]
      have heq : q.d (q.collist K) = q.min := by omega
      have val : ∀ t : Int,
          Function.update (Function.update q.collist K (q.collist q.up)) q.up (q.collist K) t =
          if t = q.up then q.collist K else if t = K then q.collist q.up else q.collist t := by
        intro t; simp only [Function.update_apply]
      refine ⟨h.low_eq, h.last_eq, h.d_eq, h.pred_eq, h.found_eq, ?_, ?_, ?_, ?_, ?_, ?_, ?_⟩
      · show q.low < q.up + 1; omega
      · show q.up + 1 ≤ K + 1; omega
      · exact isPerm_swap dim q.collist K q.up h.perm (by omega) hK (by omega) (by omega)
      · intro t t0 t1
        show Function.update (Function.update q.collist K (q.collist q.up)) q.up
          (q.collist K) t = q0.collist t
        rw [val, if_neg (by rw [h.low_eq] at hlu; omega),
          if_neg (by rw [h.low_eq] at hlu; omega)]
        exact h.ready_eq t t0 t1
      · intro t t0 t1
        have t1' : t < q.up + 1 := t1
        have t0' : q.low ≤ t := t0
        show q.d (Function.update (Function.update q.collist K (q.collist q.up)) q.up
          (q.collist K) t) = q.min
        rw [val]
        by_cases htu : t = q.up
        · rw [if_pos htu]; exact heq
        · rw [if_neg htu, if_neg (by omega)]
          exact h.scan_d t t0' (by omega)
      · intro t t0 t1
        have t0' : q.up + 1 ≤ t := t0
        show q.min < q.d (Function.update (Function.update q.collist K
          (q.collist q.up)) q.up (q.collist K) t)
        rw [val, if_neg (by omega)]
        by_cases htK : t = K
        · rw [if_pos htK]
          exact h.todo_d q.up (le_refl _) (by omega)
        · rw [if_neg htK]
          exact h.todo_d t (by omega) (by omega)
      · intro t t' t0 t1 t0' t1'
        have t1a : t < q.low := t1
        have t0a : q.low ≤ t' := t0'
        show q.d (Function.update (Function.update q.collist K (q.collist q.up)) q.up
          (q.collist K) t) ≤ q.d (Function.update (Function.update q.collist K
          (q.collist q.up)) q.up (q.collist K) t')
        rw [val, val, if_neg (by omega), if_neg (by omega)]
        split_ifs
        · exact h.sep t K t0 t1a (by omega) hK
        · exact h.sep t q.up t0 t1a (by omega) (by omega)
        · exact h.sep t t' t0 t1a t0a t1'
  · rw [if_neg hle]
    refine ⟨h.low_eq, h.last_eq, h.d_eq, h.pred_eq, h.found_eq, h.lowup, by omega, h.perm,
      h.ready_eq, h.scan_d, ?_, h.sep⟩
    intro t t0 t1
    by_cases htK : t = K
    · rw [htK]; omega
    · exact h.todo_d t t0 (by omega)

theorem findUnassigned_none (colsol cl : Int → Int) (k : Int) (n : Nat)
    (h : findUnassigned colsol cl k n = none) :
    ∀ t : Int, k ≤ t → t < k + n → 0 ≤ colsol (cl t) := by
  induction n generalizing k with
  | zero => intro t t0 t1; simp at t1; omega
  | succ m ih =>
    intro t t0 t1
    simp only [findUnassigned] at h
    by_cases hk : colsol (cl k) < 0
    · rw [if_pos hk] at h; exact absurd h (by simp)
    · rw [if_neg hk] at h
      by_cases htk : t = k
      · rw [htk]; omega
      · exact ih (k + 1) h t (by omega) (by push_cast at t1; omega)

theorem findUnassigned_some (colsol cl : Int → Int) (k : Int) (n : Nat) (j : Int)
    (h : findUnassigned colsol cl k n = some j) :
    ∃ t : Int, k ≤ t ∧ t < k + n ∧ j = cl t ∧ colsol j < 0 := by
  induction n generalizing k with
  | zero => simp [findUnassigned] at h
  | succ m ih =>
    simp only [findUnassigned] at h
    by_cases hk : colsol (cl k) < 0
    · rw [if_pos hk] at h
      have e : cl k = j := by simpa using h
      exact ⟨k, le_refl _, by push_cast; omega, e.symm, by rw [← e]; exact hk⟩
    · rw [if_neg hk] at h
      obtain ⟨t, t0, t1, e, hn⟩ := ih (k + 1) h
      exact ⟨t, by omega, by push_cast; omega, e, hn⟩

theorem minScan_run (dim : Nat) (c : Int → Int → Int) (v colsol : Int → Int) (f0 : Int)
    (q : Search) (h : SearchInv dim c v colsol f0 q) (hul : q.up = q.low) (hud : q.up < dim) :
    MinScanInv dim q dim
      (forRange (q.up + 1) ((dim : Int) - (q.up + 1)).toNat minScanStep
        { q with last := q.low - 1, min := q.d (q.collist q.up), up := q.up + 1 }) := by
  have hc := h.core
  have key := forRange_ind
    (fun (k : Nat) (x : Search) => MinScanInv dim q (q.up + 1 + (k : Int)) x)
    (q.up + 1) ((dim : Int) - (q.up + 1)).toNat minScanStep
    { q with last := q.low - 1, min := q.d (q.collist q.up), up := q.up + 1 }
    (by
      refine ⟨rfl, rfl, rfl, rfl, h.notfound, ?_, ?_, hc.perm, fun _ _ _ => rfl, ?_, ?_, ?_⟩
      · show q.low < q.up + 1; omega
      · show q.up + 1 ≤ q.up + 1 + ((0 : Nat) : Int); simp
      · intro t t0 t1
        have t0' : q.low ≤ t := t0
        have t1' : t < q.up + 1 := t1
        have : t = q.up := by omega
        show q.d (q.collist t) = q.d (q.collist q.up)
        rw [this]
      · intro t t0 t1
        have t0' : q.up + 1 ≤ t := t0
        have t1' : t < q.up + 1 + ((0 : Nat) : Int) := t1
        simp at t1'; omega
      · intro t t' t0 t1 t0' t1'
        have t1a : t < q.low := t1
        have t0a : q.low ≤ t' := t0'
        show q.d (q.collist t) ≤ q.d (q.collist t')
        have a := hc.d_ready t t0 t1a
        have b := h.d_todo (by omega) t' (by omega) t1'
        omega)
    (by
      intro k x hk hP
      have := minScanStep_inv dim q (q.up + 1 + (k : Int)) x hc.low0 hP (by omega)
      have e : q.up + 1 + ((k + 1 : Nat) : Int) = q.up + 1 + (k : Int) + 1 := by
        push_cast; omega
      rw [e]; exact this)
  have e : q.up + 1 + ((((dim : Int) - (q.up + 1)).toNat : Nat) : Int) = dim := by
    have := hc.lowup; omega
  dsimp only at key
  rw [e] at key
  exact key

theorem newMinimum_spec (dim : Nat) (c : Int → Int → Int) (v colsol : Int → Int) (f0 : Int)
    (q : Search) (h : SearchInv dim c v colsol f0 q) (hul : q.up = q.low) (hud : q.up < dim) :
    ((newMinimum dim colsol q).found = false ∧
      SearchInv dim c v colsol f0 (newMinimum dim colsol q) ∧
      (newMinimum dim colsol q).low < (newMinimum dim colsol q).up ∧
      (newMinimum dim colsol q).low = q.low) ∨
    ((newMinimum dim colsol q).found = true ∧
      SearchDone dim c v colsol f0 (newMinimum dim colsol q)) := by
  have hc := h.core
  have hms := minScan_run dim c v colsol f0 q h hul hud
  unfold newMinimum
  dsimp only
  generalize forRange (q.up + 1) ((dim : Int) - (q.up + 1)).toNat minScanStep
    { q with last := q.low - 1, min := q.d (q.collist q.up), up := q.up + 1 } = q2 at hms
  have hl0 := hc.low0
  have hlow := hms.low_eq
  have hlast := hms.last_eq
  have hd := hms.d_eq
  have hpred := hms.pred_eq
  have hlu := hms.lowup
  have hud2 := hms.upK
  have hready := hms.ready_eq
  have hasg : ∀ t : Int, 0 ≤ t → t < q2.low → 0 ≤ colsol (q2.collist t) := by
    intro t t0 t1
    rw [hready t t0 (by omega)]
    exact hc.asg t t0 (by omega)
  have hdready : ∀ t : Int, 0 ≤ t → t < q2.low → q2.d (q2.collist t) ≤ q2.min := by
    intro t t0 t1
    have a := hms.sep t q2.low t0 t1 (le_refl _) (by omega)
    have b := hms.scan_d q2.low (le_refl _) hlu
    omega
  have hdle0 : ∀ j : Int, 0 ≤ j → j < dim → q2.d j ≤ c f0 j - v j := by
    intro j j0 j1; rw [hd]; exact hc.d_le0 j j0 j1
  have hrel : ∀ t : Int, 0 ≤ t → t < q2.low → ∀ j' : Int, 0 ≤ j' → j' < dim →
      q2.d j' ≤ q2.d (q2.collist t) + (c (colsol (q2.collist t)) j' - v j') -
        (c (colsol (q2.collist t)) (q2.collist t) - v (q2.collist t)) := by
    intro t t0 t1 j' j0' j1'
    rw [hready t t0 (by omega), hd]
    exact h.relaxed t t0 (by omega) j' j0' j1'
  have hpr : ∀ j : Int, 0 ≤ j → j < dim →
      (q2.pred j = f0 ∧ q2.d j = c f0 j - v j) ∨
      (∃ t : Int, 0 ≤ t ∧ t < q2.low ∧ q2.pred j = colsol (q2.collist t) ∧
        (∀ t' : Int, 0 ≤ t' → t' ≤ t → q2.collist t' ≠ j) ∧
        q2.d j = q2.d (q2.collist t) + (c (q2.pred j) j - v j) -
          (c (q2.pred j) (q2.collist t) - v (q2.collist t))) := by
    intro j j0 j1
    rw [hd, hpred]
    rcases hc.pred j j0 j1 with hp | ⟨t, t0, t1, e1, e2, e3⟩
    · exact Or.inl hp
    · right
      refine ⟨t, t0, by omega, ?_, ?_, ?_⟩
      · rw [hready t t0 t1]; exact e1
      · intro t' t0' t1'
        rw [hready t' t0' (by omega)]; exact e2 t' t0' t1'
      · rw [hready t t0 t1]; exact e3
  cases hfu : findUnassigned colsol q2.collist q2.low (q2.up - q2.low).toNat with
  | none =>
    left
    dsimp only
    have hnone := findUnassigned_none colsol q2.collist q2.low _ hfu
    refine ⟨hms.found_eq, ⟨⟨by omega, by omega, hud2, hms.perm, ?_, hdready, ?_, hdle0, hpr⟩,
      hms.found_eq, ?_, ?_, hrel⟩, hlu, hlow⟩
    · intro t t0 t1
      by_cases ht : t < q2.low
      · exact hasg t t0 ht
      · exact hnone t (by omega) (by omega)
    · intro t t0 t1 t2
      exact hms.scan_d t (by omega) t2
    · intro _; omega
    · intro _ t t0 t1
      exact hms.todo_d t t0 t1
  | some e =>
    right
    dsimp only
    obtain ⟨te, te0, te1, ee, eun⟩ := findUnassigned_some colsol q2.collist q2.low _ e hfu
    have te1' : te < q2.up := by omega
    have ter := hms.perm.range te (by omega) (by omega)
    have hde : q2.d e = q2.min := by rw [ee]; exact hms.scan_d te te0 te1'
    refine ⟨rfl, rfl, (show 0 ≤ q2.low by omega), (show q2.low ≤ dim by omega),
      (show q2.last < q2.low by omega), hms.perm, ?_, ?_, eun, ?_, hasg, hdready,
      ?_, ?_, hdle0, ?_, ?_, ?_⟩
    · show 0 ≤ e; rw [ee]; exact ter.1
    · show e < dim; rw [ee]; exact ter.2
    · intro t t0 t1
      have t1' : t < q2.low := t1
      show q2.collist t ≠ e
      rw [ee]
      intro heq
      have := hms.perm.inj t te t0 (by omega) (by omega) (by omega) heq
      omega
    · intro t t0 t1 t2
      have t1' : q2.last < t := t1
      have t2' : t < q2.low := t2
      omega
    · intro t t0 t1
      have t0' : q2.low ≤ t := t0
      show q2.min ≤ q2.d (q2.collist t)
      by_cases ht : t < q2.up
      · have := hms.scan_d t t0' ht; omega
      · have := hms.todo_d t (by omega) t1; omega
    · intro t t0 t1 j' j0' j1'
      exact Or.inr (hrel t t0 t1 j' j0' j1')
    · show (q2.pred e = f0 ∧ q2.min = c f0 e - v e) ∨
        (∃ t : Int, 0 ≤ t ∧ t < q2.low ∧ q2.pred e = colsol (q2.collist t) ∧
          q2.min = q2.d (q2.collist t) + (c (q2.pred e) e - v e) -
            (c (q2.pred e) (q2.collist t) - v (q2.collist t)))
      rcases hpr e (by rw [ee]; exact ter.1) (by rw [ee]; exact ter.2) with
        ⟨p1, p2⟩ | ⟨t, t0, t1, e1, _, e3⟩
      · exact Or.inl ⟨p1, by omega⟩
      · exact Or.inr ⟨t, t0, t1, e1, by omega⟩
    · intro t t0 t1
      have t1' : t < q2.low := t1
      have tr := hms.perm.range t t0 (by omega)
      rcases hpr (q2.collist t) tr.1 tr.2 with hp | ⟨t', t0', t1', e1, e2, e3⟩
      · exact Or.inl hp
      · right
        refine ⟨t', t0', ?_, e1, e3⟩
        by_contra hcon
        exact e2 t t0 (by omega) rfl

/-- The predecessor facts after `pred[j] = i; d[j] = v2` for the column `j`
at position `k`. -/
theorem relax_pred (dim : Nat) (c : Int → Int → Int) (v colsol : Int → Int) (f0 : Int)
    (i h : Int) (k : Int) (q : Search) (cl' : Int → Int)
    (R : RelaxInv dim c v colsol f0 i h k q) (hk : k < dim)
    (hagree : ∀ t : Int, 0 ≤ t → t < q.low → cl' t = q.collist t) :
    ∀ x : Int, 0 ≤ x → x < dim →
    (Function.update q.pred (q.collist k) i x = f0 ∧
      Function.update q.d (q.collist k) (c i (q.collist k) - v (q.collist k) - h) x =
        c f0 x - v x) ∨
    (∃ t : Int, 0 ≤ t ∧ t < q.low ∧
      Function.update q.pred (q.collist k) i x = colsol (cl' t) ∧
      (∀ t' : Int, 0 ≤ t' → t' ≤ t → cl' t' ≠ x) ∧
      Function.update q.d (q.collist k) (c i (q.collist k) - v (q.collist k) - h) x =
        Function.update q.d (q.collist k) (c i (q.collist k) - v (q.collist k) - h) (cl' t) +
          (c (Function.update q.pred (q.collist k) i x) x - v x) -
          (c (Function.update q.pred (q.collist k) i x) (cl' t) - v (cl' t))) := by
  have hc := R.core
  have hlu := hc.lowup
  have hl0 := hc.low0
  have hupk := R.upk
  have hl1 := R.low1
  have hne : ∀ t : Int, 0 ≤ t → t < q.low → q.collist t ≠ q.collist k := by
    intro t t0 t1 e
    have := hc.perm.inj t k t0 (by omega) (by omega) hk e
    omega
  have hdsame : ∀ t : Int, 0 ≤ t → t < q.low →
      Function.update q.d (q.collist k) (c i (q.collist k) - v (q.collist k) - h) (cl' t) =
        q.d (q.collist t) := by
    intro t t0 t1
    rw [hagree t t0 t1, Function.update_noteq (hne t t0 t1)]
  intro x x0 x1
  by_cases hx : x = q.collist k
  · right
    refine ⟨q.low - 1, by omega, by omega, ?_, ?_, ?_⟩
    · rw [hx, Function.update_same, hagree _ (by omega) (by omega)]
      exact R.row
    · intro t' t0' t1'
      rw [hagree t' t0' (by omega), hx]
      exact hne t' t0' (by omega)
    · rw [hdsame _ (by omega) (by omega), hx, Function.update_same, Function.update_same,
        hagree _ (by omega) (by omega), R.dj1]
      have := R.hval
      omega
  · rw [Function.update_noteq hx, Function.update_noteq hx]
    rcases hc.pred x x0 x1 with hp | ⟨t, t0, t1, e1, e2, e3⟩
    · exact Or.inl hp
    · right
      refine ⟨t, t0, t1, ?_, ?_, ?_⟩
      · rw [hagree t t0 t1]; exact e1
      · intro t' t0' t1'
        rw [hagree t' t0' (by omega)]
        exact e2 t' t0' t1'
      · rw [hdsame t t0 t1, hagree t t0 t1]
        exact e3

theorem relaxInv_skip (dim : Nat) (c : Int → Int → Int) (v colsol : Int → Int) (f0 : Int)
    (i h : Int) (k : Int) (q : Search)
    (R : RelaxInv dim c v colsol f0 i h k q) (hk : k < dim)
    (hge : ¬ c i (q.collist k) - v (q.collist k) - h < q.d (q.collist k)) :
    RelaxInv dim c v colsol f0 i h (k + 1) q := by
  refine ⟨R.core, R.notfound, R.low1, R.last_lt, ?_, ?_, R.d_todo, R.relaxed, R.row, R.hval,
    R.dj1, ?_⟩
  · have := R.upk; omega
  · omega
  · intro t t0 t1
    by_cases htk : t = k
    · rw [htk]; omega
    · exact R.done t t0 (by omega)

theorem relaxInv_lower (dim : Nat) (c : Int → Int → Int) (v colsol : Int → Int) (f0 : Int)
    (i h : Int) (k : Int) (q : Search)
    (R : RelaxInv dim c v colsol f0 i h k q) (hk : k < dim)
    (hmin : ∀ j' : Int, 0 ≤ j' → j' < dim → q.min ≤ c i j' - v j' - h)
    (hlt : c i (q.collist k) - v (q.collist k) - h < q.d (q.collist k))
    (hne : c i (q.collist k) - v (q.collist k) - h ≠ q.min) :
    RelaxInv dim c v colsol f0 i h (k + 1)
      { q with pred := Function.update q.pred (q.collist k) i,
               d := Function.update q.d (q.collist k)
                 (c i (q.collist k) - v (q.collist k) - h) } := by
  have hc := R.core
  have hlu := hc.lowup
  have hl0 := hc.low0
  have hupk := R.upk
  have hl1 := R.low1
  have hud := hc.updim
  have hkr := hc.perm.range k (by omega) hk
  have hnek : ∀ t : Int, 0 ≤ t → t < dim → t ≠ k → q.collist t ≠ q.collist k := by
    intro t t0 t1 tk e
    exact tk (hc.perm.inj t k t0 t1 (by omega) hk e)
  have hv2 := hmin (q.collist k) hkr.1 hkr.2
  have hhv := R.hval
  refine ⟨⟨hl0, hlu, hud, hc.perm, hc.asg, ?_, ?_, ?_, ?_⟩, R.notfound, hl1, R.last_lt,
    (show q.up ≤ k + 1 by omega), by omega, ?_, ?_, R.row, R.hval, ?_, ?_⟩
  all_goals try dsimp only
  · intro t t0 t1
    show Function.update q.d (q.collist k) _ (q.collist t) ≤ q.min
    rw [Function.update_noteq (hnek t t0 (by omega) (by omega))]
    exact hc.d_ready t t0 t1
  · intro t t0 t1 t2
    show Function.update q.d (q.collist k) _ (q.collist t) = q.min
    have t2' : t < q.up := t2
    rw [Function.update_noteq (hnek t t0 (by omega) (by omega))]
    exact hc.d_last t t0 t1 t2
  · intro j j0 j1
    show Function.update q.d (q.collist k) _ j ≤ c f0 j - v j
    have := hc.d_le0 j j0 j1
    simp only [Function.update_apply]
    split_ifs with hj
    · rw [hj] at this ⊢; omega
    · exact this
  · exact relax_pred dim c v colsol f0 i h k q q.collist R hk (fun _ _ _ => rfl)
  · intro t t0 t1
    show q.min < Function.update q.d (q.collist k) _ (q.collist t)
    have := R.d_todo t t0 t1
    simp only [Function.update_apply]
    split_ifs with hj
    · omega
    · exact this
  · intro t t0 t1 j' j0' j1'
    have t1' : t < q.low - 1 := t1
    show Function.update q.d (q.collist k) _ j' ≤
      Function.update q.d (q.collist k) _ (q.collist t) + _ - _
    rw [Function.update_noteq (hnek t t0 (by omega) (by omega))]
    have := R.relaxed t t0 t1 j' j0' j1'
    simp only [Function.update_apply]
    split_ifs with hj
    · subst hj; omega
    · exact this
  · show Function.update q.d (q.collist k) _ (q.collist (q.low - 1)) = q.min
    rw [Function.update_noteq (hnek _ (by omega) (by omega) (by omega))]
    exact R.dj1
  · intro t t0 t1
    show Function.update q.d (q.collist k) _ (q.collist t) ≤ _
    by_cases htk : t = k
    · rw [htk, Function.update_same]
    · rw [Function.update_noteq (hnek t t0 (by omega) htk)]
      exact R.done t t0 (by omega)

theorem relaxInv_scan (dim : Nat) (c : Int → Int → Int) (v colsol : Int → Int) (f0 : Int)
    (i h : Int) (k : Int) (q : Search)
    (R : RelaxInv dim c v colsol f0 i h k q) (hk : k < dim)
    (hlt : c i (q.collist k) - v (q.collist k) - h < q.d (q.collist k))
    (heq : c i (q.collist k) - v (q.collist k) - h = q.min)
    (has : ¬ colsol (q.collist k) < 0) :
    RelaxInv dim c v colsol f0 i h (k + 1)
      { q with pred := Function.update q.pred (q.collist k) i,
               collist := Function.update (Function.update q.collist k (q.collist q.up))
                 q.up (q.collist k),
               up := q.up + 1,
               d := Function.update q.d (q.collist k)
                 (c i (q.collist k) - v (q.collist k) - h) } := by
  have hc := R.core
  have hlu := hc.lowup
  have hl0 := hc.low0
  have hupk := R.upk
  have hl1 := R.low1
  have hud := hc.updim
  have hkr := hc.perm.range k (by omega) hk
  have hnek : ∀ t : Int, 0 ≤ t → t < dim → t ≠ k → q.collist t ≠ q.collist k := by
    intro t t0 t1 tk e
    exact tk (hc.perm.inj t k t0 t1 (by omega) hk e)
  have hhv := R.hval
  have val : ∀ t : Int,
      Function.update (Function.update q.collist k (q.collist q.up)) q.up (q.collist k) t =
      if t = q.up then q.collist k else if t = k then q.collist q.up else q.collist t := by
    intro t; simp only [Function.update_apply]
  have vlow : ∀ t : Int, 0 ≤ t → t < q.up →
      Function.update (Function.update q.collist k (q.collist q.up)) q.up (q.collist k) t =
        q.collist t := by
    intro t t0 t1
    rw [val, if_neg (by omega), if_neg (by omega)]
  refine ⟨⟨hl0, (show q.low ≤ q.up + 1 by omega), (show q.up + 1 ≤ dim by omega),
    isPerm_swap dim q.collist k q.up hc.perm (by omega) hk (by omega) (by omega),
    ?_, ?_, ?_, ?_, ?_⟩, R.notfound, hl1, R.last_lt,
    (show q.up + 1 ≤ k + 1 by omega), by omega, ?_, ?_, ?_, ?_, ?_, ?_⟩
  all_goals try dsimp only
  · intro t t0 t1
    by_cases htu : t = q.up
    · rw [val, if_pos htu]; omega
    · rw [vlow t t0 (by omega)]
      exact hc.asg t t0 (by omega)
  · intro t t0 t1
    rw [vlow t t0 (by omega), Function.update_noteq (hnek t t0 (by omega) (by omega))]
    exact hc.d_ready t t0 t1
  · intro t t0 t1 t2
    by_cases htu : t = q.up
    · rw [val, if_pos htu, Function.update_same]; exact heq
    · rw [vlow t t0 (by omega), Function.update_noteq (hnek t t0 (by omega) (by omega))]
      exact hc.d_last t t0 t1 (by omega)
  · intro j j0 j1
    have := hc.d_le0 j j0 j1
    simp only [Function.update_apply]
    split_ifs with hj
    · rw [hj] at this ⊢; omega
    · exact this
  · exact relax_pred dim c v colsol f0 i h k q _ R hk (fun t t0 t1 => vlow t t0 (by omega))
  · intro t t0 t1
    rw [val, if_neg (by omega)]
    by_cases htk : t = k
    · rw [if_pos htk, Function.update_noteq (hnek q.up (by omega) (by omega) (by omega))]
      exact R.d_todo q.up (le_refl _) (by omega)
    · rw [if_neg htk, Function.update_noteq (hnek t (by omega) t1 htk)]
      exact R.d_todo t (by omega) t1
  · intro t t0 t1 j' j0' j1'
    rw [vlow t t0 (by omega), Function.update_noteq (hnek t t0 (by omega) (by omega))]
    have := R.relaxed t t0 t1 j' j0' j1'
    simp only [Function.update_apply]
    split_ifs with hj
    · subst hj; omega
    · exact this
  · rw [vlow _ (by omega) (by omega)]; exact R.row
  · rw [vlow _ (by omega) (by omega)]; exact R.hval
  · rw [vlow _ (by omega) (by omega),
      Function.update_noteq (hnek _ (by omega) (by omega) (by omega))]
    exact R.dj1
  · intro t t0 t1
    rw [val]
    by_cases htu : t = q.up
    · rw [if_pos htu, Function.update_same]
    · rw [if_neg htu]
      by_cases htk : t = k
      · rw [if_pos htk, Function.update_noteq (hnek q.up (by omega) (by omega) (by omega))]
        exact R.done q.up (by omega) (by omega)
      · rw [if_neg htk, Function.update_noteq (hnek t t0 (by omega) htk)]
        exact R.done t t0 (by omega)

theorem relax_found (dim : Nat) (c : Int → Int → Int) (v colsol : Int → Int) (f0 : Int)
    (i h : Int) (k : Int) (q : Search)
    (R : RelaxInv dim c v colsol f0 i h k q) (hk : k < dim)
    (heq : c i (q.collist k) - v (q.collist k) - h = q.min)
    (hun : colsol (q.collist k) < 0) :
    SearchDone dim c v colsol f0
      { q with pred := Function.update q.pred (q.collist k) i,
               endofpath := q.collist k, found := true } := by
  have hc := R.core
  have hlu := hc.lowup
  have hl0 := hc.low0
  have hupk := R.upk
  have hl1 := R.low1
  have hud := hc.updim
  have hkr := hc.perm.range k (by omega) hk
  have hnek : ∀ t : Int, 0 ≤ t → t < dim → t ≠ k → q.collist t ≠ q.collist k := by
    intro t t0 t1 tk e
    exact tk (hc.perm.inj t k t0 t1 (by omega) hk e)
  have hhv := R.hval
  refine ⟨rfl, hl0, (show q.low ≤ dim by omega), R.last_lt, hc.perm, hkr.1, hkr.2, hun, ?_,
    ?_, hc.d_ready, ?_, ?_, hc.d_le0, ?_, ?_, ?_⟩
  all_goals try dsimp only
  · intro t t0 t1
    exact hnek t t0 (by omega) (by omega)
  · intro t t0 t1
    exact hc.asg t t0 (by omega)
  · intro t t0 t1 t2
    exact hc.d_last t t0 t1 (by omega)
  · intro t t0 t1
    by_cases htu : t < q.up
    · have := hc.d_last t (by omega) (by have := R.last_lt; omega) htu
      omega
    · have := R.d_todo t (by omega) t1
      omega
  · intro t t0 t1 j' j0' j1'
    by_cases ht : t = q.low - 1
    · left; rw [ht]; exact R.dj1
    · right; exact R.relaxed t t0 (by omega) j' j0' j1'
  · right
    refine ⟨q.low - 1, by omega, by omega, ?_, ?_⟩
    · rw [Function.update_same]; exact R.row
    · rw [Function.update_same, R.dj1]; omega
  · intro t t0 t1
    rw [Function.update_noteq (hnek t t0 (by omega) (by omega))]
    have tr := hc.perm.range t t0 (by omega)
    rcases hc.pred (q.collist t) tr.1 tr.2 with hp | ⟨t', t0', t1', e1, e2, e3⟩
    · exact Or.inl hp
    · right
      refine ⟨t', t0', ?_, e1, e3⟩
      by_contra hcon
      exact e2 t t0 (by omega) rfl

theorem relaxInv_searchInv (dim : Nat) (c : Int → Int → Int) (v colsol : Int → Int) (f0 : Int)
    (i h : Int) (q : Search)
    (R : RelaxInv dim c v colsol f0 i h dim q) :
    SearchInv dim c v colsol f0 q := by
  have hc := R.core
  have hl1 := R.low1
  refine ⟨hc, R.notfound, fun _ => R.last_lt, fun _ => R.d_todo, ?_⟩
  intro t t0 t1 j' j0' j1'
  by_cases ht : t = q.low - 1
  · obtain ⟨t', t0', t1', e⟩ := hc.perm.surj j' j0' j1'
    have := R.done t' t0' t1'
    rw [e] at this
    rw [ht, ← R.row, R.dj1]
    have := R.hval
    omega
  · exact R.relaxed t t0 (by omega) j' j0' j1'

theorem relax_spec (dim : Nat) (c : Int → Int → Int) (v colsol : Int → Int) (f0 : Int)
    (i h : Int) (n : Nat) (k : Int) (q : Search)
    (R : RelaxInv dim c v colsol f0 i h k q) (hkn : k + n = dim)
    (hmin : ∀ j' : Int, 0 ≤ j' → j' < dim → q.min ≤ c i j' - v j' - h) :
    ((relax c v colsol i h k n q).found = false ∧
      SearchInv dim c v colsol f0 (relax c v colsol i h k n q) ∧
      (relax c v colsol i h k n q).low = q.low) ∨
    ((relax c v colsol i h k n q).found = true ∧
      SearchDone dim c v colsol f0 (relax c v colsol i h k n q)) := by
  induction n generalizing k q with
  | zero =>
    have e : k = dim := by simpa using hkn
    subst e
    left
    exact ⟨R.notfound, relaxInv_searchInv dim c v colsol f0 i h q R, rfl⟩
  | succ m ih =>
    have hk : k < dim := by push_cast at hkn; omega
    have hkn' : k + 1 + (m : Int) = dim := by push_cast at hkn; omega
    simp only [relax]
    by_cases hlt : c i (q.collist k) - v (q.collist k) - h < q.d (q.collist k)
    · rw [if_pos hlt]
      by_cases heq : c i (q.collist k) - v (q.collist k) - h = q.min
      · rw [if_pos heq]
        by_cases hun : colsol (q.collist k) < 0
        · rw [if_pos hun]
          right
          exact ⟨rfl, relax_found dim c v colsol f0 i h k q R hk heq hun⟩
        · rw [if_neg hun]
          exact ih (k + 1) _ (relaxInv_scan dim c v colsol f0 i h k q R hk hlt heq hun)
            hkn' hmin
      · rw [if_neg heq]
        exact ih (k + 1) _ (relaxInv_lower dim c v colsol f0 i h k q R hk hmin hlt heq)
          hkn' hmin
    · rw [if_neg hlt]
      exact ih (k + 1) q (relaxInv_skip dim c v colsol f0 i h k q R hk hlt) hkn' hmin

theorem scanColumn_spec (dim : Nat) (c : Int → Int → Int) (v rowsol colsol : Int → Int)
    (f0 : Int) (q : Search) (hsol : PartialSol dim c rowsol colsol v)
    (h : SearchInv dim c v colsol f0 q) (hlu : q.low < q.up) :
    ((scanColumn dim c v colsol q).found = false ∧
      SearchInv dim c v colsol f0 (scanColumn dim c v colsol q) ∧
      (scanColumn dim c v colsol q).low = q.low + 1) ∨
    ((scanColumn dim c v colsol q).found = true ∧
      SearchDone dim c v colsol f0 (scanColumn dim c v colsol q)) := by
  have hc := h.core
  have hl0 := hc.low0
  have hud := hc.updim
  have hlast := h.last_lt hlu
  have hj1 := hc.perm.range q.low hl0 (by omega)
  have has := hc.asg q.low hl0 hlu
  have hdj1 := hc.d_last q.low hl0 hlast hlu
  have htight := hsol.tight (q.collist q.low) hj1.1 hj1.2 has
  have e1 : q.low + 1 - 1 = q.low := by omega
  have hmin : ∀ j' : Int, 0 ≤ j' → j' < dim →
      q.min ≤ c (colsol (q.collist q.low)) j' - v j' -
        (c (colsol (q.collist q.low)) (q.collist q.low) - v (q.collist q.low) - q.min) := by
    intro j' j0' j1'
    have := htight j' j0' j1'
    omega
  have R : RelaxInv dim c v colsol f0 (colsol (q.collist q.low))
      (c (colsol (q.collist q.low)) (q.collist q.low) - v (q.collist q.low) - q.min)
      q.up { q with low := q.low + 1 } := by
    refine ⟨⟨(show 0 ≤ q.low + 1 by omega), (show q.low + 1 ≤ q.up by omega), hud, hc.perm,
      hc.asg, ?_, hc.d_last, hc.d_le0, ?_⟩, h.notfound, (show 1 ≤ q.low + 1 by omega),
      (show q.last < q.low + 1 by omega), le_refl _, hud, h.d_todo (by omega), ?_, ?_, ?_, ?_, ?_⟩
    all_goals try dsimp only
    · intro t t0 t1
      by_cases ht : t < q.low
      · exact hc.d_ready t t0 ht
      · have : t = q.low := by omega
        rw [this, hdj1]
    · intro j j0 j1
      rcases hc.pred j j0 j1 with hp | ⟨t, t0, t1, r1, r2, r3⟩
      · exact Or.inl hp
      · exact Or.inr ⟨t, t0, by omega, r1, r2, r3⟩
    · intro t t0 t1 j' j0' j1'
      exact h.relaxed t t0 (by omega) j' j0' j1'
    · rw [e1]
    · rw [e1]
    · rw [e1]; exact hdj1
    · intro t t0 t1
      have hle : q.d (q.collist t) ≤ q.min := by
        by_cases ht : t < q.low
        · exact hc.d_ready t t0 ht
        · have := hc.d_last t t0 (by omega) t1; omega
      have tr := hc.perm.range t t0 (by omega)
      have := hmin (q.collist t) tr.1 tr.2
      omega
  have e2 : q.up + ((((dim : Int) - q.up).toNat : Nat) : Int) = dim := by omega
  have key := relax_spec dim c v colsol f0 _ _ ((dim : Int) - q.up).toNat q.up
    { q with low := q.low + 1 } R e2 hmin
  exact key

theorem searchStep_spec (dim : Nat) (c : Int → Int → Int) (v rowsol colsol : Int → Int)
    (f0 : Int) (q : Search) (hsol : PartialSol dim c rowsol colsol v)
    (hun : ∃ j : Int, 0 ≤ j ∧ j < dim ∧ colsol j < 0)
    (h : SearchInv dim c v colsol f0 q) :
    ((searchStep dim c v colsol q).found = false ∧
      SearchInv dim c v colsol f0 (searchStep dim c v colsol q) ∧
      (searchStep dim c v colsol q).low = q.low + 1) ∨
    ((searchStep dim c v colsol q).found = true ∧
      SearchDone dim c v colsol f0 (searchStep dim c v colsol q)) := by
  have hc := h.core
  unfold searchStep
  dsimp only
  by_cases hul : q.up = q.low
  · rw [if_pos hul]
    have hud : q.up < dim := by
      obtain ⟨ju, ju0, ju1, jun⟩ := hun
      obtain ⟨t, t0, t1, e⟩ := hc.perm.surj ju ju0 ju1
      by_contra hcon
      have := hc.asg t t0 (by omega)
      rw [e] at this
      omega
    rcases newMinimum_spec dim c v colsol f0 q h hul hud with ⟨nf, hinv, hlu, hlow⟩ | ⟨fd, hdone⟩
    · rw [nf]
      simp only [Bool.false_eq_true, if_false]
      rcases scanColumn_spec dim c v rowsol colsol f0 _ hsol hinv hlu with
        ⟨a, b, e⟩ | ⟨a, b⟩
      · exact Or.inl ⟨a, b, by rw [e, hlow]⟩
      · exact Or.inr ⟨a, b⟩
    · rw [fd]
      simp only [if_true]
      exact Or.inr ⟨fd, hdone⟩
  · rw [if_neg hul, h.notfound]
    simp only [Bool.false_eq_true, if_false]
    have hlu : q.low < q.up := by
      have := hc.lowup
      omega
    exact scanColumn_spec dim c v rowsol colsol f0 q hsol h hlu

theorem searchLoop_total (dim : Nat) (c : Int → Int → Int) (v rowsol colsol : Int → Int)
    (f0 : Int) (hsol : PartialSol dim c rowsol colsol v)
    (hun : ∃ j : Int, 0 ≤ j ∧ j < dim ∧ colsol j < 0)
    (m : Nat) (q : Search) (h : SearchInv dim c v colsol f0 q)
    (hm : (dim : Int) - q.low ≤ m) :
    ∃ r : Search, searchLoop dim c v colsol m q = some r ∧
      SearchDone dim c v colsol f0 r := by
  induction m generalizing q with
  | zero =>
    exfalso
    have hc := h.core
    obtain ⟨ju, ju0, ju1, jun⟩ := hun
    obtain ⟨t, t0, t1, e⟩ := hc.perm.surj ju ju0 ju1
    have hlu := hc.lowup
    have hud := hc.updim
    have := hc.asg t t0 (by push_cast at hm; omega)
    rw [e] at this
    omega
  | succ n ih =>
    simp only [searchLoop]
    rcases searchStep_spec dim c v rowsol colsol f0 q hsol hun h with ⟨a, b, e⟩ | ⟨a, b⟩
    · rw [a]
      simp only [Bool.false_eq_true, if_false]
      exact ih _ b (by rw [e]; push_cast at hm; omega)
    · rw [a]
      simp only [if_true]
      exact ⟨_, rfl, b⟩

theorem searchLoop_mono (dim : Nat) (c : Int → Int → Int) (v colsol : Int → Int)
    (m : Nat) (q r : Search) (h : searchLoop dim c v colsol m q = some r) :
    searchLoop dim c v colsol (m + 1) q = some r := by
  induction m generalizing q with
  | zero => simp [searchLoop] at h
  | succ n ih =>
    simp only [searchLoop] at h
    rw [searchLoop]
    by_cases hf : (searchStep dim c v colsol q).found = true
    · rw [if_pos hf] at h ⊢
      exact h
    · rw [if_neg hf] at h ⊢
      exact ih _ h

theorem searchInit_inv (dim : Nat) (c : Int → Int → Int) (colsol : Int → Int)
    (f0 : Int) (s : St) :
    SearchInv dim c s.v colsol f0 (searchInit dim c f0 s) := by
  have key := forRange_ind
    (fun (k : Nat) (q : Search) => q.low = 0 ∧ q.up = 0 ∧ q.found = false ∧
      ∀ j : Int, 0 ≤ j → j < k →
        q.d j = c f0 j - s.v j ∧ q.pred j = f0 ∧ q.collist j = j)
    0 dim (fun j (q : Search) =>
      { q with d := Function.update q.d j (c f0 j - s.v j),
               pred := Function.update q.pred j f0,
               collist := Function.update q.collist j j })
    { collist := s.collist, d := s.d, pred := s.pred,
      low := 0, up := 0, last := 0, min := 0, endofpath := 0, found := false }
    (by
      refine ⟨rfl, rfl, rfl, ?_⟩
      intro j j0 j1; simp at j1; omega)
    (by
      intro k q hk ⟨a, b, f, hP⟩
      refine ⟨a, b, f, ?_⟩
      intro j j0 j1
      dsimp only
      simp only [Function.update_apply]
      by_cases hj : j = 0 + (k : Int)
      · simp only [if_pos hj]
        rw [hj]; exact ⟨rfl, trivial, rfl⟩
      · simp only [if_neg hj]
        exact hP j j0 (by push_cast at j1; omega))
  obtain ⟨a, b, f, hP⟩ := key
  unfold searchInit
  dsimp only
  refine ⟨⟨by omega, by omega, by omega, ⟨?_, ?_, ?_⟩, ?_, ?_, ?_, ?_, ?_⟩, f, ?_, ?_, ?_⟩
  · intro t t0 t1
    rw [(hP t t0 t1).2.2]; exact ⟨t0, t1⟩
  · intro t t' t0 t1 t0' t1'
    rw [(hP t t0 t1).2.2, (hP t' t0' t1').2.2]
    exact id
  · intro j j0 j1
    exact ⟨j, j0, j1, (hP j j0 j1).2.2⟩
  · intro t t0 t1; omega
  · intro t t0 t1; omega
  · intro t t0 t1 t2; omega
  · intro j j0 j1
    rw [(hP j j0 j1).1]
  · intro j j0 j1
    exact Or.inl ⟨(hP j j0 j1).2.1, (hP j j0 j1).1⟩
  · intro hlu; omega
  · intro hup; omega
  · intro t t0 t1; omega

/-- The loop that updates the column prices after the search. -/
theorem priceUpdate_spec (dim : Nat) (cl d v : Int → Int) (mn last : Int)
    (hperm : IsPerm dim cl) (hlast : last < dim) :
    (∀ t : Int, 0 ≤ t → t ≤ last →
      forRange 0 (last + 1).toNat
        (fun k (w : Int → Int) => Function.update w (cl k) (w (cl k) + d (cl k) - mn)) v (cl t)
        = v (cl t) + d (cl t) - mn) ∧
    (∀ t : Int, last < t → 0 ≤ t → t < dim →
      forRange 0 (last + 1).toNat
        (fun k (w : Int → Int) => Function.update w (cl k) (w (cl k) + d (cl k) - mn)) v (cl t)
        = v (cl t)) := by
  have key := forRange_ind
    (fun (k : Nat) (w : Int → Int) => (k : Int) ≤ dim →
      ∀ t : Int, 0 ≤ t → t < dim →
        (t < k → w (cl t) = v (cl t) + d (cl t) - mn) ∧ ((k : Int) ≤ t → w (cl t) = v (cl t)))
    0 (last + 1).toNat
    (fun k (w : Int → Int) => Function.update w (cl k) (w (cl k) + d (cl k) - mn)) v
    (by
      intro _ t t0 t1
      exact ⟨fun h => by simp at h; omega, fun _ => rfl⟩)
    (by
      intro k w hk hP hkd t t0 t1
      have hP' := hP (by push_cast at hkd; omega)
      have e0 : (0 : Int) + (k : Int) = k := by omega
      rw [e0]
      simp only [Function.update_apply]
      by_cases htk : t = (k : Int)
      · rw [htk, if_pos rfl]
        have := (hP' k (by omega) (by push_cast at hkd; omega)).2 (le_refl _)
        exact ⟨fun _ => by rw [this], fun h => by push_cast at h; omega⟩
      · have hne : cl t ≠ cl (k : Int) := by
          intro e
          exact htk (hperm.inj t k t0 t1 (by omega) (by push_cast at hkd; omega) e)
        rw [if_neg hne]
        obtain ⟨a, b⟩ := hP' t t0 t1
        exact ⟨fun h => a (by push_cast at h; omega), fun h => b (by push_cast at h; omega)⟩)
  have hk : (((last + 1).toNat : Nat) : Int) ≤ dim := by omega
  have key' := key hk
  constructor
  · intro t t0 t1
    exact (key' t t0 (by omega)).1 (by omega)
  · intro t t1 t0 t2
    exact (key' t t0 t2).2 (by omega)

theorem searchDone_augReady (dim : Nat) (c : Int → Int → Int) (rowsol colsol v v' : Int → Int)
    (f0 : Int) (q : Search) (hsol : PartialSol dim c rowsol colsol v)
    (D : SearchDone dim c v colsol f0 q)
    (vA : ∀ t : Int, 0 ≤ t → t ≤ q.last → v' (q.collist t) =
      v (q.collist t) + q.d (q.collist t) - q.min)
    (vB : ∀ t : Int, q.last < t → 0 ≤ t → t < dim → v' (q.collist t) = v (q.collist t)) :
    AugReady dim c colsol v' q.pred q.collist q.low q.endofpath f0 := by
  have hl0 := D.low0
  have hld := D.lowdim
  have hll := D.last_lt
  -- price drop of a ready column, of any other column
  have dready : ∀ t : Int, 0 ≤ t → t < q.low →
      v' (q.collist t) = v (q.collist t) + q.d (q.collist t) - q.min := by
    intro t t0 t1
    by_cases ht : t ≤ q.last
    · exact vA t t0 ht
    · rw [vB t (by omega) t0 (by omega), D.d_last t t0 (by omega) t1]; omega
  have drest : ∀ t : Int, q.low ≤ t → t < dim → v' (q.collist t) = v (q.collist t) := by
    intro t t0 t1
    exact vB t (by omega) (by omega) t1
  -- `min - drop ≤ d` for every column
  have dall : ∀ j : Int, 0 ≤ j → j < dim → v' j ≤ v j ∧ q.min - (v j - v' j) ≤ q.d j := by
    intro j j0 j1
    obtain ⟨t, t0, t1, e⟩ := D.perm.surj j j0 j1
    by_cases ht : t < q.low
    · have a := dready t t0 ht
      have b := D.d_ready t t0 ht
      rw [e] at a b
      omega
    · have a := drest t (by omega) t1
      have b := D.d_rest t (by omega) t1
      rw [e] at a b
      omega
  have hgood_old : ∀ j : Int, 0 ≤ j → j < dim → 0 ≤ colsol j →
      ∀ j' : Int, 0 ≤ j' → j' < dim →
        c (colsol j) j - v' j ≤ c (colsol j) j' - v' j' := by
    intro j j0 j1 hc j' j0' j1'
    have ht := hsol.tight j j0 j1 hc j' j0' j1'
    obtain ⟨a', b'⟩ := dall j' j0' j1'
    obtain ⟨t, t0, t1, e⟩ := D.perm.surj j j0 j1
    by_cases htl : t < q.low
    · have a := dready t t0 htl
      rcases D.relaxed t t0 htl j' j0' j1' with hm | hr
      · rw [e] at a hm
        omega
      · rw [e] at a hr
        omega
    · have a := drest t (by omega) t1
      rw [e] at a
      omega
  have hf0 : ∀ j' : Int, 0 ≤ j' → j' < dim → q.min ≤ c f0 j' - v' j' := by
    intro j' j0' j1'
    obtain ⟨a', b'⟩ := dall j' j0' j1'
    have := D.d_le0 j' j0' j1'
    omega
  obtain ⟨te, te0, te1, ee⟩ := D.perm.surj q.endofpath D.e0 D.e1
  have hte : q.low ≤ te := by
    by_contra hcon
    exact D.epos te te0 (by omega) ee
  have hve : v' q.endofpath = v q.endofpath := by
    have := drest te hte te1
    rw [ee] at this; exact this
  refine ⟨D.perm, hl0, hld, D.e0, D.e1, D.eun, D.epos, D.asg, hgood_old, ?_, ?_, ?_, ?_⟩
  · intro j' j0' j1'
    rcases D.pred_e with ⟨p1, p2⟩ | ⟨t, t0, t1, p1, p2⟩
    · rw [p1, hve]
      have := hf0 j' j0' j1'
      omega
    · have tr := D.perm.range t t0 (by omega)
      have g := hgood_old (q.collist t) tr.1 tr.2 (D.asg t t0 t1) j' j0' j1'
      have a := dready t t0 t1
      rw [← p1] at g
      rw [hve]
      omega
  · intro t t0 t1 j' j0' j1'
    have a := dready t t0 t1
    rcases D.pred_ready t t0 t1 with ⟨p1, p2⟩ | ⟨t', t0', t1', p1, p2⟩
    · rw [p1]
      have := hf0 j' j0' j1'
      omega
    · have tr := D.perm.range t' t0' (by omega)
      have g := hgood_old (q.collist t') tr.1 tr.2 (D.asg t' t0' (by omega)) j' j0' j1'
      have a' := dready t' t0' (by omega)
      rw [← p1] at g
      omega
  · rcases D.pred_e with ⟨p1, _⟩ | ⟨t, t0, t1, p1, _⟩
    · exact Or.inl p1
    · exact Or.inr ⟨t, t0, t1, p1⟩
  · intro t t0 t1
    rcases D.pred_ready t t0 t1 with ⟨p1, _⟩ | ⟨t', t0', t1', p1, _⟩
    · exact Or.inl p1
    · exact Or.inr ⟨t', t0', t1', p1⟩

theorem flipInv_facts (dim : Nat) (c : Int → Int → Int) (colsol v' pred cl : Int → Int)
    (low e f0 : Int) (A : AugReady dim c colsol v' pred cl low e f0)
    (B x : Int) (rs cs : Int → Int)
    (F : FlipInv dim c colsol v' cl low e f0 B x rs cs) :
    (0 ≤ x ∧ x < dim) ∧ 0 ≤ B ∧ B ≤ low ∧
    (∀ j' : Int, 0 ≤ j' → j' < dim → c (pred x) x - v' x ≤ c (pred x) j' - v' j') ∧
    (pred x = f0 ∨ ∃ t : Int, 0 ≤ t ∧ t < B ∧ pred x = colsol (cl t)) ∧
    (∀ t : Int, 0 ≤ t → t < B → cl t ≠ x) := by
  have hl0 := A.low0
  have hld := A.lowdim
  rcases F.xb with ⟨hx, hb⟩ | ⟨b0, b1, hx⟩
  · refine ⟨by rw [hx]; exact ⟨A.e0, A.e1⟩, by omega, by omega, by rw [hx]; exact A.good_e,
      by rw [hx, hb]; exact A.path_e, ?_⟩
    intro t t0 t1
    rw [hx]; exact A.epos t t0 (by omega)
  · refine ⟨by rw [hx]; exact A.perm.range B b0 (by omega), b0, by omega,
      by rw [hx]; exact A.good_ready B b0 b1, by rw [hx]; exact A.path_ready B b0 b1, ?_⟩
    intro t t0 t1
    rw [hx]
    intro e'
    have := A.perm.inj t B t0 (by omega) b0 (by omega) e'
    omega

/-- Last step of the path: the column `x` goes to the free row `f0`. -/
theorem flip_last (dim : Nat) (c : Int → Int → Int) (colsol v' pred cl : Int → Int)
    (low e f0 : Int) (hf00 : 0 ≤ f0) (hf01 : f0 < dim)
    (A : AugReady dim c colsol v' pred cl low e f0)
    (B x : Int) (rs cs : Int → Int)
    (F : FlipInv dim c colsol v' cl low e f0 B x rs cs) (hp : pred x = f0) :
    PartialSol dim c (Function.update rs f0 x) (Function.update cs x f0) v' ∧
    (∀ r : Int, 0 ≤ r →
      (FreeRow dim (Function.update cs x f0) r ↔ r ≠ f0 ∧ FreeRow dim colsol r)) := by
  obtain ⟨hxr, hB0, hBl, hgx, _, _⟩ := flipInv_facts dim c colsol v' pred cl low e f0 A B x rs cs F
  rw [hp] at hgx
  refine ⟨⟨?_, ?_, ?_⟩, ?_⟩
  · intro j j0 j1
    simp only [Function.update_apply]
    split_ifs
    · exact hf01
    · exact F.cs_lt j j0 j1
  · intro j j0 j1
    simp only [Function.update_apply]
    by_cases hj : j = x
    · simp only [if_pos hj, if_true]
      intro _; exact hj.symm
    · simp only [if_neg hj]
      intro hc
      rw [if_neg (F.f0free j j0 j1 hj)]
      exact F.cons j j0 j1 hj hc
  · intro j j0 j1
    simp only [Function.update_apply]
    by_cases hj : j = x
    · simp only [if_pos hj]
      intro _ j' j0' j1'
      rw [hj]; exact hgx j' j0' j1'
    · simp only [if_neg hj]
      exact F.good j j0 j1 hj
  · intro r r0
    by_cases hr : r = f0
    · constructor
      · intro hf
        exfalso
        have := hf x hxr.1 hxr.2
        rw [Function.update_same] at this
        exact this hr.symm
      · rintro ⟨h1, _⟩; exact absurd hr h1
    · rw [← F.frees r r0 hr]
      constructor
      · intro hf
        refine ⟨hr, ?_⟩
        intro j j0 j1 hj
        have := hf j j0 j1
        rw [Function.update_noteq hj] at this
        exact this
      · rintro ⟨_, hf⟩ j j0 j1
        simp only [Function.update_apply]
        split_ifs with hj
        · exact fun e' => hr e'.symm
        · exact hf j j0 j1 hj

/-- Inner step of the path: the column `x` goes to the row of the ready
column `cl t`, which is to be assigned next. -/
theorem flip_next (dim : Nat) (c : Int → Int → Int) (rowsol colsol v v' pred cl : Int → Int)
    (low e f0 : Int) (hsol : PartialSol dim c rowsol colsol v)
    (hfree : FreeRow dim colsol f0)
    (A : AugReady dim c colsol v' pred cl low e f0)
    (B x : Int) (rs cs : Int → Int)
    (F : FlipInv dim c colsol v' cl low e f0 B x rs cs)
    (t : Int) (t0 : 0 ≤ t) (t1 : t < B) (hp : pred x = colsol (cl t)) :
    pred x ≠ f0 ∧ rs (pred x) = cl t ∧
    FlipInv dim c colsol v' cl low e f0 t (cl t)
      (Function.update rs (pred x) x) (Function.update cs x (pred x)) := by
  obtain ⟨hxr, hB0, hBl, hgx, _, hclx⟩ :=
    flipInv_facts dim c colsol v' pred cl low e f0 A B x rs cs F
  have hld := A.lowdim
  have htr := A.perm.range t t0 (by omega)
  have has := A.asg t t0 (by omega)
  have hi0 : 0 ≤ pred x := by rw [hp]; exact has
  have hi1 : pred x < dim := by rw [hp]; exact hsol.col_lt (cl t) htr.1 htr.2
  have hne : pred x ≠ f0 := by
    rw [hp]; exact hfree (cl t) htr.1 htr.2
  have hrs : rs (pred x) = cl t := by rw [hp]; exact F.rs_un t t0 t1
  have hxt : cl t ≠ x := hclx t t0 t1
  have hcst : cs (cl t) = pred x := by rw [F.cs_un t t0 t1, hp]
  have hcsne : ∀ j : Int, 0 ≤ j → j < dim → j ≠ x → j ≠ cl t → cs j ≠ pred x := by
    intro j j0 j1 hjx hjt e'
    have := F.cons j j0 j1 hjx (by rw [e']; exact hi0)
    rw [e', hrs] at this
    exact hjt this.symm
  refine ⟨hne, hrs, ⟨Or.inr ⟨t0, by omega, rfl⟩, ?_, ?_, ?_, ?_, ?_, ?_, ?_, ?_⟩⟩
  · rw [Function.update_noteq hxt, F.cs_un t t0 t1]
  · intro t' t0' t1'
    rw [Function.update_noteq (hclx t' t0' (by omega))]
    exact F.cs_un t' t0' (by omega)
  · intro t' t0' t1'
    have htr' := A.perm.range t' t0' (by omega)
    have has' := A.asg t' t0' (by omega)
    have hne' : colsol (cl t') ≠ pred x := by
      rw [hp]
      intro e'
      have r1 := hsol.col_row (cl t') htr'.1 htr'.2 has'
      have r2 := hsol.col_row (cl t) htr.1 htr.2 has
      rw [e', r2] at r1
      have := A.perm.inj t t' t0 (by omega) t0' (by omega) r1
      omega
    rw [Function.update_noteq hne']
    exact F.rs_un t' t0' (by omega)
  · intro j j0 j1
    simp only [Function.update_apply]
    split_ifs
    · exact hi1
    · exact F.cs_lt j j0 j1
  · intro j j0 j1 hjt
    simp only [Function.update_apply]
    by_cases hj : j = x
    · simp only [if_pos hj, if_true]
      intro _; exact hj.symm
    · simp only [if_neg hj]
      intro hc
      rw [if_neg (hcsne j j0 j1 hj hjt)]
      exact F.cons j j0 j1 hj hc
  · intro j j0 j1 hjt
    simp only [Function.update_apply]
    by_cases hj : j = x
    · simp only [if_pos hj]
      intro _ j' j0' j1'
      rw [hj]; exact hgx j' j0' j1'
    · simp only [if_neg hj]
      exact F.good j j0 j1 hj
  · intro j j0 j1 hjt
    simp only [Function.update_apply]
    split_ifs with hj
    · exact hne
    · exact F.f0free j j0 j1 hj
  · intro r r0 hr
    by_cases hri : r = pred x
    · constructor
      · intro hf
        exfalso
        have := hf x hxr.1 hxr.2 (Ne.symm hxt)
        rw [Function.update_same] at this
        exact this hri.symm
      · intro hf
        exfalso
        exact hf (cl t) htr.1 htr.2 (by rw [hri, hp])
    · rw [← F.frees r r0 hr]
      constructor
      · intro hf j j0 j1 hj
        by_cases hjt : j = cl t
        · rw [hjt, hcst]; exact fun e' => hri e'.symm
        · have := hf j j0 j1 hjt
          rw [Function.update_noteq hj] at this
          exact this
      · intro hf j j0 j1 hjt
        simp only [Function.update_apply]
        split_ifs with hj
        · exact fun e' => hri e'.symm
        · exact hf j j0 j1 hj

theorem flipPath_spec (dim : Nat) (c : Int → Int → Int) (rowsol colsol v v' pred cl : Int → Int)
    (low e f0 : Int) (hsol : PartialSol dim c rowsol colsol v)
    (hf00 : 0 ≤ f0) (hf01 : f0 < dim) (hfree : FreeRow dim colsol f0)
    (A : AugReady dim c colsol v' pred cl low e f0)
    (n : Nat) (B x : Int) (rs cs : Int → Int)
    (F : FlipInv dim c colsol v' cl low e f0 B x rs cs) (hB : B ≤ n) :
    ∃ rs' cs' : Int → Int, flipPath pred f0 (n + 1) x (rs, cs) = some (rs', cs') ∧
      PartialSol dim c rs' cs' v' ∧
      (∀ r : Int, 0 ≤ r → (FreeRow dim cs' r ↔ r ≠ f0 ∧ FreeRow dim colsol r)) := by
  induction n generalizing B x rs cs with
  | zero =>
    obtain ⟨_, _, _, _, hpx, _⟩ := flipInv_facts dim c colsol v' pred cl low e f0 A B x rs cs F
    simp only [flipPath]
    rcases hpx with hp | ⟨t, t0, t1, hp⟩
    · rw [if_neg (by rw [hp]; simp)]
      obtain ⟨a, b⟩ := flip_last dim c colsol v' pred cl low e f0 hf00 hf01 A B x rs cs F hp
      rw [hp]
      exact ⟨_, _, rfl, a, b⟩
    · exfalso
      push_cast at hB
      omega
  | succ m ih =>
    obtain ⟨_, _, _, _, hpx, _⟩ := flipInv_facts dim c colsol v' pred cl low e f0 A B x rs cs F
    rw [flipPath]
    rcases hpx with hp | ⟨t, t0, t1, hp⟩
    · rw [if_neg (by rw [hp]; simp)]
      obtain ⟨a, b⟩ := flip_last dim c colsol v' pred cl low e f0 hf00 hf01 A B x rs cs F hp
      rw [hp]
      exact ⟨_, _, rfl, a, b⟩
    · obtain ⟨hne, hrs, F'⟩ := flip_next dim c rowsol colsol v v' pred cl low e f0 hsol hfree A
        B x rs cs F t t0 t1 hp
      rw [if_pos hne, hrs]
      exact ih t (cl t) _ _ F' (by push_cast at hB; omega)

theorem flipPath_mono (pred : Int → Int) (f0 : Int) (m : Nat) (x : Int)
    (p r : (Int → Int) × (Int → Int)) (h : flipPath pred f0 m x p = some r) :
    flipPath pred f0 (m + 1) x p = some r := by
  induction m generalizing x p with
  | zero => obtain ⟨a, b⟩ := p; simp [flipPath] at h
  | succ n ih =>
    obtain ⟨a, b⟩ := p
    rw [flipPath] at h ⊢
    by_cases hi : pred x ≠ f0
    · rw [if_pos hi] at h ⊢
      exact ih _ _ h
    · rw [if_neg hi] at h ⊢
      exact h

theorem mono_le_of_step {α β : Type} (f : Nat → α → Option β)
    (hstep : ∀ (m : Nat) (a : α) (r : β), f m a = some r → f (m + 1) a = some r)
    (m m' : Nat) (a : α) (r : β) (hle : m ≤ m') (h : f m a = some r) : f m' a = some r := by
  induction m' with
  | zero =>
    have : m = 0 := by omega
    subst this; exact h
  | succ n ih =>
    by_cases hmn : m ≤ n
    · exact hstep n a r (ih hmn)
    · have : m = n + 1 := by omega
      subst this; exact h

theorem augmentStep_total (dim : Nat) (c : Int → Int → Int) (f : Int) (s : St)
    (h : AugInv dim c f s) (hf : f < s.numfree) (fuel : Nat) (hfuel : dim + 1 ≤ fuel) :
    ∃ s' : St, augmentStep fuel dim c f s = some s' ∧ AugInv dim c (f + 1) s' ∧
      s'.numfree = s.numfree := by
  have hsol := h.sol
  have hfl := h.fl
  obtain ⟨i0, i1, ifree⟩ := hfl.range f (Or.inr ⟨le_refl _, hf⟩)
  have hun := exists_unassigned dim s.rowsol s.colsol hsol.col_lt hsol.col_row (s.rfree f)
    i0 i1 ifree
  have hinit := searchInit_inv dim c s.colsol (s.rfree f) s
  obtain ⟨q, hq, D⟩ := searchLoop_total dim c s.v s.rowsol s.colsol (s.rfree f) hsol hun dim
    (searchInit dim c (s.rfree f) s) hinit (by have := hinit.core.low0; omega)
  have hq' : searchLoop dim c s.v s.colsol fuel (searchInit dim c (s.rfree f) s) = some q :=
    mono_le_of_step (fun m a => searchLoop dim c s.v s.colsol m a)
      (fun m a r hr => searchLoop_mono dim c s.v s.colsol m a r hr) dim fuel _ q (by omega) hq
  have hld := D.lowdim
  have hl0 := D.low0
  obtain ⟨vA, vB⟩ := priceUpdate_spec dim q.collist q.d s.v q.min q.last D.perm
    (by have := D.last_lt; omega)
  obtain ⟨vnew, hvnew⟩ : ∃ w : Int → Int, w = forRange 0 (q.last + 1).toNat
      (fun k (w : Int → Int) =>
        Function.update w (q.collist k) (w (q.collist k) + q.d (q.collist k) - q.min)) s.v :=
    ⟨_, rfl⟩
  rw [← hvnew] at vA vB
  have A := searchDone_augReady dim c s.rowsol s.colsol s.v vnew (s.rfree f) q hsol D vA vB
  have F : FlipInv dim c s.colsol vnew q.collist q.low q.endofpath (s.rfree f) q.low
      q.endofpath s.rowsol s.colsol := by
    refine ⟨Or.inl ⟨rfl, rfl⟩, rfl, fun _ _ _ => rfl, ?_, hsol.col_lt, ?_, ?_, ?_, ?_⟩
    · intro t t0 t1
      have tr := D.perm.range t t0 (by omega)
      exact hsol.col_row _ tr.1 tr.2 (D.asg t t0 t1)
    · intro j j0 j1 _ hc
      exact hsol.col_row j j0 j1 hc
    · intro j j0 j1 _ hc
      exact A.good_old j j0 j1 hc
    · intro j j0 j1 _
      exact ifree j j0 j1
    · intro r r0 _
      constructor
      · intro hr j j0 j1
        by_cases hj : j = q.endofpath
        · rw [hj]
          have := D.eun
          omega
        · exact hr j j0 j1 hj
      · intro hr j j0 j1 _
        exact hr j j0 j1
  obtain ⟨rs', cs', hflip, hsol', hfree'⟩ := flipPath_spec dim c s.rowsol s.colsol s.v vnew q.pred
    q.collist q.low q.endofpath (s.rfree f) hsol i0 i1 ifree A q.low.toNat q.low q.endofpath
    s.rowsol s.colsol F (by omega)
  have hflip' : flipPath q.pred (s.rfree f) fuel q.endofpath (s.rowsol, s.colsol) =
      some (rs', cs') :=
    mono_le_of_step (fun m (a : Int × ((Int → Int) × (Int → Int))) =>
        flipPath q.pred (s.rfree f) m a.1 a.2)
      (fun m a r hr => flipPath_mono q.pred (s.rfree f) m a.1 a.2 r hr)
      (q.low.toNat + 1) fuel (q.endofpath, (s.rowsol, s.colsol)) (rs', cs') (by omega) hflip
  unfold augmentStep
  dsimp only
  rw [hq']
  dsimp only
  rw [hflip']
  dsimp only
  rw [← hvnew]
  refine ⟨_, rfl, ⟨hsol', ⟨?_, ?_, ?_⟩, ?_, ?_⟩, rfl⟩
  all_goals try dsimp only
  · intro t ht
    have ht' : (0 ≤ t ∧ t < (0 : Int)) ∨ (f ≤ t ∧ t < s.numfree) := by omega
    obtain ⟨a, b, fr⟩ := hfl.range t ht'
    refine ⟨a, b, ?_⟩
    rw [hfree' _ a]
    refine ⟨?_, fr⟩
    intro e
    have := hfl.inj t f ht' (Or.inr ⟨le_refl _, hf⟩) e
    omega
  · intro t t' ht ht'
    exact hfl.inj t t' (by omega) (by omega)
  · intro i j0 j1 hfr
    rw [hfree' i j0] at hfr
    obtain ⟨t, ht, e⟩ := hfl.complete i j0 j1 hfr.2
    refine ⟨t, ?_, e⟩
    have : t ≠ f := by
      intro e'; rw [e'] at e; exact hfr.1 e.symm
    omega
  · have := h.f0; omega
  · omega

theorem augment_total (dim : Nat) (c : Int → Int → Int) (s : St)
    (h : AugInv dim c 0 s) (fuel : Nat) (hfuel : dim + 1 ≤ fuel) (n : Nat)
    (hn : (n : Int) ≤ s.numfree) :
    ∃ s' : St, augment fuel dim c n s = some s' ∧ AugInv dim c n s' ∧
      s'.numfree = s.numfree := by
  induction n with
  | zero => exact ⟨s, rfl, h, rfl⟩
  | succ m ih =>
    obtain ⟨s1, e1, h1, n1⟩ := ih (by push_cast at hn; omega)
    obtain ⟨s2, e2, h2, n2⟩ := augmentStep_total dim c m s1 h1
      (by rw [n1]; push_cast at hn; omega) fuel hfuel
    refine ⟨s2, ?_, ?_, by rw [n2, n1]⟩
    · simp only [augment, e1]
      exact e2
    · have : ((m + 1 : Nat) : Int) = (m : Int) + 1 := by push_cast; rfl
      rw [this]; exact h2

theorem arrPass_mono (dim : Nat) (c : Int → Int → Int) (s : St) (m : Nat) (r : St)
    (h : arrPass m dim c s = some r) : arrPass (m + 1) dim c s = some r :=
  arrLoop_mono dim c s.numfree m _ r h

theorem augmentStep_mono (dim : Nat) (c : Int → Int → Int) (f : Int) (s : St) (m : Nat)
    (r : St) (h : augmentStep m dim c f s = some r) :
    augmentStep (m + 1) dim c f s = some r := by
  unfold augmentStep at h ⊢
  dsimp only at h ⊢
  cases hq : searchLoop dim c s.v s.colsol m (searchInit dim c (s.rfree f) s) with
  | none => rw [hq] at h; exact absurd h (by simp)
  | some q =>
    rw [hq] at h
    rw [searchLoop_mono dim c s.v s.colsol m _ q hq]
    dsimp only at h ⊢
    cases hp : flipPath q.pred (s.rfree f) m q.endofpath (s.rowsol, s.colsol) with
    | none => rw [hp] at h; exact absurd h (by simp)
    | some p =>
      rw [hp] at h
      rw [flipPath_mono q.pred (s.rfree f) m q.endofpath _ p hp]
      exact h

theorem augment_mono (dim : Nat) (c : Int → Int → Int) (n : Nat) (s : St) (m : Nat)
    (r : St) (h : augment m dim c n s = some r) : augment (m + 1) dim c n s = some r := by
  induction n generalizing r with
  | zero => exact h
  | succ k ih =>
    simp only [augment] at h ⊢
    cases ha : augment m dim c k s with
    | none => rw [ha] at h; exact absurd h (by simp)
    | some s1 =>
      rw [ha] at h
      rw [ih s1 ha]
      exact augmentStep_mono dim c k s1 m r h

theorem LAP_lap_mono (dim : Nat) (c : Int → Int → Int) (s0 : St) (m : Nat) (r : Result)
    (h : LAP_lap m dim c s0 = some r) : LAP_lap (m + 1) dim c s0 = some r := by
  unfold LAP_lap at h ⊢
  dsimp only at h ⊢
  generalize reductionTransfer dim c (colReduction dim c
    { s0 with numfree := 0, j2 := 0,
              matchcnt := forRange 0 dim (fun i m => Function.update m i 0) s0.matchcnt }) = s4
    at h ⊢
  cases h1 : arrPass m dim c s4 with
  | none => rw [h1] at h; exact absurd h (by simp)
  | some s5 =>
    rw [h1] at h
    rw [arrPass_mono dim c s4 m s5 h1]
    dsimp only at h ⊢
    cases h2 : arrPass m dim c s5 with
    | none => rw [h2] at h; exact absurd h (by simp)
    | some s6 =>
      rw [h2] at h
      rw [arrPass_mono dim c s5 m s6 h2]
      dsimp only at h ⊢
      cases h3 : augment m dim c s6.numfree.toNat s6 with
      | none => rw [h3] at h; exact absurd h (by simp)
      | some s7 =>
        rw [h3] at h
        rw [augment_mono dim c _ s6 m s7 h3]
        exact h

theorem LAP_lap_mono_le (dim : Nat) (c : Int → Int → Int) (s0 : St) (m m' : Nat) (r : Result)
    (hle : m ≤ m') (h : LAP_lap m dim c s0 = some r) : LAP_lap m' dim c s0 = some r :=
  mono_le_of_step (fun k (a : St) => LAP_lap k dim c a)
    (fun k a r hr => LAP_lap_mono dim c a k r hr) m m' s0 r hle h

/-- The result of `LAP_lap` does not depend on the fuel. -/
theorem LAP_lap_unique (dim : Nat) (c : Int → Int → Int) (s0 : St) (m m' : Nat)
    (r r' : Result) (h : LAP_lap m dim c s0 = some r) (h' : LAP_lap m' dim c s0 = some r') :
    r = r' := by
  have a := LAP_lap_mono_le dim c s0 m (max m m') r (le_max_left _ _) h
  have b := LAP_lap_mono_le dim c s0 m' (max m m') r' (le_max_right _ _) h'
  rw [a] at b
  exact Option.some.inj b

theorem finalLoop_spec (dim : Nat) (c : Int → Int → Int) (rowsol v u0 : Int → Int) :
    (∀ i : Int, 0 ≤ i → i < dim →
      (forRange 0 dim (finalStep c rowsol v) (u0, 0)).1 i = c i (rowsol i) - v (rowsol i)) ∧
    (forRange 0 dim (finalStep c rowsol v) (u0, 0)).2 =
      ∑ i in Finset.range dim, c i (rowsol i) := by
  have key := forRange_ind
    (fun (k : Nat) (p : (Int → Int) × Int) =>
      (∀ i : Int, 0 ≤ i → i < k → p.1 i = c i (rowsol i) - v (rowsol i)) ∧
      p.2 = ∑ i in Finset.range k, c i (rowsol i))
    0 dim (finalStep c rowsol v) (u0, 0)
    (by
      refine ⟨?_, by simp⟩
      intro i i0 i1; simp at i1; omega)
    (by
      intro k p hk ⟨h1, h2⟩
      have e0 : (0 : Int) + (k : Int) = k := by omega
      rw [e0]
      unfold finalStep
      dsimp only
      refine ⟨?_, ?_⟩
      · intro i i0 i1
        simp only [Function.update_apply]
        split_ifs with hi
        · rw [hi]
        · exact h1 i i0 (by push_cast at i1; omega)
      · rw [Finset.sum_range_succ, h2])
  exact key

/-- All rows assigned: `rowsol` and `colsol` are mutually inverse. -/
theorem full_assignment (dim : Nat) (c : Int → Int → Int) (rowsol colsol v : Int → Int)
    (hsol : PartialSol dim c rowsol colsol v)
    (hall : ∀ i : Int, 0 ≤ i → i < dim → ¬ FreeRow dim colsol i) :
    (∀ i : Int, 0 ≤ i → i < dim → 0 ≤ rowsol i ∧ rowsol i < dim ∧ colsol (rowsol i) = i) ∧
    (∀ j : Int, 0 ≤ j → j < dim → 0 ≤ colsol j ∧ colsol j < dim ∧ rowsol (colsol j) = j) := by
  have hrow : ∀ i : Int, 0 ≤ i → i < dim →
      0 ≤ rowsol i ∧ rowsol i < dim ∧ colsol (rowsol i) = i := by
    intro i i0 i1
    have := hall i i0 i1
    unfold FreeRow at this
    push_neg at this
    obtain ⟨j, j0, j1, e⟩ := this
    have r := hsol.col_row j j0 j1 (by omega)
    rw [e] at r
    rw [r]
    exact ⟨j0, j1, e⟩
  refine ⟨hrow, ?_⟩
  -- a column without row would leave a row free, exchanging the roles of
  -- `rowsol` and `colsol`
  have hcol : ∀ j : Int, 0 ≤ j → j < dim → 0 ≤ colsol j := by
    by_contra hcon
    push_neg at hcon
    obtain ⟨j, j0, j1, hneg⟩ := hcon
    have hfree : FreeRow dim rowsol j := by
      intro i i0 i1 e
      have := (hrow i i0 i1).2.2
      rw [e] at this
      omega
    obtain ⟨i, i0, i1, hi⟩ := exists_unassigned dim colsol rowsol
      (fun i i0 i1 => (hrow i i0 i1).2.1)
      (fun i i0 i1 _ => (hrow i i0 i1).2.2) j j0 j1 hfree
    have := (hrow i i0 i1).1
    omega
  intro j j0 j1
  exact ⟨hcol j j0 j1, hsol.col_lt j j0 j1, hsol.col_row j j0 j1 (hcol j j0 j1)⟩

theorem arrInv_augInv (dim : Nat) (c : Int → Int → Int) (lo prv : Int) (s : St)
    (h : ArrInv dim c lo prv (s, prv)) : AugInv dim c 0 s := by
  have hfl : FreeList dim s.colsol s.rfree s.numfree prv prv := h.fl
  have hnf : 0 ≤ s.numfree := h.nf0
  refine ⟨h.sol, ⟨?_, ?_, ?_⟩, le_refl _, hnf⟩
  · intro t ht
    exact hfl.range t (by omega)
  · intro t t' ht ht'
    exact hfl.inj t t' (by omega) (by omega)
  · intro i i0 i1 hf
    obtain ⟨t, ht, e⟩ := hfl.complete i i0 i1 hf
    exact ⟨t, by omega, e⟩

/-- On a valid cost matrix `LAP_lap` returns, and what it returns is a
solution with its certificate. -/
theorem LAP_lap_total (dim : Nat) (c : Int → Int → Int) (s0 : St) (hv : ValidCost dim c) :
    ∃ (fuel : Nat) (r : Result), LAP_lap fuel dim c s0 = some r ∧ LapGood dim c r := by
  obtain ⟨lo, hi, hcN, hB⟩ := hv
  have hc : ∀ i j : Int, 0 ≤ i → i < dim → 0 ≤ j → j < dim → lo ≤ c i j ∧ c i j ≤ hi := by
    intro i j i0 i1 j0 j1
    have := hcN i.toNat (by omega) j.toNat (by omega)
    rwa [Int.toNat_of_nonneg i0, Int.toNat_of_nonneg j0] at this
  have h3 := colReduction_inv dim c
    { s0 with numfree := 0, j2 := 0,
              matchcnt := forRange 0 dim (fun i m => Function.update m i 0) s0.matchcnt }
    (fun i i0 i1 => matchcnt_init dim s0.matchcnt i i0 i1) rfl
  have h4 := reductionTransfer_inv dim c _ h3
  have h4' := transferInv_arrInv dim c lo hi _ hc h4
  obtain ⟨m1, s5, e5, h5⟩ := arrPass_total dim c lo hi _ hc hB _ h4'
  obtain ⟨m2, s6, e6, h6⟩ := arrPass_total dim c lo hi _ hc hB _ h5
  have h6' := arrInv_augInv dim c lo _ s6 h6
  have hnf := h6'.fle
  obtain ⟨s7, e7, h7, n7⟩ := augment_total dim c s6 h6' (max (max m1 m2) (dim + 1))
    (le_max_right _ _) s6.numfree.toNat (by omega)
  have e5' := mono_le_of_step (fun m (a : St) => arrPass m dim c a)
    (fun m a r hr => arrPass_mono dim c a m r hr) m1 (max (max m1 m2) (dim + 1)) _ s5
    (le_trans (le_max_left _ _) (le_max_left _ _)) e5
  have e6' := mono_le_of_step (fun m (a : St) => arrPass m dim c a)
    (fun m a r hr => arrPass_mono dim c a m r hr) m2 (max (max m1 m2) (dim + 1)) _ s6
    (le_trans (le_max_right _ _) (le_max_left _ _)) e6
  have hsol := h7.sol
  have hall : ∀ i : Int, 0 ≤ i → i < dim → ¬ FreeRow dim s7.colsol i := by
    intro i i0 i1 hf
    obtain ⟨t, ht, _⟩ := h7.fl.complete i i0 i1 hf
    rw [n7] at ht
    omega
  obtain ⟨hrow, hcol⟩ := full_assignment dim c s7.rowsol s7.colsol s7.v hsol hall
  obtain ⟨hu, hcost⟩ := finalLoop_spec dim c s7.rowsol s7.v s7.u
  refine ⟨max (max m1 m2) (dim + 1),
    { lapcost := (forRange 0 dim (finalStep c s7.rowsol s7.v) (s7.u, 0)).2,
      rowsol := s7.rowsol, colsol := s7.colsol,
      u := (forRange 0 dim (finalStep c s7.rowsol s7.v) (s7.u, 0)).1, v := s7.v }, ?_, ?_⟩
  · unfold LAP_lap
    dsimp only at e5' e6' ⊢
    rw [e5']
    dsimp only
    rw [e6']
    dsimp only
    rw [e7]
  · refine ⟨?_, ?_, ?_, ?_, ?_, ?_, hcost⟩
    · intro i i1
      obtain ⟨a, b, _⟩ := hrow i (by omega) (by omega)
      exact ⟨a, b⟩
    · intro j j1
      obtain ⟨a, b, _⟩ := hcol j (by omega) (by omega)
      exact ⟨a, b⟩
    · intro i i1
      exact (hrow i (by omega) (by omega)).2.2
    · intro j j1
      exact (hcol j (by omega) (by omega)).2.2
    · intro i i1 j j1
      show c i j - (forRange 0 dim (finalStep c s7.rowsol s7.v) (s7.u, 0)).1 i - s7.v j ≥ 0
      rw [hu i (by omega) (by omega)]
      obtain ⟨a, b, e⟩ := hrow i (by omega) (by omega)
      have t := hsol.tight (s7.rowsol i) a b (by rw [e]; omega) j (by omega) (by omega)
      rw [e] at t
      omega
    · intro i i1
      show c i (s7.rowsol i) - (forRange 0 dim (finalStep c s7.rowsol s7.v) (s7.u, 0)).1 i -
        s7.v (s7.rowsol i) = 0
      rw [hu i (by omega) (by omega)]
      omega

/-- Weak duality: a solution with a feasible, complementary slack dual pair
costs no more than any other assignment. -/
theorem lapGood_optimal (dim : Nat) (c : Int → Int → Int) (r : Result)
    (h : LapGood dim c r) (σ : Equiv.Perm (Fin dim)) :
    ∑ i in Finset.range dim, c i (r.rowsol i) ≤
      ∑ i : Fin dim, c ((i : Nat) : Int) (((σ i : Fin dim) : Nat) : Int) := by
  have e1 : ∑ i in Finset.range dim, c i (r.rowsol i) =
      ∑ i : Fin dim, c ((i : Nat) : Int) (r.rowsol ((i : Nat) : Int)) :=
    (Fin.sum_univ_eq_sum_range (fun i : Nat => c (i : Int) (r.rowsol (i : Int))) dim).symm
  have e2 : ∑ i : Fin dim, c ((i : Nat) : Int) (r.rowsol ((i : Nat) : Int)) =
      ∑ i : Fin dim, (r.u ((i : Nat) : Int) + r.v (r.rowsol ((i : Nat) : Int))) := by
    apply Finset.sum_congr rfl
    intro i _
    have := h.slack i.val i.isLt
    omega
  have e3 : ∑ i : Fin dim, r.v (r.rowsol ((i : Nat) : Int)) =
      ∑ j : Fin dim, r.v ((j : Nat) : Int) := by
    have := Equiv.sum_comp (rowPerm dim c r h) (fun j : Fin dim => r.v ((j : Nat) : Int))
    rw [← this]
    apply Finset.sum_congr rfl
    intro i _
    have a := h.row_range i.val i.isLt
    show r.v (r.rowsol (i.val : Int)) = r.v (((r.rowsol (i.val : Int)).toNat : Nat) : Int)
    rw [Int.toNat_of_nonneg a.1]
  have e4 : ∑ i : Fin dim, r.v (((σ i : Fin dim) : Nat) : Int) =
      ∑ j : Fin dim, r.v ((j : Nat) : Int) :=
    Equiv.sum_comp σ (fun j : Fin dim => r.v ((j : Nat) : Int))
  have e5 : ∑ i : Fin dim, (r.u ((i : Nat) : Int) + r.v (((σ i : Fin dim) : Nat) : Int)) ≤
      ∑ i : Fin dim, c ((i : Nat) : Int) (((σ i : Fin dim) : Nat) : Int) := by
    apply Finset.sum_le_sum
    intro i _
    have := h.feas i.val i.isLt (σ i).val (σ i).isLt
    omega
  rw [e1, e2, Finset.sum_add_distrib, e3]
  rw [Finset.sum_add_distrib, e4] at e5
  exact e5

theorem validCost_cost3 : ValidCost 3 cost3 :=
  ⟨1, 9, by decide, by decide⟩

/-- Every result of `LAP_lap` on a valid cost matrix is a solution with its
certificate, whatever the fuel. -/
theorem lapGood_of_some (dim : Nat) (c : Int → Int → Int) (s0 : St) (hv : ValidCost dim c)
    (fuel : Nat) (r : Result) (h : LAP_lap fuel dim c s0 = some r) : LapGood dim c r := by
  obtain ⟨f0, r0, e0, g0⟩ := LAP_lap_total dim c s0 hv
  have := LAP_lap_unique dim c s0 fuel f0 r r0 h e0
  rw [this]; exact g0

theorem LAP_lap_returns (dim : Nat) (c : Int → Int → Int) (s0 : St) (hv : ValidCost dim c) :
    ∃ (fuel : Nat) (r : Result), LAP_lap fuel dim c s0 = some r := by
  obtain ⟨f0, r0, e0, _⟩ := LAP_lap_total dim c s0 hv
  exact ⟨f0, r0, e0⟩

/-- C1: on a valid `dim × dim` cost matrix `LAP_lap` returns, the value it
returns is the sum over the rows `i` of `cost[i][rowsol[i]]`, and that sum is
at most the cost of every bijection of the rows onto the columns. -/
theorem LAP_lap_optimal (dim : Nat) (c : Int → Int → Int) (s0 : St) (hv : ValidCost dim c) :
    (∃ (fuel : Nat) (r : Result), LAP_lap fuel dim c s0 = some r) ∧
    ∀ (fuel : Nat) (r : Result), LAP_lap fuel dim c s0 = some r →
      r.lapcost = ∑ i in Finset.range dim, c i (r.rowsol i) ∧
      ∀ σ : Equiv.Perm (Fin dim),
        ∑ i in Finset.range dim, c i (r.rowsol i) ≤
          ∑ i : Fin dim, c ((i : Nat) : Int) (((σ i : Fin dim) : Nat) : Int) := by
  refine ⟨LAP_lap_returns dim c s0 hv, ?_⟩
  intro fuel r h
  have g := lapGood_of_some dim c s0 hv fuel r h
  exact ⟨g.cost, lapGood_optimal dim c r g⟩

theorem LAP_lap_optimal_witness :
    ValidCost 3 cost3 ∧
    ((∃ (fuel : Nat) (r : Result), LAP_lap fuel 3 cost3 zeroSt = some r) ∧
    ∀ (fuel : Nat) (r : Result), LAP_lap fuel 3 cost3 zeroSt = some r →
      r.lapcost = ∑ i in Finset.range 3, cost3 i (r.rowsol i) ∧
      ∀ σ : Equiv.Perm (Fin 3),
        ∑ i in Finset.range 3, cost3 i (r.rowsol i) ≤
          ∑ i : Fin 3, cost3 ((i : Nat) : Int) (((σ i : Fin 3) : Nat) : Int)) :=
  ⟨validCost_cost3, LAP_lap_optimal 3 cost3 zeroSt validCost_cost3⟩

/-- C2: on a valid `dim × dim` cost matrix `LAP_lap` returns, and `rowsol` and
`colsol` are then mutually inverse bijections of `0..dim-1`: every entry is in
range, `colsol[rowsol[i]] = i` for every row and `rowsol[colsol[j]] = j` for
every column. -/
theorem LAP_lap_inverse (dim : Nat) (c : Int → Int → Int) (s0 : St) (hv : ValidCost dim c) :
    (∃ (fuel : Nat) (r : Result), LAP_lap fuel dim c s0 = some r) ∧
    ∀ (fuel : Nat) (r : Result), LAP_lap fuel dim c s0 = some r →
      (∀ i : Nat, i < dim →
        0 ≤ r.rowsol i ∧ r.rowsol i < dim ∧ r.colsol (r.rowsol i) = i) ∧
      (∀ j : Nat, j < dim →
        0 ≤ r.colsol j ∧ r.colsol j < dim ∧ r.rowsol (r.colsol j) = j) := by
  refine ⟨LAP_lap_returns dim c s0 hv, ?_⟩
  intro fuel r h
  have g := lapGood_of_some dim c s0 hv fuel r h
  exact ⟨fun i hi => ⟨(g.row_range i hi).1, (g.row_range i hi).2, g.col_row i hi⟩,
    fun j hj => ⟨(g.col_range j hj).1, (g.col_range j hj).2, g.row_col j hj⟩⟩

theorem LAP_lap_inverse_witness :
    ValidCost 3 cost3 ∧
    ((∃ (fuel : Nat) (r : Result), LAP_lap fuel 3 cost3 zeroSt = some r) ∧
    ∀ (fuel : Nat) (r : Result), LAP_lap fuel 3 cost3 zeroSt = some r →
      (∀ i : Nat, i < 3 →
        0 ≤ r.rowsol i ∧ r.rowsol i < (3 : Nat) ∧ r.colsol (r.rowsol i) = i) ∧
      (∀ j : Nat, j < 3 →
        0 ≤ r.colsol j ∧ r.colsol j < (3 : Nat) ∧ r.rowsol (r.colsol j) = j)) :=
  ⟨validCost_cost3, LAP_lap_inverse 3 cost3 zeroSt validCost_cost3⟩

/-- C3: dual feasibility.  On a valid `dim × dim` cost matrix `LAP_lap`
returns, and the duals it returns satisfy `cost[i][j] - u[i] - v[j] ≥ 0` for
every row `i` and column `j`. -/
theorem LAP_lap_dual_feasible (dim : Nat) (c : Int → Int → Int) (s0 : St)
    (hv : ValidCost dim c) :
    (∃ (fuel : Nat) (r : Result), LAP_lap fuel dim c s0 = some r) ∧
    ∀ (fuel : Nat) (r : Result), LAP_lap fuel dim c s0 = some r →
      ∀ i : Nat, i < dim → ∀ j : Nat, j < dim → c i j - r.u i - r.v j ≥ 0 := by
  refine ⟨LAP_lap_returns dim c s0 hv, ?_⟩
  intro fuel r h
  exact (lapGood_of_some dim c s0 hv fuel r h).feas

theorem LAP_lap_dual_feasible_witness :
    ValidCost 3 cost3 ∧
    ((∃ (fuel : Nat) (r : Result), LAP_lap fuel 3 cost3 zeroSt = some r) ∧
    ∀ (fuel : Nat) (r : Result), LAP_lap fuel 3 cost3 zeroSt = some r →
      ∀ i : Nat, i < 3 → ∀ j : Nat, j < 3 → cost3 i j - r.u i - r.v j ≥ 0) :=
  ⟨validCost_cost3, LAP_lap_dual_feasible 3 cost3 zeroSt validCost_cost3⟩

/-- C4: complementary slackness.  On a valid cost matrix `LAP_lap` returns,
and in its output `u[i] = cost[i][rowsol[i]] - v[rowsol[i]]`, hence
`cost[i][rowsol[i]] - u[i] - v[rowsol[i]] = 0`, for every row `i`. -/
theorem LAP_lap_complementary_slack (dim : Nat) (c : Int → Int → Int) (s0 : St)
    (hv : ValidCost dim c) :
    (∃ (fuel : Nat) (r : Result), LAP_lap fuel dim c s0 = some r) ∧
    ∀ (fuel : Nat) (r : Result), LAP_lap fuel dim c s0 = some r →
      ∀ i : Nat, i < dim →
        r.u i = c i (r.rowsol i) - r.v (r.rowsol i) ∧
        c i (r.rowsol i) - r.u i - r.v (r.rowsol i) = 0 := by
  refine ⟨LAP_lap_returns dim c s0 hv, ?_⟩
  intro fuel r h i hi
  have := (lapGood_of_some dim c s0 hv fuel r h).slack i hi
  exact ⟨by omega, this⟩

theorem LAP_lap_complementary_slack_witness :
    ValidCost 3 cost3 ∧
    ((∃ (fuel : Nat) (r : Result), LAP_lap fuel 3 cost3 zeroSt = some r) ∧
    ∀ (fuel : Nat) (r : Result), LAP_lap fuel 3 cost3 zeroSt = some r →
      ∀ i : Nat, i < 3 →
        r.u i = cost3 i (r.rowsol i) - r.v (r.rowsol i) ∧
        cost3 i (r.rowsol i) - r.u i - r.v (r.rowsol i) = 0) :=
  ⟨validCost_cost3, LAP_lap_complementary_slack 3 cost3 zeroSt validCost_cost3⟩

theorem cost3_rows (j : Int) (h0 : 0 ≤ j) (h1 : j < 3) :
    cost3 0 j = j + 1 ∧ cost3 1 j = 2 * j + 2 ∧ cost3 2 j = 3 * j + 3 := by
  have : j = 0 ∨ j = 1 ∨ j = 2 := by omega
  rcases this with e | e | e <;> subst e <;> exact ⟨rfl, rfl, rfl⟩

/-- C5: the end-to-end scenario.  For `dim = 3` and the cost matrix
`[[1,2,3],[2,4,6],[3,6,9]]`, `LAP_lap` returns the total cost 10 with
`rowsol = (2,1,0)` and `colsol = (2,1,0)`, and dual vectors that are feasible
and complementary slack, whatever the initial content of the buffers. -/
theorem LAP_lap_scenario (s0 : St) :
    (∃ (fuel : Nat) (r : Result), LAP_lap fuel 3 cost3 s0 = some r) ∧
    ∀ (fuel : Nat) (r : Result), LAP_lap fuel 3 cost3 s0 = some r →
      r.lapcost = 10 ∧
      r.rowsol 0 = 2 ∧ r.rowsol 1 = 1 ∧ r.rowsol 2 = 0 ∧
      r.colsol 0 = 2 ∧ r.colsol 1 = 1 ∧ r.colsol 2 = 0 ∧
      (∀ i : Nat, i < 3 → ∀ j : Nat, j < 3 → cost3 i j - r.u i - r.v j ≥ 0) ∧
      (∀ i : Nat, i < 3 → cost3 i (r.rowsol i) - r.u i - r.v (r.rowsol i) = 0) := by
  refine ⟨LAP_lap_returns 3 cost3 s0 validCost_cost3, ?_⟩
  intro fuel r h
  have g := lapGood_of_some 3 cost3 s0 validCost_cost3 fuel r h
  have opt := lapGood_optimal 3 cost3 r g Fin.revPerm
  have hc := g.cost
  have a0 := g.row_range 0 (by omega)
  have a1 := g.row_range 1 (by omega)
  have a2 := g.row_range 2 (by omega)
  have b0 := g.col_row 0 (by omega)
  have b1 := g.col_row 1 (by omega)
  have b2 := g.col_row 2 (by omega)
  simp only [Nat.cast_zero, Nat.cast_one, Nat.cast_ofNat] at a0 a1 a2 b0 b1 b2
  have e0 := (cost3_rows (r.rowsol 0) a0.1 a0.2).1
  have e1 := (cost3_rows (r.rowsol 1) a1.1 a1.2).2.1
  have e2 := (cost3_rows (r.rowsol 2) a2.1 a2.2).2.2
  have hsum : ∑ i in Finset.range 3, cost3 i (r.rowsol i) =
      cost3 0 (r.rowsol 0) + cost3 1 (r.rowsol 1) + cost3 2 (r.rowsol 2) := by
    simp [Finset.sum_range_succ]
  have hrev : ∑ i : Fin 3, cost3 ((i : Nat) : Int) (((Fin.revPerm i : Fin 3) : Nat) : Int)
      = 10 := by
    rw [Fin.sum_univ_three]
    rfl
  rw [hsum, hrev, e0, e1, e2] at opt
  rw [hsum, e0, e1, e2] at hc
  have n01 : r.rowsol 0 ≠ r.rowsol 1 := by
    intro e; rw [e, b1] at b0; omega
  have n02 : r.rowsol 0 ≠ r.rowsol 2 := by
    intro e; rw [e, b2] at b0; omega
  have n12 : r.rowsol 1 ≠ r.rowsol 2 := by
    intro e; rw [e, b2] at b1; omega
  have r0 : r.rowsol 0 = 2 := by omega
  have r1 : r.rowsol 1 = 1 := by omega
  have r2 : r.rowsol 2 = 0 := by omega
  rw [r0] at b0
  rw [r1] at b1
  rw [r2] at b2
  exact ⟨by omega, r0, r1, r2, b2, b1, b0, g.feas, g.slack⟩

theorem firstReport_none_iff (bad : Int → Option Report) (k : Int) (n : Nat) :
    firstReport bad k n = none ↔ ∀ t : Int, k ≤ t → t < k + n → bad t = none := by
  induction n generalizing k with
  | zero =>
    simp only [firstReport, true_iff]
    intro t t0 t1; simp at t1; omega
  | succ m ih =>
    simp only [firstReport]
    cases hb : bad k with
    | some r =>
      constructor
      · intro h; exact absurd h (by simp)
      · intro h
        have := h k (le_refl _) (by push_cast; omega)
        rw [hb] at this
        exact absurd this (by simp)
    | none =>
      simp only
      rw [ih (k + 1)]
      constructor
      · intro h t t0 t1
        by_cases htk : t = k
        · rw [htk]; exact hb
        · exact h t (by omega) (by push_cast at t1; omega)
      · intro h t t0 t1
        exact h t (by omega) (by push_cast; omega)

theorem matchedLoop_none_iff (rowsol : Int → Int) (i : Int) (n : Nat) (matched : Int → Int) :
    matchedLoop rowsol i n matched = none ↔
      (∀ t : Int, i ≤ t → t < i + n → matched (rowsol t) = 0) ∧
      (∀ t t' : Int, i ≤ t → t < i + n → i ≤ t' → t' < i + n →
        rowsol t = rowsol t' → t = t') := by
  induction n generalizing i matched with
  | zero =>
    simp only [matchedLoop, true_iff]
    exact ⟨fun t t0 t1 => by simp at t1; omega, fun t t' t0 t1 => by simp at t1; omega⟩
  | succ m ih =>
    simp only [matchedLoop]
    by_cases hm : matched (rowsol i) ≠ 0
    · rw [if_pos hm]
      constructor
      · intro h; exact absurd h (by simp)
      · rintro ⟨h, _⟩
        exact absurd (h i (le_refl _) (by push_cast; omega)) hm
    · rw [if_neg hm]
      have hm0 : matched (rowsol i) = 0 := by
        by_contra h; exact hm h
      rw [ih (i + 1)]
      constructor
      · rintro ⟨h1, h2⟩
        have hne : ∀ t : Int, i + 1 ≤ t → t < i + 1 + m → rowsol t ≠ rowsol i := by
          intro t t0 t1 e
          have := h1 t t0 t1
          rw [e, Function.update_same] at this
          omega
        refine ⟨?_, ?_⟩
        · intro t t0 t1
          by_cases hti : t = i
          · rw [hti]; exact hm0
          · have := h1 t (by omega) (by push_cast at t1; omega)
            rw [Function.update_noteq (hne t (by omega) (by push_cast at t1; omega))] at this
            exact this
        · intro t t' t0 t1 t0' t1' e
          by_cases hti : t = i
          · by_cases hti' : t' = i
            · omega
            · exfalso
              rw [hti] at e
              exact hne t' (by omega) (by push_cast at t1'; omega) e.symm
          · by_cases hti' : t' = i
            · exfalso
              rw [hti'] at e
              exact hne t (by omega) (by push_cast at t1; omega) e
            · exact h2 t t' (by omega) (by push_cast at t1; omega) (by omega)
                (by push_cast at t1'; omega) e
      · rintro ⟨h1, h2⟩
        refine ⟨?_, ?_⟩
        · intro t t0 t1
          have hne : rowsol t ≠ rowsol i := by
            intro e
            have := h2 t i (by omega) (by push_cast; omega) (le_refl _) (by push_cast; omega) e
            omega
          rw [Function.update_noteq hne]
          exact h1 t (by omega) (by push_cast; omega)
        · intro t t' t0 t1 t0' t1' e
          exact h2 t t' (by omega) (by push_cast; omega) (by omega) (by push_cast; omega) e

theorem option_toList_nil {α : Type} (o : Option α) : o.toList = [] ↔ o = none := by
  cases o <;> simp [Option.toList]

theorem forall_range_int (dim : Nat) (P : Int → Prop) :
    (∀ t : Int, 0 ≤ t → t < 0 + (dim : Int) → P t) ↔ ∀ i : Nat, i < dim → P (i : Int) := by
  constructor
  · intro h i hi
    exact h i (by omega) (by omega)
  · intro h t t0 t1
    have := h t.toNat (by omega)
    rwa [Int.toNat_of_nonneg t0] at this

theorem negList_nil (dim : Nat) (inner : Int → Option Report) :
    forRange 0 dim (fun i (out : List Report) => out ++ (inner i).toList) [] = [] ↔
      ∀ i : Nat, i < dim → inner (i : Int) = none := by
  have key := forRange_ind
    (fun (k : Nat) (out : List Report) => out = [] ↔ ∀ i : Nat, i < k → inner (i : Int) = none)
    0 dim (fun i (out : List Report) => out ++ (inner i).toList) []
    (by simp)
    (by
      intro k out _ hP
      have e0 : (0 : Int) + (k : Int) = k := by omega
      rw [e0]
      dsimp only
      rw [List.append_eq_nil, option_toList_nil, hP]
      constructor
      · rintro ⟨h1, h2⟩ i hi
        by_cases hik : i = k
        · rw [hik]; exact h2
        · exact h1 i (by omega)
      · intro h
        exact ⟨fun i hi => h i (by omega), h k (by omega)⟩)
  exact key

theorem LAP_checklap_nil_iff (dim : Nat) (c : Int → Int → Int)
    (rowsol colsol u v matched0 : Int → Int)
    (hr : ∀ i : Nat, i < dim → 0 ≤ rowsol i ∧ rowsol i < dim) :
    LAP_checklap dim c rowsol colsol u v matched0 = [] ↔
      (∀ i : Nat, i < dim → ∀ j : Nat, j < dim → c i j - u i - v j ≥ 0) ∧
      (∀ i : Nat, i < dim → c i (rowsol i) - u i - v (rowsol i) = 0) ∧
      (∀ i : Nat, i < dim → ∀ i' : Nat, i' < dim → rowsol i = rowsol i' → i = i') ∧
      (∀ i : Nat, i < dim → colsol (rowsol i) = i) ∧
      (∀ j : Nat, j < dim → rowsol (colsol j) = j) := by
  unfold LAP_checklap
  dsimp only
  simp only [List.append_eq_nil, option_toList_nil, and_assoc]
  rw [negList_nil, matchedLoop_none_iff]
  simp only [firstReport_none_iff, forall_range_int]
  have hzero : ∀ t : Int, 0 ≤ t → t < 0 + (dim : Int) →
      forRange 0 dim (fun j (m : Int → Int) => Function.update m j 0) matched0 (rowsol t)
        = 0 := by
    intro t t0 t1
    have := hr t.toNat (by omega)
    rw [Int.toNat_of_nonneg t0] at this
    exact matchcnt_init dim matched0 (rowsol t) this.1 this.2
  constructor
  · rintro ⟨h1, h2, ⟨_, h3⟩, h4, h5⟩
    refine ⟨?_, ?_, ?_, ?_, ?_⟩
    · intro i hi j hj
      have := h1 i hi j hj
      by_contra hcon
      rw [if_pos (by omega)] at this
      exact absurd this (by simp)
    · intro i hi
      have := h2 i hi
      by_contra hcon
      rw [if_pos hcon] at this
      exact absurd this (by simp)
    · intro i hi i' hi' e
      have := h3 i i' (by omega) (by omega) (by omega) (by omega) e
      omega
    · intro i hi
      have := h4 i hi
      by_contra hcon
      rw [if_pos hcon] at this
      exact absurd this (by simp)
    · intro j hj
      have := h5 j hj
      by_contra hcon
      rw [if_pos hcon] at this
      exact absurd this (by simp)
  · rintro ⟨h1, h2, h3, h4, h5⟩
    refine ⟨?_, ?_, ⟨fun i hi => hzero i (by omega) (by omega), ?_⟩, ?_, ?_⟩
    · intro i hi j hj
      have := h1 i hi j hj
      rw [if_neg (by omega)]
    · intro i hi
      rw [if_neg (by rw [h2 i hi]; simp)]
    · intro t t' t0 t1 t0' t1' e
      have := h3 t.toNat (by omega) t'.toNat (by omega)
        (by rw [Int.toNat_of_nonneg t0, Int.toNat_of_nonneg t0']; exact e)
      omega
    · intro i hi
      rw [if_neg (by rw [h4 i hi]; simp)]
    · intro j hj
      rw [if_neg (by rw [h5 j hj]; simp)]

/-- C6: for `dim = 0`, `LAP_lap` returns the total cost 0 and leaves
`rowsol`, `colsol`, `u` and `v` as they were, whatever the cost matrix, the
initial content of the buffers and the fuel: no loop body runs. -/
theorem LAP_lap_dim_zero (fuel : Nat) (c : Int → Int → Int) (s0 : St) :
    LAP_lap fuel 0 c s0 =
      some { lapcost := 0, rowsol := s0.rowsol, colsol := s0.colsol, u := s0.u, v := s0.v } := by
  cases fuel <;> rfl

/-- C9: `LAP_checklap` prints nothing for (`cost`, `rowsol`, `colsol`, `u`,
`v`), with the entries of `rowsol` columns of `0..dim-1`, if and only if the
reduced costs are non-negative, they are zero on the assignment, no column
occurs twice in `rowsol`, and `rowsol` and `colsol` are mutually inverse; and
every output of `LAP_lap` on a valid cost matrix passes it. -/
theorem LAP_checklap_spec (dim : Nat) (c : Int → Int → Int) (matched0 : Int → Int) :
    (∀ rowsol colsol u v : Int → Int,
      (∀ i : Nat, i < dim → 0 ≤ rowsol i ∧ rowsol i < dim) →
      (LAP_checklap dim c rowsol colsol u v matched0 = [] ↔
        (∀ i : Nat, i < dim → ∀ j : Nat, j < dim → c i j - u i - v j ≥ 0) ∧
        (∀ i : Nat, i < dim → c i (rowsol i) - u i - v (rowsol i) = 0) ∧
        (∀ i : Nat, i < dim → ∀ i' : Nat, i' < dim → rowsol i = rowsol i' → i = i') ∧
        (∀ i : Nat, i < dim → colsol (rowsol i) = i) ∧
        (∀ j : Nat, j < dim → rowsol (colsol j) = j))) ∧
    (ValidCost dim c → ∀ s0 : St,
      (∃ (fuel : Nat) (r : Result), LAP_lap fuel dim c s0 = some r) ∧
      ∀ (fuel : Nat) (r : Result), LAP_lap fuel dim c s0 = some r →
        LAP_checklap dim c r.rowsol r.colsol r.u r.v matched0 = []) := by
  refine ⟨fun rowsol colsol u v hr =>
    LAP_checklap_nil_iff dim c rowsol colsol u v matched0 hr, ?_⟩
  intro hv s0
  refine ⟨LAP_lap_returns dim c s0 hv, ?_⟩
  intro fuel r h
  have g := lapGood_of_some dim c s0 hv fuel r h
  rw [LAP_checklap_nil_iff dim c r.rowsol r.colsol r.u r.v matched0 g.row_range]
  refine ⟨g.feas, g.slack, ?_, g.col_row, g.row_col⟩
  intro i hi i' hi' e
  have a := g.col_row i hi
  have b := g.col_row i' hi'
  rw [e, b] at a
  omega

theorem LAP_checklap_spec_witness :
    ValidCost 3 cost3 ∧
    ((∃ (fuel : Nat) (r : Result), LAP_lap fuel 3 cost3 zeroSt = some r) ∧
      ∀ (fuel : Nat) (r : Result), LAP_lap fuel 3 cost3 zeroSt = some r →
        LAP_checklap 3 cost3 r.rowsol r.colsol r.u r.v (fun _ => 0) = []) :=
  ⟨validCost_cost3, (LAP_checklap_spec 3 cost3 (fun _ => 0)).2 validCost_cost3 zeroSt⟩

end LAP

theorem validCost_cycle3 : LAP.ValidCost 3 cycle3.elts :=
  ⟨0, 9, by decide, by decide⟩

theorem cycle3_rows (j : Int) (h0 : 0 ≤ j) (h1 : j < 3) :
    (j = 1 ∧ cycle3.elts 0 j = 0 ∨ j ≠ 1 ∧ cycle3.elts 0 j = 9) ∧
    (j = 2 ∧ cycle3.elts 1 j = 0 ∨ j ≠ 2 ∧ cycle3.elts 1 j = 9) ∧
    (j = 0 ∧ cycle3.elts 2 j = 0 ∨ j ≠ 0 ∧ cycle3.elts 2 j = 9) := by
  have : j = 0 ∨ j = 1 ∨ j = 2 := by omega
  rcases this with e | e | e <;> subst e <;> decide

/-- C7 (what the code does): on the 3 × 3 cost matrix
`[[9,0,9],[9,9,0],[0,9,9]]`, `LAP_lap` assigns the columns `(1,2,0)` to the
rows 0, 1, 2, and `GA_linear_assignment_solve` returns the vector `(2,0,1)`,
the rows assigned to the columns (`colsol`), not the columns assigned to the
rows. -/
theorem GA_linear_assignment_solve_cycle3 (mem : LAP.St) :
    (∃ (fuel : Nat) (out : SolveOutcome),
      GA_linear_assignment_solve fuel cycle3 mem = some out) ∧
    ∀ (fuel : Nat) (out : SolveOutcome),
      GA_linear_assignment_solve fuel cycle3 mem = some out →
      ∃ (vec : GAVectorInt) (r : LAP.Result),
        out.result = some vec ∧
        LAP.LAP_lap fuel 3 cycle3.elts (solveBuffers 3 mem) = some r ∧
        (r.rowsol 0 = 1 ∧ r.rowsol 1 = 2 ∧ r.rowsol 2 = 0) ∧
        (vec.elts 0 = 2 ∧ vec.elts 1 = 0 ∧ vec.elts 2 = 1) := by
  have hsolve : ∀ fuel : Nat, GA_linear_assignment_solve fuel cycle3 mem =
      match LAP.LAP_lap fuel 3 cycle3.elts (solveBuffers 3 mem) with
      | none => none
      | some r => some { events := [SolveEvent.lapCall 3],
                         result := some { size := 3, elts := r.colsol } } := by
    intro fuel; rfl
  constructor
  · obtain ⟨fuel, r, e⟩ := LAP.LAP_lap_returns 3 cycle3.elts (solveBuffers 3 mem)
      validCost_cycle3
    exact ⟨fuel, _, by rw [hsolve, e]⟩
  · intro fuel out h
    rw [hsolve] at h
    cases hl : LAP.LAP_lap fuel 3 cycle3.elts (solveBuffers 3 mem) with
    | none => rw [hl] at h; exact absurd h (by simp)
    | some r =>
      rw [hl] at h
      have hout : out = { events := [SolveEvent.lapCall 3],
                          result := some { size := 3, elts := r.colsol } } :=
        (Option.some.inj h).symm
      have g := LAP.lapGood_of_some 3 cycle3.elts (solveBuffers 3 mem) validCost_cycle3
        fuel r hl
      have opt := LAP.lapGood_optimal 3 cycle3.elts r g (finRotate 3)
      have a0 := g.row_range 0 (by omega)
      have a1 := g.row_range 1 (by omega)
      have a2 := g.row_range 2 (by omega)
      have b0 := g.col_row 0 (by omega)
      have b1 := g.col_row 1 (by omega)
      have b2 := g.col_row 2 (by omega)
      simp only [Nat.cast_zero, Nat.cast_one, Nat.cast_ofNat] at a0 a1 a2 b0 b1 b2
      have e0 := (cycle3_rows (r.rowsol 0) a0.1 a0.2).1
      have e1 := (cycle3_rows (r.rowsol 1) a1.1 a1.2).2.1
      have e2 := (cycle3_rows (r.rowsol 2) a2.1 a2.2).2.2
      have hsum : ∑ i in Finset.range 3, cycle3.elts i (r.rowsol i) =
          cycle3.elts 0 (r.rowsol 0) + cycle3.elts 1 (r.rowsol 1) +
            cycle3.elts 2 (r.rowsol 2) := by
        simp [Finset.sum_range_succ]
      have hrot : ∑ i : Fin 3,
          cycle3.elts ((i : Nat) : Int) (((finRotate 3 i : Fin 3) : Nat) : Int) = 0 := by
        rw [Fin.sum_univ_three]
        rfl
      rw [hsum, hrot] at opt
      have r0 : r.rowsol 0 = 1 := by omega
      have r1 : r.rowsol 1 = 2 := by omega
      have r2 : r.rowsol 2 = 0 := by omega
      rw [r0] at b0
      rw [r1] at b1
      rw [r2] at b2
      refine ⟨{ size := 3, elts := r.colsol }, r, by rw [hout], rfl, ⟨r0, r1, r2⟩, ?_⟩
      exact ⟨b2, b0, b1⟩

theorem binLoop_ge (x : ℚ) (lookup : GAVectorReal) (fuel : Nat) (result : Int) :
    result ≤ binLoop x lookup fuel result := by
  induction fuel generalizing result with
  | zero => simp [binLoop]
  | succ n ih =>
    simp only [binLoop]
    split
    · exact le_trans (by omega) (ih (result + 1))
    · exact le_refl _

/-- The fuel of `binLoop` in `GA_get_bin_number` is never exhausted: the value
returned is one at which the condition of the `while` loop fails. -/
theorem binLoop_exit (x : ℚ) (lookup : GAVectorReal) (fuel : Nat) (result : Int)
    (h : (lookup.size : Int) - 1 - (result + 1) ≤ fuel) :
    ¬ (binLoop x lookup fuel result + 1 < (lookup.size : Int) - 1 ∧
        x ≥ lookup.elts (binLoop x lookup fuel result + 1)) := by
  induction fuel generalizing result with
  | zero =>
    simp only [binLoop]
    intro hc
    have := hc.1
    simp only [Nat.cast_zero] at h
    omega
  | succ n ih =>
    simp only [binLoop]
    split
    · apply ih
      push_cast at h
      omega
    · assumption

/-- C10: `GA_get_bin_number` returns the error value -1 if and only if the
lookup vector is empty, or clamping is disabled and either the vector has one
element other than `x`, or it has at least two and `x` lies outside
`[lookup[0], lookup[size-1]]`; in every other case the value returned is a
non-negative bin index. -/
theorem GA_get_bin_number_fails_iff (x : ℚ) (lookup : GAVectorReal) (clamp : GAClampMode) :
    (GA_get_bin_number x lookup clamp = -1 ↔
      (lookup.size = 0 ∨
        (clamp = GAClampMode.GA_CLAMP_DISABLED ∧
          ((lookup.size = 1 ∧ x ≠ lookup.elts 0) ∨
           (2 ≤ lookup.size ∧
             (x < lookup.elts 0 ∨ x > lookup.elts ((lookup.size : Int) - 1))))))) ∧
    (GA_get_bin_number x lookup clamp ≠ -1 → 0 ≤ GA_get_bin_number x lookup clamp) := by
  have hloop := binLoop_ge x lookup lookup.size 0
  unfold GA_get_bin_number
  by_cases h0 : lookup.size = 0
  · simp [h0]
  by_cases h1 : lookup.size = 1
  · simp only [h0, h1, if_true, if_false]
    by_cases hc : clamp = GAClampMode.GA_CLAMP_DISABLED ∧ x ≠ lookup.elts 0
    · simp [hc]
    · rw [if_neg hc]
      simp only [not_and_or] at hc
      constructor
      · constructor
        · intro h; omega
        · rintro (h | ⟨h2, (⟨_, h3⟩ | ⟨h3, _⟩)⟩)
          · omega
          · rcases hc with hc | hc
            · exact absurd h2 hc
            · exact absurd h3 hc
          · omega
      · intro _; omega
  have h2 : 2 ≤ lookup.size := by omega
  simp only [h0, h1, if_false]
  by_cases hout : x < lookup.elts 0 ∨ x > lookup.elts ((lookup.size : Int) - 1)
  · rw [if_pos hout]
    by_cases hc : clamp = GAClampMode.GA_CLAMP_DISABLED
    · simp [hc, hout, h2]
    · rw [if_neg hc]
      have hsz : (0 : Int) ≤ (lookup.size : Int) - 2 := by omega
      constructor
      · constructor
        · intro h
          exfalso
          split_ifs at h <;> omega
        · rintro (h | ⟨h3, _⟩)
          · exact h.elim
          · exact absurd h3 hc
      · intro _
        split_ifs <;> omega
  · rw [if_neg hout]
    constructor
    · constructor
      · intro h; omega
      · rintro (h | ⟨_, (⟨h3, _⟩ | ⟨_, h3⟩)⟩)
        · exact h.elim
        · exact h3.elim
        · exact absurd h3 hout
    · intro _; omega

/-! ## The binner, element access and the inversion of permutations -/

/-- Every index the `while` loop of `GA_get_bin_number` moved past satisfied
the condition of the loop. -/
theorem binLoop_passed (x : ℚ) (lookup : GAVectorReal) (fuel : Nat) (start k : Int)
    (h1 : start ≤ k) (h2 : k < binLoop x lookup fuel start) :
    k + 1 < (lookup.size : Int) - 1 ∧ x ≥ lookup.elts (k + 1) := by
  induction fuel generalizing start with
  | zero =>
    simp only [binLoop] at h2
    omega
  | succ n ih =>
    simp only [binLoop] at h2
    split at h2
    · rename_i hc
      by_cases e : k = start
      · rw [e]; exact hc
      · exact ih (start + 1) (by omega) h2
    · omega

/-- Inside the lookup range `GA_get_bin_number` is its `while` loop. -/
theorem GA_get_bin_number_in_range (x : ℚ) (lookup : GAVectorReal) (clamp : GAClampMode)
    (h2 : 2 ≤ lookup.size) (hlo : lookup.elts 0 ≤ x)
    (hhi : x ≤ lookup.elts ((lookup.size : Int) - 1)) :
    GA_get_bin_number x lookup clamp = binLoop x lookup lookup.size 0 := by
  unfold GA_get_bin_number
  rw [if_neg (by omega), if_neg (by omega), if_neg]
  rintro (h | h)
  · exact absurd hlo (not_le.mpr h)
  · exact absurd hhi (not_le.mpr h)

/-- The bin found by the `while` loop: the first bin from 0 on that is the
last one or whose upper bound exceeds `x`. -/
theorem binLoop_first (x : ℚ) (lookup : GAVectorReal) (h2 : 2 ≤ lookup.size) :
    0 ≤ binLoop x lookup lookup.size 0 ∧
    binLoop x lookup lookup.size 0 ≤ (lookup.size : Int) - 2 ∧
    (binLoop x lookup lookup.size 0 = (lookup.size : Int) - 2 ∨
      x < lookup.elts (binLoop x lookup lookup.size 0 + 1)) ∧
    (∀ k : Int, 0 ≤ k → k < binLoop x lookup lookup.size 0 →
      k + 1 < (lookup.size : Int) - 1 ∧ lookup.elts (k + 1) ≤ x) := by
  have hge := binLoop_ge x lookup lookup.size 0
  have hex := binLoop_exit x lookup lookup.size 0 (by omega)
  have hpass := fun k h1 h2 => binLoop_passed x lookup lookup.size 0 k h1 h2
  generalize binLoop x lookup lookup.size 0 = r at hge hex hpass
  have hle : r ≤ (lookup.size : Int) - 2 := by
    by_contra hc
    have := (hpass (r - 1) (by omega) (by omega)).1
    omega
  refine ⟨hge, hle, ?_, fun k h1 h2 => hpass k h1 h2⟩
  by_cases e : r = (lookup.size : Int) - 2
  · exact Or.inl e
  · right
    by_contra hc
    exact hex ⟨by omega, not_lt.mp hc⟩

/-- C11: for a lookup vector of a single element `c`, `GA_get_bin_number`
returns bin 0 when `x = c` or clamping is enabled, and the error value -1
otherwise; for the lookup vector `[5]`: clamp disabled and `x = 5` gives 0,
`x = 6` fails, clamp enabled and `x = 6` gives 0. -/
theorem GA_get_bin_number_single :
    (∀ (x : ℚ) (lookup : GAVectorReal) (clamp : GAClampMode), lookup.size = 1 →
      ((x = lookup.elts 0 ∨ clamp = GAClampMode.GA_CLAMP_ENABLED) →
        GA_get_bin_number x lookup clamp = 0) ∧
      (¬ (x = lookup.elts 0 ∨ clamp = GAClampMode.GA_CLAMP_ENABLED) →
        GA_get_bin_number x lookup clamp = -1)) ∧
    GA_get_bin_number 5 (vectorOfReal [5]) GAClampMode.GA_CLAMP_DISABLED = 0 ∧
    GA_get_bin_number 6 (vectorOfReal [5]) GAClampMode.GA_CLAMP_DISABLED = -1 ∧
    GA_get_bin_number 6 (vectorOfReal [5]) GAClampMode.GA_CLAMP_ENABLED = 0 := by
  have gen : ∀ (x : ℚ) (lookup : GAVectorReal) (clamp : GAClampMode), lookup.size = 1 →
      ((x = lookup.elts 0 ∨ clamp = GAClampMode.GA_CLAMP_ENABLED) →
        GA_get_bin_number x lookup clamp = 0) ∧
      (¬ (x = lookup.elts 0 ∨ clamp = GAClampMode.GA_CLAMP_ENABLED) →
        GA_get_bin_number x lookup clamp = -1) := by
    intro x lookup clamp h1
    unfold GA_get_bin_number
    rw [if_neg (by omega), if_pos h1]
    constructor
    · intro h
      rw [if_neg]
      rintro ⟨hd, hx⟩
      rcases h with h | h
      · exact hx h
      · rw [hd] at h; exact absurd h (by decide)
    · intro h
      rw [if_pos]
      constructor
      · cases clamp
        · exact absurd (Or.inr rfl) h
        · rfl
      · exact fun e => h (Or.inl e)
  refine ⟨gen, ?_, ?_, ?_⟩
  · exact (gen 5 (vectorOfReal [5]) _ rfl).1 (Or.inl rfl)
  · refine (gen 6 (vectorOfReal [5]) _ rfl).2 ?_
    rintro (h | h)
    · exact absurd h (by norm_num [vectorOfReal])
    · exact absurd h (by decide)
  · exact (gen 6 (vectorOfReal [5]) _ rfl).1 (Or.inr rfl)

/-- C12: for a lookup vector of size at least 2 (non-decreasing, of which
only `lookup[0] ≤ lookup[size-1]` is used) and clamping enabled,
`GA_get_bin_number` returns 0 for every `x < lookup[0]` and `size - 2` for
every `x > lookup[size-1]`. -/
theorem GA_get_bin_number_clamped (x : ℚ) (lookup : GAVectorReal)
    (h2 : 2 ≤ lookup.size)
    (hord : lookup.elts 0 ≤ lookup.elts ((lookup.size : Int) - 1)) :
    (x < lookup.elts 0 →
      GA_get_bin_number x lookup GAClampMode.GA_CLAMP_ENABLED = 0) ∧
    (x > lookup.elts ((lookup.size : Int) - 1) →
      GA_get_bin_number x lookup GAClampMode.GA_CLAMP_ENABLED = (lookup.size : Int) - 2) := by
  constructor
  · intro h
    unfold GA_get_bin_number
    rw [if_neg (by omega), if_neg (by omega), if_pos (Or.inl h), if_neg (by decide), if_pos h]
  · intro h
    have hnot : ¬ x < lookup.elts 0 := not_lt.mpr (le_trans hord (le_of_lt h))
    unfold GA_get_bin_number
    rw [if_neg (by omega), if_neg (by omega), if_pos (Or.inr h), if_neg (by decide),
      if_neg hnot, if_pos h]

theorem GA_get_bin_number_clamped_witness :
    (2 ≤ (vectorOfReal [0, 1, 2]).size ∧
      (vectorOfReal [0, 1, 2]).elts 0 ≤
        (vectorOfReal [0, 1, 2]).elts (((vectorOfReal [0, 1, 2]).size : Int) - 1)) ∧
    ((5 < (vectorOfReal [0, 1, 2]).elts 0 →
      GA_get_bin_number 5 (vectorOfReal [0, 1, 2]) GAClampMode.GA_CLAMP_ENABLED = 0) ∧
    (5 > (vectorOfReal [0, 1, 2]).elts (((vectorOfReal [0, 1, 2]).size : Int) - 1) →
      GA_get_bin_number 5 (vectorOfReal [0, 1, 2]) GAClampMode.GA_CLAMP_ENABLED =
        ((vectorOfReal [0, 1, 2]).size : Int) - 2)) :=
  ⟨⟨by decide, by decide⟩,
    GA_get_bin_number_clamped 5 (vectorOfReal [0, 1, 2]) (by decide) (by decide)⟩

theorem strictlyIncreasing_lookup012 : StrictlyIncreasing lookup012 := by
  intro i j h0 hij hj
  have hj3 : j < 3 := hj
  have hi : i = 0 ∨ i = 1 := by omega
  have hjc : j = 1 ∨ j = 2 := by omega
  rcases hi with e | e <;> rcases hjc with f | f <;> subst e <;> subst f <;>
    first
    | decide
    | omega

theorem nonDecreasing_of_strictly (lookup : GAVectorReal) (h : StrictlyIncreasing lookup) :
    NonDecreasing lookup := by
  intro i j h0 hij hj
  by_cases e : i = j
  · rw [e]
  · exact le_of_lt (h i j h0 (by omega) hj)

/-- C13: for a non-decreasing lookup vector of size at least 2 and `x` with
`lookup[0] ≤ x ≤ lookup[size-1]`, the bin `GA_get_bin_number` returns is the
largest bin `k` of `0..size-2` with `lookup[k] ≤ x` and
(`k + 1 < size - 1` implies `x < lookup[k+1]`). -/
theorem GA_get_bin_number_largest (x : ℚ) (lookup : GAVectorReal) (clamp : GAClampMode)
    (h2 : 2 ≤ lookup.size) (hmono : NonDecreasing lookup)
    (hlo : lookup.elts 0 ≤ x) (hhi : x ≤ lookup.elts ((lookup.size : Int) - 1)) :
    (0 ≤ GA_get_bin_number x lookup clamp ∧
      GA_get_bin_number x lookup clamp ≤ (lookup.size : Int) - 2) ∧
    (lookup.elts (GA_get_bin_number x lookup clamp) ≤ x ∧
      (GA_get_bin_number x lookup clamp + 1 < (lookup.size : Int) - 1 →
        x < lookup.elts (GA_get_bin_number x lookup clamp + 1))) ∧
    ∀ k : Int, 0 ≤ k → k ≤ (lookup.size : Int) - 2 →
      lookup.elts k ≤ x →
      (k + 1 < (lookup.size : Int) - 1 → x < lookup.elts (k + 1)) →
      k ≤ GA_get_bin_number x lookup clamp := by
  rw [GA_get_bin_number_in_range x lookup clamp h2 hlo hhi]
  obtain ⟨h0, hle, hstop, hpass⟩ := binLoop_first x lookup h2
  generalize binLoop x lookup lookup.size 0 = r at h0 hle hstop hpass
  refine ⟨⟨h0, hle⟩, ⟨?_, ?_⟩, ?_⟩
  · by_cases e : r = 0
    · rw [e]; exact hlo
    · have := (hpass (r - 1) (by omega) (by omega)).2
      rw [show r - 1 + 1 = r by omega] at this
      exact this
  · intro hlt
    rcases hstop with e | e
    · omega
    · exact e
  · intro k hk0 hk2 hkx _
    by_contra hc
    rcases hstop with e | e
    · omega
    · have := hmono (r + 1) k (by omega) (by omega) (by omega)
      exact absurd (lt_of_lt_of_le e this) (not_lt.mpr hkx)

theorem GA_get_bin_number_largest_witness :
    (2 ≤ lookup012.size ∧ NonDecreasing lookup012 ∧ lookup012.elts 0 ≤ 1 ∧
      1 ≤ lookup012.elts ((lookup012.size : Int) - 1)) ∧
    ((0 ≤ GA_get_bin_number 1 lookup012 GAClampMode.GA_CLAMP_DISABLED ∧
      GA_get_bin_number 1 lookup012 GAClampMode.GA_CLAMP_DISABLED ≤
        (lookup012.size : Int) - 2) ∧
    (lookup012.elts (GA_get_bin_number 1 lookup012 GAClampMode.GA_CLAMP_DISABLED) ≤ 1 ∧
      (GA_get_bin_number 1 lookup012 GAClampMode.GA_CLAMP_DISABLED + 1 <
          (lookup012.size : Int) - 1 →
        1 < lookup012.elts
          (GA_get_bin_number 1 lookup012 GAClampMode.GA_CLAMP_DISABLED + 1))) ∧
    ∀ k : Int, 0 ≤ k → k ≤ (lookup012.size : Int) - 2 →
      lookup012.elts k ≤ 1 →
      (k + 1 < (lookup012.size : Int) - 1 → 1 < lookup012.elts (k + 1)) →
      k ≤ GA_get_bin_number 1 lookup012 GAClampMode.GA_CLAMP_DISABLED) :=
  ⟨⟨by decide, nonDecreasing_of_strictly lookup012 strictlyIncreasing_lookup012,
      by decide, by decide⟩,
    GA_get_bin_number_largest 1 lookup012 GAClampMode.GA_CLAMP_DISABLED (by decide)
      (nonDecreasing_of_strictly lookup012 strictlyIncreasing_lookup012)
      (by decide) (by decide)⟩

/-- C14: for a lookup vector of size at least 2 and `x` within
`[lookup[0], lookup[size-1]]`, `GA_get_bin_number` returns the smallest bin
`k` of `0..size-2` with `k = size-2` or `x < lookup[k+1]`; the bin satisfies
`lookup[k] ≤ x`, and for a strictly increasing lookup vector a value equal to
an interior boundary `lookup[m]`, `1 ≤ m ≤ size-2`, lands in bin `m`. -/
theorem GA_get_bin_number_first_bin (x : ℚ) (lookup : GAVectorReal) (clamp : GAClampMode)
    (h2 : 2 ≤ lookup.size)
    (hlo : lookup.elts 0 ≤ x) (hhi : x ≤ lookup.elts ((lookup.size : Int) - 1)) :
    (0 ≤ GA_get_bin_number x lookup clamp ∧
      GA_get_bin_number x lookup clamp ≤ (lookup.size : Int) - 2) ∧
    (GA_get_bin_number x lookup clamp = (lookup.size : Int) - 2 ∨
      x < lookup.elts (GA_get_bin_number x lookup clamp + 1)) ∧
    (∀ k : Int, 0 ≤ k → k ≤ (lookup.size : Int) - 2 →
      (k = (lookup.size : Int) - 2 ∨ x < lookup.elts (k + 1)) →
      GA_get_bin_number x lookup clamp ≤ k) ∧
    lookup.elts (GA_get_bin_number x lookup clamp) ≤ x ∧
    (StrictlyIncreasing lookup → ∀ m : Int, 1 ≤ m → m ≤ (lookup.size : Int) - 2 →
      x = lookup.elts m → GA_get_bin_number x lookup clamp = m) := by
  rw [GA_get_bin_number_in_range x lookup clamp h2 hlo hhi]
  obtain ⟨h0, hle, hstop, hpass⟩ := binLoop_first x lookup h2
  generalize binLoop x lookup lookup.size 0 = r at h0 hle hstop hpass
  refine ⟨⟨h0, hle⟩, hstop, ?_, ?_, ?_⟩
  · intro k hk0 _ hk
    by_contra hc
    have := hpass k hk0 (by omega)
    rcases hk with e | e
    · omega
    · exact absurd e (not_lt.mpr this.2)
  · by_cases e : r = 0
    · rw [e]; exact hlo
    · have := (hpass (r - 1) (by omega) (by omega)).2
      rw [show r - 1 + 1 = r by omega] at this
      exact this
  · intro hs m hm1 hm2 hx
    have hlow : m ≤ r := by
      by_contra hc
      rcases hstop with e | e
      · omega
      · by_cases f : r + 1 = m
        · rw [f, hx] at e; exact lt_irrefl _ e
        · have := hs (r + 1) m (by omega) (by omega) (by omega)
          rw [hx] at e
          exact lt_irrefl _ (lt_trans e this)
    have hup : r ≤ m := by
      by_contra hc
      have a := (hpass m (by omega) (by omega))
      have b := hs m (m + 1) (by omega) (by omega) (by omega)
      rw [hx] at a
      exact absurd b (not_lt.mpr a.2)
    omega

theorem GA_get_bin_number_first_bin_witness :
    (2 ≤ lookup012.size ∧ lookup012.elts 0 ≤ 1 ∧
      1 ≤ lookup012.elts ((lookup012.size : Int) - 1)) ∧
    ((0 ≤ GA_get_bin_number 1 lookup012 GAClampMode.GA_CLAMP_ENABLED ∧
      GA_get_bin_number 1 lookup012 GAClampMode.GA_CLAMP_ENABLED ≤
        (lookup012.size : Int) - 2) ∧
    (GA_get_bin_number 1 lookup012 GAClampMode.GA_CLAMP_ENABLED =
        (lookup012.size : Int) - 2 ∨
      1 < lookup012.elts (GA_get_bin_number 1 lookup012 GAClampMode.GA_CLAMP_ENABLED + 1)) ∧
    (∀ k : Int, 0 ≤ k → k ≤ (lookup012.size : Int) - 2 →
      (k = (lookup012.size : Int) - 2 ∨ 1 < lookup012.elts (k + 1)) →
      GA_get_bin_number 1 lookup012 GAClampMode.GA_CLAMP_ENABLED ≤ k) ∧
    lookup012.elts (GA_get_bin_number 1 lookup012 GAClampMode.GA_CLAMP_ENABLED) ≤ 1 ∧
    (StrictlyIncreasing lookup012 → ∀ m : Int, 1 ≤ m → m ≤ (lookup012.size : Int) - 2 →
      1 = lookup012.elts m →
      GA_get_bin_number 1 lookup012 GAClampMode.GA_CLAMP_ENABLED = m)) :=
  ⟨⟨by decide, by decide, by decide⟩,
    GA_get_bin_number_first_bin 1 lookup012 GAClampMode.GA_CLAMP_ENABLED (by decide)
      (by decide) (by decide)⟩

theorem lookup012_elts :
    lookup012.size = 3 ∧ lookup012.elts 0 = 0 ∧ lookup012.elts 1 = 1 ∧ lookup012.elts 2 = 2 :=
  ⟨rfl, rfl, rfl, rfl⟩

/-- C15: the boundary law for the lookup vector `[0, 1, 2]`.  With clamping
disabled the values 0 and 0.999 fall in bin 0, the values 1, 1.999 and 2 in
bin 1, and 2.001 fails; with clamping enabled -5 falls in bin 0 and 5 in
bin 1. -/
theorem GA_get_bin_number_boundary_law :
    GA_get_bin_number 0 lookup012 GAClampMode.GA_CLAMP_DISABLED = 0 ∧
    GA_get_bin_number (999 / 1000) lookup012 GAClampMode.GA_CLAMP_DISABLED = 0 ∧
    GA_get_bin_number 1 lookup012 GAClampMode.GA_CLAMP_DISABLED = 1 ∧
    GA_get_bin_number (1999 / 1000) lookup012 GAClampMode.GA_CLAMP_DISABLED = 1 ∧
    GA_get_bin_number 2 lookup012 GAClampMode.GA_CLAMP_DISABLED = 1 ∧
    GA_get_bin_number (2001 / 1000) lookup012 GAClampMode.GA_CLAMP_DISABLED = -1 ∧
    GA_get_bin_number (-5) lookup012 GAClampMode.GA_CLAMP_ENABLED = 0 ∧
    GA_get_bin_number 5 lookup012 GAClampMode.GA_CLAMP_ENABLED = 1 := by
  obtain ⟨hs, e0, e1, e2⟩ := lookup012_elts
  refine ⟨by decide, ?_, by decide, ?_, by decide, ?_, by decide, by decide⟩ <;>
    norm_num [GA_get_bin_number, binLoop, hs, e0, e1, e2]

theorem forRange_update_get {α : Type} (f : Int → α) (n : Nat) (e : Int → α) (i : Int) :
    LAP.forRange 0 n (fun i e => Function.update e i (f i)) e i =
      if 0 ≤ i ∧ i < n then f i else e i := by
  induction n with
  | zero =>
    simp only [LAP.forRange]
    rw [if_neg]
    simp only [Nat.cast_zero]
    omega
  | succ n ih =>
    simp only [LAP.forRange]
    by_cases h : i = 0 + (n : Int)
    · rw [← h, Function.update_same, if_pos]
      push_cast
      omega
    · rw [Function.update_noteq h, ih]
      by_cases h2 : 0 ≤ i ∧ i < n
      · rw [if_pos h2, if_pos]
        push_cast
        omega
      · rw [if_neg h2, if_neg]
        push_cast
        omega

theorem forRange_row_update_get {α : Type} (f : Int → α) (i : Int) (n : Nat)
    (e : Int → Int → α) (i' j' : Int) :
    LAP.forRange 0 n (fun j e => Function.update e i (Function.update (e i) j (f j))) e i' j' =
      if i' = i ∧ 0 ≤ j' ∧ j' < n then f j' else e i' j' := by
  induction n with
  | zero =>
    simp only [LAP.forRange]
    rw [if_neg]
    simp only [Nat.cast_zero]
    omega
  | succ n ih =>
    simp only [LAP.forRange]
    by_cases hi : i' = i
    · rw [hi, Function.update_same]
      by_cases h : j' = 0 + (n : Int)
      · rw [← h, Function.update_same, if_pos]
        push_cast
        omega
      · rw [Function.update_noteq h]
        have := ih
        rw [hi] at this
        rw [this]
        by_cases h2 : 0 ≤ j' ∧ j' < n
        · rw [if_pos ⟨rfl, h2⟩, if_pos]
          push_cast
          omega
        · rw [if_neg (fun c => h2 c.2), if_neg]
          push_cast
          omega
    · rw [Function.update_noteq hi, ih, if_neg (fun c => hi c.1), if_neg (fun c => hi c.1)]

theorem forRange_matrix_update_get {α : Type} (g : Int → Int → α) (m n : Nat)
    (e : Int → Int → α) (i' j' : Int) :
    LAP.forRange 0 m (fun i e => LAP.forRange 0 n
      (fun j e => Function.update e i (Function.update (e i) j (g i j))) e) e i' j' =
      if (0 ≤ i' ∧ i' < m) ∧ 0 ≤ j' ∧ j' < n then g i' j' else e i' j' := by
  induction m with
  | zero =>
    simp only [LAP.forRange]
    rw [if_neg]
    simp only [Nat.cast_zero]
    omega
  | succ m ih =>
    simp only [LAP.forRange]
    rw [forRange_row_update_get (g (0 + (m : Int))) (0 + (m : Int)) n]
    by_cases hi : i' = 0 + (m : Int)
    · by_cases hj : 0 ≤ j' ∧ j' < n
      · rw [if_pos ⟨hi, hj⟩, if_pos, hi]
        push_cast
        omega
      · rw [if_neg (fun c => hj c.2), ih, if_neg (fun c => hj c.2), if_neg (fun c => hj c.2)]
    · rw [if_neg (fun c => hi c.1), ih]
      by_cases h2 : (0 ≤ i' ∧ i' < m) ∧ 0 ≤ j' ∧ j' < n
      · rw [if_pos h2, if_pos]
        push_cast
        omega
      · rw [if_neg h2, if_neg]
        push_cast
        omega

theorem GA_vector_get_elt_int_ok (vec : GAVectorInt) (index : Int) (h : index < vec.size) :
    GA_vector_get_elt_int vec index = { events := [], result := some index } := by
  unfold GA_vector_get_elt_int
  rw [if_pos h]

/-- The loop of `GA_invert_permutation_int` on indices that are below `size`
and pairwise distinct: it returns, every index of the range is stored at its
element, and the other elements are left as they were. -/
theorem invertLoop_spec (vec : GAVectorInt)
    (hge : ∀ k : Int, 0 ≤ k → k < vec.size → 0 ≤ vec.elts k)
    (hlt : ∀ k : Int, 0 ≤ k → k < vec.size → vec.elts k < vec.size)
    (hinj : ∀ k l : Int, 0 ≤ k → k < vec.size → 0 ≤ l → l < vec.size →
      vec.elts k = vec.elts l → k = l)
    (n : Nat) (i : Int) (e : Int → Int) (h0 : 0 ≤ i) (h1 : i + n ≤ vec.size) :
    ∃ e2 : Int → Int,
      invertLoop vec i n e = InvertOutcome.returned { size := vec.size, elts := e2 } ∧
      (∀ k : Int, i ≤ k → k < i + n → e2 (vec.elts k) = k) ∧
      (∀ j : Int, (∀ k : Int, i ≤ k → k < i + n → vec.elts k ≠ j) → e2 j = e j) := by
  induction n generalizing i e with
  | zero =>
    refine ⟨e, rfl, ?_, fun j _ => rfl⟩
    intro k hk1 hk2
    simp only [Nat.cast_zero] at hk2
    omega
  | succ n ih =>
    push_cast at h1
    have hlt1 := hlt i h0 (by omega)
    have hstep : invertLoop vec i (n + 1) e =
        invertLoop vec (i + 1) n (Function.update e (vec.elts i) i) := by
      simp only [invertLoop]
      rw [GA_vector_get_elt_int_ok { size := vec.size, elts := e } (vec.elts i) hlt1]
      dsimp only
      rw [if_neg (by have := hge i h0 (by omega); omega)]
    obtain ⟨e2, he, hset, hframe⟩ :=
      ih (i + 1) (Function.update e (vec.elts i) i) (by omega) (by omega)
    refine ⟨e2, by rw [hstep, he], ?_, ?_⟩
    · intro k hk1 hk2
      push_cast at hk2
      by_cases hk : k = i
      · rw [hk, hframe (vec.elts i), Function.update_same]
        intro l hl1 hl2 hc
        have := hinj l i (by omega) (by omega) h0 (by omega) hc
        omega
      · exact hset k (by omega) (by omega)
    · intro j hj
      rw [hframe j (fun k hk1 hk2 => hj k (by omega) (by push_cast; omega))]
      rw [Function.update_noteq]
      exact fun c => hj i (le_refl _) (by push_cast; omega) c.symm

/-- Every index is an element of a permutation of `0..size-1`. -/
theorem isPermutation_surjective (p : GAVectorInt) (hp : IsPermutation p)
    (j : Int) (hj0 : 0 ≤ j) (hj1 : j < p.size) :
    ∃ k : Int, 0 ≤ k ∧ k < p.size ∧ p.elts k = j := by
  let f : Fin p.size → Fin p.size := fun k =>
    ⟨(p.elts (k.val : Int)).toNat, by
      have a := hp.1 (k.val : Int) (by omega) (by have := k.isLt; omega)
      omega⟩
  have hf : Function.Injective f := by
    intro a b hab
    have ha := hp.1 (a.val : Int) (by omega) (by have := a.isLt; omega)
    have hb := hp.1 (b.val : Int) (by omega) (by have := b.isLt; omega)
    have h1 : (p.elts (a.val : Int)).toNat = (p.elts (b.val : Int)).toNat :=
      congrArg Fin.val hab
    have h2 : p.elts (a.val : Int) = p.elts (b.val : Int) := by omega
    have h3 := hp.2 (a.val : Int) (b.val : Int) (by omega) (by have := a.isLt; omega)
      (by omega) (by have := b.isLt; omega) h2
    apply Fin.ext
    omega
  have hs : Function.Surjective f := Finite.injective_iff_surjective.mp hf
  obtain ⟨k, hk⟩ := hs ⟨j.toNat, by omega⟩
  have hk2 : (p.elts (k.val : Int)).toNat = j.toNat := congrArg Fin.val hk
  have a := hp.1 (k.val : Int) (by omega) (by have := k.isLt; omega)
  exact ⟨(k.val : Int), by omega, by have := k.isLt; omega, by omega⟩

/-- The inverse `GA_invert_permutation_int` computes for a permutation. -/
theorem invert_spec (p : GAVectorInt) (mem : Int → Int) (hp : IsPermutation p) :
    ∃ pInv : GAVectorInt,
      GA_invert_permutation_int p mem = InvertOutcome.returned pInv ∧
      pInv.size = p.size ∧
      (∀ k : Int, 0 ≤ k → k < p.size → pInv.elts (p.elts k) = k) ∧
      (∀ j : Int, 0 ≤ j → j < p.size → p.elts (pInv.elts j) = j) ∧
      IsPermutation pInv := by
  obtain ⟨e2, he, hset, _⟩ := invertLoop_spec p (fun k a b => (hp.1 k a b).1)
    (fun k a b => (hp.1 k a b).2) hp.2
    p.size 0 mem (le_refl _) (by omega)
  have hinv : ∀ k : Int, 0 ≤ k → k < p.size → e2 (p.elts k) = k :=
    fun k a b => hset k a (by omega)
  have hback : ∀ j : Int, 0 ≤ j → j < p.size →
      (0 ≤ e2 j ∧ e2 j < p.size) ∧ p.elts (e2 j) = j := by
    intro j a b
    obtain ⟨k, k0, k1, hk⟩ := isPermutation_surjective p hp j a b
    rw [← hk, hinv k k0 k1]
    exact ⟨⟨k0, k1⟩, rfl⟩
  refine ⟨{ size := p.size, elts := e2 }, he, rfl, hinv, fun j a b => (hback j a b).2, ?_, ?_⟩
  · exact fun j a b => (hback j a b).1
  · intro k l k0 k1 l0 l1 hkl
    have a := (hback k k0 k1).2
    have b := (hback l l0 l1).2
    show k = l
    have hkl2 : e2 k = e2 l := hkl
    rw [hkl2, b] at a
    exact a.symm

theorem isPermutation_swap3 : IsPermutation (vectorOfInt [2, 0, 1]) := by
  constructor
  · intro k h0 h1
    have h3 : k < 3 := h1
    have : k = 0 ∨ k = 1 ∨ k = 2 := by omega
    rcases this with e | e | e <;> subst e <;> decide
  · intro k l k0 k1 l0 l1
    have h3 : k < 3 := k1
    have h4 : l < 3 := l1
    have hk : k = 0 ∨ k = 1 ∨ k = 2 := by omega
    have hl : l = 0 ∨ l = 1 ∨ l = 2 := by omega
    rcases hk with e | e | e <;> rcases hl with f | f | f <;> subst e <;> subst f <;> decide

/-- C17: for a vector `p` of length `n` that is a permutation of `0..n-1`,
`GA_invert_permutation_int` returns a vector `pInv` of length `n` with
`pInv[p[k]] = k` for every `k` and `p[pInv[j]] = j` for every `j` of
`0..n-1`. -/
theorem GA_invert_permutation_int_inverse (p : GAVectorInt) (mem : Int → Int)
    (hp : IsPermutation p) :
    ∃ pInv : GAVectorInt,
      GA_invert_permutation_int p mem = InvertOutcome.returned pInv ∧
      pInv.size = p.size ∧
      (∀ k : Int, 0 ≤ k → k < p.size → pInv.elts (p.elts k) = k) ∧
      (∀ j : Int, 0 ≤ j → j < p.size → p.elts (pInv.elts j) = j) := by
  obtain ⟨pInv, h1, h2, h3, h4, _⟩ := invert_spec p mem hp
  exact ⟨pInv, h1, h2, h3, h4⟩

theorem GA_invert_permutation_int_inverse_witness :
    IsPermutation (vectorOfInt [2, 0, 1]) ∧
    ∃ pInv : GAVectorInt,
      GA_invert_permutation_int (vectorOfInt [2, 0, 1]) (fun _ => 0) =
        InvertOutcome.returned pInv ∧
      pInv.size = (vectorOfInt [2, 0, 1]).size ∧
      (∀ k : Int, 0 ≤ k → k < (vectorOfInt [2, 0, 1]).size →
        pInv.elts ((vectorOfInt [2, 0, 1]).elts k) = k) ∧
      (∀ j : Int, 0 ≤ j → j < (vectorOfInt [2, 0, 1]).size →
        (vectorOfInt [2, 0, 1]).elts (pInv.elts j) = j) :=
  ⟨isPermutation_swap3,
    GA_invert_permutation_int_inverse (vectorOfInt [2, 0, 1]) (fun _ => 0) isPermutation_swap3⟩

/-- C18: the round trip.  For a permutation `p` of `0..n-1`, inverting `p`
and inverting the result gives a vector of the length of `p` with the
elements of `p`. -/
theorem GA_invert_permutation_int_round_trip (p : GAVectorInt) (mem mem2 : Int → Int)
    (hp : IsPermutation p) :
    ∃ q r : GAVectorInt,
      GA_invert_permutation_int p mem = InvertOutcome.returned q ∧
      GA_invert_permutation_int q mem2 = InvertOutcome.returned r ∧
      r.size = p.size ∧
      ∀ k : Int, 0 ≤ k → k < p.size → r.elts k = p.elts k := by
  obtain ⟨q, hq, hqs, hq1, _, hqp⟩ := invert_spec p mem hp
  obtain ⟨r, hr, hrs, hr1, _, _⟩ := invert_spec q mem2 hqp
  refine ⟨q, r, hq, hr, by rw [hrs, hqs], ?_⟩
  intro k k0 k1
  have a := hp.1 k k0 k1
  have b := hr1 (p.elts k) a.1 (by rw [hqs]; exact a.2)
  rw [hq1 k k0 k1] at b
  exact b

theorem GA_invert_permutation_int_round_trip_witness :
    IsPermutation (vectorOfInt [2, 0, 1]) ∧
    ∃ q r : GAVectorInt,
      GA_invert_permutation_int (vectorOfInt [2, 0, 1]) (fun _ => 0) =
        InvertOutcome.returned q ∧
      GA_invert_permutation_int q (fun _ => 0) = InvertOutcome.returned r ∧
      r.size = (vectorOfInt [2, 0, 1]).size ∧
      ∀ k : Int, 0 ≤ k → k < (vectorOfInt [2, 0, 1]).size →
        r.elts k = (vectorOfInt [2, 0, 1]).elts k :=
  ⟨isPermutation_swap3,
    GA_invert_permutation_int_round_trip (vectorOfInt [2, 0, 1]) (fun _ => 0) (fun _ => 0)
      isPermutation_swap3⟩

/-- C19 (what the code does): on the vector `[0, 5]`, whose entry 5 is no
index of a vector of 2 elements, `GA_invert_permutation_int` does not skip the
entry: in pass 1 `GA_vector_get_elt_int` reports the error and returns the
null pointer, and the function stores through it. -/
theorem GA_invert_permutation_int_out_of_range (mem : Int → Int) :
    GA_invert_permutation_int (vectorOfInt [0, 5]) mem =
      InvertOutcome.nullStore 1
        [{ text := "[GA_vector_get_elt_int] Index out of range.",
           level := GAMessageLevel.GA_MSG_ERROR }] := by
  rfl

/-- C20 (what the code does): `GA_vector_get_elt_int` tests `index < size`
only and `GA_matrix_get_elt_int` tests `row < rows` and `col < cols` only.  An
index below the size yields the element, an index from the size on is
reported and yields the null pointer, and a negative index is not rejected:
index -1 of a vector of 3 elements yields the pointer `elts - 1` without a
message. -/
theorem GA_get_elt_int_negative :
    (∀ (vec : GAVectorInt) (index : Int),
      (index < vec.size →
        GA_vector_get_elt_int vec index = { events := [], result := some index }) ∧
      (index ≥ vec.size →
        GA_vector_get_elt_int vec index =
          { events := [{ text := "[GA_vector_get_elt_int] Index out of range.",
                         level := GAMessageLevel.GA_MSG_ERROR }],
            result := none })) ∧
    (∀ (m : GAMatrixInt) (row col : Int),
      (row < m.rows ∧ col < m.cols →
        GA_matrix_get_elt_int m row col = { events := [], result := some (row, col) }) ∧
      (¬ (row < m.rows ∧ col < m.cols) →
        (GA_matrix_get_elt_int m row col).result = none ∧
        (GA_matrix_get_elt_int m row col).events ≠ [])) ∧
    GA_vector_get_elt_int (vectorOfInt [7, 8, 9]) (-1) =
      { events := [], result := some (-1) } ∧
    GA_matrix_get_elt_int { rows := 2, cols := 2, elts := fun _ _ => 0 } (-1) (-1) =
      { events := [], result := some (-1, -1) } := by
  refine ⟨?_, ?_, rfl, rfl⟩
  · intro vec index
    constructor
    · intro h; exact GA_vector_get_elt_int_ok vec index h
    · intro h
      unfold GA_vector_get_elt_int
      rw [if_neg (by omega)]
  · intro m row col
    constructor
    · intro h
      unfold GA_matrix_get_elt_int
      rw [if_pos h]
    · intro h
      unfold GA_matrix_get_elt_int
      rw [if_neg h]
      refine ⟨rfl, ?_⟩
      by_cases hr : row ≥ m.rows
      · simp [hr]
      · have hc : col ≥ m.cols := by
          by_contra hc
          exact h ⟨by omega, by omega⟩
        simp [hc]

/-! ## The score matrix, the encoding of directed graphs, the first phases of the solver -/

theorem setElt_get {α : Type} (e : Int → Int → α) (i j : Int) (x : α) (a b : Int) :
    setElt e i j x a b = if a = i ∧ b = j then x else e a b := by
  unfold setElt
  by_cases ha : a = i
  · rw [ha, Function.update_same]
    by_cases hb : b = j
    · rw [hb, Function.update_same, if_pos ⟨rfl, rfl⟩]
    · rw [Function.update_noteq hb, if_neg (fun c => hb c.2)]
  · rw [Function.update_noteq ha, if_neg (fun c => ha c.1)]

theorem forRange_setElt_get {α : Type} (g : Int → Int → α) (m n : Nat)
    (e : Int → Int → α) (i j : Int) :
    LAP.forRange 0 m (fun i e => LAP.forRange 0 n (fun j e => setElt e i j (g i j)) e) e i j =
      if (0 ≤ i ∧ i < m) ∧ 0 ≤ j ∧ j < n then g i j else e i j :=
  forRange_matrix_update_get g m n e i j

theorem GA_matrix_init_zero_real_get (rows cols : Nat) (e : Int → Int → ℚ) (i j : Int) :
    GA_matrix_init_zero_real rows cols e i j =
      if (0 ≤ i ∧ i < rows) ∧ 0 ≤ j ∧ j < cols then 0 else e i j :=
  forRange_setElt_get (fun _ _ => (0 : ℚ)) rows cols e i j

theorem isPermutation_perm1 : IsPermutation perm1 := by
  constructor
  · intro k h0 h1
    have h3 : k < 1 := h1
    have : k = 0 := by omega
    subst this
    decide
  · intro k l k0 k1 l0 l1 _
    have h3 : k < 1 := k1
    have h4 : l < 1 := l1
    omega

theorem setElt_pair_symm (e : Int → Int → ℚ) (i j : Int) (w : ℚ) (n : Nat)
    (h : ∀ x y : Int, 0 ≤ x → x < n → 0 ≤ y → y < n → e x y = e y x)
    (x y : Int) (hx0 : 0 ≤ x) (hx : x < n) (hy0 : 0 ≤ y) (hy : y < n) :
    setElt (setElt e i j w) j i w x y = setElt (setElt e i j w) j i w y x := by
  rw [setElt_get, setElt_get, setElt_get, setElt_get]
  by_cases h1 : x = j ∧ y = i
  · rw [if_pos h1]
    by_cases h2 : y = j ∧ x = i
    · rw [if_pos h2]
    · rw [if_neg h2, if_pos ⟨h1.2, h1.1⟩]
  · rw [if_neg h1]
    by_cases h2 : x = i ∧ y = j
    · rw [if_pos h2, if_pos ⟨h2.2, h2.1⟩]
    · rw [if_neg h2, if_neg (fun c => h2 ⟨c.2, c.1⟩), if_neg (fun c => h1 ⟨c.2, c.1⟩)]
      exact h x y hx0 hx hy0 hy

/-- The loops of `GA_encode_directed_graph` keep the matrix symmetric. -/
theorem encodeLoop_symm (n : Nat) (matrix : GAMatrixReal) (key : Int → Int)
    (e : Int → Int → ℚ)
    (h : ∀ x y : Int, 0 ≤ x → x < n → 0 ≤ y → y < n → e x y = e y x) :
    ∀ x y : Int, 0 ≤ x → x < n → 0 ≤ y → y < n →
      encodeLoop n matrix key e x y = encodeLoop n matrix key e y x := by
  unfold encodeLoop
  refine LAP.forRange_ind
    (fun _ (t : Int → Int → ℚ) =>
      ∀ x y : Int, 0 ≤ x → x < n → 0 ≤ y → y < n → t x y = t y x) 0 n _ e h ?_
  intro k t _ ht
  refine LAP.forRange_ind
    (fun _ (t : Int → Int → ℚ) =>
      ∀ x y : Int, 0 ≤ x → x < n → 0 ≤ y → y < n → t x y = t y x) 0 n _ t ht ?_
  intro l t2 _ ht2
  dsimp only
  split_ifs
  · exact setElt_pair_symm t2 _ _ 1 n ht2
  · exact setElt_pair_symm t2 _ _ (-1) n ht2
  · exact ht2

/-- C26: for a square matrix `m` of size `n` and a permutation vector that is
absent or has at least `n` elements, `GA_encode_directed_graph` returns an
`n × n` matrix `r` with `r[i][j] = r[j][i]` for all `i`, `j`. -/
theorem GA_encode_directed_graph_symmetric (matrix : GAMatrixReal) (p : Option GAVectorInt)
    (mem : Int → Int → ℚ) (hsq : matrix.rows = matrix.cols)
    (hp : ∀ pv : GAVectorInt, p = some pv → matrix.rows ≤ pv.size) :
    ∃ r : GAMatrixReal,
      GA_encode_directed_graph matrix p mem = { events := [], result := some r } ∧
      r.rows = matrix.rows ∧ r.cols = matrix.rows ∧
      ∀ i j : Int, 0 ≤ i → i < matrix.rows → 0 ≤ j → j < matrix.rows →
        r.elts i j = r.elts j i := by
  have hz : ∀ x y : Int, 0 ≤ x → x < matrix.rows → 0 ≤ y → y < matrix.rows →
      GA_matrix_init_zero_real matrix.rows matrix.rows mem x y =
        GA_matrix_init_zero_real matrix.rows matrix.rows mem y x := by
    intro x y hx0 hx hy0 hy
    rw [GA_matrix_init_zero_real_get, GA_matrix_init_zero_real_get,
      if_pos ⟨⟨hx0, hx⟩, hy0, hy⟩, if_pos ⟨⟨hy0, hy⟩, hx0, hx⟩]
  unfold GA_encode_directed_graph
  rw [if_neg (by simp [hsq])]
  cases p with
  | none =>
    exact ⟨_, rfl, rfl, rfl, encodeLoop_symm matrix.rows matrix (fun i => i) _ hz⟩
  | some pv =>
    have := hp pv rfl
    dsimp only
    rw [if_neg (by omega)]
    exact ⟨_, rfl, rfl, rfl, encodeLoop_symm matrix.rows matrix pv.elts _ hz⟩

theorem GA_encode_directed_graph_symmetric_witness :
    ∃ r : GAMatrixReal,
      GA_encode_directed_graph (matrixOfReal 2 [[0, 1], [0, 0]]) none (fun _ _ => 0) =
        { events := [], result := some r } ∧
      r.rows = (matrixOfReal 2 [[0, 1], [0, 0]]).rows ∧
      r.cols = (matrixOfReal 2 [[0, 1], [0, 0]]).rows ∧
      ∀ i j : Int, 0 ≤ i → i < (matrixOfReal 2 [[0, 1], [0, 0]]).rows →
        0 ≤ j → j < (matrixOfReal 2 [[0, 1], [0, 0]]).rows →
        r.elts i j = r.elts j i :=
  GA_encode_directed_graph_symmetric (matrixOfReal 2 [[0, 1], [0, 0]]) none (fun _ _ => 0)
    rfl (fun _ h => absurd h (by simp))

/-- C25 (what the code does): without a permutation
`GA_encode_directed_graph` tests `i <= j`.  For the matrix `[[0,1],[0,0]]`,
where `m[0][1] = 1` and `m[1][0] ≠ 1` (so `j > i`), the entries (0,1) and
(1,0) of the result are both 1; for `[[0,0],[1,0]]`, where `m[1][0] = 1` and
`m[0][1] ≠ 1` (so `i > j`), they are both -1. -/
theorem GA_encode_directed_graph_sign (mem : Int → Int → ℚ) :
    (∃ r : GAMatrixReal,
      GA_encode_directed_graph (matrixOfReal 2 [[0, 1], [0, 0]]) none mem =
        { events := [], result := some r } ∧
      r.elts 0 1 = 1 ∧ r.elts 1 0 = 1) ∧
    (∃ r : GAMatrixReal,
      GA_encode_directed_graph (matrixOfReal 2 [[0, 0], [1, 0]]) none mem =
        { events := [], result := some r } ∧
      r.elts 1 0 = -1 ∧ r.elts 0 1 = -1) :=
  ⟨⟨_, rfl, rfl, rfl⟩, ⟨_, rfl, rfl, rfl⟩⟩

namespace LAP

/-- The row `colMin` returns is the first row at which the minimum of the
column occurs. -/
theorem colMin_first (dim : Nat) (c : Int → Int → Int) (j : Int) :
    ∀ i : Int, 0 ≤ i → i < (colMin dim c j).2 → (colMin dim c j).1 < c i j := by
  have key := forRange_ind
    (fun (k : Nat) (p : Int × Int) => p.2 < 1 + (k : Int) ∧
      (∀ i : Int, 0 ≤ i → i < 1 + (k : Int) → p.1 ≤ c i j) ∧
      ∀ i : Int, 0 ≤ i → i < p.2 → p.1 < c i j)
    1 (dim - 1) (fun i (p : Int × Int) => if c i j < p.1 then (c i j, i) else p) (c 0 j, 0)
    (by
      refine ⟨by simp, ?_, ?_⟩
      · intro i h0 h1
        have : i = 0 := by simp at h1; omega
        subst this; exact le_refl _
      · intro i h0 h1
        simp only at h1
        omega)
    (by
      intro k p _ ⟨h2, h4, h5⟩
      dsimp only
      by_cases hlt : c (1 + (k : Int)) j < p.1
      · rw [if_pos hlt]
        refine ⟨by push_cast; omega, ?_, ?_⟩
        · intro i hi0 hi1
          by_cases hik : i = 1 + (k : Int)
          · subst hik; exact le_refl _
          · have := h4 i hi0 (by push_cast at hi1; omega)
            simp only
            omega
        · intro i hi0 hi1
          simp only at hi1 ⊢
          have := h4 i hi0 hi1
          omega
      · rw [if_neg hlt]
        refine ⟨by push_cast; omega, ?_, h5⟩
        intro i hi0 hi1
        by_cases hik : i = 1 + (k : Int)
        · subst hik; omega
        · exact h4 i hi0 (by push_cast at hi1; omega))
  exact key.2.2

theorem chosenCount_succ_same (dim : Nat) (c : Int → Int → Int) (k : Nat) (hk : k < dim) :
    chosenCount dim c k (colMin dim c (k : Int)).2 =
      chosenCount dim c (k + 1) (colMin dim c (k : Int)).2 + 1 := by
  unfold chosenCount
  have hset : (Finset.range dim).filter
      (fun j : Nat => k ≤ j ∧ (colMin dim c (j : Int)).2 = (colMin dim c (k : Int)).2) =
      insert k ((Finset.range dim).filter
        (fun j : Nat => k + 1 ≤ j ∧ (colMin dim c (j : Int)).2 = (colMin dim c (k : Int)).2)) := by
    ext j
    simp only [Finset.mem_filter, Finset.mem_range, Finset.mem_insert]
    constructor
    · rintro ⟨h1, h2, h3⟩
      by_cases e : j = k
      · exact Or.inl e
      · exact Or.inr ⟨h1, by omega, h3⟩
    · rintro (e | ⟨h1, h2, h3⟩)
      · subst e; exact ⟨hk, le_refl _, rfl⟩
      · exact ⟨h1, by omega, h3⟩
  rw [hset, Finset.card_insert_of_not_mem]
  simp only [Finset.mem_filter, Finset.mem_range, not_and]
  intro _ h
  omega

theorem chosenCount_succ_other (dim : Nat) (c : Int → Int → Int) (k : Nat) (i : Int)
    (hi : i ≠ (colMin dim c (k : Int)).2) :
    chosenCount dim c k i = chosenCount dim c (k + 1) i := by
  unfold chosenCount
  congr 1
  ext j
  simp only [Finset.mem_filter, Finset.mem_range]
  constructor
  · rintro ⟨h1, h2, h3⟩
    refine ⟨h1, ?_, h3⟩
    by_contra hc
    have : j = k := by omega
    subst this
    exact hi h3.symm
  · rintro ⟨h1, h2, h3⟩
    exact ⟨h1, by omega, h3⟩

theorem chosenCount_zero (dim : Nat) (c : Int → Int → Int) (k : Nat) (i : Int)
    (h : chosenCount dim c k i = 0) (j : Int) (hj0 : (k : Int) ≤ j) (hj1 : j < dim) :
    (colMin dim c j).2 ≠ i := by
  unfold chosenCount at h
  rw [Finset.card_eq_zero] at h
  intro hc
  have hmem : j.toNat ∈ (Finset.range dim).filter
      (fun j : Nat => k ≤ j ∧ (colMin dim c (j : Int)).2 = i) := by
    simp only [Finset.mem_filter, Finset.mem_range]
    refine ⟨by omega, by omega, ?_⟩
    rw [Int.toNat_of_nonneg (by omega)]
    exact hc
  rw [h] at hmem
  exact absurd hmem (Finset.not_mem_empty _)

theorem colRedStep_track (dim : Nat) (c : Int → Int → Int) (k : Nat) (s : St)
    (hk : k < dim) (h : ColRedTrack dim c (k + 1) s) :
    ColRedTrack dim c k (colRedStep dim c k s) := by
  obtain ⟨hi0, hi1, _, _⟩ := colMin_spec dim c k (by omega)
  have hsame := chosenCount_succ_same dim c k hk
  have hother := chosenCount_succ_other dim c k
  have hcnt := h.count _ hi0 hi1
  unfold colRedStep
  simp only [Function.update_same]
  by_cases hfirst : s.matchcnt (colMin dim c (k : Int)).2 + 1 = 1
  · rw [if_pos hfirst]
    have hz : chosenCount dim c (k + 1) (colMin dim c (k : Int)).2 = 0 := by omega
    have hnone := chosenCount_zero dim c (k + 1) _ hz
    refine ⟨?_, ?_, ?_, ?_⟩
    · intro j h1 h2
      simp only [Function.update_apply]
      split_ifs with hj
      · rw [hj]
      · exact h.v_eq j (by push_cast; omega) h2
    · intro i h1 h2
      simp only [Function.update_apply]
      split_ifs with hi
      · rw [hi, hsame]; push_cast; omega
      · rw [hother i hi]; exact h.count i h1 h2
    · intro i h1 h2
      simp only [Function.update_apply]
      by_cases hi : i = (colMin dim c (k : Int)).2
      · rw [if_pos hi, if_pos hi]
        intro _
        simp only [if_true]
        refine ⟨le_refl _, by omega, hi.symm, hi.symm, ?_⟩
        intro j hj0 hj1 hj
        by_contra hc
        exact hnone j (by push_cast; omega) hj1 (by rw [hj, hi])
      · rw [if_neg hi, if_neg hi]
        intro hm
        obtain ⟨t1, t2, t3, t4, t5⟩ := h.top i h1 h2 hm
        push_cast at t1
        have hne : s.rowsol i ≠ (k : Int) := by omega
        rw [if_neg hne]
        refine ⟨by omega, t2, t3, t4, ?_⟩
        intro j hj0 hj1 hj
        by_cases hjk : j = (k : Int)
        · omega
        · exact t5 j (by push_cast; omega) hj1 hj
    · intro j h1 h2
      simp only [Function.update_apply]
      by_cases hjk : j = (k : Int)
      · rw [if_pos hjk]
        intro hne
        exfalso
        apply hne
        rw [hjk]
        simp
      · rw [if_neg hjk]
        intro hne
        apply h.others j (by push_cast; omega) h2
        intro hc
        apply hne
        by_cases hi : (colMin dim c j).2 = (colMin dim c (k : Int)).2
        · exact absurd hi (hnone j (by push_cast; omega) h2)
        · rw [if_neg hi]; exact hc
  · rw [if_neg hfirst]
    have hpos : 1 ≤ s.matchcnt (colMin dim c (k : Int)).2 := by omega
    obtain ⟨t1, t2, t3, t4, t5⟩ := h.top _ hi0 hi1 hpos
    push_cast at t1
    refine ⟨?_, ?_, ?_, ?_⟩
    · intro j h1 h2
      simp only [Function.update_apply]
      split_ifs with hj
      · rw [hj]
      · exact h.v_eq j (by push_cast; omega) h2
    · intro i h1 h2
      simp only [Function.update_apply]
      split_ifs with hi
      · rw [hi, hsame]; push_cast; omega
      · rw [hother i hi]; exact h.count i h1 h2
    · intro i h1 h2
      simp only [Function.update_apply]
      by_cases hi : i = (colMin dim c (k : Int)).2
      · rw [if_pos hi]
        intro _
        rw [hi]
        have hne : s.rowsol (colMin dim c (k : Int)).2 ≠ (k : Int) := by omega
        rw [if_neg hne]
        refine ⟨by omega, t2, t3, t4, ?_⟩
        intro j hj0 hj1 hj
        by_cases hjk : j = (k : Int)
        · omega
        · exact t5 j (by push_cast; omega) hj1 hj
      · rw [if_neg hi]
        intro hm
        obtain ⟨u1, u2, u3, u4, u5⟩ := h.top i h1 h2 hm
        push_cast at u1
        have hne : s.rowsol i ≠ (k : Int) := by omega
        rw [if_neg hne]
        refine ⟨by omega, u2, u3, u4, ?_⟩
        intro j hj0 hj1 hj
        by_cases hjk : j = (k : Int)
        · rw [hjk] at hj; exact absurd hj.symm hi
        · exact u5 j (by push_cast; omega) hj1 hj
    · intro j h1 h2
      simp only [Function.update_apply]
      by_cases hjk : j = (k : Int)
      · rw [if_pos hjk]
        intro _
        trivial
      · rw [if_neg hjk]
        intro hne
        exact h.others j (by push_cast; omega) h2 hne

theorem colReduction_track (dim : Nat) (c : Int → Int → Int) (s0 : St) :
    ColRedTrack dim c 0 (colReduction dim c (lapInit dim s0)) := by
  unfold colReduction
  refine forDown_ind (fun k t => ColRedTrack dim c k t) dim (colRedStep dim c) _ ?_ ?_
  · have hz : ∀ i : Int, chosenCount dim c dim i = 0 := by
      intro i
      unfold chosenCount
      rw [Finset.card_eq_zero]
      ext j
      simp only [Finset.mem_filter, Finset.mem_range, Finset.not_mem_empty, iff_false]
      omega
    refine ⟨?_, ?_, ?_, ?_⟩
    · intro j h1 h2; omega
    · intro i h1 h2
      rw [hz i]
      exact matchcnt_init dim s0.matchcnt i h1 h2
    · intro i h1 h2 h3
      have : (lapInit dim s0).matchcnt i = 0 := matchcnt_init dim s0.matchcnt i h1 h2
      omega
    · intro j h1 h2; omega
  · intro k t hk ht
    exact colRedStep_track dim c k t hk ht

theorem lapInit_colRedInv (dim : Nat) (c : Int → Int → Int) (s0 : St) :
    ColRedInv dim c 0 (afterColRed dim c s0) :=
  colReduction_inv dim c (lapInit dim s0)
    (fun i h0 h1 => matchcnt_init dim s0.matchcnt i h0 h1) rfl

theorem transferRun_inv (dim : Nat) (c : Int → Int → Int) (s0 : St) (k : Nat) (hk : k ≤ dim) :
    TransferInv dim c k (transferRun dim c (afterColRed dim c s0) k) := by
  unfold transferRun
  induction k with
  | zero => exact transferInv_init dim c _ (lapInit_colRedInv dim c s0)
  | succ n ih =>
    simp only [forRange]
    exact transferStep_inv dim c n _ (by omega) (ih (by omega))

theorem transferMin_attained (dim : Nat) (c : Int → Int → Int) (v : Int → Int) (i j1 : Int)
    (h : ∃ j : Int, 0 ≤ j ∧ j < dim ∧ j ≠ j1 ∧ c i j - v j ≤ BIG) :
    ∃ j : Int, 0 ≤ j ∧ j < dim ∧ j ≠ j1 ∧ transferMin dim c v i j1 = c i j - v j := by
  have key := forRange_ind
    (fun (k : Nat) (m : Int) =>
      (m = BIG ∧ ∀ j : Int, 0 ≤ j → j < k → j ≠ j1 → BIG ≤ c i j - v j) ∨
      ∃ j : Int, 0 ≤ j ∧ j < k ∧ j ≠ j1 ∧ m = c i j - v j)
    0 dim
    (fun j (min : Int) =>
      if j ≠ j1 then (if c i j - v j < min then c i j - v j else min) else min) BIG
    (by
      left
      refine ⟨rfl, ?_⟩
      intro j h0 h1; simp at h1; omega)
    (by
      intro k m hk hm
      dsimp only
      have hx : (0 : Int) + (k : Int) = k := by omega
      rw [hx]
      by_cases hne : (k : Int) ≠ j1
      · rw [if_pos hne]
        by_cases hlt : c i (k : Int) - v (k : Int) < m
        · rw [if_pos hlt]
          right
          exact ⟨k, by omega, by push_cast; omega, hne, rfl⟩
        · rw [if_neg hlt]
          rcases hm with ⟨e, hall⟩ | ⟨j, a, b, d, e⟩
          · left
            refine ⟨e, ?_⟩
            intro j h0 h1 h2
            by_cases hjk : j = (k : Int)
            · rw [hjk]; omega
            · exact hall j h0 (by push_cast at h1; omega) h2
          · right
            exact ⟨j, a, by push_cast; omega, d, e⟩
      · rw [if_neg hne]
        rcases hm with ⟨e, hall⟩ | ⟨j, a, b, d, e⟩
        · left
          refine ⟨e, ?_⟩
          intro j h0 h1 h2
          have hjk : j ≠ (k : Int) := by
            intro hc
            apply hne
            rw [← hc]
            exact h2
          exact hall j h0 (by push_cast at h1; omega) h2
        · right
          exact ⟨j, a, by push_cast; omega, d, e⟩)
  rcases key with ⟨e, hall⟩ | hex
  · obtain ⟨j, a, b, d, hle⟩ := h
    have := hall j a b d
    exact ⟨j, a, b, d, by unfold transferMin; omega⟩
  · exact hex

theorem transferStep_track (dim : Nat) (c : Int → Int → Int) (s1 : St) (k : Nat) (s : St)
    (hk : k < dim) (hinv : TransferInv dim c k s) (h : TransferTrack dim c s1 k s) :
    TransferTrack dim c s1 (k + 1) (transferStep dim c (0 + (k : Int)) s) := by
  have hk0 : (0 : Int) + (k : Int) = k := by omega
  have hrun : transferStep dim c (0 + (k : Int)) s = transferRun dim c s1 (k + 1) := by
    rw [h.run_eq]
    rfl
  rw [hk0] at hrun ⊢
  have hkr0 : (0 : Int) ≤ (k : Int) := by omega
  have hkr1 : (k : Int) < dim := by omega
  have hinj : ∀ i : Int, 0 ≤ i → i < dim → 1 ≤ s1.matchcnt i →
      ∀ i' : Int, 0 ≤ i' → i' < dim → 1 ≤ s1.matchcnt i' →
      s1.rowsol i = s1.rowsol i' → i = i' := by
    intro i a b d i' a' b' d' e
    have x := (hinv.m_pos i a b (by rw [h.m_eq]; exact d)).2.2
    have y := (hinv.m_pos i' a' b' (by rw [h.m_eq]; exact d')).2.2
    rw [h.rows_eq, h.cols_eq] at x y
    rw [e, y] at x
    exact x.symm
  unfold transferStep at hrun ⊢
  by_cases hz : s.matchcnt (k : Int) = 0
  · rw [if_pos hz] at hrun ⊢
    have hz1 : s1.matchcnt (k : Int) = 0 := by rw [← h.m_eq]; exact hz
    refine ⟨hrun, h.rows_eq, h.cols_eq, h.m_eq, h.v_le, ?_, ?_, ?_⟩
    · intro j hj
      apply h.v_same j
      intro i a b d
      exact hj i a (by push_cast; omega) d
    · intro i a b d
      have hik : i ≠ (k : Int) := by intro e; rw [e] at d; omega
      exact h.v_done i a (by push_cast at b; omega) d
    · intro t t' a b d
      show Function.update s.rfree s.numfree (k : Int) t <
        Function.update s.rfree s.numfree (k : Int) t'
      have d' : t' < s.numfree + 1 := d
      have ht : t ≠ s.numfree := by omega
      rw [Function.update_noteq ht]
      by_cases ht' : t' = s.numfree
      · rw [ht', Function.update_same]
        exact (hinv.rf_range t a (by omega)).2.1
      · rw [Function.update_noteq ht']
        exact h.rf_mono t t' a b (by omega)
  · rw [if_neg hz] at hrun ⊢
    by_cases ho : s.matchcnt (k : Int) = 1
    · rw [if_pos ho] at hrun ⊢
      have ho1 : s1.matchcnt (k : Int) = 1 := by rw [← h.m_eq]; exact ho
      have hmin := transferMin_spec dim c s.v (k : Int) (s.rowsol (k : Int))
        (fun j a b => hinv.vle (k : Int) j hkr0 hkr1 a b)
      have hvk : s.v (s1.rowsol (k : Int)) = s1.v (s1.rowsol (k : Int)) := by
        apply h.v_same
        intro i a b d e
        have := hinj i a (by omega) (by omega) (k : Int) hkr0 hkr1 (by omega) e
        omega
      refine ⟨hrun, h.rows_eq, h.cols_eq, h.m_eq, ?_, ?_, ?_, h.rf_mono⟩
      · intro j
        show Function.update s.v (s.rowsol (k : Int))
          (s.v (s.rowsol (k : Int)) - transferMin dim c s.v (k : Int) (s.rowsol (k : Int))) j ≤ _
        simp only [Function.update_apply]
        split_ifs with hj
        · have := h.v_le (s.rowsol (k : Int))
          rw [hj]
          omega
        · exact h.v_le j
      · intro j hj
        show Function.update s.v (s.rowsol (k : Int))
          (s.v (s.rowsol (k : Int)) - transferMin dim c s.v (k : Int) (s.rowsol (k : Int))) j = _
        have hne : j ≠ s.rowsol (k : Int) := by
          rw [h.rows_eq]
          exact fun e => hj (k : Int) hkr0 (by push_cast; omega) ho1 e.symm
        rw [Function.update_noteq hne]
        apply h.v_same j
        intro i a b d
        exact hj i a (by push_cast; omega) d
      · intro i a b d
        show Function.update s.v (s.rowsol (k : Int))
          (s.v (s.rowsol (k : Int)) - transferMin dim c s.v (k : Int) (s.rowsol (k : Int)))
          (s1.rowsol i) = _
        by_cases hik : i = (k : Int)
        · rw [hik, h.rows_eq, Function.update_same, hvk, Int.toNat_ofNat, ← h.run_eq]
        · have hne : s1.rowsol i ≠ s.rowsol (k : Int) := by
            rw [h.rows_eq]
            intro e
            exact hik (hinj i a (by push_cast at b; omega) (by omega) (k : Int) hkr0 hkr1
              (by omega) e)
          rw [Function.update_noteq hne]
          exact h.v_done i a (by push_cast at b; omega) d
    · rw [if_neg ho] at hrun ⊢
      have ho1 : s1.matchcnt (k : Int) ≠ 1 := by rw [← h.m_eq]; exact ho
      refine ⟨hrun, h.rows_eq, h.cols_eq, h.m_eq, h.v_le, ?_, ?_, h.rf_mono⟩
      · intro j hj
        apply h.v_same j
        intro i a b d
        exact hj i a (by push_cast; omega) d
      · intro i a b d
        have hik : i ≠ (k : Int) := by intro e; rw [e] at d; exact ho1 d
        exact h.v_done i a (by push_cast at b; omega) d

theorem transferRun_track (dim : Nat) (c : Int → Int → Int) (s0 : St) (k : Nat)
    (hk : k ≤ dim) :
    TransferTrack dim c (afterColRed dim c s0) k
      (transferRun dim c (afterColRed dim c s0) k) := by
  induction k with
  | zero =>
    refine ⟨rfl, rfl, rfl, rfl, fun _ => le_refl _, fun _ _ => rfl, ?_, ?_⟩
    · intro i a b; simp at b; omega
    · intro t t' a b d
      have hn : (transferRun dim c (afterColRed dim c s0) 0).numfree = 0 :=
        (lapInit_colRedInv dim c s0).numfree_eq
      rw [hn] at d
      omega
  | succ n ih =>
    exact transferStep_track dim c _ n _ (by omega) (transferRun_inv dim c s0 n (by omega))
      (ih (by omega))

/-- The prices only go down in the course of the reduction transfer. -/
theorem transferRun_v_mono (dim : Nat) (c : Int → Int → Int) (s0 : St) (k n : Nat)
    (hkn : k ≤ n) (hn : n ≤ dim) (j : Int) :
    (transferRun dim c (afterColRed dim c s0) n).v j ≤
      (transferRun dim c (afterColRed dim c s0) k).v j := by
  induction n with
  | zero =>
    have : k = 0 := by omega
    rw [this]
  | succ m ih =>
    by_cases e : k = m + 1
    · rw [e]
    · have h1 := ih (by omega) (by omega)
      refine le_trans ?_ h1
      have hinv := transferRun_inv dim c s0 m (by omega)
      show (transferStep dim c (0 + (m : Int)) (transferRun dim c (afterColRed dim c s0) m)).v j
        ≤ _
      generalize transferRun dim c (afterColRed dim c s0) m = s at hinv
      have hm0 : (0 : Int) + (m : Int) = m := by omega
      rw [hm0]
      unfold transferStep
      split_ifs
      · exact le_refl _
      · have hmin := transferMin_spec dim c s.v (m : Int) (s.rowsol (m : Int))
          (fun j a b => hinv.vle (m : Int) j (by omega) (by omega) a b)
        show Function.update s.v (s.rowsol (m : Int))
          (s.v (s.rowsol (m : Int)) - transferMin dim c s.v (m : Int) (s.rowsol (m : Int))) j
          ≤ _
        simp only [Function.update_apply]
        split_ifs with hj
        · rw [hj]; omega
        · exact le_refl _
      · exact le_refl _

/-- The states `afterColRed` and `afterTransfer` are the states of `LAP_lap`
after its first two phases. -/
theorem LAP_lap_stages (fuel : Nat) (dim : Nat) (c : Int → Int → Int) (s0 : St) :
    LAP_lap fuel dim c s0 =
      match arrPass fuel dim c (afterTransfer dim c s0) with
      | none => none
      | some s =>
        match arrPass fuel dim c s with
        | none => none
        | some s =>
          match augment fuel dim c s.numfree.toNat s with
          | none => none
          | some s =>
            some { lapcost := (forRange 0 dim (finalStep c s.rowsol s.v) (s.u, 0)).2,
                   rowsol := s.rowsol, colsol := s.colsol,
                   u := (forRange 0 dim (finalStep c s.rowsol s.v) (s.u, 0)).1, v := s.v } :=
  rfl

/-- C28: phase 1.  For `dim ≥ 1`, after the column reduction every column `j`
has `v[j]` equal to the minimum of `cost[i][j]` over the rows `i`, the row
`imin` chosen for `j` is the smallest row index at which the minimum occurs,
and `cost[i][j] - v[j] ≥ 0` for all `i`, `j`. -/
theorem colReduction_minimum (dim : Nat) (c : Int → Int → Int) (s0 : St) (hd : 1 ≤ dim) :
    ∀ j : Int, 0 ≤ j → j < dim →
      (0 ≤ (colMin dim c j).2 ∧ (colMin dim c j).2 < dim) ∧
      (afterColRed dim c s0).v j = c (colMin dim c j).2 j ∧
      (∀ i : Int, 0 ≤ i → i < dim → (afterColRed dim c s0).v j ≤ c i j) ∧
      (∀ i : Int, 0 ≤ i → i < (colMin dim c j).2 → (afterColRed dim c s0).v j < c i j) ∧
      (∀ i : Int, 0 ≤ i → i < dim → c i j - (afterColRed dim c s0).v j ≥ 0) := by
  intro j hj0 hj1
  obtain ⟨a, b, e, hle⟩ := colMin_spec dim c j hd
  have hfirst := colMin_first dim c j
  have hv := (colReduction_track dim c s0).v_eq j (by simpa using hj0) hj1
  have hv' : (afterColRed dim c s0).v j = (colMin dim c j).1 := hv
  rw [hv']
  refine ⟨⟨a, b⟩, e, hle, hfirst, ?_⟩
  intro i h0 h1
  have := hle i h0 h1
  omega

theorem colReduction_minimum_witness :
    1 ≤ 3 ∧
    ∀ j : Int, 0 ≤ j → j < (3 : Nat) →
      (0 ≤ (colMin 3 cost3 j).2 ∧ (colMin 3 cost3 j).2 < (3 : Nat)) ∧
      (afterColRed 3 cost3 zeroSt).v j = cost3 (colMin 3 cost3 j).2 j ∧
      (∀ i : Int, 0 ≤ i → i < (3 : Nat) → (afterColRed 3 cost3 zeroSt).v j ≤ cost3 i j) ∧
      (∀ i : Int, 0 ≤ i → i < (colMin 3 cost3 j).2 →
        (afterColRed 3 cost3 zeroSt).v j < cost3 i j) ∧
      (∀ i : Int, 0 ≤ i → i < (3 : Nat) → cost3 i j - (afterColRed 3 cost3 zeroSt).v j ≥ 0) :=
  ⟨by decide, colReduction_minimum 3 cost3 zeroSt (by decide)⟩

/-- C29: the assignment rule of phase 1.  The loop runs over the columns from
`dim-1` down to 0; after it, `matches[i]` is the number of columns whose
minimum row is `i`, and for a row `i` with `matches[i] ≥ 1`, `rowsol[i]` is
the column of highest index that chose `i`, `colsol` of that column is `i`,
and every other column that chose `i` has `colsol = -1`. -/
theorem colReduction_assignment (dim : Nat) (c : Int → Int → Int) (s0 : St)
    (i : Int) (hi0 : 0 ≤ i) (hi1 : i < dim) :
    afterColRed dim c s0 = forDown dim (colRedStep dim c) (lapInit dim s0) ∧
    (afterColRed dim c s0).matchcnt i =
      (((Finset.range dim).filter
        (fun j : Nat => (colMin dim c (j : Int)).2 = i)).card : Int) ∧
    (1 ≤ (afterColRed dim c s0).matchcnt i →
      (0 ≤ (afterColRed dim c s0).rowsol i ∧ (afterColRed dim c s0).rowsol i < dim) ∧
      (colMin dim c ((afterColRed dim c s0).rowsol i)).2 = i ∧
      (∀ j : Int, 0 ≤ j → j < dim → (colMin dim c j).2 = i →
        j ≤ (afterColRed dim c s0).rowsol i) ∧
      (afterColRed dim c s0).colsol ((afterColRed dim c s0).rowsol i) = i ∧
      ∀ j : Int, 0 ≤ j → j < dim → (colMin dim c j).2 = i →
        j ≠ (afterColRed dim c s0).rowsol i → (afterColRed dim c s0).colsol j = -1) := by
  have h := colReduction_track dim c s0
  have hc : chosenCount dim c 0 i =
      ((Finset.range dim).filter (fun j : Nat => (colMin dim c (j : Int)).2 = i)).card := by
    unfold chosenCount
    congr 1
    ext j
    simp
  refine ⟨rfl, ?_, ?_⟩
  · rw [← hc]
    exact h.count i hi0 hi1
  · intro hm
    obtain ⟨t1, t2, t3, t4, t5⟩ := h.top i hi0 hi1 hm
    refine ⟨⟨by simpa using t1, t2⟩, t3, ?_, t4, ?_⟩
    · intro j a b e
      exact t5 j (by simpa using a) b e
    · intro j a b e hne
      apply h.others j (by simpa using a) b
      rw [e]
      exact hne

theorem colReduction_assignment_witness :
    ((0 : Int) ≤ 0 ∧ (0 : Int) < (3 : Nat)) ∧
    (afterColRed 3 cost3 zeroSt = forDown 3 (colRedStep 3 cost3) (lapInit 3 zeroSt) ∧
    (afterColRed 3 cost3 zeroSt).matchcnt 0 =
      (((Finset.range 3).filter
        (fun j : Nat => (colMin 3 cost3 (j : Int)).2 = 0)).card : Int) ∧
    (1 ≤ (afterColRed 3 cost3 zeroSt).matchcnt 0 →
      (0 ≤ (afterColRed 3 cost3 zeroSt).rowsol 0 ∧
        (afterColRed 3 cost3 zeroSt).rowsol 0 < (3 : Nat)) ∧
      (colMin 3 cost3 ((afterColRed 3 cost3 zeroSt).rowsol 0)).2 = 0 ∧
      (∀ j : Int, 0 ≤ j → j < (3 : Nat) → (colMin 3 cost3 j).2 = 0 →
        j ≤ (afterColRed 3 cost3 zeroSt).rowsol 0) ∧
      (afterColRed 3 cost3 zeroSt).colsol ((afterColRed 3 cost3 zeroSt).rowsol 0) = 0 ∧
      ∀ j : Int, 0 ≤ j → j < (3 : Nat) → (colMin 3 cost3 j).2 = 0 →
        j ≠ (afterColRed 3 cost3 zeroSt).rowsol 0 →
        (afterColRed 3 cost3 zeroSt).colsol j = -1)) :=
  ⟨⟨by decide, by decide⟩,
    colReduction_assignment 3 cost3 zeroSt 0 (by decide) (by decide)⟩

/-- C30: phase 2, for `dim ≥ 2`.  After the reduction transfer the list of
free rows holds exactly the rows with `matches = 0`, in increasing order;
`rowsol` and `colsol` are unchanged; `v` differs only at the columns
`rowsol[i]` of the rows `i` with `matches[i] = 1`, where it is lower by an
amount `m ≥ 0` that is at most every `cost[i][j] - v[j]`, `j ≠ rowsol[i]`
(with `v` as it is when row `i` is handled), and that is one of them when no
reduced cost exceeds `BIG`; and `cost[i][j] - v[j] ≥ 0` for all `i`, `j`. -/
theorem reductionTransfer_spec (dim : Nat) (c : Int → Int → Int) (s0 : St) (hd : 2 ≤ dim) :
    (0 ≤ (afterTransfer dim c s0).numfree ∧
      (∀ t : Int, 0 ≤ t → t < (afterTransfer dim c s0).numfree →
        0 ≤ (afterTransfer dim c s0).rfree t ∧ (afterTransfer dim c s0).rfree t < dim ∧
        (afterColRed dim c s0).matchcnt ((afterTransfer dim c s0).rfree t) = 0) ∧
      (∀ i : Int, 0 ≤ i → i < dim → (afterColRed dim c s0).matchcnt i = 0 →
        ∃ t : Int, 0 ≤ t ∧ t < (afterTransfer dim c s0).numfree ∧
          (afterTransfer dim c s0).rfree t = i) ∧
      (∀ t t' : Int, 0 ≤ t → t < t' → t' < (afterTransfer dim c s0).numfree →
        (afterTransfer dim c s0).rfree t < (afterTransfer dim c s0).rfree t')) ∧
    ((afterTransfer dim c s0).rowsol = (afterColRed dim c s0).rowsol ∧
      (afterTransfer dim c s0).colsol = (afterColRed dim c s0).colsol) ∧
    (∀ j : Int, (afterTransfer dim c s0).v j ≠ (afterColRed dim c s0).v j →
      ∃ i : Int, 0 ≤ i ∧ i < dim ∧ (afterColRed dim c s0).matchcnt i = 1 ∧
        (afterColRed dim c s0).rowsol i = j) ∧
    (∀ i : Int, 0 ≤ i → i < dim → (afterColRed dim c s0).matchcnt i = 1 →
      ∃ m : Int, 0 ≤ m ∧
        (afterTransfer dim c s0).v ((afterColRed dim c s0).rowsol i) =
          (afterColRed dim c s0).v ((afterColRed dim c s0).rowsol i) - m ∧
        (∀ j : Int, 0 ≤ j → j < dim → j ≠ (afterColRed dim c s0).rowsol i →
          m ≤ c i j - (transferRun dim c (afterColRed dim c s0) i.toNat).v j) ∧
        ((∀ i' : Nat, i' < dim → ∀ j' : Nat, j' < dim →
            c i' j' - (afterTransfer dim c s0).v j' ≤ BIG) →
          ∃ j : Int, 0 ≤ j ∧ j < dim ∧ j ≠ (afterColRed dim c s0).rowsol i ∧
            m = c i j - (transferRun dim c (afterColRed dim c s0) i.toNat).v j)) ∧
    (∀ i j : Int, 0 ≤ i → i < dim → 0 ≤ j → j < dim →
      c i j - (afterTransfer dim c s0).v j ≥ 0) := by
  have hfin : afterTransfer dim c s0 = transferRun dim c (afterColRed dim c s0) dim := rfl
  have hinv := transferRun_inv dim c s0 dim (le_refl _)
  have htr := transferRun_track dim c s0 dim (le_refl _)
  rw [← hfin] at hinv htr
  refine ⟨⟨hinv.nf0, ?_, ?_, htr.rf_mono⟩, ⟨htr.rows_eq, htr.cols_eq⟩, ?_, ?_, ?_⟩
  · intro t a b
    obtain ⟨x, y, z⟩ := hinv.rf_range t a b
    rw [htr.m_eq] at z
    exact ⟨x, y, z⟩
  · intro i a b z
    exact hinv.rf_complete i a b (by rw [htr.m_eq]; exact z)
  · intro j hne
    by_contra hcon
    apply hne
    apply htr.v_same j
    intro i a b d e
    exact hcon ⟨i, a, b, d, e⟩
  · intro i a b d
    have hpre := transferRun_inv dim c s0 i.toNat (by omega)
    have hpt := transferRun_track dim c s0 i.toNat (by omega)
    have hrow : (transferRun dim c (afterColRed dim c s0) i.toNat).rowsol i =
        (afterColRed dim c s0).rowsol i := by rw [hpt.rows_eq]
    have hmin := transferMin_spec dim c (transferRun dim c (afterColRed dim c s0) i.toNat).v
      i ((afterColRed dim c s0).rowsol i) (fun j x y => hpre.vle i j a b x y)
    refine ⟨_, hmin.1, htr.v_done i a b d, hmin.2.2, ?_⟩
    intro hno
    apply transferMin_attained
    have hex : ∃ j : Int, 0 ≤ j ∧ j < dim ∧ j ≠ (afterColRed dim c s0).rowsol i := by
      by_cases e : (afterColRed dim c s0).rowsol i = 0
      · exact ⟨1, by omega, by omega, by omega⟩
      · exact ⟨0, le_refl _, by omega, fun x => e x.symm⟩
    obtain ⟨j, x, y, z⟩ := hex
    refine ⟨j, x, y, z, ?_⟩
    have h1 := hno i.toNat (by omega) j.toNat (by omega)
    rw [Int.toNat_of_nonneg a, Int.toNat_of_nonneg x] at h1
    have h2 := transferRun_v_mono dim c s0 i.toNat dim (by omega) (le_refl _) j
    rw [← hfin] at h2
    omega
  · intro i j a b x y
    have := hinv.vle i j a b x y
    omega

theorem reductionTransfer_spec_witness :
    2 ≤ 3 ∧
    ((0 ≤ (afterTransfer (3 : Nat) cost3 zeroSt).numfree ∧
      (∀ t : Int, 0 ≤ t → t < (afterTransfer (3 : Nat) cost3 zeroSt).numfree →
        0 ≤ (afterTransfer (3 : Nat) cost3 zeroSt).rfree t ∧ (afterTransfer (3 : Nat) cost3 zeroSt).rfree t < (3 : Nat) ∧
        (afterColRed (3 : Nat) cost3 zeroSt).matchcnt ((afterTransfer (3 : Nat) cost3 zeroSt).rfree t) = 0) ∧
      (∀ i : Int, 0 ≤ i → i < (3 : Nat) → (afterColRed (3 : Nat) cost3 zeroSt).matchcnt i = 0 →
        ∃ t : Int, 0 ≤ t ∧ t < (afterTransfer (3 : Nat) cost3 zeroSt).numfree ∧
          (afterTransfer (3 : Nat) cost3 zeroSt).rfree t = i) ∧
      (∀ t t' : Int, 0 ≤ t → t < t' → t' < (afterTransfer (3 : Nat) cost3 zeroSt).numfree →
        (afterTransfer (3 : Nat) cost3 zeroSt).rfree t < (afterTransfer (3 : Nat) cost3 zeroSt).rfree t')) ∧
    ((afterTransfer (3 : Nat) cost3 zeroSt).rowsol = (afterColRed (3 : Nat) cost3 zeroSt).rowsol ∧
      (afterTransfer (3 : Nat) cost3 zeroSt).colsol = (afterColRed (3 : Nat) cost3 zeroSt).colsol) ∧
    (∀ j : Int, (afterTransfer (3 : Nat) cost3 zeroSt).v j ≠ (afterColRed (3 : Nat) cost3 zeroSt).v j →
      ∃ i : Int, 0 ≤ i ∧ i < (3 : Nat) ∧ (afterColRed (3 : Nat) cost3 zeroSt).matchcnt i = 1 ∧
        (afterColRed (3 : Nat) cost3 zeroSt).rowsol i = j) ∧
    (∀ i : Int, 0 ≤ i → i < (3 : Nat) → (afterColRed (3 : Nat) cost3 zeroSt).matchcnt i = 1 →
      ∃ m : Int, 0 ≤ m ∧
        (afterTransfer (3 : Nat) cost3 zeroSt).v ((afterColRed (3 : Nat) cost3 zeroSt).rowsol i) =
          (afterColRed (3 : Nat) cost3 zeroSt).v ((afterColRed (3 : Nat) cost3 zeroSt).rowsol i) - m ∧
        (∀ j : Int, 0 ≤ j → j < (3 : Nat) → j ≠ (afterColRed (3 : Nat) cost3 zeroSt).rowsol i →
          m ≤ cost3 i j - (transferRun (3 : Nat) cost3 (afterColRed (3 : Nat) cost3 zeroSt) i.toNat).v j) ∧
        ((∀ i' : Nat, i' < (3 : Nat) → ∀ j' : Nat, j' < (3 : Nat) →
            cost3 i' j' - (afterTransfer (3 : Nat) cost3 zeroSt).v j' ≤ BIG) →
          ∃ j : Int, 0 ≤ j ∧ j < (3 : Nat) ∧ j ≠ (afterColRed (3 : Nat) cost3 zeroSt).rowsol i ∧
            m = cost3 i j - (transferRun (3 : Nat) cost3 (afterColRed (3 : Nat) cost3 zeroSt) i.toNat).v j)) ∧
    (∀ i j : Int, 0 ≤ i → i < (3 : Nat) → 0 ≤ j → j < (3 : Nat) →
      cost3 i j - (afterTransfer (3 : Nat) cost3 zeroSt).v j ≥ 0)) :=
  ⟨by decide, reductionTransfer_spec 3 cost3 zeroSt (by decide)⟩

end LAP

/-! ## Termination of the solver -/

namespace LAP

theorem structSol_of (dim : Nat) (c : Int → Int → Int) (rowsol colsol v : Int → Int)
    (h : PartialSol dim c rowsol colsol v) : StructSol dim rowsol colsol :=
  ⟨h.col_lt, h.col_row, fun _ _ _ _ _ _ _ => le_refl _⟩

theorem structSol_assign (dim : Nat) (rowsol colsol : Int → Int) (i jn : Int)
    (h : StructSol dim rowsol colsol) (hi1 : i < dim) (hfree : FreeRow dim colsol i) :
    StructSol dim (Function.update rowsol i jn) (Function.update colsol jn i) :=
  assign_sol dim (fun _ _ => 0) rowsol colsol (fun _ => 0) (fun _ => 0) i jn h hi1 hfree
    (fun _ _ _ => le_refl _) (fun _ _ _ _ => rfl) (fun _ _ _ => le_refl _)

/-- Every finite cost matrix has its entries between two bounds. -/
theorem exists_bounds (dim : Nat) (c : Int → Int → Int) :
    ∃ lo hi : Int, lo ≤ hi ∧
      ∀ i j : Int, 0 ≤ i → i < dim → 0 ≤ j → j < dim → lo ≤ c i j ∧ c i j ≤ hi := by
  have row : ∀ (i : Int) (n : Nat), ∃ lo hi : Int, lo ≤ hi ∧
      ∀ j : Int, 0 ≤ j → j < n → lo ≤ c i j ∧ c i j ≤ hi := by
    intro i n
    induction n with
    | zero => exact ⟨0, 0, le_refl _, fun j a b => by simp at b; omega⟩
    | succ n ih =>
      obtain ⟨lo, hi, hle, hb⟩ := ih
      refine ⟨min lo (c i n), max hi (c i n), le_trans (min_le_left _ _)
        (le_trans hle (le_max_left _ _)), ?_⟩
      intro j a b
      by_cases e : j = (n : Int)
      · rw [e]; exact ⟨min_le_right _ _, le_max_right _ _⟩
      · have := hb j a (by push_cast at b; omega)
        exact ⟨le_trans (min_le_left _ _) this.1, le_trans this.2 (le_max_left _ _)⟩
  have all : ∀ m : Nat, ∃ lo hi : Int, lo ≤ hi ∧
      ∀ i j : Int, 0 ≤ i → i < m → 0 ≤ j → j < dim → lo ≤ c i j ∧ c i j ≤ hi := by
    intro m
    induction m with
    | zero => exact ⟨0, 0, le_refl _, fun i j a b => by simp at b; omega⟩
    | succ m ih =>
      obtain ⟨lo, hi, hle, hb⟩ := ih
      obtain ⟨lo2, hi2, hle2, hb2⟩ := row (m : Int) dim
      refine ⟨min lo lo2, max hi hi2, le_trans (min_le_left _ _)
        (le_trans hle (le_max_left _ _)), ?_⟩
      intro i j a b x y
      by_cases e : i = (m : Int)
      · rw [e]
        have := hb2 j x y
        exact ⟨le_trans (min_le_right _ _) this.1, le_trans this.2 (le_max_right _ _)⟩
      · have := hb i j a (by push_cast at b; omega) x y
        exact ⟨le_trans (min_le_left _ _) this.1, le_trans this.2 (le_max_left _ _)⟩
  exact all dim

/-- What the scan of a row finds, for every cost matrix and every price
vector: the columns are in range, `umin` is the reduced cost at `j1` and at
most that at column 0, and `usubmin` is at most `BIG` or at most the reduced
cost at column 0. -/
theorem scanRow_struct (dim : Nat) (c : Int → Int → Int) (v : Int → Int) (i j2 : Int)
    (hd : 1 ≤ dim) (hj2 : 0 ≤ j2 ∧ j2 < dim) :
    (0 ≤ (scanRow dim c v i j2).j1 ∧ (scanRow dim c v i j2).j1 < dim) ∧
    (0 ≤ (scanRow dim c v i j2).j2 ∧ (scanRow dim c v i j2).j2 < dim) ∧
    (scanRow dim c v i j2).umin =
      c i (scanRow dim c v i j2).j1 - v (scanRow dim c v i j2).j1 ∧
    (scanRow dim c v i j2).umin ≤ c i 0 - v 0 ∧
    ((scanRow dim c v i j2).usubmin ≤ BIG ∨ (scanRow dim c v i j2).usubmin ≤ c i 0 - v 0) ∧
    ((scanRow dim c v i j2).j1 = 0 → (scanRow dim c v i j2).usubmin ≤ BIG) := by
  have key := forRange_ind
    (fun (n : Nat) (r : Scan) =>
      (0 ≤ r.j1 ∧ r.j1 < 1 + (n : Int)) ∧ (0 ≤ r.j2 ∧ r.j2 < dim) ∧
      r.umin = c i r.j1 - v r.j1 ∧ r.umin ≤ c i 0 - v 0 ∧
      (r.usubmin ≤ BIG ∨ r.usubmin ≤ c i 0 - v 0) ∧ (r.j1 = 0 → r.usubmin ≤ BIG))
    1 (dim - 1) (scanStep c v i)
    { umin := c i 0 - v 0, usubmin := BIG, j1 := 0, j2 := j2 }
    (by
      refine ⟨⟨le_refl _, by simp⟩, hj2, rfl, le_refl _, Or.inl (le_refl _), fun _ => le_refl _⟩)
    (by
      intro n r hn ⟨⟨a1, a2⟩, a3, a4, a5, a6, a7⟩
      unfold scanStep
      dsimp only
      by_cases h1 : c i (1 + (n : Int)) - v (1 + (n : Int)) < r.usubmin
      · rw [if_pos h1]
        by_cases h2 : c i (1 + (n : Int)) - v (1 + (n : Int)) ≥ r.umin
        · rw [if_pos h2]
          refine ⟨⟨a1, by push_cast; omega⟩,
            ⟨by show 0 ≤ 1 + (n : Int); omega, by show 1 + (n : Int) < dim; omega⟩, a4, a5, ?_, ?_⟩
          · rcases a6 with x | x
            · left; show c i (1 + (n : Int)) - v (1 + (n : Int)) ≤ BIG; omega
            · right; show c i (1 + (n : Int)) - v (1 + (n : Int)) ≤ c i 0 - v 0; omega
          · intro e
            have := a7 e
            show c i (1 + (n : Int)) - v (1 + (n : Int)) ≤ BIG
            omega
        · rw [if_neg h2]
          refine ⟨⟨by show 0 ≤ 1 + (n : Int); omega, by show 1 + (n : Int) < _; push_cast; omega⟩,
            ⟨a1, by show r.j1 < dim; omega⟩, rfl, ?_, ?_, ?_⟩
          · show c i (1 + (n : Int)) - v (1 + (n : Int)) ≤ c i 0 - v 0
            omega
          · right; exact a5
          · intro e
            have e' : 1 + (n : Int) = 0 := e
            omega
      · rw [if_neg h1]
        exact ⟨⟨a1, by push_cast; omega⟩, a3, a4, a5, a6, a7⟩)
  obtain ⟨⟨b1, b2⟩, b3, b4, b5, b6, b7⟩ := key
  have hcast : (1 : Int) + ((dim - 1 : Nat) : Int) = dim := by omega
  rw [hcast] at b2
  exact ⟨⟨b1, b2⟩, b3, b4, b5, b6, b7⟩

theorem arrStep_term (dim : Nat) (c : Int → Int → Int) (lo hi prv : Int) (p : St × Int)
    (hc : ∀ i j : Int, 0 ≤ i → i < dim → 0 ≤ j → j < dim → lo ≤ c i j ∧ c i j ≤ hi)
    (h : ArrTerm dim lo hi prv p) (hk : p.2 < prv) :
    ArrTerm dim lo hi prv (arrStep dim c p) ∧
    vsum dim (arrStep dim c p).1.v + (prv - (arrStep dim c p).2) + 1 ≤
      vsum dim p.1.v + (prv - p.2) := by
  obtain ⟨s, k⟩ := p
  have hsol : StructSol dim s.rowsol s.colsol := h.sol
  have hv0 : 0 < dim → lo - BIG ≤ s.v 0 := h.v0
  have hvlow : ∀ j : Int, 0 ≤ j → j < dim → 2 * lo - hi - BIG ≤ s.v j := h.vlow
  have hj2 : 0 ≤ s.j2 ∧ (s.j2 < dim ∨ s.j2 = 0) := h.j2r
  have hnf0 : 0 ≤ s.numfree := h.nf0
  have hnfk : s.numfree ≤ k := h.nfk
  have hkprv : k ≤ prv := h.kprv
  have hfl : FreeList dim s.colsol s.rfree s.numfree k prv := h.fl
  have hk' : k < prv := hk
  obtain ⟨i0, i1, ifree⟩ := hfl.range k (Or.inr ⟨le_refl _, hk'⟩)
  have hd : 1 ≤ dim := by omega
  have hlohi : lo ≤ hi := by
    have := hc (s.rfree k) 0 i0 i1 (le_refl _) (by omega); omega
  have hv00 := hv0 (by omega)
  have hc0 := hc (s.rfree k) 0 i0 i1 (le_refl _) (by omega)
  obtain ⟨⟨a1, a2⟩, ⟨b1, b2⟩, a3, a4, a5, a6⟩ :=
    scanRow_struct dim c s.v (s.rfree k) s.j2 hd ⟨hj2.1, by omega⟩
  unfold arrStep
  dsimp only
  generalize scanRow dim c s.v (s.rfree k) s.j2 = r at a1 a2 b1 b2 a3 a4 a5 a6
  have hcj1 := hc (s.rfree k) r.j1 i0 i1 a1 a2
  have hj2' : 0 ≤ r.j2 ∧ (r.j2 < dim ∨ r.j2 = 0) := ⟨b1, Or.inl b2⟩
  by_cases hlt : r.umin < r.usubmin
  · simp only [if_pos hlt]
    have hsol' : StructSol dim (Function.update s.rowsol (s.rfree k) r.j1)
        (Function.update s.colsol r.j1 (s.rfree k)) :=
      structSol_assign dim s.rowsol s.colsol (s.rfree k) r.j1 hsol i1 ifree
    have hv0' : 0 < dim →
        lo - BIG ≤ Function.update s.v r.j1 (s.v r.j1 - (r.usubmin - r.umin)) 0 := by
      intro _
      simp only [Function.update_apply]
      split_ifs with hj
      · have := a6 hj.symm
        omega
      · exact hv00
    have hvlow' : ∀ j : Int, 0 ≤ j → j < dim →
        2 * lo - hi - BIG ≤ Function.update s.v r.j1 (s.v r.j1 - (r.usubmin - r.umin)) j := by
      intro j j0 j1
      simp only [Function.update_apply]
      split_ifs with hj
      · rcases a5 with x | x
        · omega
        · omega
      · exact hvlow j j0 j1
    have hsum := vsum_update dim s.v r.j1 (s.v r.j1 - (r.usubmin - r.umin)) a1 a2
    by_cases hi0 : s.colsol r.j1 ≥ 0
    · simp only [if_pos hi0]
      refine ⟨⟨hsol', hv0', hvlow', hj2', hnf0, ?_, ?_, ?_⟩, ?_⟩
      · show s.numfree ≤ k + 1 - 1; omega
      · show k + 1 - 1 ≤ prv; omega
      · show FreeList dim (Function.update s.colsol r.j1 (s.rfree k))
          (Function.update s.rfree (k + 1 - 1) (s.colsol r.j1)) s.numfree (k + 1 - 1) prv
        rw [add_sub_cancel_right]
        exact freeList_replace dim (fun _ _ => 0) s.rowsol s.colsol (fun _ => 0) s.rfree
          s.numfree k prv r.j1 hsol hfl hk' hnfk a1 a2 hi0
      · show vsum dim (Function.update s.v r.j1 (s.v r.j1 - (r.usubmin - r.umin))) +
          (prv - (k + 1 - 1)) + 1 ≤ vsum dim s.v + (prv - k)
        rw [hsum]; omega
    · simp only [if_neg hi0]
      refine ⟨⟨hsol', hv0', hvlow', hj2', hnf0, ?_, ?_, ?_⟩, ?_⟩
      · show s.numfree ≤ k + 1; omega
      · show k + 1 ≤ prv; omega
      · exact freeList_advance dim (fun _ _ => 0) s.rowsol s.colsol (fun _ => 0) s.rfree
          s.numfree k prv r.j1 hsol hfl hk' hnfk a1 a2 (by omega)
      · show vsum dim (Function.update s.v r.j1 (s.v r.j1 - (r.usubmin - r.umin))) +
          (prv - (k + 1)) + 1 ≤ vsum dim s.v + (prv - k)
        rw [hsum]; omega
  · simp only [if_neg hlt]
    by_cases hi0 : s.colsol r.j1 ≥ 0
    · simp only [if_pos hi0]
      have hsol' : StructSol dim (Function.update s.rowsol (s.rfree k) r.j2)
          (Function.update s.colsol r.j2 (s.rfree k)) :=
        structSol_assign dim s.rowsol s.colsol (s.rfree k) r.j2 hsol i1 ifree
      by_cases hi2 : s.colsol r.j2 ≥ 0
      · simp only [if_pos hi2]
        refine ⟨⟨hsol', hv0, hvlow, hj2', ?_, ?_, ?_, ?_⟩, ?_⟩
        · show 0 ≤ s.numfree + 1; omega
        · show s.numfree + 1 ≤ k + 1; omega
        · show k + 1 ≤ prv; omega
        · exact freeList_defer dim (fun _ _ => 0) s.rowsol s.colsol (fun _ => 0) s.rfree
            s.numfree k prv r.j2 hsol hfl hk' hnfk hnf0 b1 b2 hi2
        · show vsum dim s.v + (prv - (k + 1)) + 1 ≤ vsum dim s.v + (prv - k)
          omega
      · simp only [if_neg hi2]
        refine ⟨⟨hsol', hv0, hvlow, hj2', hnf0, ?_, ?_, ?_⟩, ?_⟩
        · show s.numfree ≤ k + 1; omega
        · show k + 1 ≤ prv; omega
        · exact freeList_advance dim (fun _ _ => 0) s.rowsol s.colsol (fun _ => 0) s.rfree
            s.numfree k prv r.j2 hsol hfl hk' hnfk b1 b2 (by omega)
        · show vsum dim s.v + (prv - (k + 1)) + 1 ≤ vsum dim s.v + (prv - k)
          omega
    · simp only [if_neg hi0]
      have hsol' : StructSol dim (Function.update s.rowsol (s.rfree k) r.j1)
          (Function.update s.colsol r.j1 (s.rfree k)) :=
        structSol_assign dim s.rowsol s.colsol (s.rfree k) r.j1 hsol i1 ifree
      refine ⟨⟨hsol', hv0, hvlow, hj2', hnf0, ?_, ?_, ?_⟩, ?_⟩
      · show s.numfree ≤ k + 1; omega
      · show k + 1 ≤ prv; omega
      · exact freeList_advance dim (fun _ _ => 0) s.rowsol s.colsol (fun _ => 0) s.rfree
          s.numfree k prv r.j1 hsol hfl hk' hnfk a1 a2 (by omega)
      · show vsum dim s.v + (prv - (k + 1)) + 1 ≤ vsum dim s.v + (prv - k)
        omega

theorem arrLoop_term (dim : Nat) (c : Int → Int → Int) (lo hi prv : Int)
    (hc : ∀ i j : Int, 0 ≤ i → i < dim → 0 ≤ j → j < dim → lo ≤ c i j ∧ c i j ≤ hi)
    (m : Nat) (p : St × Int) (h : ArrTerm dim lo hi prv p)
    (hm : vsum dim p.1.v - (dim : Int) * (2 * lo - hi - BIG) + (prv - p.2) ≤ m) :
    ∃ s' : St, arrLoop dim c prv m p = some s' ∧ ArrTerm dim lo hi prv (s', prv) := by
  have hlow := vsum_lower dim p.1.v (2 * lo - hi - BIG) h.vlow
  induction m generalizing p with
  | zero =>
    have hk : ¬ p.2 < prv := by
      intro hk; push_cast at hm; omega
    refine ⟨p.1, by simp only [arrLoop, if_neg hk], ?_⟩
    have e : p.2 = prv := by have := h.kprv; omega
    have e2 : (p.1, prv) = p := by rw [← e]
    rw [e2]; exact h
  | succ n ih =>
    by_cases hk : p.2 < prv
    · obtain ⟨hinv, hdec⟩ := arrStep_term dim c lo hi prv p hc h hk
      have := ih (arrStep dim c p) hinv (by push_cast at hm; omega)
        (vsum_lower dim _ (2 * lo - hi - BIG) hinv.vlow)
      simpa only [arrLoop, if_pos hk] using this
    · refine ⟨p.1, by simp only [arrLoop, if_neg hk], ?_⟩
      have e : p.2 = prv := by have := h.kprv; omega
      have e2 : (p.1, prv) = p := by rw [← e]
      rw [e2]; exact h

theorem arrTerm_restart (dim : Nat) (lo hi prv : Int) (s : St)
    (h : ArrTerm dim lo hi prv (s, prv)) :
    ArrTerm dim lo hi s.numfree ({ s with numfree := 0 }, 0) := by
  have hfl : FreeList dim s.colsol s.rfree s.numfree prv prv := h.fl
  refine ⟨h.sol, h.v0, h.vlow, h.j2r, le_refl _, le_refl _, h.nf0, ⟨?_, ?_, ?_⟩⟩
  · intro t ht
    have ht : (0 ≤ t ∧ t < (0 : Int)) ∨ (0 ≤ t ∧ t < s.numfree) := ht
    exact hfl.range t (by
      rcases ht with ht | ht
      · omega
      · exact Or.inl ht)
  · intro t t' ht ht'
    have ht : (0 ≤ t ∧ t < (0 : Int)) ∨ (0 ≤ t ∧ t < s.numfree) := ht
    have ht' : (0 ≤ t' ∧ t' < (0 : Int)) ∨ (0 ≤ t' ∧ t' < s.numfree) := ht'
    exact hfl.inj t t'
      (by rcases ht with ht | ht
          · omega
          · exact Or.inl ht)
      (by rcases ht' with ht' | ht'
          · omega
          · exact Or.inl ht')
  · intro i i0 i1 hf
    obtain ⟨t, ht, e⟩ := hfl.complete i i0 i1 hf
    refine ⟨t, ?_, e⟩
    rcases ht with ht | ht
    · exact Or.inr ht
    · omega

/-- A pass of the augmenting row reduction ends, whatever the cost matrix. -/
theorem arrPass_term (dim : Nat) (c : Int → Int → Int) (lo hi prv : Int)
    (hc : ∀ i j : Int, 0 ≤ i → i < dim → 0 ≤ j → j < dim → lo ≤ c i j ∧ c i j ≤ hi)
    (s : St) (h : ArrTerm dim lo hi prv (s, prv)) :
    ∃ (m : Nat) (s' : St), arrPass m dim c s = some s' ∧
      ArrTerm dim lo hi s.numfree (s', s.numfree) := by
  have h0 := arrTerm_restart dim lo hi prv s h
  obtain ⟨s', e, hinv⟩ := arrLoop_term dim c lo hi s.numfree hc
    (vsum dim s.v - (dim : Int) * (2 * lo - hi - BIG) + (s.numfree - 0)).toNat
    ({ s with numfree := 0 }, 0) h0 (by
      show vsum dim s.v - (dim : Int) * (2 * lo - hi - BIG) + (s.numfree - 0) ≤ _
      exact Int.self_le_toNat _)
  exact ⟨_, s', e, hinv⟩

theorem arrTerm_of_arrInv (dim : Nat) (c : Int → Int → Int) (lo hi prv : Int) (s : St)
    (hlohi : lo ≤ hi) (hj2 : s.j2 = 0) (h : ArrInv dim c lo prv (s, prv)) :
    ArrTerm dim lo hi prv (s, prv) := by
  refine ⟨structSol_of dim c _ _ _ h.sol, ?_, ?_, ?_, h.nf0, h.nfk, h.kprv, h.fl⟩
  · intro hd
    exact h.vlow 0 (le_refl _) (by omega)
  · intro j j0 j1
    have := h.vlow j j0 j1
    show 2 * lo - hi - BIG ≤ s.v j
    have hv : lo - BIG ≤ s.v j := this
    omega
  · show 0 ≤ s.j2 ∧ (s.j2 < dim ∨ s.j2 = 0)
    rw [hj2]
    exact ⟨le_refl _, Or.inr rfl⟩

theorem predPath_congr (dim : Nat) (colsol : Int → Int) (f0 : Int) (cl cl' pred : Int → Int)
    (low low' : Int) (h : PredPath dim colsol f0 cl pred low) (hl : low ≤ low')
    (hcl : ∀ t : Int, 0 ≤ t → t < low → cl' t = cl t) :
    PredPath dim colsol f0 cl' pred low' := by
  intro j j0 j1
  rcases h j j0 j1 with hp | ⟨t, t0, t1, e1, e2⟩
  · exact Or.inl hp
  · right
    refine ⟨t, t0, by omega, ?_, ?_⟩
    · rw [hcl t t0 t1]; exact e1
    · intro t' t0' t1'
      rw [hcl t' t0' (by omega)]; exact e2 t' t0' t1'

theorem minScanStep_struct (dim : Nat) (q0 : Search) (K : Int) (q : Search)
    (h0 : 0 ≤ q0.low) (h : MinScanStruct dim q0 K q) (hK : K < dim) :
    MinScanStruct dim q0 (K + 1) (minScanStep K q) := by
  have hlow0 : 0 ≤ q.low := by rw [h.low_eq]; exact h0
  have hlu := h.lowup
  have huK := h.upK
  unfold minScanStep
  dsimp only
  by_cases hle : q.d (q.collist K) ≤ q.min
  · rw [if_pos hle]
    by_cases hlt : q.d (q.collist K) < q.min
    · simp only [if_pos hlt]
      have val : ∀ t : Int,
          Function.update (Function.update q.collist K (q.collist q.low)) q.low (q.collist K) t =
          if t = q.low then q.collist K else if t = K then q.collist q.low else q.collist t := by
        intro t; simp only [Function.update_apply]
      refine ⟨h.low_eq, h.pred_eq, h.found_eq, ?_, ?_, ?_, ?_⟩
      · show q.low < q.low + 1; omega
      · show q.low + 1 ≤ K + 1; omega
      · exact isPerm_swap dim q.collist K q.low h.perm (by omega) hK hlow0 (by omega)
      · intro t t0 t1
        show Function.update (Function.update q.collist K (q.collist q.low)) q.low
          (q.collist K) t = q0.collist t
        rw [val, if_neg (by rw [h.low_eq]; omega), if_neg (by rw [h.low_eq] at hlu; omega)]
        exact h.ready_eq t t0 t1
    · simp only [if_neg hlt]
      have val : ∀ t : Int,
          Function.update (Function.update q.collist K (q.collist q.up)) q.up (q.collist K) t =
          if t = q.up then q.collist K else if t = K then q.collist q.up else q.collist t := by
        intro t; simp only [Function.update_apply]
      refine ⟨h.low_eq, h.pred_eq, h.found_eq, ?_, ?_, ?_, ?_⟩
      · show q.low < q.up + 1; omega
      · show q.up + 1 ≤ K + 1; omega
      · exact isPerm_swap dim q.collist K q.up h.perm (by omega) hK (by omega) (by omega)
      · intro t t0 t1
        show Function.update (Function.update q.collist K (q.collist q.up)) q.up
          (q.collist K) t = q0.collist t
        rw [val, if_neg (by rw [h.low_eq] at hlu; omega),
          if_neg (by rw [h.low_eq] at hlu; omega)]
        exact h.ready_eq t t0 t1
  · rw [if_neg hle]
    exact ⟨h.low_eq, h.pred_eq, h.found_eq, h.lowup, by omega, h.perm, h.ready_eq⟩

theorem minScan_struct (dim : Nat) (colsol : Int → Int) (f0 : Int)
    (q : Search) (h : SearchStruct dim colsol f0 q) (hul : q.up = q.low) (hud : q.up < dim) :
    MinScanStruct dim q dim
      (forRange (q.up + 1) ((dim : Int) - (q.up + 1)).toNat minScanStep
        { q with last := q.low - 1, min := q.d (q.collist q.up), up := q.up + 1 }) := by
  have key := forRange_ind
    (fun (k : Nat) (x : Search) => MinScanStruct dim q (q.up + 1 + (k : Int)) x)
    (q.up + 1) ((dim : Int) - (q.up + 1)).toNat minScanStep
    { q with last := q.low - 1, min := q.d (q.collist q.up), up := q.up + 1 }
    (by
      refine ⟨rfl, rfl, h.notfound, ?_, ?_, h.perm, fun _ _ _ => rfl⟩
      · show q.low < q.up + 1; omega
      · show q.up + 1 ≤ q.up + 1 + ((0 : Nat) : Int); simp)
    (by
      intro k x hk hP
      have := minScanStep_struct dim q (q.up + 1 + (k : Int)) x h.low0 hP (by omega)
      have e : q.up + 1 + ((k + 1 : Nat) : Int) = q.up + 1 + (k : Int) + 1 := by
        push_cast; omega
      rw [e]; exact this)
  have e : q.up + 1 + ((((dim : Int) - (q.up + 1)).toNat : Nat) : Int) = dim := by
    have := h.lowup; omega
  dsimp only at key
  rw [e] at key
  exact key

theorem newMinimum_struct (dim : Nat) (colsol : Int → Int) (f0 : Int)
    (q : Search) (h : SearchStruct dim colsol f0 q) (hul : q.up = q.low) (hud : q.up < dim) :
    ((newMinimum dim colsol q).found = false ∧
      SearchStruct dim colsol f0 (newMinimum dim colsol q) ∧
      (newMinimum dim colsol q).low < (newMinimum dim colsol q).up ∧
      (newMinimum dim colsol q).low = q.low) ∨
    ((newMinimum dim colsol q).found = true ∧
      SearchEnd dim colsol f0 (newMinimum dim colsol q)) := by
  have hms := minScan_struct dim colsol f0 q h hul hud
  unfold newMinimum
  dsimp only
  generalize forRange (q.up + 1) ((dim : Int) - (q.up + 1)).toNat minScanStep
    { q with last := q.low - 1, min := q.d (q.collist q.up), up := q.up + 1 } = q2 at hms
  have hl0 := h.low0
  have hlow := hms.low_eq
  have hpred := hms.pred_eq
  have hlu := hms.lowup
  have hud2 := hms.upK
  have hready := hms.ready_eq
  have hasg : ∀ t : Int, 0 ≤ t → t < q2.low → 0 ≤ colsol (q2.collist t) := by
    intro t t0 t1
    rw [hready t t0 (by omega)]
    exact h.asg t t0 (by omega)
  have hpr : PredPath dim colsol f0 q2.collist q2.pred q2.low := by
    rw [hpred]
    exact predPath_congr dim colsol f0 q.collist q2.collist q.pred q.low q2.low h.pred
      (by omega) hready
  cases hfu : findUnassigned colsol q2.collist q2.low (q2.up - q2.low).toNat with
  | none =>
    left
    dsimp only
    have hnone := findUnassigned_none colsol q2.collist q2.low _ hfu
    refine ⟨hms.found_eq, ⟨by omega, by omega, hud2, hms.perm, ?_, hpr, hms.found_eq⟩, hlu, hlow⟩
    intro t t0 t1
    by_cases ht : t < q2.low
    · exact hasg t t0 ht
    · exact hnone t (by omega) (by omega)
  | some e =>
    right
    dsimp only
    obtain ⟨te, te0, te1, ee, eun⟩ := findUnassigned_some colsol q2.collist q2.low _ e hfu
    have te1' : te < q2.up := by omega
    have ter := hms.perm.range te (by omega) (by omega)
    refine ⟨rfl, rfl, (show 0 ≤ q2.low by omega), (show q2.low ≤ dim by omega),
      hms.perm, ?_, ?_, eun, hasg, hpr⟩
    · show 0 ≤ e; rw [ee]; exact ter.1
    · show e < dim; rw [ee]; exact ter.2

theorem predPath_update (dim : Nat) (colsol : Int → Int) (f0 : Int) (cl pred : Int → Int)
    (low i k : Int) (hperm : IsPerm dim cl) (h : PredPath dim colsol f0 cl pred low)
    (hl1 : 1 ≤ low) (hlk : low ≤ k) (hk : k < dim) (hrow : i = colsol (cl (low - 1))) :
    PredPath dim colsol f0 cl (Function.update pred (cl k) i) low := by
  intro j j0 j1
  by_cases hj : j = cl k
  · right
    refine ⟨low - 1, by omega, by omega, ?_, ?_⟩
    · rw [hj, Function.update_same]; exact hrow
    · intro t' t0' t1' e
      rw [hj] at e
      have := hperm.inj t' k t0' (by omega) (by omega) hk e
      omega
  · rw [Function.update_noteq hj]
    exact h j j0 j1

theorem relax_struct (dim : Nat) (c : Int → Int → Int) (v colsol : Int → Int) (f0 : Int)
    (i h : Int) (n : Nat) (k : Int) (q : Search)
    (R : RelaxStruct dim colsol f0 i k q) (hkn : k + n = dim) :
    ((relax c v colsol i h k n q).found = false ∧
      SearchStruct dim colsol f0 (relax c v colsol i h k n q) ∧
      (relax c v colsol i h k n q).low = q.low) ∨
    ((relax c v colsol i h k n q).found = true ∧
      SearchEnd dim colsol f0 (relax c v colsol i h k n q)) := by
  induction n generalizing k q with
  | zero =>
    left
    exact ⟨R.core.notfound, R.core, rfl⟩
  | succ m ih =>
    have hc := R.core
    have hl0 := hc.low0
    have hlu := hc.lowup
    have hud := hc.updim
    have hl1 := R.low1
    have hupk := R.upk
    have hk : k < dim := by push_cast at hkn; omega
    have hkn' : k + 1 + (m : Int) = dim := by push_cast at hkn; omega
    have hkr := hc.perm.range k (by omega) hk
    have hpu := predPath_update dim colsol f0 q.collist q.pred q.low i k hc.perm hc.pred hl1
      (by omega) hk R.row
    simp only [relax]
    by_cases hlt : c i (q.collist k) - v (q.collist k) - h < q.d (q.collist k)
    · rw [if_pos hlt]
      by_cases heq : c i (q.collist k) - v (q.collist k) - h = q.min
      · rw [if_pos heq]
        by_cases hun : colsol (q.collist k) < 0
        · rw [if_pos hun]
          right
          refine ⟨rfl, rfl, hl0, (show q.low ≤ dim by omega), hc.perm, hkr.1, hkr.2, hun, ?_, hpu⟩
          intro t t0 t1
          exact hc.asg t t0 (by have t1' : t < q.low := t1; omega)
        · rw [if_neg hun]
          have val : ∀ t : Int,
              Function.update (Function.update q.collist k (q.collist q.up)) q.up
                (q.collist k) t =
              if t = q.up then q.collist k else if t = k then q.collist q.up
                else q.collist t := by
            intro t; simp only [Function.update_apply]
          refine ih (k + 1) _ ⟨⟨hl0, (show q.low ≤ q.up + 1 by omega),
            (show q.up + 1 ≤ dim by omega), ?_, ?_, ?_, hc.notfound⟩, hl1,
            (show q.up + 1 ≤ k + 1 by omega), (by omega), ?_⟩ hkn'
          · exact isPerm_swap dim q.collist k q.up hc.perm (by omega) hk (by omega) (by omega)
          · intro t t0 t1
            have t1' : t < q.up + 1 := t1
            show 0 ≤ colsol (Function.update (Function.update q.collist k (q.collist q.up))
              q.up (q.collist k) t)
            rw [val]
            by_cases htu : t = q.up
            · rw [if_pos htu]; omega
            · rw [if_neg htu, if_neg (by omega)]
              exact hc.asg t t0 (by omega)
          · show PredPath dim colsol f0
              (Function.update (Function.update q.collist k (q.collist q.up)) q.up (q.collist k))
              (Function.update q.pred (q.collist k) i) q.low
            refine predPath_congr dim colsol f0 q.collist _ _ q.low q.low hpu (le_refl _) ?_
            intro t t0 t1
            rw [val, if_neg (by omega), if_neg (by omega)]
          · show i = colsol (Function.update (Function.update q.collist k (q.collist q.up))
              q.up (q.collist k) (q.low - 1))
            rw [val, if_neg (by omega), if_neg (by omega)]
            exact R.row
      · rw [if_neg heq]
        exact ih (k + 1) _ ⟨⟨hl0, hlu, hud, hc.perm, hc.asg, hpu, hc.notfound⟩, hl1,
          (show q.up ≤ k + 1 by omega), (by omega), R.row⟩ hkn'
    · rw [if_neg hlt]
      exact ih (k + 1) q ⟨hc, hl1, by omega, by omega, R.row⟩ hkn'

theorem scanColumn_struct (dim : Nat) (c : Int → Int → Int) (v colsol : Int → Int)
    (f0 : Int) (q : Search) (h : SearchStruct dim colsol f0 q) (hlu : q.low < q.up) :
    ((scanColumn dim c v colsol q).found = false ∧
      SearchStruct dim colsol f0 (scanColumn dim c v colsol q) ∧
      (scanColumn dim c v colsol q).low = q.low + 1) ∨
    ((scanColumn dim c v colsol q).found = true ∧
      SearchEnd dim colsol f0 (scanColumn dim c v colsol q)) := by
  have hl0 := h.low0
  have hud := h.updim
  have e1 : q.low + 1 - 1 = q.low := by omega
  have R : RelaxStruct dim colsol f0 (colsol (q.collist q.low)) q.up
      { q with low := q.low + 1 } := by
    refine ⟨⟨(show 0 ≤ q.low + 1 by omega), (show q.low + 1 ≤ q.up by omega), hud, h.perm,
      h.asg, ?_, h.notfound⟩, (show 1 ≤ q.low + 1 by omega), le_refl _, hud, ?_⟩
    · exact predPath_congr dim colsol f0 q.collist q.collist q.pred q.low (q.low + 1) h.pred
        (by omega) (fun _ _ _ => rfl)
    · show colsol (q.collist q.low) = colsol (q.collist (q.low + 1 - 1))
      rw [e1]
  have e2 : q.up + ((((dim : Int) - q.up).toNat : Nat) : Int) = dim := by omega
  exact relax_struct dim c v colsol f0 _
    (c (colsol (q.collist q.low)) (q.collist q.low) - v (q.collist q.low) - q.min)
    ((dim : Int) - q.up).toNat q.up { q with low := q.low + 1 } R e2

theorem searchStep_struct (dim : Nat) (c : Int → Int → Int) (v colsol : Int → Int)
    (f0 : Int) (q : Search)
    (hun : ∃ j : Int, 0 ≤ j ∧ j < dim ∧ colsol j < 0)
    (h : SearchStruct dim colsol f0 q) :
    ((searchStep dim c v colsol q).found = false ∧
      SearchStruct dim colsol f0 (searchStep dim c v colsol q) ∧
      (searchStep dim c v colsol q).low = q.low + 1) ∨
    ((searchStep dim c v colsol q).found = true ∧
      SearchEnd dim colsol f0 (searchStep dim c v colsol q)) := by
  unfold searchStep
  dsimp only
  by_cases hul : q.up = q.low
  · rw [if_pos hul]
    have hud : q.up < dim := by
      obtain ⟨ju, ju0, ju1, jun⟩ := hun
      obtain ⟨t, t0, t1, e⟩ := h.perm.surj ju ju0 ju1
      by_contra hcon
      have := h.asg t t0 (by omega)
      rw [e] at this
      omega
    rcases newMinimum_struct dim colsol f0 q h hul hud with ⟨nf, hinv, hlu, hlow⟩ | ⟨fd, hdone⟩
    · rw [nf]
      simp only [Bool.false_eq_true, if_false]
      rcases scanColumn_struct dim c v colsol f0 _ hinv hlu with ⟨a, b, e⟩ | ⟨a, b⟩
      · exact Or.inl ⟨a, b, by rw [e, hlow]⟩
      · exact Or.inr ⟨a, b⟩
    · rw [fd]
      simp only [if_true]
      exact Or.inr ⟨fd, hdone⟩
  · rw [if_neg hul, h.notfound]
    simp only [Bool.false_eq_true, if_false]
    have hlu : q.low < q.up := by
      have := h.lowup
      omega
    exact scanColumn_struct dim c v colsol f0 q h hlu

/-- The search ends within `dim - low` further turns of its loop, whatever the
costs: every turn that does not end it makes one more column ready, and the
ready columns are assigned while some column is not. -/
theorem searchLoop_struct (dim : Nat) (c : Int → Int → Int) (v colsol : Int → Int)
    (f0 : Int) (hun : ∃ j : Int, 0 ≤ j ∧ j < dim ∧ colsol j < 0)
    (m : Nat) (q : Search) (h : SearchStruct dim colsol f0 q)
    (hm : (dim : Int) - q.low ≤ m) :
    ∃ r : Search, searchLoop dim c v colsol m q = some r ∧ SearchEnd dim colsol f0 r := by
  induction m generalizing q with
  | zero =>
    exfalso
    obtain ⟨ju, ju0, ju1, jun⟩ := hun
    obtain ⟨t, t0, t1, e⟩ := h.perm.surj ju ju0 ju1
    have hlu := h.lowup
    have hud := h.updim
    have := h.asg t t0 (by push_cast at hm; omega)
    rw [e] at this
    omega
  | succ n ih =>
    simp only [searchLoop]
    rcases searchStep_struct dim c v colsol f0 q hun h with ⟨a, b, e⟩ | ⟨a, b⟩
    · rw [a]
      simp only [Bool.false_eq_true, if_false]
      exact ih _ b (by rw [e]; push_cast at hm; omega)
    · rw [a]
      simp only [if_true]
      exact ⟨_, rfl, b⟩

theorem searchInit_struct (dim : Nat) (c : Int → Int → Int) (colsol : Int → Int)
    (f0 : Int) (s : St) :
    SearchStruct dim colsol f0 (searchInit dim c f0 s) := by
  have key := forRange_ind
    (fun (k : Nat) (q : Search) => q.low = 0 ∧ q.up = 0 ∧ q.found = false ∧
      ∀ j : Int, 0 ≤ j → j < k → q.pred j = f0 ∧ q.collist j = j)
    0 dim (fun j (q : Search) =>
      { q with d := Function.update q.d j (c f0 j - s.v j),
               pred := Function.update q.pred j f0,
               collist := Function.update q.collist j j })
    { collist := s.collist, d := s.d, pred := s.pred,
      low := 0, up := 0, last := 0, min := 0, endofpath := 0, found := false }
    (by
      refine ⟨rfl, rfl, rfl, ?_⟩
      intro j j0 j1; simp at j1; omega)
    (by
      intro k q hk ⟨a, b, f, hP⟩
      refine ⟨a, b, f, ?_⟩
      intro j j0 j1
      dsimp only
      simp only [Function.update_apply]
      by_cases hj : j = 0 + (k : Int)
      · simp only [if_pos hj]
        rw [hj]; exact ⟨trivial, rfl⟩
      · simp only [if_neg hj]
        exact hP j j0 (by push_cast at j1; omega))
  obtain ⟨a, b, f, hP⟩ := key
  unfold searchInit
  dsimp only
  refine ⟨by omega, by omega, by omega, ⟨?_, ?_, ?_⟩, ?_, ?_, f⟩
  · intro t t0 t1
    rw [(hP t t0 t1).2]; exact ⟨t0, t1⟩
  · intro t t' t0 t1 t0' t1'
    rw [(hP t t0 t1).2, (hP t' t0' t1').2]
    exact id
  · intro j j0 j1
    exact ⟨j, j0, j1, (hP j j0 j1).2⟩
  · intro t t0 t1; omega
  · intro j j0 j1
    exact Or.inl (hP j j0 j1).1

theorem searchEnd_augReady (dim : Nat) (colsol : Int → Int) (f0 : Int) (q : Search)
    (D : SearchEnd dim colsol f0 q) :
    AugReady dim (fun _ _ => 0) colsol (fun _ => 0) q.pred q.collist q.low q.endofpath f0 := by
  have hasgne : ∀ t : Int, 0 ≤ t → t < q.low → q.collist t ≠ q.endofpath := by
    intro t t0 t1 e
    have a := D.asg t t0 t1
    have b := D.eun
    rw [e] at a
    omega
  refine ⟨D.perm, D.low0, D.lowdim, D.e0, D.e1, D.eun, hasgne, D.asg, ?_, ?_, ?_, ?_, ?_⟩
  · intro j _ _ _ j' _ _
    exact le_refl _
  · intro j' _ _
    exact le_refl _
  · intro t _ _ j' _ _
    exact le_refl _
  · rcases D.pred q.endofpath D.e0 D.e1 with hp | ⟨t, t0, t1, e1, _⟩
    · exact Or.inl hp
    · exact Or.inr ⟨t, t0, t1, e1⟩
  · intro t t0 t1
    have tr := D.perm.range t t0 (by have := D.lowdim; omega)
    rcases D.pred (q.collist t) tr.1 tr.2 with hp | ⟨t', t0', t1', e1, e2⟩
    · exact Or.inl hp
    · right
      refine ⟨t', t0', ?_, e1⟩
      by_contra hcon
      exact e2 t t0 (by omega) rfl

/-- The search and the walk back of one turn of the loop AUGMENT SOLUTION end,
whatever the costs: the search within `dim` turns of its loop, with at most
`dim` columns made ready, and the walk back along `pred` within `dim + 1`
steps. -/
theorem searchFlip_term (dim : Nat) (c : Int → Int → Int) (f : Int) (s : St)
    (h : AugTerm dim f s) (hf : f < s.numfree) :
    ∃ (q : Search) (rs' cs' : Int → Int),
      searchLoop dim c s.v s.colsol dim (searchInit dim c (s.rfree f) s) = some q ∧
      SearchEnd dim s.colsol (s.rfree f) q ∧
      flipPath q.pred (s.rfree f) (dim + 1) q.endofpath (s.rowsol, s.colsol) =
        some (rs', cs') ∧
      StructSol dim rs' cs' ∧
      (∀ r : Int, 0 ≤ r → (FreeRow dim cs' r ↔ r ≠ s.rfree f ∧ FreeRow dim s.colsol r)) := by
  have hsol : PartialSol dim (fun _ _ => 0) s.rowsol s.colsol (fun _ => 0) := h.sol
  have hfl := h.fl
  obtain ⟨i0, i1, ifree⟩ := hfl.range f (Or.inr ⟨le_refl _, hf⟩)
  have hun := exists_unassigned dim s.rowsol s.colsol hsol.col_lt hsol.col_row (s.rfree f)
    i0 i1 ifree
  have hinit := searchInit_struct dim c s.colsol (s.rfree f) s
  obtain ⟨q, hq, D⟩ := searchLoop_struct dim c s.v s.colsol (s.rfree f) hun dim
    (searchInit dim c (s.rfree f) s) hinit (by have := hinit.low0; omega)
  have hld := D.lowdim
  have hl0 := D.low0
  have A := searchEnd_augReady dim s.colsol (s.rfree f) q D
  have F : FlipInv dim (fun _ _ => 0) s.colsol (fun _ => 0) q.collist q.low q.endofpath
      (s.rfree f) q.low q.endofpath s.rowsol s.colsol := by
    refine ⟨Or.inl ⟨rfl, rfl⟩, rfl, fun _ _ _ => rfl, ?_, hsol.col_lt, ?_, ?_, ?_, ?_⟩
    · intro t t0 t1
      have tr := D.perm.range t t0 (by omega)
      exact hsol.col_row _ tr.1 tr.2 (D.asg t t0 t1)
    · intro j j0 j1 _ hc
      exact hsol.col_row j j0 j1 hc
    · intro j j0 j1 _ hc
      exact A.good_old j j0 j1 hc
    · intro j j0 j1 _
      exact ifree j j0 j1
    · intro r r0 _
      constructor
      · intro hr j j0 j1
        by_cases hj : j = q.endofpath
        · rw [hj]
          have := D.eun
          omega
        · exact hr j j0 j1 hj
      · intro hr j j0 j1 _
        exact hr j j0 j1
  obtain ⟨rs', cs', hflip, hsol', hfree'⟩ := flipPath_spec dim (fun _ _ => 0) s.rowsol s.colsol
    (fun _ => 0) (fun _ => 0) q.pred q.collist q.low q.endofpath (s.rfree f) hsol i0 i1 ifree A
    q.low.toNat q.low q.endofpath s.rowsol s.colsol F (by omega)
  have hflip' : flipPath q.pred (s.rfree f) (dim + 1) q.endofpath (s.rowsol, s.colsol) =
      some (rs', cs') :=
    mono_le_of_step (fun m (a : Int × ((Int → Int) × (Int → Int))) =>
        flipPath q.pred (s.rfree f) m a.1 a.2)
      (fun m a r hr => flipPath_mono q.pred (s.rfree f) m a.1 a.2 r hr)
      (q.low.toNat + 1) (dim + 1) (q.endofpath, (s.rowsol, s.colsol)) (rs', cs') (by omega) hflip
  exact ⟨q, rs', cs', hq, D, hflip', hsol', hfree'⟩

/-- One turn of the loop AUGMENT SOLUTION ends, whatever the costs. -/
theorem augmentStep_term (dim : Nat) (c : Int → Int → Int) (f : Int) (s : St)
    (h : AugTerm dim f s) (hf : f < s.numfree) (fuel : Nat) (hfuel : dim + 1 ≤ fuel) :
    ∃ s' : St, augmentStep fuel dim c f s = some s' ∧ AugTerm dim (f + 1) s' ∧
      s'.numfree = s.numfree := by
  have hfl := h.fl
  obtain ⟨q, rs', cs', hq, _, hflip, hsol', hfree'⟩ := searchFlip_term dim c f s h hf
  have hq' : searchLoop dim c s.v s.colsol fuel (searchInit dim c (s.rfree f) s) = some q :=
    mono_le_of_step (fun m a => searchLoop dim c s.v s.colsol m a)
      (fun m a r hr => searchLoop_mono dim c s.v s.colsol m a r hr) dim fuel _ q (by omega) hq
  have hflip' : flipPath q.pred (s.rfree f) fuel q.endofpath (s.rowsol, s.colsol) =
      some (rs', cs') :=
    mono_le_of_step (fun m (a : Int × ((Int → Int) × (Int → Int))) =>
        flipPath q.pred (s.rfree f) m a.1 a.2)
      (fun m a r hr => flipPath_mono q.pred (s.rfree f) m a.1 a.2 r hr)
      (dim + 1) fuel (q.endofpath, (s.rowsol, s.colsol)) (rs', cs') hfuel hflip
  unfold augmentStep
  dsimp only
  rw [hq']
  dsimp only
  rw [hflip']
  dsimp only
  refine ⟨_, rfl, ⟨hsol', ⟨?_, ?_, ?_⟩, ?_, ?_⟩, rfl⟩
  all_goals try dsimp only
  · intro t ht
    have ht' : (0 ≤ t ∧ t < (0 : Int)) ∨ (f ≤ t ∧ t < s.numfree) := by omega
    obtain ⟨a, b, fr⟩ := hfl.range t ht'
    refine ⟨a, b, ?_⟩
    rw [hfree' _ a]
    refine ⟨?_, fr⟩
    intro e
    have := hfl.inj t f ht' (Or.inr ⟨le_refl _, hf⟩) e
    omega
  · intro t t' ht ht'
    exact hfl.inj t t' (by omega) (by omega)
  · intro i j0 j1 hfr
    rw [hfree' i j0] at hfr
    obtain ⟨t, ht, e⟩ := hfl.complete i j0 j1 hfr.2
    refine ⟨t, ?_, e⟩
    have : t ≠ f := by
      intro e'; rw [e'] at e; exact hfr.1 e.symm
    omega
  · have := h.f0; omega
  · omega

theorem augment_term (dim : Nat) (c : Int → Int → Int) (s : St)
    (h : AugTerm dim 0 s) (fuel : Nat) (hfuel : dim + 1 ≤ fuel) (n : Nat)
    (hn : (n : Int) ≤ s.numfree) :
    ∃ s' : St, augment fuel dim c n s = some s' ∧ AugTerm dim n s' ∧
      s'.numfree = s.numfree := by
  induction n with
  | zero => exact ⟨s, rfl, h, rfl⟩
  | succ m ih =>
    obtain ⟨s1, e1, h1, n1⟩ := ih (by push_cast at hn; omega)
    obtain ⟨s2, e2, h2, n2⟩ := augmentStep_term dim c m s1 h1
      (by rw [n1]; push_cast at hn; omega) fuel hfuel
    refine ⟨s2, ?_, ?_, by rw [n2, n1]⟩
    · simp only [augment, e1]
      exact e2
    · have : ((m + 1 : Nat) : Int) = (m : Int) + 1 := by push_cast; rfl
      rw [this]; exact h2

theorem arrTerm_augTerm (dim : Nat) (lo hi prv : Int) (s : St)
    (h : ArrTerm dim lo hi prv (s, prv)) : AugTerm dim 0 s := by
  have hfl : FreeList dim s.colsol s.rfree s.numfree prv prv := h.fl
  have hnf : 0 ≤ s.numfree := h.nf0
  refine ⟨h.sol, ⟨?_, ?_, ?_⟩, le_refl _, hnf⟩
  · intro t ht
    exact hfl.range t (by omega)
  · intro t t' ht ht'
    exact hfl.inj t t' (by omega) (by omega)
  · intro i i0 i1 hf
    obtain ⟨t, ht, e⟩ := hfl.complete i i0 i1 hf
    exact ⟨t, by omega, e⟩

theorem colReduction_j2 (dim : Nat) (c : Int → Int → Int) (s : St) :
    (colReduction dim c s).j2 = s.j2 := by
  unfold colReduction
  apply forDown_ind (fun _ (t : St) => t.j2 = s.j2)
  · rfl
  · intro k t _ hP
    unfold colRedStep
    dsimp only
    split_ifs
    · exact hP
    · exact hP

theorem reductionTransfer_j2 (dim : Nat) (c : Int → Int → Int) (s : St) :
    (reductionTransfer dim c s).j2 = s.j2 := by
  unfold reductionTransfer
  apply forRange_ind (fun _ (t : St) => t.j2 = s.j2)
  · rfl
  · intro k t _ hP
    unfold transferStep
    dsimp only
    split_ifs
    · exact hP
    · exact hP
    · exact hP

theorem afterTransfer_arrTerm (dim : Nat) (c : Int → Int → Int) (s0 : St) (lo hi : Int)
    (hlohi : lo ≤ hi)
    (hc : ∀ i j : Int, 0 ≤ i → i < dim → 0 ≤ j → j < dim → lo ≤ c i j ∧ c i j ≤ hi) :
    ArrTerm dim lo hi (afterTransfer dim c s0).numfree
      (afterTransfer dim c s0, (afterTransfer dim c s0).numfree) := by
  have h3 := lapInit_colRedInv dim c s0
  have h4 := reductionTransfer_inv dim c _ h3
  have h4' := transferInv_arrInv dim c lo hi _ hc h4
  refine arrTerm_of_arrInv dim c lo hi _ _ hlohi ?_ h4'
  show (reductionTransfer dim c (colReduction dim c (lapInit dim s0))).j2 = 0
  rw [reductionTransfer_j2, colReduction_j2]
  rfl

/-- C27, amended: termination in exact arithmetic.  With unbounded integers,
that is on every run in which no operation on an `int` overflows, `LAP_lap`
returns for every `dim ≥ 0`, every cost matrix (entries of `BIG` or more
included) and every initial content of the buffers.  With some number `m` of
turns allowed to the loop `while (k < prvnumfree)`, both passes of the
augmenting row reduction end.  Then, for every free row `rfree[f]`, the loop
AUGMENT SOLUTION reaches its turn `f`, in which the search ends within `dim`
turns of its loop, having made at most `dim` columns ready (`low ≤ dim`) and
found a column `endofpath` of `0..dim-1` that is unassigned, and the walk
back along `pred` from `endofpath` reaches the free row within `dim + 1`
steps.  So `LAP_lap` returns a result when `max m (dim + 1)` turns are allowed
to each of its loops. -/
theorem LAP_lap_terminates (dim : Nat) (c : Int → Int → Int) (s0 : St) :
    ∃ (m : Nat) (s5 s6 : St),
      arrPass m dim c (afterTransfer dim c s0) = some s5 ∧
      arrPass m dim c s5 = some s6 ∧
      (∀ f : Nat, (f : Int) < s6.numfree →
        ∃ (s : St) (q : Search) (p : (Int → Int) × (Int → Int)),
          augment (dim + 1) dim c f s6 = some s ∧
          searchLoop dim c s.v s.colsol dim (searchInit dim c (s.rfree f) s) = some q ∧
          q.low ≤ dim ∧
          (0 ≤ q.endofpath ∧ q.endofpath < dim ∧ s.colsol q.endofpath < 0) ∧
          flipPath q.pred (s.rfree f) (dim + 1) q.endofpath (s.rowsol, s.colsol) = some p) ∧
      ∃ r : Result, LAP_lap (max m (dim + 1)) dim c s0 = some r := by
  obtain ⟨lo, hi, hlohi, hc⟩ := exists_bounds dim c
  have h4 := afterTransfer_arrTerm dim c s0 lo hi hlohi hc
  obtain ⟨m1, s5, e5, h5⟩ := arrPass_term dim c lo hi _ hc _ h4
  obtain ⟨m2, s6, e6, h6⟩ := arrPass_term dim c lo hi _ hc _ h5
  have h6' := arrTerm_augTerm dim lo hi _ s6 h6
  have hnf := h6'.fle
  have lift : ∀ (a b : Nat) (x y : St), a ≤ b → arrPass a dim c x = some y →
      arrPass b dim c x = some y := fun a b x y hab e =>
    mono_le_of_step (fun m (a : St) => arrPass m dim c a)
      (fun m a r hr => arrPass_mono dim c a m r hr) a b x y hab e
  have liftA : ∀ (a b n : Nat) (x y : St), a ≤ b → augment a dim c n x = some y →
      augment b dim c n x = some y := fun a b n x y hab e =>
    mono_le_of_step (fun m (a : St) => augment m dim c n a)
      (fun m a r hr => augment_mono dim c n a m r hr) a b x y hab e
  refine ⟨max m1 m2, s5, s6, lift m1 _ _ _ (le_max_left _ _) e5,
    lift m2 _ _ _ (le_max_right _ _) e6, ?_, ?_⟩
  · intro f hf
    obtain ⟨s, es, hs, ns⟩ := augment_term dim c s6 h6' (dim + 1) (le_refl _) f (by omega)
    obtain ⟨q, rs', cs', hq, D, hflip, _, _⟩ := searchFlip_term dim c f s hs (by rw [ns]; exact hf)
    exact ⟨s, q, (rs', cs'), es, hq, D.lowdim, ⟨D.e0, D.e1, D.eun⟩, hflip⟩
  · obtain ⟨s7, e7, _, _⟩ := augment_term dim c s6 h6' (dim + 1) (le_refl _) s6.numfree.toNat
      (by omega)
    have e5' := lift m1 (max (max m1 m2) (dim + 1)) _ _
      (le_trans (le_max_left _ _) (le_max_left _ _)) e5
    have e6' := lift m2 (max (max m1 m2) (dim + 1)) _ _
      (le_trans (le_max_right _ _) (le_max_left _ _)) e6
    have e7' := liftA (dim + 1) (max (max m1 m2) (dim + 1)) _ _ _ (le_max_right _ _) e7
    rw [LAP_lap_stages, e5']
    dsimp only
    rw [e6']
    dsimp only
    rw [e7']
    exact ⟨_, rfl⟩

theorem costWrap_entries :
    costWrap 1 0 = 0 ∧ costWrap 1 1 = 1000000000 ∧ costWrap 1 2 = 1000000000 ∧
    costWrap 2 0 = 2000000000 ∧ costWrap 2 1 = 0 ∧ costWrap 2 2 = 0 := by
  refine ⟨?_, ?_, ?_, ?_, ?_, ?_⟩ <;> rfl

theorem wrapStart_step (p : St × Int) (h : WrapStart p) :
    WrapCycle true (arrStep32 3 costWrap p) := by
  obtain ⟨s, k⟩ := p
  obtain ⟨hk, v0, v1, v2, c0, r0, r1⟩ := h
  obtain ⟨e10, e11, e12, e20, e21, e22⟩ := costWrap_entries
  dsimp only at hk v0 v1 v2 c0 r0 r1
  subst hk
  have hs : scanRow32 3 costWrap s.v 1 s.j2 =
      { umin := 0, usubmin := 1000000000, j1 := 0, j2 := 1 } := by
    simp [scanRow32, forRange, scanStep32, wrap32, BIG, v0, v1, v2, e10, e11, e12]
  unfold arrStep32
  simp only [r0, hs]
  norm_num [c0, v0, wrap32]
  refine ⟨?_, ?_, ?_, ?_, ?_, ?_⟩ <;> simp [Function.update_apply, v0, v1, v2, c0, r1]

theorem wrapCycle_step (b : Bool) (p : St × Int) (h : WrapCycle b p) :
    WrapCycle (!b) (arrStep32 3 costWrap p) := by
  obtain ⟨s, k⟩ := p
  obtain ⟨hk, v0, v1, v2, c0, r1⟩ := h
  obtain ⟨e10, e11, e12, e20, e21, e22⟩ := costWrap_entries
  dsimp only at hk v0 v1 v2 c0 r1
  subst hk
  cases b with
  | true =>
    simp only [if_true] at v0 c0 r1
    have hs : scanRow32 3 costWrap s.v 2 s.j2 =
        { umin := -1294967296, usubmin := 0, j1 := 0, j2 := 1 } := by
      simp [scanRow32, forRange, scanStep32, wrap32, BIG, v0, v1, v2, e20, e21, e22]
    unfold arrStep32
    simp only [r1, hs]
    norm_num [c0, v0, wrap32]
    refine ⟨?_, ?_, ?_, ?_, ?_, ?_⟩ <;> simp [Function.update_apply, v0, v1, v2, c0, r1]
  | false =>
    simp only [Bool.false_eq_true, if_false] at v0 c0 r1
    have hs : scanRow32 3 costWrap s.v 1 s.j2 =
        { umin := -2000000000, usubmin := 1000000000, j1 := 0, j2 := 1 } := by
      simp [scanRow32, forRange, scanStep32, wrap32, BIG, v0, v1, v2, e10, e11, e12]
    unfold arrStep32
    simp only [r1, hs]
    norm_num [c0, v0, wrap32]
    refine ⟨?_, ?_, ?_, ?_, ?_, ?_⟩ <;> simp [Function.update_apply, v0, v1, v2, c0, r1]

theorem arrLoop32_cycle (fuel : Nat) (b : Bool) (p : St × Int) (h : WrapCycle b p) :
    arrLoop32 3 costWrap 2 fuel p = none := by
  induction fuel generalizing b p with
  | zero =>
    have hk : p.2 < 2 := by rw [h.k]; decide
    simp only [arrLoop32, if_pos hk]
  | succ n ih =>
    have hk : p.2 < 2 := by rw [h.k]; decide
    simp only [arrLoop32, if_pos hk]
    exact ih (!b) _ (wrapCycle_step b p h)

theorem arrLoop32_start (fuel : Nat) (p : St × Int) (h : WrapStart p) :
    arrLoop32 3 costWrap 2 fuel p = none := by
  have hk : p.2 < 2 := by rw [h.k]; decide
  cases fuel with
  | zero => simp only [arrLoop32, if_pos hk]
  | succ n =>
    simp only [arrLoop32, if_pos hk]
    exact arrLoop32_cycle n true _ (wrapStart_step p h)

theorem costWrap_colMin :
    colMin 3 costWrap 0 = (0, 0) ∧ colMin 3 costWrap 1 = (0, 0) ∧ colMin 3 costWrap 2 = (0, 0) := by
  refine ⟨?_, ?_, ?_⟩ <;> rfl

theorem costWrap_afterColRed (s0 : St) :
    (afterColRed 3 costWrap s0).matchcnt 0 = 3 ∧ (afterColRed 3 costWrap s0).matchcnt 1 = 0 ∧
    (afterColRed 3 costWrap s0).matchcnt 2 = 0 ∧
    (afterColRed 3 costWrap s0).v 0 = 0 ∧ (afterColRed 3 costWrap s0).v 1 = 0 ∧
    (afterColRed 3 costWrap s0).v 2 = 0 ∧ (afterColRed 3 costWrap s0).colsol 0 = -1 ∧
    (afterColRed 3 costWrap s0).numfree = 0 ∧ (afterColRed 3 costWrap s0).j2 = 0 := by
  obtain ⟨m0, m1, m2⟩ := costWrap_colMin
  simp [afterColRed, colReduction, forDown, colRedStep, lapInit, forRange, m0, m1, m2,
    Function.update_apply]

theorem costWrap_transfer32 (s0 : St) :
    (reductionTransfer32 3 costWrap (afterColRed 3 costWrap s0)).numfree = 2 ∧
    WrapStart ({ reductionTransfer32 3 costWrap (afterColRed 3 costWrap s0) with numfree := 0 },
      0) := by
  obtain ⟨a0, a1, a2, v0, v1, v2, c0, nf, _⟩ := costWrap_afterColRed s0
  generalize afterColRed 3 costWrap s0 = s at a0 a1 a2 v0 v1 v2 c0 nf
  refine ⟨?_, rfl, ?_, ?_, ?_, ?_, ?_, ?_⟩ <;>
    simp [reductionTransfer32, forRange, transferStep32, a0, a1, a2, v0, v1, v2, c0, nf,
      Function.update_apply]

theorem costWrap_transfer (s0 : St) :
    (afterTransfer 3 costWrap s0).v 0 = 0 ∧ (afterTransfer 3 costWrap s0).v 1 = 0 ∧
    (afterTransfer 3 costWrap s0).v 2 = 0 ∧ (afterTransfer 3 costWrap s0).colsol 0 = -1 ∧
    (afterTransfer 3 costWrap s0).rfree 0 = 1 ∧ (afterTransfer 3 costWrap s0).rfree 1 = 2 ∧
    (afterTransfer 3 costWrap s0).numfree = 2 := by
  obtain ⟨a0, a1, a2, v0, v1, v2, c0, nf, _⟩ := costWrap_afterColRed s0
  unfold afterTransfer
  generalize afterColRed 3 costWrap s0 = s at a0 a1 a2 v0 v1 v2 c0 nf
  refine ⟨?_, ?_, ?_, ?_, ?_, ?_, ?_⟩ <;>
    simp [reductionTransfer, forRange, transferStep, a0, a1, a2, v0, v1, v2, c0, nf,
      Function.update_apply]

theorem costWrap_exact_step (s0 : St) :
    (arrStep 3 costWrap ({ afterTransfer 3 costWrap s0 with numfree := 0 }, 0)).2 = 1 ∧
    (arrStep 3 costWrap ({ afterTransfer 3 costWrap s0 with numfree := 0 }, 0)).1.rfree 1 = 2 ∧
    (arrStep 3 costWrap ({ afterTransfer 3 costWrap s0 with numfree := 0 }, 0)).1.v 0 =
      -1000000000 := by
  obtain ⟨v0, v1, v2, c0, r0, r1, nf⟩ := costWrap_transfer s0
  obtain ⟨e10, e11, e12, e20, e21, e22⟩ := costWrap_entries
  generalize afterTransfer 3 costWrap s0 = s at v0 v1 v2 c0 r0 r1 nf
  have hs : scanRow 3 costWrap s.v 1 s.j2 =
      { umin := 0, usubmin := 1000000000, j1 := 0, j2 := 1 } := by
    simp [scanRow, forRange, scanStep, BIG, v0, v1, v2, e10, e11, e12]
  unfold arrStep
  simp only [r0, hs]
  norm_num [c0, v0]
  simp [Function.update_apply, r1]

/-- C27, counterexample: entries below `BIG` do not keep the differences of
`LAP_lap` inside the range of `int`, and then the loop `while (k < prvnumfree)`
need not end.  Every entry of `costWrap` is 0, 1000000000 or 2000000000.  In
exact arithmetic the first turn of the loop, for row 1, leaves `k = 1`,
`rfree[1] = 2` and `v[0] = -1000000000`, so the second turn starts with
`umin = assigncost[2][0] - v[0]`, which is 3000000000, more than `INT_MAX`.
With the values that 32-bit arithmetic gives, the loop then moves column 0
from row 1 to row 2 and back for ever, `v[0]` going from -1000000000 to
2000000000 and back: whatever number of turns is allowed to the loop, and
whatever the initial content of the buffers, the run does not reach AUGMENT
SOLUTION. -/
theorem arrPhase32_never_returns :
    (∀ i : Nat, i < 3 → ∀ j : Nat, j < 3 → 0 ≤ costWrap i j ∧ costWrap i j < BIG) ∧
    (∀ s0 : St,
      (arrStep 3 costWrap ({ afterTransfer 3 costWrap s0 with numfree := 0 }, 0)).2 = 1 ∧
      (arrStep 3 costWrap ({ afterTransfer 3 costWrap s0 with numfree := 0 }, 0)).1.rfree 1 = 2 ∧
      costWrap 2 0 -
        (arrStep 3 costWrap ({ afterTransfer 3 costWrap s0 with numfree := 0 }, 0)).1.v 0 =
        3000000000 ∧ BIG < 3000000000) ∧
    ∀ (s0 : St) (fuel : Nat), arrPhase32 fuel 3 costWrap s0 = none := by
  refine ⟨by decide, ?_, ?_⟩
  · intro s0
    obtain ⟨a, b, c⟩ := costWrap_exact_step s0
    refine ⟨a, b, ?_, by decide⟩
    rw [c, costWrap_entries.2.2.2.1]
    rfl
  · intro s0 fuel
    obtain ⟨nf, hstart⟩ := costWrap_transfer32 s0
    unfold arrPhase32
    have e : arrPass32 fuel 3 costWrap
        (reductionTransfer32 3 costWrap (afterColRed 3 costWrap s0)) = none := by
      unfold arrPass32
      rw [nf]
      exact arrLoop32_start fuel _ hstart
    rw [e]

end LAP

/-! ## Duality, monotone binning, the score matrix, the encoding, the augmentation -/

theorem binLoop_mono (x y : ℚ) (lookup : GAVectorReal) (hxy : x ≤ y) (fuel : Nat)
    (result : Int) : binLoop x lookup fuel result ≤ binLoop y lookup fuel result := by
  induction fuel generalizing result with
  | zero => exact le_refl _
  | succ n ih =>
    simp only [binLoop]
    by_cases hx : result + 1 < (lookup.size : Int) - 1 ∧ x ≥ lookup.elts (result + 1)
    · have hy : result + 1 < (lookup.size : Int) - 1 ∧ y ≥ lookup.elts (result + 1) :=
        ⟨hx.1, le_trans hx.2 hxy⟩
      rw [if_pos hx, if_pos hy]
      exact ih (result + 1)
    · rw [if_neg hx]
      by_cases hy : result + 1 < (lookup.size : Int) - 1 ∧ y ≥ lookup.elts (result + 1)
      · rw [if_pos hy]
        have := binLoop_ge y lookup n (result + 1)
        omega
      · rw [if_neg hy]

theorem GA_get_bin_number_clamp_range (x : ℚ) (lookup : GAVectorReal) (h2 : 2 ≤ lookup.size) :
    0 ≤ GA_get_bin_number x lookup GAClampMode.GA_CLAMP_ENABLED ∧
    GA_get_bin_number x lookup GAClampMode.GA_CLAMP_ENABLED ≤ (lookup.size : Int) - 2 := by
  obtain ⟨b0, b1, _, _⟩ := binLoop_first x lookup h2
  unfold GA_get_bin_number
  rw [if_neg (by omega), if_neg (by omega)]
  have hne : ¬ (GAClampMode.GA_CLAMP_ENABLED = GAClampMode.GA_CLAMP_DISABLED) := by decide
  by_cases hout : x < lookup.elts 0 ∨ x > lookup.elts ((lookup.size : Int) - 1)
  · rw [if_pos hout, if_neg hne]
    by_cases hlo : x < lookup.elts 0
    · rw [if_pos hlo]; constructor <;> omega
    · rw [if_neg hlo]
      by_cases hhi : x > lookup.elts ((lookup.size : Int) - 1)
      · rw [if_pos hhi]; constructor <;> omega
      · rw [if_neg hhi]; exact ⟨b0, b1⟩
  · rw [if_neg hout]; exact ⟨b0, b1⟩

/-- C35: for a non-decreasing lookup vector of size at least 2 and with
clamping enabled, `GA_get_bin_number` is monotone in its argument, `x ≤ y`
implies `binNumber(x) ≤ binNumber(y)`, and both bin numbers are bins of
`0..size-2`. -/
theorem GA_get_bin_number_monotone (x y : ℚ) (lookup : GAVectorReal)
    (h2 : 2 ≤ lookup.size) (hmono : NonDecreasing lookup) (hxy : x ≤ y) :
    GA_get_bin_number x lookup GAClampMode.GA_CLAMP_ENABLED ≤
      GA_get_bin_number y lookup GAClampMode.GA_CLAMP_ENABLED ∧
    (0 ≤ GA_get_bin_number x lookup GAClampMode.GA_CLAMP_ENABLED ∧
      GA_get_bin_number x lookup GAClampMode.GA_CLAMP_ENABLED ≤ (lookup.size : Int) - 2) ∧
    (0 ≤ GA_get_bin_number y lookup GAClampMode.GA_CLAMP_ENABLED ∧
      GA_get_bin_number y lookup GAClampMode.GA_CLAMP_ENABLED ≤ (lookup.size : Int) - 2) := by
  have rx := GA_get_bin_number_clamp_range x lookup h2
  have ry := GA_get_bin_number_clamp_range y lookup h2
  refine ⟨?_, rx, ry⟩
  have hends : lookup.elts 0 ≤ lookup.elts ((lookup.size : Int) - 1) :=
    hmono 0 ((lookup.size : Int) - 1) (le_refl _) (by omega) (by omega)
  have hne : ¬ (GAClampMode.GA_CLAMP_ENABLED = GAClampMode.GA_CLAMP_DISABLED) := by decide
  by_cases hxlo : x < lookup.elts 0
  · have ex : GA_get_bin_number x lookup GAClampMode.GA_CLAMP_ENABLED = 0 := by
      unfold GA_get_bin_number
      rw [if_neg (by omega), if_neg (by omega), if_pos (Or.inl hxlo), if_neg hne, if_pos hxlo]
    rw [ex]; exact ry.1
  · by_cases hyhi : y > lookup.elts ((lookup.size : Int) - 1)
    · have ey : GA_get_bin_number y lookup GAClampMode.GA_CLAMP_ENABLED =
          (lookup.size : Int) - 2 := by
        unfold GA_get_bin_number
        have hylo : ¬ y < lookup.elts 0 := by
          intro h
          exact absurd (lt_of_lt_of_le hyhi (le_of_lt h)) (not_lt.mpr hends)
        rw [if_neg (by omega), if_neg (by omega), if_pos (Or.inr hyhi), if_neg hne,
          if_neg hylo, if_pos hyhi]
      rw [ey]; exact rx.2
    · have hx0 : lookup.elts 0 ≤ x := not_lt.mp hxlo
      have hy1 : y ≤ lookup.elts ((lookup.size : Int) - 1) := not_lt.mp hyhi
      rw [GA_get_bin_number_in_range x lookup _ h2 hx0 (le_trans hxy hy1),
        GA_get_bin_number_in_range y lookup _ h2 (le_trans hx0 hxy) hy1]
      exact binLoop_mono x y lookup hxy lookup.size 0

theorem nonDecreasing_lookup012 : NonDecreasing lookup012 :=
  nonDecreasing_of_strictly lookup012 strictlyIncreasing_lookup012

theorem GA_get_bin_number_monotone_witness :
    (2 ≤ lookup012.size ∧ NonDecreasing lookup012 ∧ (1 / 2 : ℚ) ≤ 3 / 2) ∧
    (GA_get_bin_number (1 / 2) lookup012 GAClampMode.GA_CLAMP_ENABLED ≤
      GA_get_bin_number (3 / 2) lookup012 GAClampMode.GA_CLAMP_ENABLED ∧
    (0 ≤ GA_get_bin_number (1 / 2) lookup012 GAClampMode.GA_CLAMP_ENABLED ∧
      GA_get_bin_number (1 / 2) lookup012 GAClampMode.GA_CLAMP_ENABLED ≤
        (lookup012.size : Int) - 2) ∧
    (0 ≤ GA_get_bin_number (3 / 2) lookup012 GAClampMode.GA_CLAMP_ENABLED ∧
      GA_get_bin_number (3 / 2) lookup012 GAClampMode.GA_CLAMP_ENABLED ≤
        (lookup012.size : Int) - 2)) :=
  ⟨⟨by decide, nonDecreasing_lookup012, by norm_num⟩,
    GA_get_bin_number_monotone (1 / 2) (3 / 2) lookup012 (by decide) nonDecreasing_lookup012
      (by norm_num)⟩

namespace LAP

theorem lapGood_duality (dim : Nat) (c : Int → Int → Int) (r : Result)
    (h : LapGood dim c r) :
    ∑ i in Finset.range dim, r.u i + ∑ j in Finset.range dim, r.v j = r.lapcost := by
  have e1 : ∑ i in Finset.range dim, r.u i =
      ∑ i : Fin dim, r.u ((i : Nat) : Int) :=
    (Fin.sum_univ_eq_sum_range (fun i : Nat => r.u (i : Int)) dim).symm
  have e1' : ∑ j in Finset.range dim, r.v j =
      ∑ j : Fin dim, r.v ((j : Nat) : Int) :=
    (Fin.sum_univ_eq_sum_range (fun j : Nat => r.v (j : Int)) dim).symm
  have e0 : ∑ i in Finset.range dim, c i (r.rowsol i) =
      ∑ i : Fin dim, c ((i : Nat) : Int) (r.rowsol ((i : Nat) : Int)) :=
    (Fin.sum_univ_eq_sum_range (fun i : Nat => c (i : Int) (r.rowsol (i : Int))) dim).symm
  have e2 : ∑ i : Fin dim, c ((i : Nat) : Int) (r.rowsol ((i : Nat) : Int)) =
      ∑ i : Fin dim, (r.u ((i : Nat) : Int) + r.v (r.rowsol ((i : Nat) : Int))) := by
    apply Finset.sum_congr rfl
    intro i _
    have := h.slack i.val i.isLt
    omega
  have e3 : ∑ i : Fin dim, r.v (r.rowsol ((i : Nat) : Int)) =
      ∑ j : Fin dim, r.v ((j : Nat) : Int) := by
    have := Equiv.sum_comp (rowPerm dim c r h) (fun j : Fin dim => r.v ((j : Nat) : Int))
    rw [← this]
    apply Finset.sum_congr rfl
    intro i _
    have a := h.row_range i.val i.isLt
    show r.v (r.rowsol (i.val : Int)) = r.v (((r.rowsol (i.val : Int)).toNat : Nat) : Int)
    rw [Int.toNat_of_nonneg a.1]
  rw [h.cost, e0, e2, Finset.sum_add_distrib, e3, e1, e1']

/-- C33: strong duality.  On a valid `dim × dim` cost matrix `LAP_lap`
returns, and the duals it returns satisfy
`sum_i u[i] + sum_j v[j] = ` the total cost returned. -/
theorem LAP_lap_strong_duality (dim : Nat) (c : Int → Int → Int) (s0 : St)
    (hv : ValidCost dim c) :
    (∃ (fuel : Nat) (r : Result), LAP_lap fuel dim c s0 = some r) ∧
    ∀ (fuel : Nat) (r : Result), LAP_lap fuel dim c s0 = some r →
      ∑ i in Finset.range dim, r.u i + ∑ j in Finset.range dim, r.v j = r.lapcost := by
  refine ⟨LAP_lap_returns dim c s0 hv, ?_⟩
  intro fuel r h
  exact lapGood_duality dim c r (lapGood_of_some dim c s0 hv fuel r h)

theorem LAP_lap_strong_duality_witness :
    ValidCost 3 cost3 ∧
    ((∃ (fuel : Nat) (r : Result), LAP_lap fuel 3 cost3 zeroSt = some r) ∧
    ∀ (fuel : Nat) (r : Result), LAP_lap fuel 3 cost3 zeroSt = some r →
      ∑ i in Finset.range 3, r.u i + ∑ j in Finset.range 3, r.v j = r.lapcost) :=
  ⟨validCost_cost3, LAP_lap_strong_duality 3 cost3 zeroSt validCost_cost3⟩

/-- C34: the edge case `dim = 1`.  For the 1 × 1 cost matrix with the entry
`c[0][0]`, and whatever the buffers hold, `LAP_lap` returns with
`rowsol[0] = 0`, `colsol[0] = 0` and the total cost `c[0][0]`.  The reduction
transfer finds no other column and subtracts `BIG` from `v[0]`, so that over
unbounded integers `v[0] = c[0][0] - 2147483647` and `u[0] = 2147483647`.
For an entry `x` in the range of a 32-bit `int`, the difference `x - BIG` is
representable, that is not changed by 32-bit arithmetic, exactly when
`x ≥ -1`. -/
theorem LAP_lap_dim_one (fuel : Nat) (c : Int → Int → Int) (s0 : St) :
    (∃ r : Result, LAP_lap fuel 1 c s0 = some r ∧
      r.rowsol 0 = 0 ∧ r.colsol 0 = 0 ∧ r.lapcost = c 0 0 ∧
      r.v 0 = c 0 0 - 2147483647 ∧ r.u 0 = 2147483647) ∧
    (∀ x : Int, -2147483648 ≤ x → x ≤ 2147483647 →
      (wrap32 (x - BIG) = x - BIG ↔ -1 ≤ x)) := by
  constructor
  · cases fuel <;>
      simp [LAP_lap, colReduction, forDown, colRedStep, colMin, reductionTransfer, forRange,
        transferStep, transferMin, arrPass, arrLoop, augment, finalStep, BIG,
        Function.update_apply]
  · intro x h0 h1
    unfold wrap32 BIG
    omega

end LAP

theorem setElt_pair_get (e : Int → Int → ℚ) (i j : Int) (w : ℚ) (a b : Int) :
    setElt (setElt e i j w) j i w a b =
      if (a = i ∧ b = j) ∨ (a = j ∧ b = i) then w else e a b := by
  rw [setElt_get, setElt_get]
  by_cases h1 : a = j ∧ b = i
  · rw [if_pos h1, if_pos (Or.inr h1)]
  · rw [if_neg h1]
    by_cases h2 : a = i ∧ b = j
    · rw [if_pos h2, if_pos (Or.inl h2)]
    · rw [if_neg h2, if_neg (by tauto)]

/-- The inner loop of `GA_encode_directed_graph` without a permutation, for
row `i` and the columns `0..n-1`: the elements `(i, j)` and `(j, i)` with
`matrix[i][j] = 1` are set, to 1 when `i ≤ j` and to -1 otherwise. -/
theorem encodeRow_get (n : Nat) (matrix : GAMatrixReal) (i : Int) (e : Int → Int → ℚ)
    (a b : Int) :
    LAP.forRange 0 n (fun j e =>
      if matrix.elts i j = 1 then
        if (fun i : Int => i) i ≤ (fun i : Int => i) j then setElt (setElt e i j 1) j i 1
        else setElt (setElt e i j (-1)) j i (-1)
      else e) e a b =
    if a = i ∧ 0 ≤ b ∧ b < n ∧ matrix.elts i b = 1 then (if i ≤ b then 1 else -1)
    else if b = i ∧ 0 ≤ a ∧ a < n ∧ matrix.elts i a = 1 then (if i ≤ a then 1 else -1)
    else e a b := by
  induction n with
  | zero =>
    simp only [LAP.forRange]
    rw [if_neg (by push_cast; omega), if_neg (by push_cast; omega)]
  | succ m ih =>
    simp only [LAP.forRange]
    have hm : (0 : Int) + (m : Int) = m := by omega
    rw [hm]
    by_cases h1 : matrix.elts i m = 1
    · rw [if_pos h1]
      by_cases hle : i ≤ (m : Int)
      · rw [if_pos hle, setElt_pair_get, ih]
        by_cases hw : (a = i ∧ b = (m : Int)) ∨ (a = (m : Int) ∧ b = i)
        · rw [if_pos hw]
          rcases hw with ⟨ha, hb⟩ | ⟨ha, hb⟩
          · rw [if_pos ⟨ha, by omega, by push_cast; omega, by rw [hb]; exact h1⟩,
              if_pos (by omega)]
          · by_cases hai : a = i
            · rw [if_pos ⟨hai, by omega, by push_cast; omega, by
                have : b = (m : Int) := by omega
                rw [this]; exact h1⟩, if_pos (by omega)]
            · rw [if_neg (by tauto),
                if_pos ⟨hb, by omega, by push_cast; omega, by rw [ha]; exact h1⟩,
                if_pos (by omega)]
        · rw [if_neg hw]
          have e1 : (a = i ∧ 0 ≤ b ∧ b < ((m + 1 : Nat) : Int) ∧ matrix.elts i b = 1) ↔
              (a = i ∧ 0 ≤ b ∧ b < (m : Int) ∧ matrix.elts i b = 1) := by
            constructor
            · rintro ⟨x1, x2, x3, x4⟩
              refine ⟨x1, x2, ?_, x4⟩
              have : b ≠ (m : Int) := fun hb => hw (Or.inl ⟨x1, hb⟩)
              push_cast at x3; omega
            · rintro ⟨x1, x2, x3, x4⟩
              exact ⟨x1, x2, by push_cast; omega, x4⟩
          have e2 : (b = i ∧ 0 ≤ a ∧ a < ((m + 1 : Nat) : Int) ∧ matrix.elts i a = 1) ↔
              (b = i ∧ 0 ≤ a ∧ a < (m : Int) ∧ matrix.elts i a = 1) := by
            constructor
            · rintro ⟨x1, x2, x3, x4⟩
              refine ⟨x1, x2, ?_, x4⟩
              have : a ≠ (m : Int) := fun ha => hw (Or.inr ⟨ha, x1⟩)
              push_cast at x3; omega
            · rintro ⟨x1, x2, x3, x4⟩
              exact ⟨x1, x2, by push_cast; omega, x4⟩
          simp only [e1, e2]
      · rw [if_neg hle, setElt_pair_get, ih]
        by_cases hw : (a = i ∧ b = (m : Int)) ∨ (a = (m : Int) ∧ b = i)
        · rw [if_pos hw]
          rcases hw with ⟨ha, hb⟩ | ⟨ha, hb⟩
          · rw [if_pos ⟨ha, by omega, by push_cast; omega, by rw [hb]; exact h1⟩,
              if_neg (by omega)]
          · by_cases hai : a = i
            · exfalso; omega
            · rw [if_neg (by tauto),
                if_pos ⟨hb, by omega, by push_cast; omega, by rw [ha]; exact h1⟩,
                if_neg (by omega)]
        · rw [if_neg hw]
          have e1 : (a = i ∧ 0 ≤ b ∧ b < ((m + 1 : Nat) : Int) ∧ matrix.elts i b = 1) ↔
              (a = i ∧ 0 ≤ b ∧ b < (m : Int) ∧ matrix.elts i b = 1) := by
            constructor
            · rintro ⟨x1, x2, x3, x4⟩
              refine ⟨x1, x2, ?_, x4⟩
              have : b ≠ (m : Int) := fun hb => hw (Or.inl ⟨x1, hb⟩)
              push_cast at x3; omega
            · rintro ⟨x1, x2, x3, x4⟩
              exact ⟨x1, x2, by push_cast; omega, x4⟩
          have e2 : (b = i ∧ 0 ≤ a ∧ a < ((m + 1 : Nat) : Int) ∧ matrix.elts i a = 1) ↔
              (b = i ∧ 0 ≤ a ∧ a < (m : Int) ∧ matrix.elts i a = 1) := by
            constructor
            · rintro ⟨x1, x2, x3, x4⟩
              refine ⟨x1, x2, ?_, x4⟩
              have : a ≠ (m : Int) := fun ha => hw (Or.inr ⟨ha, x1⟩)
              push_cast at x3; omega
            · rintro ⟨x1, x2, x3, x4⟩
              exact ⟨x1, x2, by push_cast; omega, x4⟩
          simp only [e1, e2]
    · rw [if_neg h1, ih]
      have e1 : (a = i ∧ 0 ≤ b ∧ b < ((m + 1 : Nat) : Int) ∧ matrix.elts i b = 1) ↔
          (a = i ∧ 0 ≤ b ∧ b < (m : Int) ∧ matrix.elts i b = 1) := by
        constructor
        · rintro ⟨x1, x2, x3, x4⟩
          refine ⟨x1, x2, ?_, x4⟩
          have : b ≠ (m : Int) := fun hb => h1 (by rw [← hb]; exact x4)
          push_cast at x3; omega
        · rintro ⟨x1, x2, x3, x4⟩
          exact ⟨x1, x2, by push_cast; omega, x4⟩
      have e2 : (b = i ∧ 0 ≤ a ∧ a < ((m + 1 : Nat) : Int) ∧ matrix.elts i a = 1) ↔
          (b = i ∧ 0 ≤ a ∧ a < (m : Int) ∧ matrix.elts i a = 1) := by
        constructor
        · rintro ⟨x1, x2, x3, x4⟩
          refine ⟨x1, x2, ?_, x4⟩
          have : a ≠ (m : Int) := fun ha => h1 (by rw [← ha]; exact x4)
          push_cast at x3; omega
        · rintro ⟨x1, x2, x3, x4⟩
          exact ⟨x1, x2, by push_cast; omega, x4⟩
      simp only [e1, e2]

theorem encodeRow_get2 (n : Nat) (matrix : GAMatrixReal) (i : Int) (e : Int → Int → ℚ)
    (a b : Int) :
    LAP.forRange 0 n (fun j e =>
      if matrix.elts i j = 1 then
        if (fun i : Int => i) i ≤ (fun i : Int => i) j then setElt (setElt e i j 1) j i 1
        else setElt (setElt e i j (-1)) j i (-1)
      else e) e a b =
    if a = i ∧ 0 ≤ b ∧ b < n ∧ matrix.elts a b = 1 then (if a ≤ b then 1 else -1)
    else if b = i ∧ 0 ≤ a ∧ a < n ∧ matrix.elts b a = 1 then (if b ≤ a then 1 else -1)
    else e a b := by
  rw [encodeRow_get]
  by_cases ha : a = i
  · by_cases hb : b = i
    · rw [ha, hb]
    · rw [ha]
      have : ¬ (b = i ∧ 0 ≤ i ∧ i < (n : Int) ∧ matrix.elts i i = 1) := by tauto
      have h2 : ¬ (b = i ∧ 0 ≤ i ∧ i < (n : Int) ∧ matrix.elts b i = 1) := by tauto
      rw [if_neg this, if_neg h2]
  · have h1 : ¬ (a = i ∧ 0 ≤ b ∧ b < (n : Int) ∧ matrix.elts i b = 1) := by tauto
    have h2 : ¬ (a = i ∧ 0 ≤ b ∧ b < (n : Int) ∧ matrix.elts a b = 1) := by tauto
    rw [if_neg h1, if_neg h2]
    by_cases hb : b = i
    · rw [hb]
    · have h3 : ¬ (b = i ∧ 0 ≤ a ∧ a < (n : Int) ∧ matrix.elts i a = 1) := by tauto
      have h4 : ¬ (b = i ∧ 0 ≤ a ∧ a < (n : Int) ∧ matrix.elts b a = 1) := by tauto
      rw [if_neg h3, if_neg h4]

theorem encodeRows_get (n : Nat) (matrix : GAMatrixReal) (e : Int → Int → ℚ) (K : Nat)
    (a b : Int) (ha0 : 0 ≤ a) (ha : a < n) (hb0 : 0 ≤ b) (hb : b < n) :
    LAP.forRange 0 K (fun i e => LAP.forRange 0 n (fun j e =>
      if matrix.elts i j = 1 then
        if (fun i : Int => i) i ≤ (fun i : Int => i) j then setElt (setElt e i j 1) j i 1
        else setElt (setElt e i j (-1)) j i (-1)
      else e) e) e a b =
    if a ≤ b then
      (if b < K ∧ a < b ∧ matrix.elts b a = 1 then -1
       else if a < K ∧ matrix.elts a b = 1 then 1 else e a b)
    else
      (if a < K ∧ matrix.elts a b = 1 then -1
       else if b < K ∧ matrix.elts b a = 1 then 1 else e a b) := by
  induction K with
  | zero =>
    simp only [LAP.forRange]
    have h1 : ¬ (b < ((0 : Nat) : Int) ∧ a < b ∧ matrix.elts b a = 1) := by
      push_cast; omega
    have h2 : ¬ (a < ((0 : Nat) : Int) ∧ matrix.elts a b = 1) := by push_cast; omega
    have h3 : ¬ (b < ((0 : Nat) : Int) ∧ matrix.elts b a = 1) := by push_cast; omega
    simp only [if_neg h1, if_neg h2, if_neg h3, ite_self]
  | succ k ih =>
    simp only [LAP.forRange]
    have hk : (0 : Int) + (k : Int) = k := by omega
    rw [hk, encodeRow_get2 n matrix (k : Int) _ a b, ih]
    have hc : ((k + 1 : Nat) : Int) = (k : Int) + 1 := by push_cast; rfl
    rw [hc]
    by_cases hab : a = b
    · subst hab
      by_cases hA : matrix.elts a a = 1
      · simp only [hA, and_true, lt_irrefl, false_and, and_false, le_refl, if_true, if_false]
        split_ifs <;> first | rfl | (exfalso; omega)
      · simp only [hA, and_false, if_false, ite_self]
    · by_cases hA : matrix.elts a b = 1
      · by_cases hB : matrix.elts b a = 1
        · simp only [hA, hB, and_true]
          split_ifs <;> first | rfl | (exfalso; omega)
        · simp only [hA, hB, and_true, and_false, if_false]
          split_ifs <;> first | rfl | (exfalso; omega)
      · by_cases hB : matrix.elts b a = 1
        · simp only [hA, hB, and_true, and_false, if_false]
          split_ifs <;> first | rfl | (exfalso; omega)
        · simp only [hA, hB, and_false, if_false, ite_self]

theorem encodeLoop_id_get (matrix : GAMatrixReal) (mem : Int → Int → ℚ)
    (a b : Int) (ha0 : 0 ≤ a) (ha : a < matrix.rows) (hb0 : 0 ≤ b) (hb : b < matrix.rows) :
    encodeLoop matrix.rows matrix (fun i => i)
      (GA_matrix_init_zero_real matrix.rows matrix.rows mem) a b =
    if a ≤ b then
      (if a < b ∧ matrix.elts b a = 1 then -1
       else if matrix.elts a b = 1 then 1 else 0)
    else
      (if matrix.elts a b = 1 then -1
       else if matrix.elts b a = 1 then 1 else 0) := by
  have key := encodeRows_get matrix.rows matrix
    (GA_matrix_init_zero_real matrix.rows matrix.rows mem) matrix.rows a b ha0 ha hb0 hb
  have hz : GA_matrix_init_zero_real matrix.rows matrix.rows mem a b = 0 := by
    rw [GA_matrix_init_zero_real_get, if_pos ⟨⟨ha0, ha⟩, hb0, hb⟩]
  unfold encodeLoop
  rw [key, hz]
  simp only [ha, hb, true_and]

/-- C39: the result of `GA_encode_directed_graph` without a permutation, for
a square matrix `m`.  Every entry of the result is -1, 0 or 1; the diagonal
entry `result[i][i]` is 1 if `m[i][i] = 1` and 0 otherwise; and for `i < j`
the entries `result[i][j]` and `result[j][i]` are equal, namely -1 if
`m[j][i] = 1` (the later write wins, also when `m[i][j] = 1` too), else 1 if
`m[i][j] = 1`, else 0. -/
theorem GA_encode_directed_graph_entries (matrix : GAMatrixReal) (mem : Int → Int → ℚ)
    (hsq : matrix.rows = matrix.cols) :
    ∃ r : GAMatrixReal,
      GA_encode_directed_graph matrix none mem = { events := [], result := some r } ∧
      r.rows = matrix.rows ∧ r.cols = matrix.rows ∧
      (∀ i j : Int, 0 ≤ i → i < matrix.rows → 0 ≤ j → j < matrix.rows →
        r.elts i j = -1 ∨ r.elts i j = 0 ∨ r.elts i j = 1) ∧
      (∀ i : Int, 0 ≤ i → i < matrix.rows →
        r.elts i i = if matrix.elts i i = 1 then 1 else 0) ∧
      (∀ i j : Int, 0 ≤ i → i < j → j < matrix.rows →
        r.elts i j = r.elts j i ∧
        r.elts i j = if matrix.elts j i = 1 then -1
          else if matrix.elts i j = 1 then 1 else 0) := by
  unfold GA_encode_directed_graph
  rw [if_neg (by simp [hsq])]
  refine ⟨_, rfl, rfl, rfl, ?_, ?_, ?_⟩
  · intro i j hi0 hi hj0 hj
    show encodeLoop matrix.rows matrix (fun i => i)
        (GA_matrix_init_zero_real matrix.rows matrix.rows mem) i j = -1 ∨
      encodeLoop matrix.rows matrix (fun i => i)
        (GA_matrix_init_zero_real matrix.rows matrix.rows mem) i j = 0 ∨
      encodeLoop matrix.rows matrix (fun i => i)
        (GA_matrix_init_zero_real matrix.rows matrix.rows mem) i j = 1
    rw [encodeLoop_id_get matrix mem i j hi0 hi hj0 hj]
    split_ifs <;> simp
  · intro i hi0 hi
    show encodeLoop matrix.rows matrix (fun i => i)
        (GA_matrix_init_zero_real matrix.rows matrix.rows mem) i i = _
    rw [encodeLoop_id_get matrix mem i i hi0 hi hi0 hi, if_pos (le_refl _),
      if_neg (by omega)]
  · intro i j hi0 hij hj
    show encodeLoop matrix.rows matrix (fun i => i)
        (GA_matrix_init_zero_real matrix.rows matrix.rows mem) i j =
      encodeLoop matrix.rows matrix (fun i => i)
        (GA_matrix_init_zero_real matrix.rows matrix.rows mem) j i ∧
      encodeLoop matrix.rows matrix (fun i => i)
        (GA_matrix_init_zero_real matrix.rows matrix.rows mem) i j = _
    have hi : i < matrix.rows := by omega
    have hj0 : 0 ≤ j := by omega
    rw [encodeLoop_id_get matrix mem i j hi0 hi hj0 hj,
      encodeLoop_id_get matrix mem j i hj0 hj hi0 hi,
      if_pos (le_of_lt hij), if_neg (not_le.mpr hij)]
    by_cases hB : matrix.elts j i = 1
    · rw [if_pos ⟨hij, hB⟩, if_pos hB]
      exact ⟨rfl, rfl⟩
    · rw [if_neg (fun h => hB h.2), if_neg hB]
      exact ⟨rfl, rfl⟩

theorem GA_encode_directed_graph_entries_witness :
    ∃ r : GAMatrixReal,
      GA_encode_directed_graph (matrixOfReal 2 [[1, 1], [1, 0]]) none (fun _ _ => 0) =
        { events := [], result := some r } ∧
      r.rows = (matrixOfReal 2 [[1, 1], [1, 0]]).rows ∧
      r.cols = (matrixOfReal 2 [[1, 1], [1, 0]]).rows ∧
      (∀ i j : Int, 0 ≤ i → i < (matrixOfReal 2 [[1, 1], [1, 0]]).rows →
        0 ≤ j → j < (matrixOfReal 2 [[1, 1], [1, 0]]).rows →
        r.elts i j = -1 ∨ r.elts i j = 0 ∨ r.elts i j = 1) ∧
      (∀ i : Int, 0 ≤ i → i < (matrixOfReal 2 [[1, 1], [1, 0]]).rows →
        r.elts i i = if (matrixOfReal 2 [[1, 1], [1, 0]]).elts i i = 1 then 1 else 0) ∧
      (∀ i j : Int, 0 ≤ i → i < j → j < (matrixOfReal 2 [[1, 1], [1, 0]]).rows →
        r.elts i j = r.elts j i ∧
        r.elts i j = if (matrixOfReal 2 [[1, 1], [1, 0]]).elts j i = 1 then -1
          else if (matrixOfReal 2 [[1, 1], [1, 0]]).elts i j = 1 then 1 else 0) :=
  GA_encode_directed_graph_entries (matrixOfReal 2 [[1, 1], [1, 0]]) (fun _ _ => 0) rfl

theorem mem_readsOfLoop (n : Nat) (body : Int → List IndexedRead) (k : Nat) (hk : k < n)
    (x : IndexedRead) (hx : x ∈ body (k : Int)) : x ∈ readsOfLoop n body := by
  unfold readsOfLoop
  induction n with
  | zero => omega
  | succ m ih =>
    simp only [LAP.forRange]
    rw [List.mem_append]
    by_cases hkm : k < m
    · exact Or.inl (ih hkm)
    · have : k = m := by omega
      right
      rw [zero_add, ← this]
      exact hx

theorem readsOfLoop_mem (n : Nat) (body : Int → List IndexedRead) (x : IndexedRead)
    (hx : x ∈ readsOfLoop n body) : ∃ k : Nat, k < n ∧ x ∈ body (k : Int) := by
  unfold readsOfLoop at hx
  induction n with
  | zero => simp [LAP.forRange] at hx
  | succ m ih =>
    simp only [LAP.forRange] at hx
    rw [List.mem_append] at hx
    rcases hx with h | h
    · obtain ⟨k, hk, hm⟩ := ih h
      exact ⟨k, by omega, hm⟩
    · rw [zero_add] at h
      exact ⟨m, by omega, h⟩

namespace LAP

theorem flipPath_effect (pred : Int → Int) (f0 : Int) (n : Nat) (x : Int)
    (rs cs rs' cs' : Int → Int) (h : flipPath pred f0 n x (rs, cs) = some (rs', cs')) :
    ∀ j : Int, cs' j = if j ∈ flipCols pred f0 n x rs then pred j else cs j := by
  induction n generalizing x rs cs with
  | zero => simp [flipPath] at h
  | succ m ih =>
    intro j
    rw [flipPath] at h
    simp only [flipCols]
    by_cases hi : pred x ≠ f0
    · rw [if_pos hi] at h
      simp only [if_pos hi]
      have key := ih _ _ _ h j
      by_cases hm : j ∈ flipCols pred f0 m (rs (pred x)) (Function.update rs (pred x) x)
      · rw [if_pos hm] at key
        rw [if_pos (List.mem_cons_of_mem _ hm)]
        exact key
      · rw [if_neg hm] at key
        by_cases hjx : j = x
        · rw [if_pos (by rw [hjx]; exact List.mem_cons_self _ _), key, hjx,
            Function.update_same]
        · rw [if_neg (by
            intro hc
            rcases List.mem_cons.mp hc with e | e
            · exact hjx e
            · exact hm e), key, Function.update_noteq hjx]
    · rw [if_neg hi] at h
      simp only [if_neg hi]
      have e := Option.some.inj h
      have e2 : Function.update cs x (pred x) = cs' := congrArg Prod.snd e
      rw [← e2]
      by_cases hjx : j = x
      · rw [if_pos (by rw [hjx]; exact List.mem_cons_self _ _), hjx, Function.update_same]
      · rw [if_neg (by
          intro hc
          rcases List.mem_cons.mp hc with e | e
          · exact hjx e
          · simp at e), Function.update_noteq hjx]

theorem flipCols_head (pred : Int → Int) (f0 : Int) (n : Nat) (x : Int) (rs : Int → Int) :
    x ∈ flipCols pred f0 (n + 1) x rs := by
  simp only [flipCols]
  exact List.mem_cons_self _ _

theorem flipCols_sub (dim : Nat) (c : Int → Int → Int) (rowsol colsol v v' pred cl : Int → Int)
    (low e f0 : Int) (hsol : PartialSol dim c rowsol colsol v)
    (hfree : FreeRow dim colsol f0)
    (A : AugReady dim c colsol v' pred cl low e f0)
    (n : Nat) (B x : Int) (rs cs : Int → Int)
    (F : FlipInv dim c colsol v' cl low e f0 B x rs cs) :
    ∀ j : Int, j ∈ flipCols pred f0 n x rs →
      j = x ∨ ∃ t : Int, 0 ≤ t ∧ t < B ∧ j = cl t := by
  induction n generalizing B x rs cs with
  | zero => intro j hj; simp [flipCols] at hj
  | succ m ih =>
    intro j hj
    simp only [flipCols] at hj
    rcases List.mem_cons.mp hj with e1 | e1
    · exact Or.inl e1
    · obtain ⟨_, _, _, _, hpx, _⟩ :=
        flipInv_facts dim c colsol v' pred cl low e f0 A B x rs cs F
      rcases hpx with hp | ⟨t, t0, t1, hp⟩
      · rw [if_neg (by rw [hp]; simp)] at e1
        simp at e1
      · obtain ⟨hne, hrs, F'⟩ := flip_next dim c rowsol colsol v v' pred cl low e f0 hsol
          hfree A B x rs cs F t t0 t1 hp
        rw [if_pos hne, hrs] at e1
        rcases ih t (cl t) _ _ F' j e1 with e2 | ⟨t', t0', t1', e2⟩
        · exact Or.inr ⟨t, t0, t1, e2⟩
        · exact Or.inr ⟨t', t0', by omega, e2⟩

theorem flipInv_start (dim : Nat) (colsol rowsol : Int → Int) (f0 : Int) (q : Search)
    (hsol : PartialSol dim (fun _ _ => 0) rowsol colsol (fun _ => 0))
    (ifree : FreeRow dim colsol f0)
    (D : SearchEnd dim colsol f0 q) :
    FlipInv dim (fun _ _ => 0) colsol (fun _ => 0) q.collist q.low q.endofpath
      f0 q.low q.endofpath rowsol colsol := by
  have hld := D.lowdim
  have A := searchEnd_augReady dim colsol f0 q D
  refine ⟨Or.inl ⟨rfl, rfl⟩, rfl, fun _ _ _ => rfl, ?_, hsol.col_lt, ?_, ?_, ?_, ?_⟩
  · intro t t0 t1
    have tr := D.perm.range t t0 (by omega)
    exact hsol.col_row _ tr.1 tr.2 (D.asg t t0 t1)
  · intro j j0 j1 _ hc
    exact hsol.col_row j j0 j1 hc
  · intro j j0 j1 _ hc
    exact A.good_old j j0 j1 hc
  · intro j j0 j1 _
    exact ifree j j0 j1
  · intro r r0 _
    constructor
    · intro hr j j0 j1
      by_cases hj : j = q.endofpath
      · rw [hj]
        have := D.eun
        omega
      · exact hr j j0 j1 hj
    · intro hr j j0 j1 _
      exact hr j j0 j1

/-- What one turn of the loop AUGMENT SOLUTION does to the assignment,
whatever the costs. -/
theorem augmentStep_effect (dim : Nat) (c : Int → Int → Int) (f : Int) (s : St)
    (h : AugTerm dim f s) (hlow : ColLow dim s.colsol) (hf : f < s.numfree) :
    ∃ (s' : St) (q : Search),
      augmentStep (dim + 1) dim c f s = some s' ∧
      searchLoop dim c s.v s.colsol dim (searchInit dim c (s.rfree f) s) = some q ∧
      AugTerm dim (f + 1) s' ∧ s'.numfree = s.numfree ∧ ColLow dim s'.colsol ∧
      (0 ≤ q.endofpath ∧ q.endofpath < dim ∧ s.colsol q.endofpath = -1 ∧
        0 ≤ s'.colsol q.endofpath) ∧
      (∀ j : Int, s'.colsol j =
        if j ∈ flipCols q.pred (s.rfree f) (dim + 1) q.endofpath s.rowsol then q.pred j
        else s.colsol j) ∧
      (∀ j : Int, s'.colsol j = -1 ↔ s.colsol j = -1 ∧ j ≠ q.endofpath) ∧
      (∀ r : Int, 0 ≤ r →
        (FreeRow dim s'.colsol r ↔ r ≠ s.rfree f ∧ FreeRow dim s.colsol r)) := by
  have hsol : PartialSol dim (fun _ _ => 0) s.rowsol s.colsol (fun _ => 0) := h.sol
  have hfl := h.fl
  obtain ⟨i0, i1, ifree⟩ := hfl.range f (Or.inr ⟨le_refl _, hf⟩)
  obtain ⟨s', e', h', n'⟩ := augmentStep_term dim c f s h hf (dim + 1) (le_refl _)
  obtain ⟨q, rs', cs', hq, D, hflip, hsol', hfree'⟩ := searchFlip_term dim c f s h hf
  have hq' : searchLoop dim c s.v s.colsol (dim + 1) (searchInit dim c (s.rfree f) s) =
      some q := searchLoop_mono dim c s.v s.colsol dim _ q hq
  have hcol : s'.colsol = cs' := by
    unfold augmentStep at e'
    dsimp only at e'
    rw [hq'] at e'
    dsimp only at e'
    rw [hflip] at e'
    dsimp only at e'
    have := Option.some.inj e'
    rw [← this]
  have A := searchEnd_augReady dim s.colsol (s.rfree f) q D
  have F := flipInv_start dim s.colsol s.rowsol (s.rfree f) q hsol ifree D
  have heff := flipPath_effect q.pred (s.rfree f) (dim + 1) q.endofpath s.rowsol s.colsol
    rs' cs' hflip
  have hsub := flipCols_sub dim (fun _ _ => 0) s.rowsol s.colsol (fun _ => 0) (fun _ => 0)
    q.pred q.collist q.low q.endofpath (s.rfree f) hsol ifree A (dim + 1) q.low q.endofpath
    s.rowsol s.colsol F
  have hpe : 0 ≤ q.pred q.endofpath := by
    rcases A.path_e with hp | ⟨t, t0, t1, hp⟩
    · rw [hp]; exact i0
    · rw [hp]; exact A.asg t t0 t1
  have hpr : ∀ t : Int, 0 ≤ t → t < q.low → 0 ≤ q.pred (q.collist t) := by
    intro t t0 t1
    rcases A.path_ready t t0 t1 with hp | ⟨t', t0', t1', hp⟩
    · rw [hp]; exact i0
    · rw [hp]; exact A.asg t' t0' (by omega)
  have hpath : ∀ j : Int, j ∈ flipCols q.pred (s.rfree f) (dim + 1) q.endofpath s.rowsol →
      0 ≤ q.pred j ∧ (j = q.endofpath ∨ 0 ≤ s.colsol j) := by
    intro j hj
    rcases hsub j hj with e | ⟨t, t0, t1, e⟩
    · rw [e]; exact ⟨hpe, Or.inl rfl⟩
    · rw [e]; exact ⟨hpr t t0 t1, Or.inr (A.asg t t0 t1)⟩
  have hee : s.colsol q.endofpath = -1 := by
    have a := hlow q.endofpath D.e0 D.e1
    have b := D.eun
    omega
  have hhead := flipCols_head q.pred (s.rfree f) dim q.endofpath s.rowsol
  refine ⟨s', q, e', hq, h', n', ?_, ⟨D.e0, D.e1, hee, ?_⟩, ?_, ?_, ?_⟩
  · intro j j0 j1
    rw [hcol, heff j]
    by_cases hm : j ∈ flipCols q.pred (s.rfree f) (dim + 1) q.endofpath s.rowsol
    · rw [if_pos hm]
      have := (hpath j hm).1
      omega
    · rw [if_neg hm]; exact hlow j j0 j1
  · rw [hcol, heff, if_pos hhead]; exact hpe
  · intro j
    rw [hcol]; exact heff j
  · intro j
    rw [hcol, heff j]
    by_cases hm : j ∈ flipCols q.pred (s.rfree f) (dim + 1) q.endofpath s.rowsol
    · rw [if_pos hm]
      obtain ⟨a, b⟩ := hpath j hm
      constructor
      · intro e; omega
      · rintro ⟨e1, e2⟩
        rcases b with b | b
        · exact absurd b e2
        · omega
    · rw [if_neg hm]
      constructor
      · intro e
        refine ⟨e, ?_⟩
        intro ej
        rw [ej] at hm
        exact hm hhead
      · rintro ⟨e1, _⟩; exact e1
  · intro r r0
    rw [hcol]; exact hfree' r r0

theorem unassignedCount_drop (dim : Nat) (cs cs' : Int → Int) (e : Int)
    (h : ∀ j : Int, cs' j = -1 ↔ cs j = -1 ∧ j ≠ e)
    (e0 : 0 ≤ e) (e1 : e < dim) (he : cs e = -1) :
    unassignedCount dim cs' + 1 = unassignedCount dim cs := by
  unfold unassignedCount
  have hmem : e ∈ (Finset.Ico (0 : Int) dim).filter (fun j => cs j = -1) := by
    rw [Finset.mem_filter, Finset.mem_Ico]
    exact ⟨⟨e0, e1⟩, he⟩
  have heq : (Finset.Ico (0 : Int) dim).filter (fun j => cs' j = -1) =
      ((Finset.Ico (0 : Int) dim).filter (fun j => cs j = -1)).erase e := by
    ext j
    rw [Finset.mem_erase, Finset.mem_filter, Finset.mem_filter, h j]
    tauto
  rw [heq, Finset.card_erase_of_mem hmem]
  have := Finset.card_pos.mpr ⟨e, hmem⟩
  omega

/-- In a consistent partial assignment there are as many free rows as
unassigned columns. -/
theorem freeRows_card (dim : Nat) (rowsol colsol : Int → Int)
    (hsol : StructSol dim rowsol colsol) (hlow : ColLow dim colsol)
    (F : Finset Int)
    (hF : ∀ i : Int, i ∈ F ↔ (0 ≤ i ∧ i < dim) ∧ FreeRow dim colsol i) :
    F.card = unassignedCount dim colsol := by
  classical
  unfold unassignedCount
  have hA : ((Finset.Ico (0 : Int) dim).filter (fun j => ¬ colsol j = -1)).card =
      ((Finset.Ico (0 : Int) dim).filter (fun i => i ∉ F)).card := by
    apply Finset.card_bij (fun j _ => colsol j)
    · intro j hj
      rw [Finset.mem_filter, Finset.mem_Ico] at hj ⊢
      obtain ⟨⟨j0, j1⟩, hne⟩ := hj
      have a := hlow j j0 j1
      have b := hsol.col_lt j j0 j1
      refine ⟨⟨by omega, b⟩, ?_⟩
      intro hin
      exact ((hF _).mp hin).2 j j0 j1 rfl
    · intro j hj j' hj' e
      rw [Finset.mem_filter, Finset.mem_Ico] at hj hj'
      obtain ⟨⟨j0, j1⟩, hne⟩ := hj
      obtain ⟨⟨j0', j1'⟩, hne'⟩ := hj'
      have a := hlow j j0 j1
      have a' := hlow j' j0' j1'
      have r1 := hsol.col_row j j0 j1 (by omega)
      have r2 := hsol.col_row j' j0' j1' (by omega)
      rw [e] at r1
      rw [← r1, r2]
    · intro i hi
      rw [Finset.mem_filter, Finset.mem_Ico] at hi
      obtain ⟨⟨i0, i1⟩, hni⟩ := hi
      have hnf : ¬ FreeRow dim colsol i := fun hf => hni ((hF i).mpr ⟨⟨i0, i1⟩, hf⟩)
      unfold FreeRow at hnf
      push_neg at hnf
      obtain ⟨j, j0, j1, e⟩ := hnf
      refine ⟨j, ?_, e⟩
      rw [Finset.mem_filter, Finset.mem_Ico]
      exact ⟨⟨j0, j1⟩, by omega⟩
  have h1 := Finset.filter_card_add_filter_neg_card_eq_card (s := Finset.Ico (0 : Int) dim)
    (fun j => colsol j = -1)
  have h2 := Finset.filter_card_add_filter_neg_card_eq_card (s := Finset.Ico (0 : Int) dim)
    (fun i => i ∈ F)
  have h3 : (Finset.Ico (0 : Int) dim).filter (fun i => i ∈ F) = F := by
    ext i
    rw [Finset.mem_filter, Finset.mem_Ico]
    constructor
    · exact fun h => h.2
    · exact fun h => ⟨((hF i).mp h).1, h⟩
  rw [h3] at h2
  omega

/-- The list of free rows has as many entries as there are unassigned
columns. -/
theorem freeList_card (dim : Nat) (rowsol colsol rfree : Int → Int) (nf k prv : Int)
    (hsol : StructSol dim rowsol colsol) (hlow : ColLow dim colsol)
    (hfl : FreeList dim colsol rfree nf k prv) (h0 : 0 ≤ nf) (h1 : nf ≤ k) (h2 : k ≤ prv) :
    nf + (prv - k) = (unassignedCount dim colsol : Int) := by
  classical
  have hT : ∀ t : Int, t ∈ Finset.Ico 0 nf ∪ Finset.Ico k prv ↔
      (0 ≤ t ∧ t < nf) ∨ (k ≤ t ∧ t < prv) := by
    intro t
    rw [Finset.mem_union, Finset.mem_Ico, Finset.mem_Ico]
  have hcardT : ((Finset.Ico 0 nf ∪ Finset.Ico k prv).card : Int) = nf + (prv - k) := by
    rw [Finset.card_union_of_disjoint (by
      rw [Finset.disjoint_left]
      intro t ht ht'
      rw [Finset.mem_Ico] at ht ht'
      omega)]
    rw [Int.card_Ico, Int.card_Ico]
    push_cast
    rw [Int.toNat_of_nonneg (by omega), Int.toNat_of_nonneg (by omega)]
    omega
  have hbij : (Finset.Ico 0 nf ∪ Finset.Ico k prv).card =
      ((Finset.Ico (0 : Int) dim).filter (fun i => FreeRow dim colsol i)).card := by
    apply Finset.card_bij (fun t _ => rfree t)
    · intro t ht
      obtain ⟨a, b, c⟩ := hfl.range t ((hT t).mp ht)
      rw [Finset.mem_filter, Finset.mem_Ico]
      exact ⟨⟨a, b⟩, c⟩
    · intro t ht t' ht' e
      exact hfl.inj t t' ((hT t).mp ht) ((hT t').mp ht') e
    · intro i hi
      rw [Finset.mem_filter, Finset.mem_Ico] at hi
      obtain ⟨t, ht, e⟩ := hfl.complete i hi.1.1 hi.1.2 hi.2
      exact ⟨t, (hT t).mpr ht, e⟩
  have hfree := freeRows_card dim rowsol colsol hsol hlow
    ((Finset.Ico (0 : Int) dim).filter (fun i => FreeRow dim colsol i)) (by
      intro i
      rw [Finset.mem_filter, Finset.mem_Ico])
  rw [← hcardT, hbij, hfree]

theorem colReduction_colLow (dim : Nat) (c : Int → Int → Int) (s : St) :
    ColLow dim (colReduction dim c s).colsol := by
  unfold colReduction
  have key := forDown_ind
    (fun (k : Nat) (t : St) => ∀ j : Int, (k : Int) ≤ j → j < dim → -1 ≤ t.colsol j)
    dim (colRedStep dim c) s (by intro j h0 h1; omega) (by
      intro k t hk hP j j0 j1
      obtain ⟨hi0, _, _, _⟩ := colMin_spec dim c k (by omega)
      unfold colRedStep
      dsimp only
      split_ifs
      · show -1 ≤ Function.update t.colsol (k : Int) (colMin dim c k).2 j
        rw [Function.update_apply]
        split_ifs
        · omega
        · exact hP j (by push_cast; omega) j1
      · show -1 ≤ Function.update t.colsol (k : Int) (-1) j
        rw [Function.update_apply]
        split_ifs
        · omega
        · exact hP j (by push_cast; omega) j1)
  intro j j0 j1
  exact key j (by push_cast; omega) j1

theorem afterTransfer_cols (dim : Nat) (c : Int → Int → Int) (s0 : St) :
    (afterTransfer dim c s0).colsol = (afterColRed dim c s0).colsol ∧
    (afterTransfer dim c s0).rowsol = (afterColRed dim c s0).rowsol := by
  have h := transferRun_track dim c s0 dim (le_refl _)
  exact ⟨h.cols_eq, h.rows_eq⟩

theorem arrStep_colsol (dim : Nat) (c : Int → Int → Int) (p : St × Int) (j : Int) :
    (arrStep dim c p).1.colsol j = p.1.colsol j ∨
    (arrStep dim c p).1.colsol j = p.1.rfree p.2 := by
  unfold arrStep
  dsimp only
  split_ifs <;> dsimp only <;> rw [Function.update_apply] <;> split_ifs <;> simp

theorem arrStep_colLow (dim : Nat) (c : Int → Int → Int) (lo hi prv : Int) (p : St × Int)
    (h : ArrTerm dim lo hi prv p) (hk : p.2 < prv) (hlow : ColLow dim p.1.colsol) :
    ColLow dim (arrStep dim c p).1.colsol := by
  intro j j0 j1
  obtain ⟨i0, _, _⟩ := h.fl.range p.2 (Or.inr ⟨le_refl _, hk⟩)
  rcases arrStep_colsol dim c p j with e | e
  · rw [e]; exact hlow j j0 j1
  · rw [e]; omega

theorem arrRun_inv (dim : Nat) (c : Int → Int → Int) (lo hi prv : Int)
    (hc : ∀ i j : Int, 0 ≤ i → i < dim → 0 ≤ j → j < dim → lo ≤ c i j ∧ c i j ≤ hi)
    (n : Nat) (p : St × Int) (h : ArrTerm dim lo hi prv p) (hlow : ColLow dim p.1.colsol) :
    ArrTerm dim lo hi prv (arrRun dim c prv n p) ∧
    ColLow dim (arrRun dim c prv n p).1.colsol := by
  induction n generalizing p with
  | zero => exact ⟨h, hlow⟩
  | succ m ih =>
    simp only [arrRun]
    by_cases hk : p.2 < prv
    · rw [if_pos hk]
      exact ih _ (arrStep_term dim c lo hi prv p hc h hk).1
        (arrStep_colLow dim c lo hi prv p h hk hlow)
    · rw [if_neg hk]; exact ⟨h, hlow⟩

theorem arrLoop_arrRun (dim : Nat) (c : Int → Int → Int) (prv : Int) (m : Nat) (p : St × Int)
    (s : St) (h : arrLoop dim c prv m p = some s) :
    s = (arrRun dim c prv m p).1 := by
  induction m generalizing p with
  | zero =>
    simp only [arrLoop] at h
    by_cases hk : p.2 < prv
    · rw [if_pos hk] at h; exact absurd h (by simp)
    · rw [if_neg hk] at h
      exact (Option.some.inj h).symm
  | succ n ih =>
    simp only [arrLoop] at h
    simp only [arrRun]
    by_cases hk : p.2 < prv
    · rw [if_pos hk] at h
      rw [if_pos hk]
      exact ih _ h
    · rw [if_neg hk] at h
      rw [if_neg hk]
      exact (Option.some.inj h).symm

theorem arrPass_colLow (dim : Nat) (c : Int → Int → Int) (lo hi prv : Int)
    (hc : ∀ i j : Int, 0 ≤ i → i < dim → 0 ≤ j → j < dim → lo ≤ c i j ∧ c i j ≤ hi)
    (s : St) (h : ArrTerm dim lo hi prv (s, prv)) (hlow : ColLow dim s.colsol)
    (m : Nat) (s' : St) (e : arrPass m dim c s = some s') : ColLow dim s'.colsol := by
  have h0 := arrTerm_restart dim lo hi prv s h
  have := arrLoop_arrRun dim c s.numfree m _ s' e
  rw [this]
  exact (arrRun_inv dim c lo hi s.numfree hc m _ h0 hlow).2

theorem consistent_of_structSol (dim : Nat) (rowsol colsol : Int → Int)
    (h : StructSol dim rowsol colsol) : Consistent dim rowsol colsol :=
  fun j j0 j1 hc => ⟨h.col_lt j j0 j1, h.col_row j j0 j1 hc⟩

theorem afterColRed_structSol (dim : Nat) (c : Int → Int → Int) (s0 : St) :
    StructSol dim (afterColRed dim c s0).rowsol (afterColRed dim c s0).colsol := by
  have h := lapInit_colRedInv dim c s0
  refine ⟨?_, ?_, fun _ _ _ _ _ _ _ => le_refl _⟩
  · intro j j0 j1
    exact h.col_lt j (by push_cast; exact j0) j1
  · intro j j0 j1 hcj
    exact (h.col_row j (by push_cast; exact j0) j1 hcj).1

/-- One more turn of the loop AUGMENT SOLUTION keeps the consistency of the
assignment and the entries of `colsol` at -1 or above. -/
theorem augment_inv (dim : Nat) (c : Int → Int → Int) (s : St)
    (h : AugTerm dim 0 s) (hlow : ColLow dim s.colsol) (n : Nat)
    (hn : (n : Int) ≤ s.numfree) :
    ∃ s' : St, augment (dim + 1) dim c n s = some s' ∧ AugTerm dim n s' ∧
      ColLow dim s'.colsol ∧ s'.numfree = s.numfree := by
  induction n with
  | zero => exact ⟨s, rfl, h, hlow, rfl⟩
  | succ m ih =>
    obtain ⟨s1, e1, h1, l1, n1⟩ := ih (by push_cast at hn; omega)
    obtain ⟨s2, q, e2, _, h2, n2, l2, _⟩ := augmentStep_effect dim c m s1 h1 l1
      (by rw [n1]; push_cast at hn; omega)
    refine ⟨s2, ?_, ?_, l2, by rw [n2, n1]⟩
    · simp only [augment, e1]
      exact e2
    · have : ((m + 1 : Nat) : Int) = (m : Int) + 1 := by push_cast; rfl
      rw [this]; exact h2

theorem lapRun (dim : Nat) (c : Int → Int → Int) (s0 : St) :
    ∃ (lo hi : Int) (m : Nat) (s5 s6 : St),
      (∀ i j : Int, 0 ≤ i → i < dim → 0 ≤ j → j < dim → lo ≤ c i j ∧ c i j ≤ hi) ∧
      arrPass m dim c (afterTransfer dim c s0) = some s5 ∧
      arrPass m dim c s5 = some s6 ∧
      (ArrTerm dim lo hi (afterTransfer dim c s0).numfree
          (afterTransfer dim c s0, (afterTransfer dim c s0).numfree) ∧
        ColLow dim (afterTransfer dim c s0).colsol) ∧
      (ArrTerm dim lo hi (afterTransfer dim c s0).numfree
          (s5, (afterTransfer dim c s0).numfree) ∧ ColLow dim s5.colsol) ∧
      (ArrTerm dim lo hi s5.numfree (s6, s5.numfree) ∧ ColLow dim s6.colsol) := by
  obtain ⟨lo, hi, hlohi, hc⟩ := exists_bounds dim c
  have h4 := afterTransfer_arrTerm dim c s0 lo hi hlohi hc
  have l4 : ColLow dim (afterTransfer dim c s0).colsol := by
    rw [(afterTransfer_cols dim c s0).1]
    exact colReduction_colLow dim c (lapInit dim s0)
  obtain ⟨m1, s5, e5, h5⟩ := arrPass_term dim c lo hi _ hc _ h4
  have l5 := arrPass_colLow dim c lo hi _ hc _ h4 l4 m1 s5 e5
  obtain ⟨m2, s6, e6, h6⟩ := arrPass_term dim c lo hi _ hc _ h5
  have l6 := arrPass_colLow dim c lo hi _ hc _ h5 l5 m2 s6 e6
  have lift : ∀ (a b : Nat) (x y : St), a ≤ b → arrPass a dim c x = some y →
      arrPass b dim c x = some y := fun a b x y hab e =>
    mono_le_of_step (fun m (a : St) => arrPass m dim c a)
      (fun m a r hr => arrPass_mono dim c a m r hr) a b x y hab e
  exact ⟨lo, hi, max m1 m2, s5, s6, hc, lift m1 _ _ _ (le_max_left _ _) e5,
    lift m2 _ _ _ (le_max_right _ _) e6, ⟨h4, l4⟩, ⟨h5, l5⟩, ⟨h6, l6⟩⟩

theorem assigned_of_not_free (dim : Nat) (rowsol colsol : Int → Int)
    (hsol : StructSol dim rowsol colsol) (r : Int) (r0 : 0 ≤ r)
    (h : ¬ FreeRow dim colsol r) :
    0 ≤ rowsol r ∧ rowsol r < dim ∧ colsol (rowsol r) = r := by
  unfold FreeRow at h
  push_neg at h
  obtain ⟨j, j0, j1, e⟩ := h
  have := hsol.col_row j j0 j1 (by omega)
  rw [e] at this
  rw [this]
  exact ⟨j0, j1, e⟩

/-- C31: the augmentation.  In every run of `LAP_lap` (with unbounded
integers), for each free row `rfree[f]` that the loop AUGMENT SOLUTION
handles, with `s` the state before and `s'` the state after the turn `f` of
the loop and `endofpath` the unassigned column that the search finds: the row
`rfree[f]` was free and is assigned in `s'`; every row that was assigned in
`s` is assigned in `s'` (possibly to another column); the column `endofpath`
was unassigned, `colsol = -1`, and is assigned in `s'`; the number of
unassigned columns has decreased by exactly one; and every column that is not
on the alternating path, the list `flipCols` of the columns that the walk back
along `pred` visits, keeps its entry of `colsol`. -/
theorem augmentStep_assigns (dim : Nat) (c : Int → Int → Int) (s0 : St) :
    ∃ (m : Nat) (s5 s6 : St),
      arrPass m dim c (afterTransfer dim c s0) = some s5 ∧
      arrPass m dim c s5 = some s6 ∧
      ∀ f : Nat, (f : Int) < s6.numfree →
        ∃ (s s' : St) (q : Search),
          augment (dim + 1) dim c f s6 = some s ∧
          augmentStep (dim + 1) dim c f s = some s' ∧
          searchLoop dim c s.v s.colsol dim (searchInit dim c (s.rfree f) s) = some q ∧
          (FreeRow dim s.colsol (s.rfree f) ∧
            0 ≤ s'.rowsol (s.rfree f) ∧ s'.rowsol (s.rfree f) < dim ∧
            s'.colsol (s'.rowsol (s.rfree f)) = s.rfree f) ∧
          (∀ r j : Int, 0 ≤ r → 0 ≤ j → j < dim → s.colsol j = r →
            0 ≤ s'.rowsol r ∧ s'.rowsol r < dim ∧ s'.colsol (s'.rowsol r) = r) ∧
          (0 ≤ q.endofpath ∧ q.endofpath < dim ∧ s.colsol q.endofpath = -1 ∧
            0 ≤ s'.colsol q.endofpath) ∧
          unassignedCount dim s'.colsol + 1 = unassignedCount dim s.colsol ∧
          (∀ j : Int, j ∉ flipCols q.pred (s.rfree f) (dim + 1) q.endofpath s.rowsol →
            s'.colsol j = s.colsol j) := by
  obtain ⟨lo, hi, m, s5, s6, hc, e5, e6, _, _, ⟨h6, l6⟩⟩ := lapRun dim c s0
  refine ⟨m, s5, s6, e5, e6, ?_⟩
  intro f hf
  have a6 := arrTerm_augTerm dim lo hi _ s6 h6
  obtain ⟨s, es, hs, ls, ns⟩ := augment_inv dim c s6 a6 l6 f (by omega)
  obtain ⟨s', q, e', hq, h', n', l', he, heff, hun, hfree⟩ :=
    augmentStep_effect dim c f s hs ls (by rw [ns]; exact hf)
  obtain ⟨i0, i1, ifree⟩ := hs.fl.range f (Or.inr ⟨le_refl _, by rw [ns]; exact hf⟩)
  refine ⟨s, s', q, es, e', hq, ⟨ifree, ?_⟩, ?_, he, ?_, ?_⟩
  · exact assigned_of_not_free dim s'.rowsol s'.colsol h'.sol (s.rfree f) i0
      (fun hfr => ((hfree _ i0).mp hfr).1 rfl)
  · intro r j r0 j0 j1 e
    exact assigned_of_not_free dim s'.rowsol s'.colsol h'.sol r r0
      (fun hfr => ((hfree r r0).mp hfr).2 j j0 j1 e)
  · exact unassignedCount_drop dim s.colsol s'.colsol q.endofpath hun he.1 he.2.1 he.2.2.1
  · intro j hj
    rw [heff j, if_neg hj]

theorem afterColRed_listed (dim : Nat) (c : Int → Int → Int) (s0 : St) :
    ListedFree dim (afterColRed dim c s0)
      (((Finset.Ico (0 : Int) dim).filter
        (fun i => (afterColRed dim c s0).matchcnt i = 0)).card : Int) := by
  have h := lapInit_colRedInv dim c s0
  have hsol := afterColRed_structSol dim c s0
  have hlow : ColLow dim (afterColRed dim c s0).colsol :=
    colReduction_colLow dim c (lapInit dim s0)
  refine ⟨consistent_of_structSol dim _ _ hsol, ?_⟩
  have := freeRows_card dim _ _ hsol hlow
    ((Finset.Ico (0 : Int) dim).filter (fun i => (afterColRed dim c s0).matchcnt i = 0)) (by
      intro i
      rw [Finset.mem_filter, Finset.mem_Ico]
      constructor
      · rintro ⟨⟨i0, i1⟩, hz⟩
        refine ⟨⟨i0, i1⟩, ?_⟩
        intro j j0 j1
        exact h.m_zero i i0 i1 hz j (by push_cast; exact j0) j1
      · rintro ⟨⟨i0, i1⟩, hfr⟩
        refine ⟨⟨i0, i1⟩, ?_⟩
        by_contra hne
        have hnn := h.m_nonneg i i0 i1
        obtain ⟨a, b, e⟩ := h.m_pos i i0 i1 (by omega)
        exact hfr _ (by push_cast at a; exact a) b e)
  rw [this]

theorem arrTerm_listed (dim : Nat) (lo hi prv : Int) (p : St × Int)
    (h : ArrTerm dim lo hi prv p) (hlow : ColLow dim p.1.colsol) :
    ListedFree dim p.1 (p.1.numfree + (prv - p.2)) :=
  ⟨consistent_of_structSol dim _ _ h.sol,
    freeList_card dim p.1.rowsol p.1.colsol p.1.rfree p.1.numfree p.2 prv h.sol hlow h.fl
      h.nf0 h.nfk h.kprv⟩

theorem augTerm_listed (dim : Nat) (f : Int) (s : St)
    (h : AugTerm dim f s) (hlow : ColLow dim s.colsol) :
    ListedFree dim s (s.numfree - f) := by
  refine ⟨consistent_of_structSol dim _ _ h.sol, ?_⟩
  have := freeList_card dim s.rowsol s.colsol s.rfree 0 f s.numfree h.sol hlow h.fl
    (le_refl _) h.f0 h.fle
  omega

/-- C32, amended: consistency of the partial assignment in every run of
`LAP_lap` (with unbounded integers), where `ListedFree dim s count` says that
in the state `s` each column `j` with `colsol[j] = i ≥ 0` has `i < dim` and
`rowsol[i] = j`, and that `count` is the number of the columns with
`colsol = -1`.  It holds
* at the end of the column reduction, where the list of free rows is still
  empty (`numfree = 0`), with `count` the number of the rows with
  `matches = 0`, the rows that the reduction transfer then lists;
* at the end of the reduction transfer, with `count = numfree`;
* after every number `n` of turns of the loop `while (k < prvnumfree)` in
  both passes of the augmenting row reduction, with `count` the number
  `numfree + (prvnumfree - k)` of the rows listed in `rfree[0..numfree-1]` and
  of the rows `rfree[k..prvnumfree-1]` still to be scanned;
* after every number `f` of turns of the loop AUGMENT SOLUTION, with `count`
  the number `numfree - f` of the rows `rfree[f..numfree-1]` still to be
  augmented. -/
theorem LAP_lap_consistency (dim : Nat) (c : Int → Int → Int) (s0 : St) :
    ((afterColRed dim c s0).numfree = 0 ∧
      ListedFree dim (afterColRed dim c s0)
        (((Finset.Ico (0 : Int) dim).filter
          (fun i => (afterColRed dim c s0).matchcnt i = 0)).card : Int)) ∧
    ListedFree dim (afterTransfer dim c s0) (afterTransfer dim c s0).numfree ∧
    ∃ (m : Nat) (s5 s6 : St),
      arrPass m dim c (afterTransfer dim c s0) = some s5 ∧
      arrPass m dim c s5 = some s6 ∧
      (∀ n : Nat,
        ListedFree dim
          (arrRun dim c (afterTransfer dim c s0).numfree n
            ({ afterTransfer dim c s0 with numfree := 0 }, 0)).1
          ((arrRun dim c (afterTransfer dim c s0).numfree n
              ({ afterTransfer dim c s0 with numfree := 0 }, 0)).1.numfree +
            ((afterTransfer dim c s0).numfree -
              (arrRun dim c (afterTransfer dim c s0).numfree n
                ({ afterTransfer dim c s0 with numfree := 0 }, 0)).2))) ∧
      (∀ n : Nat,
        ListedFree dim (arrRun dim c s5.numfree n ({ s5 with numfree := 0 }, 0)).1
          ((arrRun dim c s5.numfree n ({ s5 with numfree := 0 }, 0)).1.numfree +
            (s5.numfree - (arrRun dim c s5.numfree n ({ s5 with numfree := 0 }, 0)).2))) ∧
      (∀ f : Nat, (f : Int) ≤ s6.numfree →
        ∃ s : St, augment (dim + 1) dim c f s6 = some s ∧
          ListedFree dim s (s6.numfree - f)) := by
  obtain ⟨lo, hi, m, s5, s6, hc, e5, e6, ⟨h4, l4⟩, ⟨h5, l5⟩, ⟨h6, l6⟩⟩ := lapRun dim c s0
  refine ⟨⟨(lapInit_colRedInv dim c s0).numfree_eq, afterColRed_listed dim c s0⟩, ?_,
    m, s5, s6, e5, e6, ?_, ?_, ?_⟩
  · have := arrTerm_listed dim lo hi _ _ h4 l4
    have e : (afterTransfer dim c s0).numfree +
        ((afterTransfer dim c s0).numfree - (afterTransfer dim c s0).numfree) =
        (afterTransfer dim c s0).numfree := by omega
    rw [← e]
    exact this
  · intro n
    obtain ⟨a, b⟩ := arrRun_inv dim c lo hi _ hc n _ (arrTerm_restart dim lo hi _ _ h4) l4
    exact arrTerm_listed dim lo hi _ _ a b
  · intro n
    obtain ⟨a, b⟩ := arrRun_inv dim c lo hi _ hc n _ (arrTerm_restart dim lo hi _ _ h5) l5
    exact arrTerm_listed dim lo hi _ _ a b
  · intro f hf
    have a6 := arrTerm_augTerm dim lo hi _ s6 h6
    obtain ⟨s, es, hs, ls, ns⟩ := augment_inv dim c s6 a6 l6 f hf
    refine ⟨s, es, ?_⟩
    have := augTerm_listed dim f s hs ls
    rw [ns] at this
    exact this

theorem cost3_colMin :
    colMin 3 cost3 0 = (1, 0) ∧ colMin 3 cost3 1 = (2, 0) ∧ colMin 3 cost3 2 = (3, 0) := by
  refine ⟨?_, ?_, ?_⟩ <;> rfl

/-- C32, counterexample: at the end of the column reduction the list of free
rows has not been built.  For the cost matrix `[[1,2,3],[2,4,6],[3,6,9]]`
every column has its minimum in row 0: the columns 0 and 1 have
`colsol = -1`, two columns, while `numfree = 0`, and the two free rows 1 and
2 are put in the list only by the reduction transfer. -/
theorem afterColRed_list_empty :
    (∀ s0 : St, (afterColRed 3 cost3 s0).numfree = 0 ∧
      (afterColRed 3 cost3 s0).colsol 0 = -1 ∧ (afterColRed 3 cost3 s0).colsol 1 = -1 ∧
      (afterColRed 3 cost3 s0).colsol 2 = 0 ∧
      unassignedCount 3 (afterColRed 3 cost3 s0).colsol = 2) ∧
    (∀ s0 : St, (afterTransfer 3 cost3 s0).numfree = 2 ∧
      (afterTransfer 3 cost3 s0).rfree 0 = 1 ∧ (afterTransfer 3 cost3 s0).rfree 1 = 2) := by
  obtain ⟨m0, m1, m2⟩ := cost3_colMin
  have hIco : Finset.Ico (0 : Int) ((3 : Nat) : Int) = {0, 1, 2} := by decide
  have A : ∀ s0 : St, (afterColRed 3 cost3 s0).numfree = 0 ∧
      (afterColRed 3 cost3 s0).colsol 0 = -1 ∧ (afterColRed 3 cost3 s0).colsol 1 = -1 ∧
      (afterColRed 3 cost3 s0).colsol 2 = 0 ∧
      (afterColRed 3 cost3 s0).matchcnt 0 = 3 ∧ (afterColRed 3 cost3 s0).matchcnt 1 = 0 ∧
      (afterColRed 3 cost3 s0).matchcnt 2 = 0 := by
    intro s0
    simp [afterColRed, colReduction, forDown, colRedStep, lapInit, forRange, m0, m1, m2,
      Function.update_apply]
  constructor
  · intro s0
    obtain ⟨a, b, c, d, _⟩ := A s0
    refine ⟨a, b, c, d, ?_⟩
    unfold unassignedCount
    rw [hIco]
    rw [Finset.filter_insert, if_pos b, Finset.filter_insert, if_pos c,
      Finset.filter_singleton, if_neg (by rw [d]; decide)]
    decide
  · intro s0
    obtain ⟨a, b, c, d, e0, e1, e2⟩ := A s0
    unfold afterTransfer
    generalize afterColRed 3 cost3 s0 = s at a b c d e0 e1 e2
    refine ⟨?_, ?_, ?_⟩ <;>
      simp [reductionTransfer, forRange, transferStep, a, e0, e1, e2, Function.update_apply]

theorem costAug_entries :
    costAug 0 0 = 0 ∧ costAug 0 1 = 0 ∧ costAug 0 2 = 0 ∧
    costAug 1 0 = 1 ∧ costAug 1 1 = 2 ∧ costAug 1 2 = 0 ∧
    costAug 2 0 = 1 ∧ costAug 2 1 = 2 ∧ costAug 2 2 = 0 := by
  refine ⟨?_, ?_, ?_, ?_, ?_, ?_, ?_, ?_, ?_⟩ <;> rfl

theorem costAug_colMin :
    colMin 3 costAug 0 = (0, 0) ∧ colMin 3 costAug 1 = (0, 0) ∧ colMin 3 costAug 2 = (0, 0) := by
  refine ⟨?_, ?_, ?_⟩ <;> rfl

/-- On `costAug` both passes of the augmenting row reduction end within three
turns of their loop, whatever the buffers hold at first, and leave one free
row: the loop AUGMENT SOLUTION runs once. -/
theorem costAug_numfree (s0 : St) :
    (arrPass 3 3 costAug (afterTransfer 3 costAug s0)).bind
      (fun s5 => (arrPass 3 3 costAug s5).map (fun s6 => s6.numfree)) = some 1 := by
  obtain ⟨m0, m1, m2⟩ := costAug_colMin
  obtain ⟨e00, e01, e02, e10, e11, e12, e20, e21, e22⟩ := costAug_entries
  simp [afterTransfer, afterColRed, colReduction, forDown, colRedStep, lapInit, forRange,
    reductionTransfer, transferStep, transferMin, arrPass, arrLoop, arrStep, scanRow, scanStep,
    m0, m1, m2, e00, e01, e02, e10, e11, e12, e20, e21, e22, BIG, Function.update_apply]

end LAP

/-! ## Message functions, outcomes of a call, the score matrix in the arithmetic of `double` -/

theorem Outcome.returned_nil_bind {α β : Type} (a : α) (f : α → Outcome β) :
    (Outcome.returned [] a).bind f = f a := by
  cases hf : f a <;> simp [Outcome.bind, hf]

theorem Outcome.bind_eq_returned {α β : Type} (o : Outcome α) (f : α → Outcome β)
    (ev : List GAMessage) (b : β) (h : o.bind f = Outcome.returned ev b) :
    ∃ (ev1 : List GAMessage) (a : α) (ev2 : List GAMessage),
      o = Outcome.returned ev1 a ∧ f a = Outcome.returned ev2 b ∧ ev = ev1 ++ ev2 := by
  cases o with
  | returned ev1 a =>
    cases hf : f a with
    | returned ev2 b2 =>
      simp only [Outcome.bind, hf, Outcome.returned.injEq] at h
      exact ⟨ev1, a, ev2, rfl, by rw [hf, h.2], h.1.symm⟩
    | aborted ev2 => simp [Outcome.bind, hf] at h
    | undefined ev2 c => simp [Outcome.bind, hf] at h
  | aborted ev1 => simp [Outcome.bind] at h
  | undefined ev1 c => simp [Outcome.bind] at h

theorem Outcome.returned_bind_returned {α β : Type} (ev1 : List GAMessage) (a : α)
    (f : α → Outcome β) (ev2 : List GAMessage) (b : β) (h : f a = Outcome.returned ev2 b) :
    (Outcome.returned ev1 a).bind f = Outcome.returned (ev1 ++ ev2) b := by
  simp only [Outcome.bind, h]

theorem Outcome.returned_bind_aborted {α β : Type} (ev1 : List GAMessage) (a : α)
    (f : α → Outcome β) (ev2 : List GAMessage) (h : f a = Outcome.aborted ev2) :
    (Outcome.returned ev1 a).bind f = Outcome.aborted (ev1 ++ ev2) := by
  simp only [Outcome.bind, h]

/-- A loop in which every pass returns without a message is the loop of the
values returned. -/
theorem forRange_bind_all {σ : Type} (lo : Int) (n : Nat) (step : Int → σ → Outcome σ)
    (g : Int → σ → σ)
    (h : ∀ k : Int, lo ≤ k → k < lo + n → ∀ s : σ, step k s = Outcome.returned [] (g k s))
    (ev : List GAMessage) (s0 : σ) :
    LAP.forRange lo n (fun k (o : Outcome σ) => o.bind (step k)) (Outcome.returned ev s0) =
      Outcome.returned ev (LAP.forRange lo n g s0) := by
  induction n with
  | zero => rfl
  | succ n ih =>
    simp only [LAP.forRange]
    rw [ih (fun k a b s => h k a (by push_cast; omega) s)]
    rw [Outcome.returned_bind_returned ev _ _ [] _ (h (lo + n) (by omega) (by push_cast; omega) _)]
    rw [List.append_nil]

/-- A loop in which every pass returns, with or without messages, returns the
value of the loop of the values returned. -/
theorem forRange_bind_events {σ : Type} (lo : Int) (n : Nat) (step : Int → σ → Outcome σ)
    (g : Int → σ → σ)
    (h : ∀ k : Int, lo ≤ k → k < lo + n → ∀ s : σ,
      ∃ ev : List GAMessage, step k s = Outcome.returned ev (g k s))
    (ev0 : List GAMessage) (s0 : σ) :
    ∃ ev : List GAMessage,
      LAP.forRange lo n (fun k (o : Outcome σ) => o.bind (step k)) (Outcome.returned ev0 s0) =
        Outcome.returned ev (LAP.forRange lo n g s0) := by
  induction n with
  | zero => exact ⟨ev0, rfl⟩
  | succ n ih =>
    obtain ⟨ev1, e1⟩ := ih (fun k a b s => h k a (by push_cast; omega) s)
    obtain ⟨ev2, e2⟩ := h (lo + n) (by omega) (by push_cast; omega) (LAP.forRange lo n g s0)
    refine ⟨ev1 ++ ev2, ?_⟩
    simp only [LAP.forRange]
    rw [e1, Outcome.returned_bind_returned ev1 _ _ ev2 _ e2]

/-- The value that a loop returns, if it returns, is the value of the loop of
the values that its passes return. -/
theorem forRange_bind_returned {σ : Type} (lo : Int) (n : Nat) (step : Int → σ → Outcome σ)
    (g : Int → σ → σ)
    (h : ∀ k : Int, lo ≤ k → k < lo + n → ∀ (s : σ) (ev : List GAMessage) (w : σ),
      step k s = Outcome.returned ev w → w = g k s)
    (o0 : Outcome σ) (ev : List GAMessage) (v : σ)
    (hr : LAP.forRange lo n (fun k (o : Outcome σ) => o.bind (step k)) o0 =
      Outcome.returned ev v) :
    ∃ (ev0 : List GAMessage) (s0 : σ), o0 = Outcome.returned ev0 s0 ∧
      v = LAP.forRange lo n g s0 := by
  induction n generalizing ev v with
  | zero => exact ⟨ev, v, hr, rfl⟩
  | succ n ih =>
    simp only [LAP.forRange] at hr
    obtain ⟨ev1, a, ev2, h1, h2, _⟩ := Outcome.bind_eq_returned _ _ _ _ hr
    obtain ⟨ev0, s0, e0, ea⟩ := ih (fun k x y => h k x (by push_cast; omega)) ev1 a h1
    refine ⟨ev0, s0, e0, ?_⟩
    simp only [LAP.forRange]
    rw [← ea]
    exact h (lo + n) (by omega) (by push_cast; omega) a ev2 v h2

/-- A loop whose passes return without a message as long as `ok` holds, and
do not return from a message otherwise, is left at the first pass without
`ok`. -/
theorem forRange_bind_abort {σ : Type} (lo : Int) (n : Nat) (step : Int → σ → Outcome σ)
    (g : Int → σ → σ) (ok : Int → Prop) (P : List GAMessage → Prop)
    (h1 : ∀ k : Int, lo ≤ k → k < lo + n → ok k →
      ∀ s : σ, step k s = Outcome.returned [] (g k s))
    (h2 : ∀ k : Int, lo ≤ k → k < lo + n → ¬ ok k →
      ∀ s : σ, ∃ ev : List GAMessage, step k s = Outcome.aborted ev ∧ P ev)
    (hex : ∃ k : Int, lo ≤ k ∧ k < lo + n ∧ ¬ ok k) (s0 : σ) :
    ∃ ev : List GAMessage,
      LAP.forRange lo n (fun k (o : Outcome σ) => o.bind (step k)) (Outcome.returned [] s0) =
        Outcome.aborted ev ∧ P ev := by
  induction n with
  | zero =>
    obtain ⟨k, a, b, _⟩ := hex
    simp only [Nat.cast_zero] at b
    omega
  | succ n ih =>
    simp only [LAP.forRange]
    by_cases hprev : ∃ k : Int, lo ≤ k ∧ k < lo + n ∧ ¬ ok k
    · obtain ⟨ev, e, hP⟩ := ih (fun k a b => h1 k a (by push_cast; omega))
        (fun k a b => h2 k a (by push_cast; omega)) hprev
      rw [e]
      exact ⟨ev, rfl, hP⟩
    · have hall : ∀ k : Int, lo ≤ k → k < lo + n → ok k := by
        intro k a b
        by_contra hk
        exact hprev ⟨k, a, b, hk⟩
      have hn : ¬ ok (lo + n) := by
        obtain ⟨k, a, b, hk⟩ := hex
        push_cast at b
        by_cases e : k = lo + n
        · rw [← e]; exact hk
        · exact absurd (hall k a (by omega)) hk
      rw [forRange_bind_all lo n step g
        (fun k a b s => h1 k a (by push_cast; omega) (hall k a b) s)]
      obtain ⟨ev, e, hP⟩ := h2 (lo + n) (by omega) (by push_cast; omega) hn
        (LAP.forRange lo n g s0)
      rw [Outcome.returned_bind_aborted [] _ _ ev e]
      exact ⟨ev, rfl, hP⟩

theorem report_default (text : String) (level : GAMessageLevel) :
    report GAMessageFunc.GA_msg_default text level =
      Outcome.returned [{ text := text, level := level }] () := by
  cases level <;> rfl

theorem report_R_error (text : String) :
    report GAMessageFunc.GA_msg_R text GAMessageLevel.GA_MSG_ERROR =
      Outcome.aborted [{ text := text, level := GAMessageLevel.GA_MSG_ERROR }] := rfl

/-- An error reported with `GA_msg_default` before `return value`. -/
theorem report_default_bind {α : Type} (text : String) (value : α) :
    (report GAMessageFunc.GA_msg_default text GAMessageLevel.GA_MSG_ERROR).bind
        (fun _ => Outcome.returned [] value) =
      Outcome.returned [{ text := text, level := GAMessageLevel.GA_MSG_ERROR }] value := rfl

/-- An error reported with `GA_msg_R`: the call is left. -/
theorem report_R_bind {α : Type} (text : String) (f : Unit → Outcome α) :
    (report GAMessageFunc.GA_msg_R text GAMessageLevel.GA_MSG_ERROR).bind f =
      Outcome.aborted [{ text := text, level := GAMessageLevel.GA_MSG_ERROR }] := rfl

/-- A call of `GA_get_bin_number` whose value is not -1 returns the value
without a message. -/
theorem GA_get_bin_number_run_ok (msg : GAMessageFunc) (x : ℚ) (lookup : GAVectorReal)
    (clamp : GAClampMode) (h : GA_get_bin_number x lookup clamp ≠ -1) :
    GA_get_bin_number_run msg x lookup clamp =
      Outcome.returned [] (GA_get_bin_number x lookup clamp) := by
  unfold GA_get_bin_number at h ⊢
  unfold GA_get_bin_number_run
  split_ifs at h ⊢ <;> first | rfl | exact absurd rfl h

/-- A call of `GA_get_bin_number` whose value is -1 reports an error before
the `return`. -/
theorem GA_get_bin_number_run_fail (msg : GAMessageFunc) (x : ℚ) (lookup : GAVectorReal)
    (clamp : GAClampMode) (h : GA_get_bin_number x lookup clamp = -1) :
    ∃ text : String, GA_get_bin_number_run msg x lookup clamp =
      (report msg text GAMessageLevel.GA_MSG_ERROR).bind (fun _ => Outcome.returned [] (-1)) := by
  unfold GA_get_bin_number at h
  unfold GA_get_bin_number_run
  have hb := binLoop_ge x lookup lookup.size 0
  split_ifs at h ⊢ <;> first | exact ⟨_, rfl⟩ | omega

/-- The value that a call of `GA_get_bin_number` returns is the value of
`GA_get_bin_number`. -/
theorem GA_get_bin_number_run_value (msg : GAMessageFunc) (x : ℚ) (lookup : GAVectorReal)
    (clamp : GAClampMode) (ev : List GAMessage) (w : Int)
    (h : GA_get_bin_number_run msg x lookup clamp = Outcome.returned ev w) :
    w = GA_get_bin_number x lookup clamp := by
  by_cases hb : GA_get_bin_number x lookup clamp = -1
  · obtain ⟨text, e⟩ := GA_get_bin_number_run_fail msg x lookup clamp hb
    rw [e] at h
    obtain ⟨_, _, _, _, h2, _⟩ := Outcome.bind_eq_returned _ _ _ _ h
    simp only [Outcome.returned.injEq] at h2
    rw [hb]
    exact h2.2.symm
  · rw [GA_get_bin_number_run_ok msg x lookup clamp hb] at h
    simp only [Outcome.returned.injEq] at h
    exact h.2.symm

/-- With `GA_msg_default` every call of `GA_get_bin_number` returns. -/
theorem GA_get_bin_number_run_default (x : ℚ) (lookup : GAVectorReal) (clamp : GAClampMode) :
    ∃ ev : List GAMessage,
      GA_get_bin_number_run GAMessageFunc.GA_msg_default x lookup clamp =
        Outcome.returned ev (GA_get_bin_number x lookup clamp) := by
  by_cases hb : GA_get_bin_number x lookup clamp = -1
  · obtain ⟨text, e⟩ := GA_get_bin_number_run_fail GAMessageFunc.GA_msg_default x lookup clamp hb
    rw [e, report_default_bind, hb]
    exact ⟨_, rfl⟩
  · exact ⟨[], GA_get_bin_number_run_ok _ x lookup clamp hb⟩

/-- With `GA_msg_R` a call of `GA_get_bin_number` that fails does not
return: it is left at the error message. -/
theorem GA_get_bin_number_run_R (x : ℚ) (lookup : GAVectorReal) (clamp : GAClampMode)
    (h : GA_get_bin_number x lookup clamp = -1) :
    ∃ text : String,
      GA_get_bin_number_run GAMessageFunc.GA_msg_R x lookup clamp =
        Outcome.aborted [{ text := text, level := GAMessageLevel.GA_MSG_ERROR }] := by
  obtain ⟨text, e⟩ := GA_get_bin_number_run_fail GAMessageFunc.GA_msg_R x lookup clamp h
  exact ⟨text, by rw [e, report_R_bind]⟩

theorem binStore_value {σ : Type} (msg : GAMessageFunc) (x : ℚ) (lookup : GAVectorReal)
    (clamp : GAClampMode) (k : Int → σ) (ev : List GAMessage) (w : σ)
    (h : (GA_get_bin_number_run msg x lookup clamp).bind
      (fun bin => Outcome.returned [] (k bin)) = Outcome.returned ev w) :
    w = k (GA_get_bin_number x lookup clamp) := by
  obtain ⟨ev1, a, ev2, h1, h2, _⟩ := Outcome.bind_eq_returned _ _ _ _ h
  simp only [Outcome.returned.injEq] at h2
  rw [← GA_get_bin_number_run_value msg x lookup clamp ev1 a h1]
  exact h2.2.symm

theorem binStore_ok {σ : Type} (msg : GAMessageFunc) (x : ℚ) (lookup : GAVectorReal)
    (clamp : GAClampMode) (k : Int → σ) (h : GA_get_bin_number x lookup clamp ≠ -1) :
    (GA_get_bin_number_run msg x lookup clamp).bind
      (fun bin => Outcome.returned [] (k bin)) =
      Outcome.returned [] (k (GA_get_bin_number x lookup clamp)) := by
  rw [GA_get_bin_number_run_ok msg x lookup clamp h, Outcome.returned_nil_bind]

theorem binStore_default {σ : Type} (x : ℚ) (lookup : GAVectorReal)
    (clamp : GAClampMode) (k : Int → σ) :
    ∃ ev : List GAMessage,
      (GA_get_bin_number_run GAMessageFunc.GA_msg_default x lookup clamp).bind
        (fun bin => Outcome.returned [] (k bin)) =
        Outcome.returned ev (k (GA_get_bin_number x lookup clamp)) := by
  obtain ⟨ev, e⟩ := GA_get_bin_number_run_default x lookup clamp
  exact ⟨ev ++ [], by rw [e]; rfl⟩

theorem binStore_R {σ : Type} (x : ℚ) (lookup : GAVectorReal)
    (clamp : GAClampMode) (k : Int → σ) (h : GA_get_bin_number x lookup clamp = -1) :
    ∃ ev : List GAMessage,
      (GA_get_bin_number_run GAMessageFunc.GA_msg_R x lookup clamp).bind
        (fun bin => Outcome.returned [] (k bin)) = Outcome.aborted ev ∧ OneError ev := by
  obtain ⟨text, e⟩ := GA_get_bin_number_run_R x lookup clamp h
  exact ⟨_, by rw [e]; rfl, text, rfl⟩

/-- The vector that `GA_vector_to_bin_real` returns, if it returns, holds the
values of `GA_get_bin_number`. -/
theorem GA_vector_to_bin_real_value (msg : GAMessageFunc) (vec lookup : GAVectorReal)
    (clamp : GAClampMode) (mem : Int → Int) (ev : List GAMessage) (r : Option GAVectorInt)
    (h : GA_vector_to_bin_real msg vec lookup clamp mem = Outcome.returned ev r) :
    ∃ res : GAVectorInt, r = some res ∧ res.size = vec.size ∧
      ∀ i : Int, 0 ≤ i → i < vec.size →
        res.elts i = GA_get_bin_number (vec.elts i) lookup clamp := by
  unfold GA_vector_to_bin_real at h
  obtain ⟨ev1, e, ev2, h1, h2, _⟩ := Outcome.bind_eq_returned _ _ _ _ h
  simp only [Outcome.returned.injEq] at h2
  obtain ⟨ev0, s0, e0, he⟩ := forRange_bind_returned 0 vec.size
    (fun i (e : Int → Int) => (GA_get_bin_number_run msg (vec.elts i) lookup clamp).bind
      (fun bin => Outcome.returned [] (Function.update e i bin)))
    (fun i e => Function.update e i (GA_get_bin_number (vec.elts i) lookup clamp))
    (fun k _ _ s ev w hw => binStore_value msg _ lookup clamp _ ev w hw) _ ev1 e h1
  simp only [Outcome.returned.injEq] at e0
  refine ⟨_, h2.2.symm, rfl, ?_⟩
  intro i i0 i1
  show e i = _
  rw [he, forRange_update_get (fun i => GA_get_bin_number (vec.elts i) lookup clamp),
    if_pos ⟨i0, i1⟩]

/-- When no binning fails `GA_vector_to_bin_real` returns without a
message. -/
theorem GA_vector_to_bin_real_ok (msg : GAMessageFunc) (vec lookup : GAVectorReal)
    (clamp : GAClampMode) (mem : Int → Int)
    (hok : ∀ i : Int, 0 ≤ i → i < vec.size →
      GA_get_bin_number (vec.elts i) lookup clamp ≠ -1) :
    ∃ res : GAVectorInt,
      GA_vector_to_bin_real msg vec lookup clamp mem = Outcome.returned [] (some res) := by
  unfold GA_vector_to_bin_real
  have := forRange_bind_all 0 vec.size
    (fun i (e : Int → Int) => (GA_get_bin_number_run msg (vec.elts i) lookup clamp).bind
      (fun bin => Outcome.returned [] (Function.update e i bin)))
    (fun i e => Function.update e i (GA_get_bin_number (vec.elts i) lookup clamp))
    (fun k k0 k1 s => binStore_ok msg _ lookup clamp _ (hok k k0 (by omega))) [] mem
  rw [this, Outcome.returned_nil_bind]
  exact ⟨_, rfl⟩

/-- With `GA_msg_default` the function `GA_vector_to_bin_real` returns. -/
theorem GA_vector_to_bin_real_default (vec lookup : GAVectorReal)
    (clamp : GAClampMode) (mem : Int → Int) :
    ∃ (ev : List GAMessage) (res : GAVectorInt),
      GA_vector_to_bin_real GAMessageFunc.GA_msg_default vec lookup clamp mem =
        Outcome.returned ev (some res) := by
  unfold GA_vector_to_bin_real
  obtain ⟨ev, e⟩ := forRange_bind_events 0 vec.size
    (fun i (e : Int → Int) =>
      (GA_get_bin_number_run GAMessageFunc.GA_msg_default (vec.elts i) lookup clamp).bind
        (fun bin => Outcome.returned [] (Function.update e i bin)))
    (fun i e => Function.update e i (GA_get_bin_number (vec.elts i) lookup clamp))
    (fun k _ _ s => binStore_default _ lookup clamp _) [] mem
  rw [e]
  exact ⟨ev ++ [], _, rfl⟩

/-- With `GA_msg_R` the function `GA_vector_to_bin_real` is left at the error
message of the first element whose binning fails. -/
theorem GA_vector_to_bin_real_R (vec lookup : GAVectorReal)
    (clamp : GAClampMode) (mem : Int → Int)
    (hfail : ∃ i : Int, 0 ≤ i ∧ i < vec.size ∧
      GA_get_bin_number (vec.elts i) lookup clamp = -1) :
    ∃ ev : List GAMessage,
      GA_vector_to_bin_real GAMessageFunc.GA_msg_R vec lookup clamp mem =
        Outcome.aborted ev ∧ OneError ev := by
  unfold GA_vector_to_bin_real
  obtain ⟨ev, e, hP⟩ := forRange_bind_abort 0 vec.size
    (fun i (e : Int → Int) =>
      (GA_get_bin_number_run GAMessageFunc.GA_msg_R (vec.elts i) lookup clamp).bind
        (fun bin => Outcome.returned [] (Function.update e i bin)))
    (fun i e => Function.update e i (GA_get_bin_number (vec.elts i) lookup clamp))
    (fun i => GA_get_bin_number (vec.elts i) lookup clamp ≠ -1) OneError
    (fun k _ _ hk s => binStore_ok _ _ lookup clamp _ hk)
    (fun k _ _ hk s => binStore_R _ lookup clamp _ (not_not.mp hk))
    (by obtain ⟨i, a, b, c⟩ := hfail; exact ⟨i, a, by omega, not_not.mpr c⟩) mem
  rw [e]
  exact ⟨ev, rfl, hP⟩

/-- One row of the loops of `GA_matrix_to_bin_real`. -/
theorem binRow_value (msg : GAMessageFunc) (matrix : GAMatrixReal) (lookup : GAVectorReal)
    (clamp : GAClampMode) (i : Int) (e : Int → Int → Int) (ev : List GAMessage)
    (w : Int → Int → Int)
    (h : LAP.forRange 0 matrix.cols
      (fun j (o : Outcome (Int → Int → Int)) => o.bind (fun e =>
        (GA_get_bin_number_run msg (matrix.elts i j) lookup clamp).bind (fun bin =>
          Outcome.returned [] (Function.update e i (Function.update (e i) j bin)))))
      (Outcome.returned [] e) = Outcome.returned ev w) :
    w = LAP.forRange 0 matrix.cols (fun j e => Function.update e i
      (Function.update (e i) j (GA_get_bin_number (matrix.elts i j) lookup clamp))) e := by
  obtain ⟨ev0, s0, e0, he⟩ := forRange_bind_returned 0 matrix.cols
    (fun j (e : Int → Int → Int) =>
      (GA_get_bin_number_run msg (matrix.elts i j) lookup clamp).bind (fun bin =>
        Outcome.returned [] (Function.update e i (Function.update (e i) j bin))))
    (fun j e => Function.update e i
      (Function.update (e i) j (GA_get_bin_number (matrix.elts i j) lookup clamp)))
    (fun k _ _ s ev w hw => binStore_value msg _ lookup clamp _ ev w hw) _ ev w h
  simp only [Outcome.returned.injEq] at e0
  rw [he, e0.2]

/-- The matrix that `GA_matrix_to_bin_real` returns, if it returns, holds the
values of `GA_get_bin_number`. -/
theorem GA_matrix_to_bin_real_value (msg : GAMessageFunc) (matrix : GAMatrixReal)
    (lookup : GAVectorReal) (clamp : GAClampMode) (mem : Int → Int → Int)
    (ev : List GAMessage) (r : Option GAMatrixInt)
    (h : GA_matrix_to_bin_real msg matrix lookup clamp mem = Outcome.returned ev r) :
    ∃ res : GAMatrixInt, r = some res ∧ res.rows = matrix.rows ∧ res.cols = matrix.cols ∧
      ∀ i j : Int, 0 ≤ i → i < matrix.rows → 0 ≤ j → j < matrix.cols →
        res.elts i j = GA_get_bin_number (matrix.elts i j) lookup clamp := by
  unfold GA_matrix_to_bin_real at h
  obtain ⟨ev1, e, ev2, h1, h2, _⟩ := Outcome.bind_eq_returned _ _ _ _ h
  simp only [Outcome.returned.injEq] at h2
  obtain ⟨ev0, s0, e0, he⟩ := forRange_bind_returned 0 matrix.rows
    (fun i (e : Int → Int → Int) => LAP.forRange 0 matrix.cols
      (fun j (o : Outcome (Int → Int → Int)) => o.bind (fun e =>
        (GA_get_bin_number_run msg (matrix.elts i j) lookup clamp).bind (fun bin =>
          Outcome.returned [] (Function.update e i (Function.update (e i) j bin)))))
      (Outcome.returned [] e))
    (fun i e => LAP.forRange 0 matrix.cols (fun j e => Function.update e i
      (Function.update (e i) j (GA_get_bin_number (matrix.elts i j) lookup clamp))) e)
    (fun k _ _ s ev w hw => binRow_value msg matrix lookup clamp k s ev w hw) _ ev1 e h1
  simp only [Outcome.returned.injEq] at e0
  refine ⟨_, h2.2.symm, rfl, rfl, ?_⟩
  intro i j i0 i1 j0 j1
  show e i j = _
  rw [he, forRange_matrix_update_get
    (fun i j => GA_get_bin_number (matrix.elts i j) lookup clamp),
    if_pos ⟨⟨i0, i1⟩, j0, j1⟩]

/-- When no binning fails `GA_matrix_to_bin_real` returns without a
message. -/
theorem GA_matrix_to_bin_real_ok (msg : GAMessageFunc) (matrix : GAMatrixReal)
    (lookup : GAVectorReal) (clamp : GAClampMode) (mem : Int → Int → Int)
    (hok : ∀ i j : Int, 0 ≤ i → i < matrix.rows → 0 ≤ j → j < matrix.cols →
      GA_get_bin_number (matrix.elts i j) lookup clamp ≠ -1) :
    ∃ res : GAMatrixInt,
      GA_matrix_to_bin_real msg matrix lookup clamp mem = Outcome.returned [] (some res) := by
  unfold GA_matrix_to_bin_real
  have := forRange_bind_all 0 matrix.rows
    (fun i (e : Int → Int → Int) => LAP.forRange 0 matrix.cols
      (fun j (o : Outcome (Int → Int → Int)) => o.bind (fun e =>
        (GA_get_bin_number_run msg (matrix.elts i j) lookup clamp).bind (fun bin =>
          Outcome.returned [] (Function.update e i (Function.update (e i) j bin)))))
      (Outcome.returned [] e))
    (fun i e => LAP.forRange 0 matrix.cols (fun j e => Function.update e i
      (Function.update (e i) j (GA_get_bin_number (matrix.elts i j) lookup clamp))) e)
    (fun i i0 i1 s => forRange_bind_all 0 matrix.cols
      (fun j (e : Int → Int → Int) =>
        (GA_get_bin_number_run msg (matrix.elts i j) lookup clamp).bind (fun bin =>
          Outcome.returned [] (Function.update e i (Function.update (e i) j bin))))
      (fun j e => Function.update e i
        (Function.update (e i) j (GA_get_bin_number (matrix.elts i j) lookup clamp)))
      (fun j j0 j1 s => binStore_ok msg _ lookup clamp _
        (hok i j i0 (by omega) j0 (by omega))) [] s) [] mem
  rw [this, Outcome.returned_nil_bind]
  exact ⟨_, rfl⟩

/-- With `GA_msg_default` the function `GA_matrix_to_bin_real` returns. -/
theorem GA_matrix_to_bin_real_default (matrix : GAMatrixReal)
    (lookup : GAVectorReal) (clamp : GAClampMode) (mem : Int → Int → Int) :
    ∃ (ev : List GAMessage) (res : GAMatrixInt),
      GA_matrix_to_bin_real GAMessageFunc.GA_msg_default matrix lookup clamp mem =
        Outcome.returned ev (some res) := by
  unfold GA_matrix_to_bin_real
  obtain ⟨ev, e⟩ := forRange_bind_events 0 matrix.rows
    (fun i (e : Int → Int → Int) => LAP.forRange 0 matrix.cols
      (fun j (o : Outcome (Int → Int → Int)) => o.bind (fun e =>
        (GA_get_bin_number_run GAMessageFunc.GA_msg_default (matrix.elts i j) lookup
          clamp).bind (fun bin =>
          Outcome.returned [] (Function.update e i (Function.update (e i) j bin)))))
      (Outcome.returned [] e))
    (fun i e => LAP.forRange 0 matrix.cols (fun j e => Function.update e i
      (Function.update (e i) j (GA_get_bin_number (matrix.elts i j) lookup clamp))) e)
    (fun i _ _ s => forRange_bind_events 0 matrix.cols
      (fun j (e : Int → Int → Int) =>
        (GA_get_bin_number_run GAMessageFunc.GA_msg_default (matrix.elts i j) lookup
          clamp).bind (fun bin =>
          Outcome.returned [] (Function.update e i (Function.update (e i) j bin))))
      (fun j e => Function.update e i
        (Function.update (e i) j (GA_get_bin_number (matrix.elts i j) lookup clamp)))
      (fun j _ _ s => binStore_default _ lookup clamp _) [] s) [] mem
  rw [e]
  exact ⟨ev ++ [], _, rfl⟩

/-- With `GA_msg_R` the function `GA_matrix_to_bin_real` is left at the error
message of the first element whose binning fails. -/
theorem GA_matrix_to_bin_real_R (matrix : GAMatrixReal)
    (lookup : GAVectorReal) (clamp : GAClampMode) (mem : Int → Int → Int)
    (hfail : ∃ i j : Int, 0 ≤ i ∧ i < matrix.rows ∧ 0 ≤ j ∧ j < matrix.cols ∧
      GA_get_bin_number (matrix.elts i j) lookup clamp = -1) :
    ∃ ev : List GAMessage,
      GA_matrix_to_bin_real GAMessageFunc.GA_msg_R matrix lookup clamp mem =
        Outcome.aborted ev ∧ OneError ev := by
  unfold GA_matrix_to_bin_real
  obtain ⟨ev, e, hP⟩ := forRange_bind_abort 0 matrix.rows
    (fun i (e : Int → Int → Int) => LAP.forRange 0 matrix.cols
      (fun j (o : Outcome (Int → Int → Int)) => o.bind (fun e =>
        (GA_get_bin_number_run GAMessageFunc.GA_msg_R (matrix.elts i j) lookup
          clamp).bind (fun bin =>
          Outcome.returned [] (Function.update e i (Function.update (e i) j bin)))))
      (Outcome.returned [] e))
    (fun i e => LAP.forRange 0 matrix.cols (fun j e => Function.update e i
      (Function.update (e i) j (GA_get_bin_number (matrix.elts i j) lookup clamp))) e)
    (fun i => ∀ j : Int, 0 ≤ j → j < matrix.cols →
      GA_get_bin_number (matrix.elts i j) lookup clamp ≠ -1) OneError
    (fun i _ _ hi s => forRange_bind_all 0 matrix.cols
      (fun j (e : Int → Int → Int) =>
        (GA_get_bin_number_run GAMessageFunc.GA_msg_R (matrix.elts i j) lookup
          clamp).bind (fun bin =>
          Outcome.returned [] (Function.update e i (Function.update (e i) j bin))))
      (fun j e => Function.update e i
        (Function.update (e i) j (GA_get_bin_number (matrix.elts i j) lookup clamp)))
      (fun j j0 j1 s => binStore_ok _ _ lookup clamp _ (hi j j0 (by omega))) [] s)
    (fun i _ _ hi s => forRange_bind_abort 0 matrix.cols
      (fun j (e : Int → Int → Int) =>
        (GA_get_bin_number_run GAMessageFunc.GA_msg_R (matrix.elts i j) lookup
          clamp).bind (fun bin =>
          Outcome.returned [] (Function.update e i (Function.update (e i) j bin))))
      (fun j e => Function.update e i
        (Function.update (e i) j (GA_get_bin_number (matrix.elts i j) lookup clamp)))
      (fun j => GA_get_bin_number (matrix.elts i j) lookup clamp ≠ -1) OneError
      (fun j _ _ hj s => binStore_ok _ _ lookup clamp _ hj)
      (fun j _ _ hj s => binStore_R _ lookup clamp _ (not_not.mp hj))
      (by
        have hi2 : ¬ ∀ j : Int, 0 ≤ j → j < matrix.cols →
            GA_get_bin_number (matrix.elts i j) lookup clamp ≠ -1 := hi
        push_neg at hi2
        obtain ⟨j, a, b, c⟩ := hi2
        exact ⟨j, a, by omega, not_not.mpr c⟩) s)
    (by
      obtain ⟨i, j, a, b, c, d, f⟩ := hfail
      exact ⟨i, a, by omega, fun h => h j c d f⟩) mem
  rw [e]
  exact ⟨ev, rfl, hP⟩

/-- C16, amended: `GA_vector_to_bin_real` and `GA_matrix_to_bin_real` apply
`GA_get_bin_number` element by element into a container of the shape of their
argument, and what the failure of the binning of an element does depends on
the message function.  Every container that is returned has the shape of the
argument and holds the values of `GA_get_bin_number`, the error value -1
included.  When no binning fails, the container is returned without a
message, whatever the message function.  With `GA_msg_R`, the message
function of the package, a failure aborts the whole operation: the call is
left at the error message of the first element that fails, without a result.
With `GA_msg_default`, which returns, the call always returns a container. -/
theorem GA_to_bin_real_elementwise (lookup : GAVectorReal) (clamp : GAClampMode)
    (vec : GAVectorReal) (mem : Int → Int) (matrix : GAMatrixReal) (memM : Int → Int → Int) :
    ((∀ (msg : GAMessageFunc) (ev : List GAMessage) (r : Option GAVectorInt),
        GA_vector_to_bin_real msg vec lookup clamp mem = Outcome.returned ev r →
        ∃ res : GAVectorInt, r = some res ∧ res.size = vec.size ∧
          ∀ i : Int, 0 ≤ i → i < vec.size →
            res.elts i = GA_get_bin_number (vec.elts i) lookup clamp) ∧
      ((∀ i : Int, 0 ≤ i → i < vec.size →
          GA_get_bin_number (vec.elts i) lookup clamp ≠ -1) →
        ∀ msg : GAMessageFunc, ∃ res : GAVectorInt,
          GA_vector_to_bin_real msg vec lookup clamp mem = Outcome.returned [] (some res)) ∧
      ((∃ i : Int, 0 ≤ i ∧ i < vec.size ∧
          GA_get_bin_number (vec.elts i) lookup clamp = -1) →
        ∃ text : String,
          GA_vector_to_bin_real GAMessageFunc.GA_msg_R vec lookup clamp mem =
            Outcome.aborted [{ text := text, level := GAMessageLevel.GA_MSG_ERROR }]) ∧
      ∃ (ev : List GAMessage) (res : GAVectorInt),
        GA_vector_to_bin_real GAMessageFunc.GA_msg_default vec lookup clamp mem =
          Outcome.returned ev (some res)) ∧
    ((∀ (msg : GAMessageFunc) (ev : List GAMessage) (r : Option GAMatrixInt),
        GA_matrix_to_bin_real msg matrix lookup clamp memM = Outcome.returned ev r →
        ∃ res : GAMatrixInt, r = some res ∧ res.rows = matrix.rows ∧
          res.cols = matrix.cols ∧
          ∀ i j : Int, 0 ≤ i → i < matrix.rows → 0 ≤ j → j < matrix.cols →
            res.elts i j = GA_get_bin_number (matrix.elts i j) lookup clamp) ∧
      ((∀ i j : Int, 0 ≤ i → i < matrix.rows → 0 ≤ j → j < matrix.cols →
          GA_get_bin_number (matrix.elts i j) lookup clamp ≠ -1) →
        ∀ msg : GAMessageFunc, ∃ res : GAMatrixInt,
          GA_matrix_to_bin_real msg matrix lookup clamp memM =
            Outcome.returned [] (some res)) ∧
      ((∃ i j : Int, 0 ≤ i ∧ i < matrix.rows ∧ 0 ≤ j ∧ j < matrix.cols ∧
          GA_get_bin_number (matrix.elts i j) lookup clamp = -1) →
        ∃ text : String,
          GA_matrix_to_bin_real GAMessageFunc.GA_msg_R matrix lookup clamp memM =
            Outcome.aborted [{ text := text, level := GAMessageLevel.GA_MSG_ERROR }]) ∧
      ∃ (ev : List GAMessage) (res : GAMatrixInt),
        GA_matrix_to_bin_real GAMessageFunc.GA_msg_default matrix lookup clamp memM =
          Outcome.returned ev (some res)) := by
  refine ⟨⟨?_, ?_, ?_, ?_⟩, ⟨?_, ?_, ?_, ?_⟩⟩
  · exact fun msg ev r h => GA_vector_to_bin_real_value msg vec lookup clamp mem ev r h
  · exact fun hok msg => GA_vector_to_bin_real_ok msg vec lookup clamp mem hok
  · intro hfail
    obtain ⟨ev, e, text, ht⟩ := GA_vector_to_bin_real_R vec lookup clamp mem hfail
    exact ⟨text, by rw [e, ht]⟩
  · exact GA_vector_to_bin_real_default vec lookup clamp mem
  · exact fun msg ev r h => GA_matrix_to_bin_real_value msg matrix lookup clamp memM ev r h
  · exact fun hok msg => GA_matrix_to_bin_real_ok msg matrix lookup clamp memM hok
  · intro hfail
    obtain ⟨ev, e, text, ht⟩ := GA_matrix_to_bin_real_R matrix lookup clamp memM hfail
    exact ⟨text, by rw [e, ht]⟩
  · exact GA_matrix_to_bin_real_default matrix lookup clamp memM

/-- C16 fails as stated: with the lookup vector `[5]` and clamping disabled
the binning of 6 fails, and yet with the message function `GA_msg_default`,
the initial one of the library, `GA_vector_to_bin_real` on the vector `[6]`
and `GA_matrix_to_bin_real` on the 1 × 1 matrix `[[6]]` report the error and
return a container, which holds the error value -1.  With `GA_msg_R` the same
calls are left at the error message. -/
theorem GA_to_bin_real_keeps_error :
    GA_get_bin_number 6 (vectorOfReal [5]) GAClampMode.GA_CLAMP_DISABLED = -1 ∧
    (∃ r : GAVectorInt,
      GA_vector_to_bin_real GAMessageFunc.GA_msg_default (vectorOfReal [6]) (vectorOfReal [5])
          GAClampMode.GA_CLAMP_DISABLED (fun _ => 0) =
        Outcome.returned [{ text := binSingleText, level := GAMessageLevel.GA_MSG_ERROR }]
          (some r) ∧
      r.size = 1 ∧ r.elts 0 = -1) ∧
    (∃ r : GAMatrixInt,
      GA_matrix_to_bin_real GAMessageFunc.GA_msg_default (matrixOfReal 1 [[6]])
          (vectorOfReal [5]) GAClampMode.GA_CLAMP_DISABLED (fun _ _ => 0) =
        Outcome.returned [{ text := binSingleText, level := GAMessageLevel.GA_MSG_ERROR }]
          (some r) ∧
      r.rows = 1 ∧ r.cols = 1 ∧ r.elts 0 0 = -1) ∧
    GA_vector_to_bin_real GAMessageFunc.GA_msg_R (vectorOfReal [6]) (vectorOfReal [5])
        GAClampMode.GA_CLAMP_DISABLED (fun _ => 0) =
      Outcome.aborted [{ text := binSingleText, level := GAMessageLevel.GA_MSG_ERROR }] ∧
    GA_matrix_to_bin_real GAMessageFunc.GA_msg_R (matrixOfReal 1 [[6]])
        (vectorOfReal [5]) GAClampMode.GA_CLAMP_DISABLED (fun _ _ => 0) =
      Outcome.aborted [{ text := binSingleText, level := GAMessageLevel.GA_MSG_ERROR }] := by
  have hrun : ∀ msg : GAMessageFunc,
      GA_get_bin_number_run msg 6 (vectorOfReal [5]) GAClampMode.GA_CLAMP_DISABLED =
        (report msg binSingleText GAMessageLevel.GA_MSG_ERROR).bind
          (fun _ => Outcome.returned [] (-1)) := by
    intro msg
    unfold GA_get_bin_number_run
    rw [if_neg (by decide), if_pos (by decide), if_pos (by decide)]
  have hs : (vectorOfReal [6]).size = 1 := rfl
  have he : (vectorOfReal [6]).elts 0 = 6 := rfl
  have hr : (matrixOfReal 1 [[6]]).rows = 1 := rfl
  have hc : (matrixOfReal 1 [[6]]).cols = 1 := rfl
  have hm : (matrixOfReal 1 [[6]]).elts 0 0 = 6 := rfl
  refine ⟨by decide,
    ⟨{ size := 1, elts := Function.update (fun _ => 0) 0 (-1) }, ?_, rfl, rfl⟩,
    ⟨{ rows := 1, cols := 1,
       elts := Function.update (fun _ _ => 0) 0 (Function.update (fun _ => 0) 0 (-1)) },
      ?_, rfl, rfl, rfl⟩, ?_, ?_⟩
  · simp [GA_vector_to_bin_real, hs, he, LAP.forRange, hrun, report_default,
      Outcome.bind]
  · simp [GA_matrix_to_bin_real, hr, hc, hm, LAP.forRange, hrun,
      report_default, Outcome.bind]
  · simp [GA_vector_to_bin_real, hs, he, LAP.forRange, hrun, report_R_error,
      Outcome.bind]
  · simp [GA_matrix_to_bin_real, hr, hc, hm, LAP.forRange, hrun,
      report_R_error, Outcome.bind]

theorem roundDouble_zero : roundDouble 0 = 0 := by
  unfold roundDouble
  rw [if_pos rfl]

theorem addDouble_zero_zero : addDouble 0 0 = 0 := by
  unfold addDouble
  rw [add_zero, roundDouble_zero]

theorem readVectorInt_bind {β : Type} (name : String) (vec : GAVectorInt) (k : Int)
    (f : Int → Outcome β) (ev : List GAMessage) (w : β)
    (h : (readVectorInt name vec k).bind f = Outcome.returned ev w) :
    (0 ≤ k ∧ k < vec.size) ∧ f (vec.elts k) = Outcome.returned ev w := by
  unfold readVectorInt at h
  by_cases hb : 0 ≤ k ∧ k < vec.size
  · rw [if_pos hb, Outcome.returned_nil_bind] at h
    exact ⟨hb, h⟩
  · rw [if_neg hb] at h
    simp [Outcome.bind] at h

theorem readVectorReal_bind {β : Type} (name : String) (vec : GAVectorReal) (k : Int)
    (f : ℚ → Outcome β) (ev : List GAMessage) (w : β)
    (h : (readVectorReal name vec k).bind f = Outcome.returned ev w) :
    (0 ≤ k ∧ k < vec.size) ∧ f (vec.elts k) = Outcome.returned ev w := by
  unfold readVectorReal at h
  by_cases hb : 0 ≤ k ∧ k < vec.size
  · rw [if_pos hb, Outcome.returned_nil_bind] at h
    exact ⟨hb, h⟩
  · rw [if_neg hb] at h
    simp [Outcome.bind] at h

theorem readMatrixInt_bind {β : Type} (name : String) (m : GAMatrixInt) (x y : Int)
    (f : Int → Outcome β) (ev : List GAMessage) (w : β)
    (h : (readMatrixInt name m x y).bind f = Outcome.returned ev w) :
    (0 ≤ x ∧ x < m.rows ∧ 0 ≤ y ∧ y < m.cols) ∧ f (m.elts x y) = Outcome.returned ev w := by
  unfold readMatrixInt at h
  by_cases hb : 0 ≤ x ∧ x < m.rows ∧ 0 ≤ y ∧ y < m.cols
  · rw [if_pos hb, Outcome.returned_nil_bind] at h
    exact ⟨hb, h⟩
  · rw [if_neg hb] at h
    simp [Outcome.bind] at h

theorem readMatrixReal_bind {β : Type} (name : String) (m : GAMatrixReal) (x y : Int)
    (f : ℚ → Outcome β) (ev : List GAMessage) (w : β)
    (h : (readMatrixReal name m x y).bind f = Outcome.returned ev w) :
    (0 ≤ x ∧ x < m.rows ∧ 0 ≤ y ∧ y < m.cols) ∧ f (m.elts x y) = Outcome.returned ev w := by
  unfold readMatrixReal at h
  by_cases hb : 0 ≤ x ∧ x < m.rows ∧ 0 ≤ y ∧ y < m.cols
  · rw [if_pos hb, Outcome.returned_nil_bind] at h
    exact ⟨hb, h⟩
  · rw [if_neg hb] at h
    simp [Outcome.bind] at h

theorem readVectorInt_ok (name : String) (vec : GAVectorInt) (k : Int)
    (h : 0 ≤ k ∧ k < vec.size) :
    readVectorInt name vec k = Outcome.returned [] (vec.elts k) := by
  unfold readVectorInt
  rw [if_pos h]

theorem readVectorReal_ok (name : String) (vec : GAVectorReal) (k : Int)
    (h : 0 ≤ k ∧ k < vec.size) :
    readVectorReal name vec k = Outcome.returned [] (vec.elts k) := by
  unfold readVectorReal
  rw [if_pos h]

theorem readMatrixInt_ok (name : String) (m : GAMatrixInt) (x y : Int)
    (h : 0 ≤ x ∧ x < m.rows ∧ 0 ≤ y ∧ y < m.cols) :
    readMatrixInt name m x y = Outcome.returned [] (m.elts x y) := by
  unfold readMatrixInt
  rw [if_pos h]

theorem readMatrixReal_ok (name : String) (m : GAMatrixReal) (x y : Int)
    (h : 0 ≤ x ∧ x < m.rows ∧ 0 ≤ y ∧ y < m.cols) :
    readMatrixReal name m x y = Outcome.returned [] (m.elts x y) := by
  unfold readMatrixReal
  rw [if_pos h]

theorem returned_inj {α : Type} (ev1 ev2 : List GAMessage) (a b : α)
    (h : Outcome.returned ev1 a = Outcome.returned ev2 b) : ev1 = ev2 ∧ a = b := by
  simp only [Outcome.returned.injEq] at h
  exact h

/-- The value that a pass of the loop over the link scores returns. -/
theorem linkScoreStep_value (b : GAMatrixReal) (p : GAVectorInt) (linkScore : GAMatrixReal)
    (aBin bBin : GAMatrixInt) (i j k : Int) (s : ℚ) (ev : List GAMessage) (w : ℚ)
    (h : linkScoreStep b p linkScore aBin bBin i j k s = Outcome.returned ev w) :
    ev = [] ∧ w = linkScoreAdd b p linkScore aBin bBin i j k s := by
  unfold linkScoreStep at h
  unfold linkScoreAdd
  by_cases hk : k ≠ j
  · rw [if_pos hk] at h
    obtain ⟨_, h⟩ := readVectorInt_bind _ _ _ _ _ _ h
    by_cases hp : p.elts k ≠ i ∧ p.elts k < b.rows
    · rw [if_pos hp] at h
      obtain ⟨_, h⟩ := readMatrixInt_bind _ _ _ _ _ _ _ h
      obtain ⟨_, h⟩ := readMatrixInt_bind _ _ _ _ _ _ _ h
      obtain ⟨_, h⟩ := readMatrixReal_bind _ _ _ _ _ _ _ h
      obtain ⟨h1, h2⟩ := returned_inj _ _ _ _ h
      rw [if_pos ⟨hk, hp⟩]
      exact ⟨h1.symm, h2.symm⟩
    · rw [if_neg hp] at h
      obtain ⟨h1, h2⟩ := returned_inj _ _ _ _ h
      rw [if_neg (fun c => hp c.2)]
      exact ⟨h1.symm, h2.symm⟩
  · rw [if_neg hk] at h
    obtain ⟨h1, h2⟩ := returned_inj _ _ _ _ h
    rw [if_neg (fun c => hk c.1)]
    exact ⟨h1.symm, h2.symm⟩

/-- A pass of the loop over the link scores returns when its reads are within
bounds. -/
theorem linkScoreStep_ok (b : GAMatrixReal) (p : GAVectorInt) (linkScore : GAMatrixReal)
    (aBin bBin : GAMatrixInt) (i j k : Int) (s : ℚ)
    (hp : k ≠ j → 0 ≤ k ∧ k < p.size)
    (hr : k ≠ j → p.elts k ≠ i ∧ p.elts k < b.rows →
      (0 ≤ j ∧ j < aBin.rows ∧ 0 ≤ k ∧ k < aBin.cols) ∧
      (0 ≤ i ∧ i < bBin.rows ∧ 0 ≤ p.elts k ∧ p.elts k < bBin.cols) ∧
      (0 ≤ aBin.elts j k ∧ aBin.elts j k < linkScore.rows ∧
        0 ≤ bBin.elts i (p.elts k) ∧ bBin.elts i (p.elts k) < linkScore.cols)) :
    linkScoreStep b p linkScore aBin bBin i j k s =
      Outcome.returned [] (linkScoreAdd b p linkScore aBin bBin i j k s) := by
  unfold linkScoreStep linkScoreAdd
  by_cases hk : k ≠ j
  · rw [if_pos hk, readVectorInt_ok _ _ _ (hp hk), Outcome.returned_nil_bind]
    by_cases hc : p.elts k ≠ i ∧ p.elts k < b.rows
    · obtain ⟨r1, r2, r3⟩ := hr hk hc
      rw [if_pos hc, if_pos ⟨hk, hc⟩, readMatrixInt_ok _ _ _ _ r1,
        Outcome.returned_nil_bind, readMatrixInt_ok _ _ _ _ r2, Outcome.returned_nil_bind,
        readMatrixReal_ok _ _ _ _ r3, Outcome.returned_nil_bind]
    · rw [if_neg hc, if_neg (fun c => hc c.2)]
  · rw [if_neg hk, if_neg (fun c => hk c.1)]

theorem nodeScoreStepA_value (b : GAMatrixReal) (p : GAVectorInt) (nodeScore2 : GAVectorReal)
    (rBin : GAMatrixInt) (i j k : Int) (s : ℚ) (ev : List GAMessage) (w : ℚ)
    (h : nodeScoreStepA b p nodeScore2 rBin i j k s = Outcome.returned ev w) :
    ev = [] ∧ w = nodeScoreAddA b p nodeScore2 rBin i j k s := by
  unfold nodeScoreStepA at h
  unfold nodeScoreAddA
  obtain ⟨_, h⟩ := readVectorInt_bind _ _ _ _ _ _ h
  by_cases hp : p.elts k ≥ b.rows ∧ k ≠ j
  · rw [if_pos hp] at h
    obtain ⟨_, h⟩ := readMatrixInt_bind _ _ _ _ _ _ _ h
    obtain ⟨_, h⟩ := readVectorReal_bind _ _ _ _ _ _ h
    obtain ⟨h1, h2⟩ := returned_inj _ _ _ _ h
    rw [if_pos hp]
    exact ⟨h1.symm, h2.symm⟩
  · rw [if_neg hp] at h
    obtain ⟨h1, h2⟩ := returned_inj _ _ _ _ h
    rw [if_neg hp]
    exact ⟨h1.symm, h2.symm⟩

theorem nodeScoreStepA_ok (b : GAMatrixReal) (p : GAVectorInt) (nodeScore2 : GAVectorReal)
    (rBin : GAMatrixInt) (i j k : Int) (s : ℚ)
    (hp : 0 ≤ k ∧ k < p.size)
    (hr : p.elts k ≥ b.rows ∧ k ≠ j →
      (0 ≤ k ∧ k < rBin.rows ∧ 0 ≤ i ∧ i < rBin.cols) ∧
      (0 ≤ rBin.elts k i ∧ rBin.elts k i < nodeScore2.size)) :
    nodeScoreStepA b p nodeScore2 rBin i j k s =
      Outcome.returned [] (nodeScoreAddA b p nodeScore2 rBin i j k s) := by
  unfold nodeScoreStepA nodeScoreAddA
  rw [readVectorInt_ok _ _ _ hp, Outcome.returned_nil_bind]
  by_cases hc : p.elts k ≥ b.rows ∧ k ≠ j
  · obtain ⟨r1, r2⟩ := hr hc
    rw [if_pos hc, if_pos hc, readMatrixInt_ok _ _ _ _ r1, Outcome.returned_nil_bind,
      readVectorReal_ok _ _ _ r2, Outcome.returned_nil_bind]
  · rw [if_neg hc, if_neg hc]

theorem nodeScoreStepB_value (a : GAMatrixReal) (pInv : GAVectorInt)
    (nodeScore2 : GAVectorReal) (rBin : GAMatrixInt) (i j k : Int) (s : ℚ)
    (ev : List GAMessage) (w : ℚ)
    (h : nodeScoreStepB a pInv nodeScore2 rBin i j k s = Outcome.returned ev w) :
    ev = [] ∧ w = nodeScoreAddB a pInv nodeScore2 rBin i j k s := by
  unfold nodeScoreStepB at h
  unfold nodeScoreAddB
  obtain ⟨_, h⟩ := readVectorInt_bind _ _ _ _ _ _ h
  by_cases hp : pInv.elts k ≥ a.rows ∧ k ≠ i
  · rw [if_pos hp] at h
    obtain ⟨_, h⟩ := readMatrixInt_bind _ _ _ _ _ _ _ h
    obtain ⟨_, h⟩ := readVectorReal_bind _ _ _ _ _ _ h
    obtain ⟨h1, h2⟩ := returned_inj _ _ _ _ h
    rw [if_pos hp]
    exact ⟨h1.symm, h2.symm⟩
  · rw [if_neg hp] at h
    obtain ⟨h1, h2⟩ := returned_inj _ _ _ _ h
    rw [if_neg hp]
    exact ⟨h1.symm, h2.symm⟩

theorem nodeScoreStepB_ok (a : GAMatrixReal) (pInv : GAVectorInt)
    (nodeScore2 : GAVectorReal) (rBin : GAMatrixInt) (i j k : Int) (s : ℚ)
    (hp : 0 ≤ k ∧ k < pInv.size)
    (hr : pInv.elts k ≥ a.rows ∧ k ≠ i →
      (0 ≤ j ∧ j < rBin.rows ∧ 0 ≤ k ∧ k < rBin.cols) ∧
      (0 ≤ rBin.elts j k ∧ rBin.elts j k < nodeScore2.size)) :
    nodeScoreStepB a pInv nodeScore2 rBin i j k s =
      Outcome.returned [] (nodeScoreAddB a pInv nodeScore2 rBin i j k s) := by
  unfold nodeScoreStepB nodeScoreAddB
  rw [readVectorInt_ok _ _ _ hp, Outcome.returned_nil_bind]
  by_cases hc : pInv.elts k ≥ a.rows ∧ k ≠ i
  · obtain ⟨r1, r2⟩ := hr hc
    rw [if_pos hc, if_pos hc, readMatrixInt_ok _ _ _ _ r1, Outcome.returned_nil_bind,
      readVectorReal_ok _ _ _ r2, Outcome.returned_nil_bind]
  · rw [if_neg hc, if_neg hc]

/-- The value that `computeCell` returns, if it returns. -/
theorem computeCell_value (a b : GAMatrixReal) (p pInv : GAVectorInt)
    (linkScore selfLinkScore : GAMatrixReal) (nodeScore1 nodeScore2 : GAVectorReal)
    (aBin bBin rBin : GAMatrixInt) (i j : Int) (ev : List GAMessage) (v : ℚ)
    (h : computeCell a b p pInv linkScore selfLinkScore nodeScore1 nodeScore2
      aBin bBin rBin i j = Outcome.returned ev v) :
    v = cellSum a b p pInv linkScore selfLinkScore nodeScore1 nodeScore2 aBin bBin rBin i j := by
  unfold computeCell at h
  unfold cellSum
  by_cases hc : i < b.rows ∧ j < a.rows
  · simp only [if_pos hc] at h
    rw [if_pos hc]
    obtain ⟨ev1, l, ev2, h1, h, _⟩ := Outcome.bind_eq_returned _ _ _ _ h
    obtain ⟨_, _, e0, hl⟩ := forRange_bind_returned 0 a.rows
      (linkScoreStep b p linkScore aBin bBin i j) (linkScoreAdd b p linkScore aBin bBin i j)
      (fun k _ _ s ev w hw => (linkScoreStep_value b p linkScore aBin bBin i j k s ev w hw).2)
      _ ev1 l h1
    obtain ⟨_, e0⟩ := returned_inj _ _ _ _ e0
    rw [← e0] at hl
    obtain ⟨ev3, s, ev4, h2, h, _⟩ := Outcome.bind_eq_returned _ _ _ _ h
    obtain ⟨_, h2⟩ := readMatrixInt_bind _ _ _ _ _ _ _ h2
    obtain ⟨_, h2⟩ := readMatrixInt_bind _ _ _ _ _ _ _ h2
    obtain ⟨_, h2⟩ := readMatrixReal_bind _ _ _ _ _ _ _ h2
    obtain ⟨_, hs⟩ := returned_inj _ _ _ _ h2
    obtain ⟨ev5, n, ev6, h3, h, _⟩ := Outcome.bind_eq_returned _ _ _ _ h
    obtain ⟨_, h3⟩ := readMatrixInt_bind _ _ _ _ _ _ _ h3
    obtain ⟨_, h3⟩ := readVectorReal_bind _ _ _ _ _ _ h3
    obtain ⟨ev7, n1, ev8, h4, h3, _⟩ := Outcome.bind_eq_returned _ _ _ _ h3
    obtain ⟨_, _, e1, hn1⟩ := forRange_bind_returned 0 a.rows
      (nodeScoreStepA b p nodeScore2 rBin i j) (nodeScoreAddA b p nodeScore2 rBin i j)
      (fun k _ _ s ev w hw => (nodeScoreStepA_value b p nodeScore2 rBin i j k s ev w hw).2)
      _ ev7 n1 h4
    obtain ⟨_, e1⟩ := returned_inj _ _ _ _ e1
    rw [← e1] at hn1
    obtain ⟨_, _, e2, hn⟩ := forRange_bind_returned 0 b.rows
      (nodeScoreStepB a pInv nodeScore2 rBin i j) (nodeScoreAddB a pInv nodeScore2 rBin i j)
      (fun k _ _ s ev w hw => (nodeScoreStepB_value a pInv nodeScore2 rBin i j k s ev w hw).2)
      _ ev8 n h3
    obtain ⟨_, e2⟩ := returned_inj _ _ _ _ e2
    rw [← e2, hn1] at hn
    obtain ⟨_, hv⟩ := returned_inj _ _ _ _ h
    rw [← hv, hl, ← hs, hn]
  · simp only [if_neg hc, Outcome.returned_nil_bind] at h
    rw [if_neg hc]
    exact (returned_inj _ _ _ _ h).2.symm

/-- The cell `(i, j)` with `i ≥ b.rows` or `j ≥ a.rows`: nothing is read, and
the value is `0.0 + 0.0 + 0.0`. -/
theorem computeCell_outside (a b : GAMatrixReal) (p pInv : GAVectorInt)
    (linkScore selfLinkScore : GAMatrixReal) (nodeScore1 nodeScore2 : GAVectorReal)
    (aBin bBin rBin : GAMatrixInt) (i j : Int) (h : (b.rows : Int) ≤ i ∨ (a.rows : Int) ≤ j) :
    computeCell a b p pInv linkScore selfLinkScore nodeScore1 nodeScore2 aBin bBin rBin i j =
      Outcome.returned [] 0 ∧
    cellSum a b p pInv linkScore selfLinkScore nodeScore1 nodeScore2 aBin bBin rBin i j = 0 := by
  have hn : ¬ (i < b.rows ∧ j < a.rows) := by omega
  unfold computeCell cellSum
  simp only [if_neg hn, Outcome.returned_nil_bind, addDouble_zero_zero]
  exact ⟨trivial, trivial⟩

/-- The cell `(i, j)` with `i < b.rows` and `j < a.rows` is returned when the
reads of its loops are within bounds. -/
theorem computeCell_ok (a b : GAMatrixReal) (p pInv : GAVectorInt)
    (linkScore selfLinkScore : GAMatrixReal) (nodeScore1 nodeScore2 : GAVectorReal)
    (aBin bBin rBin : GAMatrixInt) (i j : Int)
    (hlink : ∀ (k : Int) (s : ℚ), 0 ≤ k → k < a.rows →
      linkScoreStep b p linkScore aBin bBin i j k s =
        Outcome.returned [] (linkScoreAdd b p linkScore aBin bBin i j k s))
    (hself : (0 ≤ j ∧ j < aBin.rows ∧ 0 ≤ j ∧ j < aBin.cols) ∧
      (0 ≤ i ∧ i < bBin.rows ∧ 0 ≤ i ∧ i < bBin.cols) ∧
      (0 ≤ aBin.elts j j ∧ aBin.elts j j < selfLinkScore.rows ∧
        0 ≤ bBin.elts i i ∧ bBin.elts i i < selfLinkScore.cols))
    (hnode : (0 ≤ j ∧ j < rBin.rows ∧ 0 ≤ i ∧ i < rBin.cols) ∧
      (0 ≤ rBin.elts j i ∧ rBin.elts j i < nodeScore1.size))
    (hA : ∀ (k : Int) (s : ℚ), 0 ≤ k → k < a.rows →
      nodeScoreStepA b p nodeScore2 rBin i j k s =
        Outcome.returned [] (nodeScoreAddA b p nodeScore2 rBin i j k s))
    (hB : ∀ (k : Int) (s : ℚ), 0 ≤ k → k < b.rows →
      nodeScoreStepB a pInv nodeScore2 rBin i j k s =
        Outcome.returned [] (nodeScoreAddB a pInv nodeScore2 rBin i j k s)) :
    computeCell a b p pInv linkScore selfLinkScore nodeScore1 nodeScore2 aBin bBin rBin i j =
      Outcome.returned []
        (cellSum a b p pInv linkScore selfLinkScore nodeScore1 nodeScore2 aBin bBin rBin
          i j) := by
  by_cases hc : i < b.rows ∧ j < a.rows
  · unfold computeCell cellSum
    simp only [if_pos hc]
    rw [forRange_bind_all 0 a.rows (linkScoreStep b p linkScore aBin bBin i j)
      (linkScoreAdd b p linkScore aBin bBin i j) (fun k k0 k1 s => hlink k s k0 (by omega)),
      Outcome.returned_nil_bind]
    rw [readMatrixInt_ok _ _ _ _ hself.1, Outcome.returned_nil_bind,
      readMatrixInt_ok _ _ _ _ hself.2.1, Outcome.returned_nil_bind,
      readMatrixReal_ok _ _ _ _ hself.2.2, Outcome.returned_nil_bind,
      Outcome.returned_nil_bind]
    rw [readMatrixInt_ok _ _ _ _ hnode.1, Outcome.returned_nil_bind,
      readVectorReal_ok _ _ _ hnode.2, Outcome.returned_nil_bind]
    rw [forRange_bind_all 0 a.rows (nodeScoreStepA b p nodeScore2 rBin i j)
      (nodeScoreAddA b p nodeScore2 rBin i j) (fun k k0 k1 s => hA k s k0 (by omega)),
      Outcome.returned_nil_bind]
    rw [forRange_bind_all 0 b.rows (nodeScoreStepB a pInv nodeScore2 rBin i j)
      (nodeScoreAddB a pInv nodeScore2 rBin i j) (fun k k0 k1 s => hB k s k0 (by omega)),
      Outcome.returned_nil_bind]
  · have ho := computeCell_outside a b p pInv linkScore selfLinkScore nodeScore1 nodeScore2
      aBin bBin rBin i j (by omega)
    rw [ho.1, ho.2]

/-- The elements that the loops over the cells have stored when they
return. -/
theorem computeLoop_value (a b : GAMatrixReal) (p pInv : GAVectorInt)
    (linkScore selfLinkScore : GAMatrixReal) (nodeScore1 nodeScore2 : GAVectorReal)
    (aBin bBin rBin : GAMatrixInt) (e0 : Int → Int → ℚ) (ev : List GAMessage)
    (w : Int → Int → ℚ)
    (h : computeLoop a b p pInv linkScore selfLinkScore nodeScore1 nodeScore2
      aBin bBin rBin e0 = Outcome.returned ev w) :
    ∀ i j : Int, 0 ≤ i → i < p.size → 0 ≤ j → j < p.size →
      w i j = cellSum a b p pInv linkScore selfLinkScore nodeScore1 nodeScore2
        aBin bBin rBin i j := by
  unfold computeLoop at h
  obtain ⟨ev0, s0, e1, hw⟩ := forRange_bind_returned 0 p.size
    (fun i (e : Int → Int → ℚ) => LAP.forRange 0 p.size
      (fun j (o : Outcome (Int → Int → ℚ)) => o.bind (fun e =>
        (computeCell a b p pInv linkScore selfLinkScore nodeScore1 nodeScore2
          aBin bBin rBin i j).bind (fun x => Outcome.returned [] (setElt e i j x))))
      (Outcome.returned [] e))
    (fun i e => LAP.forRange 0 p.size (fun j e => setElt e i j
      (cellSum a b p pInv linkScore selfLinkScore nodeScore1 nodeScore2 aBin bBin rBin i j)) e)
    (by
      intro i _ _ s ev w hw
      obtain ⟨ev0, s0, e1, hw2⟩ := forRange_bind_returned 0 p.size
        (fun j (e : Int → Int → ℚ) =>
          (computeCell a b p pInv linkScore selfLinkScore nodeScore1 nodeScore2
            aBin bBin rBin i j).bind (fun x => Outcome.returned [] (setElt e i j x)))
        (fun j e => setElt e i j
          (cellSum a b p pInv linkScore selfLinkScore nodeScore1 nodeScore2 aBin bBin rBin
            i j))
        (by
          intro j _ _ s ev w hw
          obtain ⟨_, x, _, hx, hr, _⟩ := Outcome.bind_eq_returned _ _ _ _ hw
          have hx2 := computeCell_value _ _ _ _ _ _ _ _ _ _ _ _ _ _ _ hx
          rw [hx2] at hr
          exact (returned_inj _ _ _ _ hr).2.symm)
        _ ev w hw
      rw [hw2, (returned_inj _ _ _ _ e1).2])
    _ ev w h
  intro i j i0 i1 j0 j1
  rw [hw, ← (returned_inj _ _ _ _ e1).2]
  rw [forRange_setElt_get (fun i j => cellSum a b p pInv linkScore selfLinkScore nodeScore1
    nodeScore2 aBin bBin rBin i j), if_pos ⟨⟨i0, i1⟩, j0, j1⟩]

/-- The loops over the cells return when every cell is returned. -/
theorem computeLoop_ok (a b : GAMatrixReal) (p pInv : GAVectorInt)
    (linkScore selfLinkScore : GAMatrixReal) (nodeScore1 nodeScore2 : GAVectorReal)
    (aBin bBin rBin : GAMatrixInt) (e0 : Int → Int → ℚ)
    (hcell : ∀ i j : Int, 0 ≤ i → i < p.size → 0 ≤ j → j < p.size →
      computeCell a b p pInv linkScore selfLinkScore nodeScore1 nodeScore2 aBin bBin rBin i j =
        Outcome.returned []
          (cellSum a b p pInv linkScore selfLinkScore nodeScore1 nodeScore2 aBin bBin rBin
            i j)) :
    ∃ w : Int → Int → ℚ,
      computeLoop a b p pInv linkScore selfLinkScore nodeScore1 nodeScore2
        aBin bBin rBin e0 = Outcome.returned [] w := by
  unfold computeLoop
  refine ⟨_, forRange_bind_all 0 p.size
    (fun i (e : Int → Int → ℚ) => LAP.forRange 0 p.size
      (fun j (o : Outcome (Int → Int → ℚ)) => o.bind (fun e =>
        (computeCell a b p pInv linkScore selfLinkScore nodeScore1 nodeScore2
          aBin bBin rBin i j).bind (fun x => Outcome.returned [] (setElt e i j x))))
      (Outcome.returned [] e))
    (fun i e => LAP.forRange 0 p.size (fun j e => setElt e i j
      (cellSum a b p pInv linkScore selfLinkScore nodeScore1 nodeScore2 aBin bBin rBin i j)) e)
    ?_ [] e0⟩
  intro i i0 i1 s
  refine forRange_bind_all 0 p.size
    (fun j (e : Int → Int → ℚ) =>
      (computeCell a b p pInv linkScore selfLinkScore nodeScore1 nodeScore2
        aBin bBin rBin i j).bind (fun x => Outcome.returned [] (setElt e i j x)))
    (fun j e => setElt e i j
      (cellSum a b p pInv linkScore selfLinkScore nodeScore1 nodeScore2 aBin bBin rBin i j))
    ?_ [] s
  intro j j0 j1 s
  dsimp only
  rw [hcell i j i0 (by omega) j0 (by omega), Outcome.returned_nil_bind]

theorem computeError_default (text : String) :
    computeError GAMessageFunc.GA_msg_default text =
      Outcome.returned [{ text := text, level := GAMessageLevel.GA_MSG_ERROR }] none := rfl

theorem computeError_R (text : String) :
    computeError GAMessageFunc.GA_msg_R text =
      Outcome.aborted [{ text := text, level := GAMessageLevel.GA_MSG_ERROR }] := rfl

/-- An error of `GA_compute_M` is one message of the level `GA_MSG_ERROR`,
after which the null pointer is returned or, with `GA_msg_R`, the call is
left. -/
theorem computeError_outcome (msg : GAMessageFunc) (text : String) :
    computeError msg text =
      Outcome.returned [{ text := text, level := GAMessageLevel.GA_MSG_ERROR }] none ∧
        msg = GAMessageFunc.GA_msg_default ∨
    computeError msg text =
      Outcome.aborted [{ text := text, level := GAMessageLevel.GA_MSG_ERROR }] ∧
        msg = GAMessageFunc.GA_msg_R := by
  cases msg
  · exact Or.inl ⟨rfl, rfl⟩
  · exact Or.inr ⟨rfl, rfl⟩

theorem computeError_no_result (msg : GAMessageFunc) (text : String) (ev : List GAMessage)
    (m : GAMatrixReal) : computeError msg text ≠ Outcome.returned ev (some m) := by
  cases msg
  · rw [computeError_default]; simp
  · rw [computeError_R]; simp

/-- The bin number of a binning that succeeds is an index of a table with a
row for each bin and with one row at least. -/
theorem GA_get_bin_number_bound (x : ℚ) (lookup : GAVectorReal) (clamp : GAClampMode)
    (h : GA_get_bin_number x lookup clamp ≠ -1) :
    0 ≤ GA_get_bin_number x lookup clamp ∧
    GA_get_bin_number x lookup clamp < max 1 ((lookup.size : Int) - 1) := by
  by_cases h2 : 2 ≤ lookup.size
  · obtain ⟨b0, b1, _, _⟩ := binLoop_first x lookup h2
    have hm : max 1 ((lookup.size : Int) - 1) = (lookup.size : Int) - 1 := by
      apply max_eq_right; omega
    rw [hm]
    unfold GA_get_bin_number at h ⊢
    split_ifs at h ⊢ <;> omega
  · have hm : max 1 ((lookup.size : Int) - 1) = 1 := by
      apply max_eq_left; omega
    rw [hm]
    unfold GA_get_bin_number at h ⊢
    split_ifs at h ⊢ <;> omega

/-- What a run of `GA_compute_M` that returns a matrix has done: the
inversion of `p` has returned, every validation has passed, the three
binnings have returned the matrices of the bin numbers, and every cell of the
result holds the value of `computeCell`. -/
theorem GA_compute_M_returned (msg : GAMessageFunc) (a b r : GAMatrixReal) (p : GAVectorInt)
    (linkScore selfLinkScore : GAMatrixReal) (nodeScore1 nodeScore2 : GAVectorReal)
    (lookupLink lookupNode : GAVectorReal) (clamp : GAClampMode) (mem : ComputeMem)
    (ev : List GAMessage) (m : GAMatrixReal)
    (h : GA_compute_M msg a b r p linkScore selfLinkScore nodeScore1 nodeScore2 lookupLink
      lookupNode clamp mem = Outcome.returned ev (some m)) :
    ∃ (pInv : GAVectorInt) (aBin bBin rBin : GAMatrixInt),
      GA_invert_permutation_int p mem.pInv = InvertOutcome.returned pInv ∧
      (a.rows = a.cols ∧ b.rows = b.cols ∧ r.rows = a.rows ∧ r.cols = b.rows) ∧
      ((lookupLink.size : Int) - 1 ≤ linkScore.rows ∧
        (lookupLink.size : Int) - 1 ≤ linkScore.cols ∧
        (lookupLink.size : Int) - 1 ≤ selfLinkScore.rows ∧
        (lookupLink.size : Int) - 1 ≤ selfLinkScore.cols ∧
        (lookupNode.size : Int) - 1 ≤ nodeScore1.size ∧
        (lookupNode.size : Int) - 1 ≤ nodeScore2.size) ∧
      (∀ x y : Int, 0 ≤ x → x < a.rows → 0 ≤ y → y < a.cols →
        aBin.elts x y = GA_get_bin_number (a.elts x y) lookupLink clamp) ∧
      (∀ x y : Int, 0 ≤ x → x < b.rows → 0 ≤ y → y < b.cols →
        bBin.elts x y = GA_get_bin_number (b.elts x y) lookupLink clamp) ∧
      (∀ x y : Int, 0 ≤ x → x < r.rows → 0 ≤ y → y < r.cols →
        rBin.elts x y = GA_get_bin_number (r.elts x y) lookupNode clamp) ∧
      m.rows = p.size ∧ m.cols = p.size ∧
      ∀ i j : Int, 0 ≤ i → i < p.size → 0 ≤ j → j < p.size →
        m.elts i j = cellSum a b p pInv linkScore selfLinkScore nodeScore1 nodeScore2
          aBin bBin rBin i j := by
  unfold GA_compute_M at h
  cases hinv : GA_invert_permutation_int p mem.pInv with
  | nullStore i evs =>
    rw [hinv] at h
    dsimp only at h
    obtain ⟨_, _, _, _, h2, _⟩ := Outcome.bind_eq_returned _ _ _ _ h
    simp at h2
  | storeOutside i index =>
    rw [hinv] at h
    simp at h
  | returned pInv =>
    rw [hinv] at h
    dsimp only at h
    split_ifs at h with c1 c2 c3 c4 c5 c6 c7
    · exact absurd h (computeError_no_result _ _ _ _)
    · exact absurd h (computeError_no_result _ _ _ _)
    · exact absurd h (computeError_no_result _ _ _ _)
    · exact absurd h (computeError_no_result _ _ _ _)
    · exact absurd h (computeError_no_result _ _ _ _)
    · exact absurd h (computeError_no_result _ _ _ _)
    · exact absurd h (computeError_no_result _ _ _ _)
    · obtain ⟨evA, oA, _, hA, h, _⟩ := Outcome.bind_eq_returned _ _ _ _ h
      obtain ⟨aBin, eA, _, _, gA⟩ := GA_matrix_to_bin_real_value _ _ _ _ _ _ _ hA
      subst eA
      dsimp only at h
      obtain ⟨evB, oB, _, hB, h, _⟩ := Outcome.bind_eq_returned _ _ _ _ h
      obtain ⟨bBin, eB, _, _, gB⟩ := GA_matrix_to_bin_real_value _ _ _ _ _ _ _ hB
      subst eB
      dsimp only at h
      obtain ⟨evR, oR, _, hR, h, _⟩ := Outcome.bind_eq_returned _ _ _ _ h
      obtain ⟨rBin, eR, _, _, gR⟩ := GA_matrix_to_bin_real_value _ _ _ _ _ _ _ hR
      subst eR
      dsimp only at h
      obtain ⟨evL, w, _, hL, h, _⟩ := Outcome.bind_eq_returned _ _ _ _ h
      obtain ⟨_, hm⟩ := returned_inj _ _ _ _ h
      have hm2 := Option.some.inj hm
      have hcells := computeLoop_value _ _ _ _ _ _ _ _ _ _ _ _ _ _ hL
      refine ⟨pInv, aBin, bBin, rBin, rfl, ?_, ?_, gA, gB, gR, ?_, ?_, ?_⟩
      · push_neg at c1 c2 c3
        exact ⟨c1, c2, c3.1, c3.2⟩
      · push_neg at c4 c5 c6 c7
        exact ⟨c4.1, c4.2, c5.1, c5.2, c6, c7⟩
      · rw [← hm2]
      · rw [← hm2]
      · rw [← hm2]
        exact hcells

/-- The run of `GA_compute_M` returns a matrix without a message when the
inversion of `p` returns, every validation passes, no binning fails and every
cell is returned. -/
theorem GA_compute_M_ok (msg : GAMessageFunc) (a b r : GAMatrixReal) (p pInv : GAVectorInt)
    (linkScore selfLinkScore : GAMatrixReal) (nodeScore1 nodeScore2 : GAVectorReal)
    (lookupLink lookupNode : GAVectorReal) (clamp : GAClampMode) (mem : ComputeMem)
    (hinv : GA_invert_permutation_int p mem.pInv = InvertOutcome.returned pInv)
    (ha : a.rows = a.cols) (hb : b.rows = b.cols)
    (hr : r.rows = a.rows ∧ r.cols = b.rows)
    (hl : (lookupLink.size : Int) - 1 ≤ linkScore.rows ∧
      (lookupLink.size : Int) - 1 ≤ linkScore.cols)
    (hs : (lookupLink.size : Int) - 1 ≤ selfLinkScore.rows ∧
      (lookupLink.size : Int) - 1 ≤ selfLinkScore.cols)
    (hn1 : (lookupNode.size : Int) - 1 ≤ nodeScore1.size)
    (hn2 : (lookupNode.size : Int) - 1 ≤ nodeScore2.size)
    (hbinA : ∀ x y : Int, 0 ≤ x → x < a.rows → 0 ≤ y → y < a.cols →
      GA_get_bin_number (a.elts x y) lookupLink clamp ≠ -1)
    (hbinB : ∀ x y : Int, 0 ≤ x → x < b.rows → 0 ≤ y → y < b.cols →
      GA_get_bin_number (b.elts x y) lookupLink clamp ≠ -1)
    (hbinR : ∀ x y : Int, 0 ≤ x → x < r.rows → 0 ≤ y → y < r.cols →
      GA_get_bin_number (r.elts x y) lookupNode clamp ≠ -1)
    (hcell : ∀ aBin bBin rBin : GAMatrixInt,
      (aBin.rows = a.rows ∧ aBin.cols = a.cols ∧
        ∀ x y : Int, 0 ≤ x → x < a.rows → 0 ≤ y → y < a.cols →
          aBin.elts x y = GA_get_bin_number (a.elts x y) lookupLink clamp) →
      (bBin.rows = b.rows ∧ bBin.cols = b.cols ∧
        ∀ x y : Int, 0 ≤ x → x < b.rows → 0 ≤ y → y < b.cols →
          bBin.elts x y = GA_get_bin_number (b.elts x y) lookupLink clamp) →
      (rBin.rows = r.rows ∧ rBin.cols = r.cols ∧
        ∀ x y : Int, 0 ≤ x → x < r.rows → 0 ≤ y → y < r.cols →
          rBin.elts x y = GA_get_bin_number (r.elts x y) lookupNode clamp) →
      ∀ i j : Int, 0 ≤ i → i < p.size → 0 ≤ j → j < p.size →
        computeCell a b p pInv linkScore selfLinkScore nodeScore1 nodeScore2 aBin bBin rBin
            i j =
          Outcome.returned []
            (cellSum a b p pInv linkScore selfLinkScore nodeScore1 nodeScore2 aBin bBin rBin
              i j)) :
    ∃ m : GAMatrixReal,
      GA_compute_M msg a b r p linkScore selfLinkScore nodeScore1 nodeScore2 lookupLink
        lookupNode clamp mem = Outcome.returned [] (some m) := by
  obtain ⟨aBin, eA⟩ := GA_matrix_to_bin_real_ok msg a lookupLink clamp mem.aBin hbinA
  obtain ⟨bBin, eB⟩ := GA_matrix_to_bin_real_ok msg b lookupLink clamp mem.bBin hbinB
  obtain ⟨rBin, eR⟩ := GA_matrix_to_bin_real_ok msg r lookupNode clamp mem.rBin hbinR
  obtain ⟨aBin2, e1, pA⟩ := GA_matrix_to_bin_real_value _ _ _ _ _ _ _ eA
  obtain ⟨bBin2, e2, pB⟩ := GA_matrix_to_bin_real_value _ _ _ _ _ _ _ eB
  obtain ⟨rBin2, e3, pR⟩ := GA_matrix_to_bin_real_value _ _ _ _ _ _ _ eR
  rw [← Option.some.inj e1] at pA
  rw [← Option.some.inj e2] at pB
  rw [← Option.some.inj e3] at pR
  obtain ⟨w, eL⟩ := computeLoop_ok a b p pInv linkScore selfLinkScore nodeScore1 nodeScore2
    aBin bBin rBin (GA_matrix_init_zero_real p.size p.size mem.result)
    (hcell aBin bBin rBin pA pB pR)
  unfold GA_compute_M
  rw [hinv]
  dsimp only
  rw [if_neg (by simp [ha]), if_neg (by simp [hb]), if_neg (by simp [hr.1, hr.2]),
    if_neg (by omega), if_neg (by omega), if_neg (by omega), if_neg (by omega)]
  rw [eA, Outcome.returned_nil_bind]
  dsimp only
  rw [eB, Outcome.returned_nil_bind]
  dsimp only
  rw [eR, Outcome.returned_nil_bind]
  dsimp only
  rw [eL, Outcome.returned_nil_bind]
  exact ⟨_, rfl⟩

/-- A loop that adds the terms `t k` of the indices with `P k` to a sum of
values of type `double` computes the sum of the list of those terms, taken
from the left. -/
theorem forRange_foldl (P : Int → Prop) [DecidablePred P] (t : Int → ℚ) (n : Nat) (s0 : ℚ) :
    LAP.forRange 0 n (fun k (s : ℚ) => if P k then addDouble s (t k) else s) s0 =
      (((List.range n).filter (fun k : Nat => P (k : Int))).map
        (fun k : Nat => t (k : Int))).foldl addDouble s0 := by
  induction n with
  | zero => rfl
  | succ n ih =>
    simp only [LAP.forRange]
    rw [ih, List.range_succ, List.filter_append, List.map_append, List.foldl_append, zero_add]
    by_cases h : P (n : Int)
    · rw [if_pos h]
      simp [h]
    · rw [if_neg h]
      simp [h]

theorem forRange_congr {σ : Type} (n : Nat) (f g : Int → σ → σ) (s0 : σ)
    (h : ∀ k : Int, 0 ≤ k → k < n → ∀ s : σ, f k s = g k s) :
    LAP.forRange 0 n f s0 = LAP.forRange 0 n g s0 := by
  induction n with
  | zero => rfl
  | succ m ih =>
    simp only [LAP.forRange]
    rw [ih (fun k k0 k1 s => h k k0 (by push_cast; omega) s)]
    exact h _ (by omega) (by push_cast; omega) _

/-- When the loop of `GA_invert_permutation_int` returns, the elements it has
read are indices of the vector. -/
theorem invertLoop_returned (vec : GAVectorInt) (n : Nat) (i : Int) (e : Int → Int)
    (res : GAVectorInt) (h : invertLoop vec i n e = InvertOutcome.returned res) :
    res.size = vec.size ∧
    ∀ k : Int, i ≤ k → k < i + n → 0 ≤ vec.elts k ∧ vec.elts k < vec.size := by
  induction n generalizing i e with
  | zero =>
    simp only [invertLoop, InvertOutcome.returned.injEq] at h
    refine ⟨by rw [← h], ?_⟩
    intro k k0 k1
    simp only [Nat.cast_zero] at k1
    omega
  | succ n ih =>
    simp only [invertLoop] at h
    by_cases hlt : vec.elts i < vec.size
    · rw [GA_vector_get_elt_int_ok { size := vec.size, elts := e } (vec.elts i) hlt] at h
      dsimp only at h
      by_cases hneg : vec.elts i < 0
      · rw [if_pos hneg] at h
        exact absurd h (by simp)
      · rw [if_neg hneg] at h
        obtain ⟨hs, hr⟩ := ih (i + 1) _ h
        refine ⟨hs, ?_⟩
        intro k k0 k1
        push_cast at k1
        by_cases hk : k = i
        · rw [hk]; omega
        · exact hr k (by omega) (by omega)
    · unfold GA_vector_get_elt_int at h
      rw [if_neg hlt] at h
      exact absurd h (by simp)

theorem invert_returned (p : GAVectorInt) (mem : Int → Int) (pInv : GAVectorInt)
    (h : GA_invert_permutation_int p mem = InvertOutcome.returned pInv) :
    pInv.size = p.size ∧
    ∀ k : Int, 0 ≤ k → k < p.size → 0 ≤ p.elts k ∧ p.elts k < p.size := by
  obtain ⟨hs, hr⟩ := invertLoop_returned p p.size 0 mem pInv h
  exact ⟨hs, fun k k0 k1 => hr k k0 (by omega)⟩

/-- The value of a cell as the sum of the scores that the specification
lists. -/
theorem cellSum_formula (a b r : GAMatrixReal) (p pInv : GAVectorInt)
    (linkScore selfLinkScore : GAMatrixReal) (nodeScore1 nodeScore2 : GAVectorReal)
    (lookupLink lookupNode : GAVectorReal) (clamp : GAClampMode)
    (aBin bBin rBin : GAMatrixInt)
    (ha : a.rows = a.cols) (hb : b.rows = b.cols) (hr : r.rows = a.rows ∧ r.cols = b.rows)
    (hp0 : ∀ k : Int, 0 ≤ k → k < a.rows → 0 ≤ p.elts k)
    (gA : ∀ x y : Int, 0 ≤ x → x < a.rows → 0 ≤ y → y < a.cols →
      aBin.elts x y = GA_get_bin_number (a.elts x y) lookupLink clamp)
    (gB : ∀ x y : Int, 0 ≤ x → x < b.rows → 0 ≤ y → y < b.cols →
      bBin.elts x y = GA_get_bin_number (b.elts x y) lookupLink clamp)
    (gR : ∀ x y : Int, 0 ≤ x → x < r.rows → 0 ≤ y → y < r.cols →
      rBin.elts x y = GA_get_bin_number (r.elts x y) lookupNode clamp)
    (i j : Int) (hi0 : 0 ≤ i) (hi : i < b.rows) (hj0 : 0 ≤ j) (hj : j < a.rows) :
    cellSum a b p pInv linkScore selfLinkScore nodeScore1 nodeScore2 aBin bBin rBin i j =
      addDouble
        (addDouble
          (sumDouble (((List.range a.rows).filter
              (fun k : Nat => (k : Int) ≠ j ∧ p.elts k ≠ i ∧ p.elts k < b.rows)).map
            (fun k : Nat =>
              linkScore.elts (GA_get_bin_number (a.elts j k) lookupLink clamp)
                (GA_get_bin_number (b.elts i (p.elts k)) lookupLink clamp))))
          (sumDouble [selfLinkScore.elts (GA_get_bin_number (a.elts j j) lookupLink clamp)
            (GA_get_bin_number (b.elts i i) lookupLink clamp)]))
        (sumDouble
          (nodeScore1.elts (GA_get_bin_number (r.elts j i) lookupNode clamp) ::
            (((List.range a.rows).filter
                (fun k : Nat => p.elts k ≥ b.rows ∧ (k : Int) ≠ j)).map
              (fun k : Nat =>
                nodeScore2.elts (GA_get_bin_number (r.elts k i) lookupNode clamp)) ++
             ((List.range b.rows).filter
                (fun k : Nat => pInv.elts k ≥ a.rows ∧ (k : Int) ≠ i)).map
              (fun k : Nat =>
                nodeScore2.elts (GA_get_bin_number (r.elts j k) lookupNode clamp))))) := by
  unfold cellSum
  rw [if_pos ⟨hi, hj⟩]
  have e1 : LAP.forRange 0 a.rows (linkScoreAdd b p linkScore aBin bBin i j) 0 =
      sumDouble (((List.range a.rows).filter
          (fun k : Nat => (k : Int) ≠ j ∧ p.elts k ≠ i ∧ p.elts k < b.rows)).map
        (fun k : Nat =>
          linkScore.elts (GA_get_bin_number (a.elts j k) lookupLink clamp)
            (GA_get_bin_number (b.elts i (p.elts k)) lookupLink clamp))) := by
    unfold sumDouble
    rw [← forRange_foldl (fun k => k ≠ j ∧ p.elts k ≠ i ∧ p.elts k < b.rows)
      (fun k => linkScore.elts (GA_get_bin_number (a.elts j k) lookupLink clamp)
        (GA_get_bin_number (b.elts i (p.elts k)) lookupLink clamp))]
    apply forRange_congr
    intro k k0 k1 s
    unfold linkScoreAdd
    by_cases hc : k ≠ j ∧ p.elts k ≠ i ∧ p.elts k < b.rows
    · rw [if_pos hc, if_pos hc, gA j k hj0 hj k0 (by omega),
        gB i (p.elts k) hi0 hi (hp0 k k0 k1) (by omega)]
    · rw [if_neg hc, if_neg hc]
  have e2 : LAP.forRange 0 b.rows (nodeScoreAddB a pInv nodeScore2 rBin i j)
        (LAP.forRange 0 a.rows (nodeScoreAddA b p nodeScore2 rBin i j)
          (addDouble 0 (nodeScore1.elts (rBin.elts j i)))) =
      sumDouble
        (nodeScore1.elts (GA_get_bin_number (r.elts j i) lookupNode clamp) ::
          (((List.range a.rows).filter
              (fun k : Nat => p.elts k ≥ b.rows ∧ (k : Int) ≠ j)).map
            (fun k : Nat =>
              nodeScore2.elts (GA_get_bin_number (r.elts k i) lookupNode clamp)) ++
           ((List.range b.rows).filter
              (fun k : Nat => pInv.elts k ≥ a.rows ∧ (k : Int) ≠ i)).map
            (fun k : Nat =>
              nodeScore2.elts (GA_get_bin_number (r.elts j k) lookupNode clamp)))) := by
    unfold sumDouble
    rw [List.foldl_cons, List.foldl_append,
      ← forRange_foldl (fun k => p.elts k ≥ b.rows ∧ k ≠ j)
        (fun k => nodeScore2.elts (GA_get_bin_number (r.elts k i) lookupNode clamp)),
      ← forRange_foldl (fun k => pInv.elts k ≥ a.rows ∧ k ≠ i)
        (fun k => nodeScore2.elts (GA_get_bin_number (r.elts j k) lookupNode clamp)),
      gR j i hj0 (by omega) hi0 (by omega)]
    have eA : LAP.forRange 0 a.rows (nodeScoreAddA b p nodeScore2 rBin i j)
          (addDouble 0 (nodeScore1.elts (GA_get_bin_number (r.elts j i) lookupNode clamp))) =
        LAP.forRange 0 a.rows (fun k (s : ℚ) => if p.elts k ≥ b.rows ∧ k ≠ j then
          addDouble s (nodeScore2.elts (GA_get_bin_number (r.elts k i) lookupNode clamp))
          else s)
          (addDouble 0 (nodeScore1.elts (GA_get_bin_number (r.elts j i) lookupNode clamp))) := by
      apply forRange_congr
      intro k k0 k1 s
      unfold nodeScoreAddA
      by_cases hc : p.elts k ≥ b.rows ∧ k ≠ j
      · rw [if_pos hc, if_pos hc, gR k i k0 (by omega) hi0 (by omega)]
      · rw [if_neg hc, if_neg hc]
    rw [eA]
    apply forRange_congr
    intro k k0 k1 s
    unfold nodeScoreAddB
    by_cases hc : pInv.elts k ≥ a.rows ∧ k ≠ i
    · rw [if_pos hc, if_pos hc, gR j k hj0 (by omega) k0 (by omega)]
    · rw [if_neg hc, if_neg hc]
  rw [e1, e2, gA j j hj0 hj hj0 (by omega), gB i i hi0 hi hi0 (by omega)]
  rfl

/-- The bin number of a binning that succeeds is an index of a table that
passes the validation of `GA_compute_M` and has one element at least. -/
theorem bin_index (x : ℚ) (lookup : GAVectorReal) (clamp : GAClampMode) (n : Nat)
    (h : GA_get_bin_number x lookup clamp ≠ -1) (h1 : 1 ≤ n)
    (h2 : (lookup.size : Int) - 1 ≤ n) :
    0 ≤ GA_get_bin_number x lookup clamp ∧ GA_get_bin_number x lookup clamp < n := by
  obtain ⟨b0, b1⟩ := GA_get_bin_number_bound x lookup clamp h
  have : max 1 ((lookup.size : Int) - 1) ≤ n := max_le (by omega) h2
  exact ⟨b0, by omega⟩

/-- Every cell is returned when the inputs are valid and the score tables are
not empty. -/
theorem computeCell_returns (a b r : GAMatrixReal) (p pInv : GAVectorInt)
    (linkScore selfLinkScore : GAMatrixReal) (nodeScore1 nodeScore2 : GAVectorReal)
    (lookupLink lookupNode : GAVectorReal) (clamp : GAClampMode)
    (aBin bBin rBin : GAMatrixInt)
    (ha : a.rows = a.cols) (hb : b.rows = b.cols) (hr : r.rows = a.rows ∧ r.cols = b.rows)
    (hl : (lookupLink.size : Int) - 1 ≤ linkScore.rows ∧
      (lookupLink.size : Int) - 1 ≤ linkScore.cols)
    (hs : (lookupLink.size : Int) - 1 ≤ selfLinkScore.rows ∧
      (lookupLink.size : Int) - 1 ≤ selfLinkScore.cols)
    (hn1 : (lookupNode.size : Int) - 1 ≤ nodeScore1.size)
    (hn2 : (lookupNode.size : Int) - 1 ≤ nodeScore2.size)
    (hne : 1 ≤ linkScore.rows ∧ 1 ≤ linkScore.cols ∧ 1 ≤ selfLinkScore.rows ∧
      1 ≤ selfLinkScore.cols ∧ 1 ≤ nodeScore1.size)
    (hne2 : a.rows < p.size ∨ b.rows < p.size → 1 ≤ nodeScore2.size)
    (hpr : ∀ k : Int, 0 ≤ k → k < p.size → 0 ≤ p.elts k ∧ p.elts k < p.size)
    (hpi : pInv.size = p.size)
    (hpir : ∀ k : Int, 0 ≤ k → k < p.size → pInv.elts k < p.size)
    (hpa : a.rows ≤ p.size) (hpb : b.rows ≤ p.size)
    (hbinA : ∀ x y : Int, 0 ≤ x → x < a.rows → 0 ≤ y → y < a.cols →
      GA_get_bin_number (a.elts x y) lookupLink clamp ≠ -1)
    (hbinB : ∀ x y : Int, 0 ≤ x → x < b.rows → 0 ≤ y → y < b.cols →
      GA_get_bin_number (b.elts x y) lookupLink clamp ≠ -1)
    (hbinR : ∀ x y : Int, 0 ≤ x → x < r.rows → 0 ≤ y → y < r.cols →
      GA_get_bin_number (r.elts x y) lookupNode clamp ≠ -1)
    (pA : aBin.rows = a.rows ∧ aBin.cols = a.cols ∧
      ∀ x y : Int, 0 ≤ x → x < a.rows → 0 ≤ y → y < a.cols →
        aBin.elts x y = GA_get_bin_number (a.elts x y) lookupLink clamp)
    (pB : bBin.rows = b.rows ∧ bBin.cols = b.cols ∧
      ∀ x y : Int, 0 ≤ x → x < b.rows → 0 ≤ y → y < b.cols →
        bBin.elts x y = GA_get_bin_number (b.elts x y) lookupLink clamp)
    (pR : rBin.rows = r.rows ∧ rBin.cols = r.cols ∧
      ∀ x y : Int, 0 ≤ x → x < r.rows → 0 ≤ y → y < r.cols →
        rBin.elts x y = GA_get_bin_number (r.elts x y) lookupNode clamp)
    (i j : Int) (hi0 : 0 ≤ i) (hj0 : 0 ≤ j) :
    computeCell a b p pInv linkScore selfLinkScore nodeScore1 nodeScore2 aBin bBin rBin i j =
      Outcome.returned []
        (cellSum a b p pInv linkScore selfLinkScore nodeScore1 nodeScore2 aBin bBin rBin
          i j) := by
  obtain ⟨rA, cA, gA⟩ := pA
  obtain ⟨rB, cB, gB⟩ := pB
  obtain ⟨rR, cR, gR⟩ := pR
  by_cases hc : i < b.rows ∧ j < a.rows
  · obtain ⟨hi, hj⟩ := hc
    have iA : ∀ x y : Int, 0 ≤ x → x < a.rows → 0 ≤ y → y < a.rows →
        (0 ≤ aBin.elts x y ∧ aBin.elts x y < linkScore.rows) ∧
        (0 ≤ aBin.elts x y ∧ aBin.elts x y < selfLinkScore.rows) := by
      intro x y x0 x1 y0 y1
      rw [gA x y x0 x1 y0 (by omega)]
      exact ⟨bin_index _ _ _ _ (hbinA x y x0 x1 y0 (by omega)) hne.1 hl.1,
        bin_index _ _ _ _ (hbinA x y x0 x1 y0 (by omega)) hne.2.2.1 hs.1⟩
    have iB : ∀ x y : Int, 0 ≤ x → x < b.rows → 0 ≤ y → y < b.rows →
        (0 ≤ bBin.elts x y ∧ bBin.elts x y < linkScore.cols) ∧
        (0 ≤ bBin.elts x y ∧ bBin.elts x y < selfLinkScore.cols) := by
      intro x y x0 x1 y0 y1
      rw [gB x y x0 x1 y0 (by omega)]
      exact ⟨bin_index _ _ _ _ (hbinB x y x0 x1 y0 (by omega)) hne.2.1 hl.2,
        bin_index _ _ _ _ (hbinB x y x0 x1 y0 (by omega)) hne.2.2.2.1 hs.2⟩
    have iR1 : ∀ x y : Int, 0 ≤ x → x < a.rows → 0 ≤ y → y < b.rows →
        0 ≤ rBin.elts x y ∧ rBin.elts x y < nodeScore1.size := by
      intro x y x0 x1 y0 y1
      rw [gR x y x0 (by omega) y0 (by omega)]
      exact bin_index _ _ _ _ (hbinR x y x0 (by omega) y0 (by omega)) hne.2.2.2.2 hn1
    have iR2 : 1 ≤ nodeScore2.size → ∀ x y : Int, 0 ≤ x → x < a.rows → 0 ≤ y → y < b.rows →
        0 ≤ rBin.elts x y ∧ rBin.elts x y < nodeScore2.size := by
      intro h x y x0 x1 y0 y1
      rw [gR x y x0 (by omega) y0 (by omega)]
      exact bin_index _ _ _ _ (hbinR x y x0 (by omega) y0 (by omega)) h hn2
    apply computeCell_ok
    · intro k s k0 k1
      apply linkScoreStep_ok
      · intro _
        exact ⟨k0, by omega⟩
      · intro _ hk
        have p0 := (hpr k k0 (by omega)).1
        have a1 := iA j k hj0 hj k0 k1
        have b1 := iB i (p.elts k) hi0 hi p0 hk.2
        exact ⟨⟨hj0, by omega, k0, by omega⟩, ⟨hi0, by omega, p0, by omega⟩,
          a1.1.1, a1.1.2, b1.1.1, b1.1.2⟩
    · have a1 := iA j j hj0 hj hj0 hj
      have b1 := iB i i hi0 hi hi0 hi
      exact ⟨⟨hj0, by omega, hj0, by omega⟩, ⟨hi0, by omega, hi0, by omega⟩,
        a1.2.1, a1.2.2, b1.2.1, b1.2.2⟩
    · exact ⟨⟨hj0, by omega, hi0, by omega⟩, iR1 j i hj0 hj hi0 hi⟩
    · intro k s k0 k1
      apply nodeScoreStepA_ok
      · exact ⟨k0, by omega⟩
      · intro hk
        have p1 := (hpr k k0 (by omega)).2
        have hne' := hne2 (Or.inr (by omega))
        exact ⟨⟨k0, by omega, hi0, by omega⟩, iR2 hne' k i k0 k1 hi0 hi⟩
    · intro k s k0 k1
      apply nodeScoreStepB_ok
      · exact ⟨k0, by omega⟩
      · intro hk
        have p1 := hpir k k0 (by omega)
        have hne' := hne2 (Or.inl (by omega))
        exact ⟨⟨hj0, by omega, k0, by omega⟩, iR2 hne' j k hj0 hj k0 k1⟩
  · have ho := computeCell_outside a b p pInv linkScore selfLinkScore nodeScore1 nodeScore2
      aBin bBin rBin i j (by omega)
    rw [ho.1, ho.2]

/-- The run of `GA_compute_M` on valid inputs with score tables that are not
empty returns a matrix, without a message. -/
theorem GA_compute_M_returns (msg : GAMessageFunc) (a b r : GAMatrixReal) (p : GAVectorInt)
    (linkScore selfLinkScore : GAMatrixReal) (nodeScore1 nodeScore2 : GAVectorReal)
    (lookupLink lookupNode : GAVectorReal) (clamp : GAClampMode) (mem : ComputeMem)
    (ha : a.rows = a.cols) (hb : b.rows = b.cols) (hr : r.rows = a.rows ∧ r.cols = b.rows)
    (hl : (lookupLink.size : Int) - 1 ≤ linkScore.rows ∧
      (lookupLink.size : Int) - 1 ≤ linkScore.cols)
    (hs : (lookupLink.size : Int) - 1 ≤ selfLinkScore.rows ∧
      (lookupLink.size : Int) - 1 ≤ selfLinkScore.cols)
    (hn1 : (lookupNode.size : Int) - 1 ≤ nodeScore1.size)
    (hn2 : (lookupNode.size : Int) - 1 ≤ nodeScore2.size)
    (hp : IsPermutation p) (hpa : a.rows ≤ p.size) (hpb : b.rows ≤ p.size)
    (hbinA : ∀ x y : Int, 0 ≤ x → x < a.rows → 0 ≤ y → y < a.cols →
      GA_get_bin_number (a.elts x y) lookupLink clamp ≠ -1)
    (hbinB : ∀ x y : Int, 0 ≤ x → x < b.rows → 0 ≤ y → y < b.cols →
      GA_get_bin_number (b.elts x y) lookupLink clamp ≠ -1)
    (hbinR : ∀ x y : Int, 0 ≤ x → x < r.rows → 0 ≤ y → y < r.cols →
      GA_get_bin_number (r.elts x y) lookupNode clamp ≠ -1)
    (hne : 1 ≤ linkScore.rows ∧ 1 ≤ linkScore.cols ∧ 1 ≤ selfLinkScore.rows ∧
      1 ≤ selfLinkScore.cols ∧ 1 ≤ nodeScore1.size)
    (hne2 : a.rows < p.size ∨ b.rows < p.size → 1 ≤ nodeScore2.size) :
    ∃ m : GAMatrixReal,
      GA_compute_M msg a b r p linkScore selfLinkScore nodeScore1 nodeScore2 lookupLink
        lookupNode clamp mem = Outcome.returned [] (some m) := by
  obtain ⟨pInv, hinv, hps, _, _, hpi⟩ := invert_spec p mem.pInv hp
  apply GA_compute_M_ok msg a b r p pInv linkScore selfLinkScore nodeScore1 nodeScore2
    lookupLink lookupNode clamp mem hinv ha hb hr hl hs hn1 hn2 hbinA hbinB hbinR
  intro aBin bBin rBin pA pB pR i j i0 _ j0 _
  exact computeCell_returns a b r p pInv linkScore selfLinkScore nodeScore1 nodeScore2
    lookupLink lookupNode clamp aBin bBin rBin ha hb hr hl hs hn1 hn2 hne hne2 hp.1 hps
    (fun k k0 k1 => by
      have := hpi.1 k k0 (by rw [hps]; exact k1)
      rw [hps] at this
      exact this.2)
    hpa hpb hbinA hbinB hbinR pA pB pR i j i0 j0

/-- The cells of every matrix that `GA_compute_M` returns. -/
theorem GA_compute_M_cells (msg : GAMessageFunc) (a b r : GAMatrixReal) (p : GAVectorInt)
    (linkScore selfLinkScore : GAMatrixReal) (nodeScore1 nodeScore2 : GAVectorReal)
    (lookupLink lookupNode : GAVectorReal) (clamp : GAClampMode) (mem : ComputeMem)
    (ev : List GAMessage) (m : GAMatrixReal)
    (h : GA_compute_M msg a b r p linkScore selfLinkScore nodeScore1 nodeScore2 lookupLink
      lookupNode clamp mem = Outcome.returned ev (some m))
    (hpa : a.rows ≤ p.size) (hpb : b.rows ≤ p.size) :
    ∃ pInv : GAVectorInt,
      GA_invert_permutation_int p mem.pInv = InvertOutcome.returned pInv ∧
      ∀ i j : Int, 0 ≤ i → i < b.rows → 0 ≤ j → j < a.rows →
        m.elts i j =
          addDouble
            (addDouble
              (sumDouble (((List.range a.rows).filter
                  (fun k : Nat => (k : Int) ≠ j ∧ p.elts k ≠ i ∧ p.elts k < b.rows)).map
                (fun k : Nat =>
                  linkScore.elts (GA_get_bin_number (a.elts j k) lookupLink clamp)
                    (GA_get_bin_number (b.elts i (p.elts k)) lookupLink clamp))))
              (sumDouble [selfLinkScore.elts
                (GA_get_bin_number (a.elts j j) lookupLink clamp)
                (GA_get_bin_number (b.elts i i) lookupLink clamp)]))
            (sumDouble
              (nodeScore1.elts (GA_get_bin_number (r.elts j i) lookupNode clamp) ::
                (((List.range a.rows).filter
                    (fun k : Nat => p.elts k ≥ b.rows ∧ (k : Int) ≠ j)).map
                  (fun k : Nat =>
                    nodeScore2.elts (GA_get_bin_number (r.elts k i) lookupNode clamp)) ++
                 ((List.range b.rows).filter
                    (fun k : Nat => pInv.elts k ≥ a.rows ∧ (k : Int) ≠ i)).map
                  (fun k : Nat =>
                    nodeScore2.elts
                      (GA_get_bin_number (r.elts j k) lookupNode clamp))))) := by
  obtain ⟨pInv, aBin, bBin, rBin, hinv, ⟨ha, hb, hr1, hr2⟩, _, gA, gB, gR, _, _, hcells⟩ :=
    GA_compute_M_returned msg a b r p linkScore selfLinkScore nodeScore1 nodeScore2 lookupLink
      lookupNode clamp mem ev m h
  obtain ⟨_, hrange⟩ := invert_returned p mem.pInv pInv hinv
  refine ⟨pInv, hinv, ?_⟩
  intro i j i0 i1 j0 j1
  rw [hcells i j i0 (by omega) j0 (by omega)]
  exact cellSum_formula a b r p pInv linkScore selfLinkScore nodeScore1 nodeScore2
    lookupLink lookupNode clamp aBin bBin rBin ha hb ⟨hr1, hr2⟩
    (fun k k0 k1 => (hrange k k0 (by omega)).1) gA gB gR i j i0 i1 j0 j1

/-- C21: the shape law.  Whenever `GA_compute_M` returns a matrix, the matrix
has `p.size` rows and `p.size` columns, whatever the sizes of `a` and `b`. -/
theorem GA_compute_M_shape (msg : GAMessageFunc) (a b r : GAMatrixReal) (p : GAVectorInt)
    (linkScore selfLinkScore : GAMatrixReal) (nodeScore1 nodeScore2 : GAVectorReal)
    (lookupLink lookupNode : GAVectorReal) (clamp : GAClampMode) (mem : ComputeMem)
    (ev : List GAMessage) (m : GAMatrixReal)
    (hrun : GA_compute_M msg a b r p linkScore selfLinkScore nodeScore1 nodeScore2 lookupLink
      lookupNode clamp mem = Outcome.returned ev (some m)) :
    m.rows = p.size ∧ m.cols = p.size := by
  obtain ⟨_, _, _, _, _, _, _, _, _, _, hr, hc, _⟩ :=
    GA_compute_M_returned msg a b r p linkScore selfLinkScore nodeScore1 nodeScore2 lookupLink
      lookupNode clamp mem ev m hrun
  exact ⟨hr, hc⟩

theorem GA_compute_M_shape_witness :
    ∃ m : GAMatrixReal,
      GA_compute_M GAMessageFunc.GA_msg_R path3 pair2 sim32 (vectorOfInt [2, 0, 1]) linkTable
        selfTable (vectorOfReal [9, 10]) (vectorOfReal [11, 12]) lookup012 lookup012
        GAClampMode.GA_CLAMP_DISABLED zeroMem = Outcome.returned [] (some m) ∧
      (m.rows = (vectorOfInt [2, 0, 1]).size ∧ m.cols = (vectorOfInt [2, 0, 1]).size) :=
  ⟨_, rfl,
    GA_compute_M_shape GAMessageFunc.GA_msg_R path3 pair2 sim32 (vectorOfInt [2, 0, 1])
      linkTable selfTable (vectorOfReal [9, 10]) (vectorOfReal [11, 12]) lookup012 lookup012
      GAClampMode.GA_CLAMP_DISABLED zeroMem [] _ rfl⟩

/-- C36: in the result of `GA_compute_M` every cell `(i, j)` with
`i ≥ b.rows` or `j ≥ a.rows` is exactly 0: the link score, the self link
score and the node scores are all accumulated only when `i < b.rows` and
`j < a.rows`. -/
theorem GA_compute_M_outside_zero (msg : GAMessageFunc) (a b r : GAMatrixReal)
    (p : GAVectorInt)
    (linkScore selfLinkScore : GAMatrixReal) (nodeScore1 nodeScore2 : GAVectorReal)
    (lookupLink lookupNode : GAVectorReal) (clamp : GAClampMode) (mem : ComputeMem)
    (ev : List GAMessage) (m : GAMatrixReal)
    (hrun : GA_compute_M msg a b r p linkScore selfLinkScore nodeScore1 nodeScore2 lookupLink
      lookupNode clamp mem = Outcome.returned ev (some m))
    (i j : Int) (hi0 : 0 ≤ i) (hi : i < p.size) (hj0 : 0 ≤ j) (hj : j < p.size)
    (hout : (b.rows : Int) ≤ i ∨ (a.rows : Int) ≤ j) :
    m.elts i j = 0 := by
  obtain ⟨pInv, aBin, bBin, rBin, _, _, _, _, _, _, _, _, hcells⟩ :=
    GA_compute_M_returned msg a b r p linkScore selfLinkScore nodeScore1 nodeScore2 lookupLink
      lookupNode clamp mem ev m hrun
  rw [hcells i j hi0 hi hj0 hj]
  exact (computeCell_outside a b p pInv linkScore selfLinkScore nodeScore1 nodeScore2
    aBin bBin rBin i j hout).2

theorem GA_compute_M_outside_zero_witness :
    ∃ m : GAMatrixReal,
      GA_compute_M GAMessageFunc.GA_msg_R path3 pair2 sim32 (vectorOfInt [2, 0, 1]) linkTable
        selfTable (vectorOfReal [9, 10]) (vectorOfReal [11, 12]) lookup012 lookup012
        GAClampMode.GA_CLAMP_DISABLED zeroMem = Outcome.returned [] (some m) ∧
      m.elts 2 0 = 0 :=
  ⟨_, rfl,
    GA_compute_M_outside_zero GAMessageFunc.GA_msg_R path3 pair2 sim32 (vectorOfInt [2, 0, 1])
      linkTable selfTable (vectorOfReal [9, 10]) (vectorOfReal [11, 12]) lookup012 lookup012
      GAClampMode.GA_CLAMP_DISABLED zeroMem [] _ rfl 2 0 (by decide) (by decide) (by decide)
      (by decide) (Or.inl (by decide))⟩

/-- C22: the cells of the result, and the input on which the code has no
result.

Every run of `GA_compute_M` that returns a matrix, with `p.size ≥ a.rows` and
`p.size ≥ b.rows`, has stored at each cell `(i, j)`, `i < b.rows`,
`j < a.rows`, the sum of the link scores
`linkScore[aBin[j][k]][bBin[i][p[k]]]` over the `k < a.rows` with `k ≠ j`,
`p[k] ≠ i`, `p[k] < b.rows`, of the self link score
`selfLinkScore[aBin[j][j]][bBin[i][i]]`, and of the node scores
`nodeScore1[rBin[j][i]]`, `nodeScore2[rBin[k][i]]` over the `k < a.rows` with
`p[k] ≥ b.rows`, `k ≠ j`, and `nodeScore2[rBin[j][k]]` over the `k < b.rows`
with `pInv[k] ≥ a.rows`, `k ≠ i`.  The bin numbers are those of
`GA_get_bin_number` and `pInv` is the vector that the inversion of `p`
returns.  The sums are sums of values of type `double`, taken in the order of
the code: each of the three sums starts at `0.0` and adds its terms in the
order of `k`, and the cell is `(linkScoreSum + selfLinkScoreSum) +
nodeScoreSum`.

On valid inputs (`a`, `b` square, `r` of `a.rows × b.rows` elements, score
tables that pass the validation, `p` a permutation with `p.size ≥ a.rows` and
`p.size ≥ b.rows`, no binning fails) whose score tables are not empty, the
run returns a matrix, with either message function.  So it does on networks
of three and two nodes with two bins, where the cell `(0, 1)` is
`(4 + 5) + (10 + 11)`.

But a valid input may have empty score tables: a lookup vector with the
single value 0 has the bin 0, and the validation accepts tables with
`size - 1 = 0` rows.  On networks of one node with such lookup vectors and
empty tables, the run reads `selfLinkScore->elts[0][0]` of a table without
elements for the cell `(0, 0)`: the behaviour is undefined, and no cell is
set. -/
theorem GA_compute_M_cell :
    (∀ (msg : GAMessageFunc) (a b r : GAMatrixReal) (p : GAVectorInt)
        (linkScore selfLinkScore : GAMatrixReal) (nodeScore1 nodeScore2 : GAVectorReal)
        (lookupLink lookupNode : GAVectorReal) (clamp : GAClampMode) (mem : ComputeMem)
        (ev : List GAMessage) (m : GAMatrixReal),
      a.rows ≤ p.size → b.rows ≤ p.size →
      GA_compute_M msg a b r p linkScore selfLinkScore nodeScore1 nodeScore2 lookupLink
        lookupNode clamp mem = Outcome.returned ev (some m) →
      ∃ pInv : GAVectorInt,
        GA_invert_permutation_int p mem.pInv = InvertOutcome.returned pInv ∧
        ∀ i j : Int, 0 ≤ i → i < b.rows → 0 ≤ j → j < a.rows →
          m.elts i j =
            addDouble
              (addDouble
                (sumDouble (((List.range a.rows).filter
                    (fun k : Nat => (k : Int) ≠ j ∧ p.elts k ≠ i ∧ p.elts k < b.rows)).map
                  (fun k : Nat =>
                    linkScore.elts (GA_get_bin_number (a.elts j k) lookupLink clamp)
                      (GA_get_bin_number (b.elts i (p.elts k)) lookupLink clamp))))
                (sumDouble [selfLinkScore.elts
                  (GA_get_bin_number (a.elts j j) lookupLink clamp)
                  (GA_get_bin_number (b.elts i i) lookupLink clamp)]))
              (sumDouble
                (nodeScore1.elts (GA_get_bin_number (r.elts j i) lookupNode clamp) ::
                  (((List.range a.rows).filter
                      (fun k : Nat => p.elts k ≥ b.rows ∧ (k : Int) ≠ j)).map
                    (fun k : Nat =>
                      nodeScore2.elts (GA_get_bin_number (r.elts k i) lookupNode clamp)) ++
                   ((List.range b.rows).filter
                      (fun k : Nat => pInv.elts k ≥ a.rows ∧ (k : Int) ≠ i)).map
                    (fun k : Nat =>
                      nodeScore2.elts
                        (GA_get_bin_number (r.elts j k) lookupNode clamp)))))) ∧
    (∀ (msg : GAMessageFunc) (a b r : GAMatrixReal) (p : GAVectorInt)
        (linkScore selfLinkScore : GAMatrixReal) (nodeScore1 nodeScore2 : GAVectorReal)
        (lookupLink lookupNode : GAVectorReal) (clamp : GAClampMode) (mem : ComputeMem),
      a.rows = a.cols → b.rows = b.cols → r.rows = a.rows ∧ r.cols = b.rows →
      ((lookupLink.size : Int) - 1 ≤ linkScore.rows ∧
        (lookupLink.size : Int) - 1 ≤ linkScore.cols) →
      ((lookupLink.size : Int) - 1 ≤ selfLinkScore.rows ∧
        (lookupLink.size : Int) - 1 ≤ selfLinkScore.cols) →
      (lookupNode.size : Int) - 1 ≤ nodeScore1.size →
      (lookupNode.size : Int) - 1 ≤ nodeScore2.size →
      IsPermutation p → a.rows ≤ p.size → b.rows ≤ p.size →
      (∀ x y : Int, 0 ≤ x → x < a.rows → 0 ≤ y → y < a.cols →
        GA_get_bin_number (a.elts x y) lookupLink clamp ≠ -1) →
      (∀ x y : Int, 0 ≤ x → x < b.rows → 0 ≤ y → y < b.cols →
        GA_get_bin_number (b.elts x y) lookupLink clamp ≠ -1) →
      (∀ x y : Int, 0 ≤ x → x < r.rows → 0 ≤ y → y < r.cols →
        GA_get_bin_number (r.elts x y) lookupNode clamp ≠ -1) →
      (1 ≤ linkScore.rows ∧ 1 ≤ linkScore.cols ∧ 1 ≤ selfLinkScore.rows ∧
        1 ≤ selfLinkScore.cols ∧ 1 ≤ nodeScore1.size ∧ 1 ≤ nodeScore2.size) →
      ∃ m : GAMatrixReal,
        GA_compute_M msg a b r p linkScore selfLinkScore nodeScore1 nodeScore2 lookupLink
          lookupNode clamp mem = Outcome.returned [] (some m)) ∧
    (∃ m : GAMatrixReal,
      GA_compute_M GAMessageFunc.GA_msg_R path3 pair2 sim32 (vectorOfInt [2, 0, 1]) linkTable
        selfTable (vectorOfReal [9, 10]) (vectorOfReal [11, 12]) lookup012 lookup012
        GAClampMode.GA_CLAMP_DISABLED zeroMem = Outcome.returned [] (some m) ∧
      m.elts 0 1 =
        addDouble (addDouble (sumDouble [4]) (sumDouble [5])) (sumDouble [10, 11])) ∧
    (((oneByOne 0).rows = (oneByOne 0).cols ∧ IsPermutation perm1 ∧
        (oneByOne 0).rows ≤ perm1.size ∧
        GA_get_bin_number ((oneByOne 0).elts 0 0) lookup0 GAClampMode.GA_CLAMP_ENABLED = 0 ∧
        (lookup0.size : Int) - 1 ≤ emptyMatrix.rows ∧
        (lookup0.size : Int) - 1 ≤ emptyMatrix.cols ∧
        (lookup0.size : Int) - 1 ≤ (vectorOfReal []).size) ∧
      ∀ msg : GAMessageFunc,
        GA_compute_M msg (oneByOne 0) (oneByOne 0) (oneByOne 0) perm1 emptyMatrix emptyMatrix
          (vectorOfReal []) (vectorOfReal []) lookup0 lookup0 GAClampMode.GA_CLAMP_ENABLED
          zeroMem =
        Outcome.undefined []
          (Fault.readOutside (IndexedRead.matrix "selfLinkScore" 0 0 0 0))) := by
  refine ⟨?_, ?_, ⟨_, rfl, rfl⟩, ⟨rfl, isPermutation_perm1, by decide, by decide, by decide,
    by decide, by decide⟩, ?_⟩
  · intro msg a b r p linkScore selfLinkScore nodeScore1 nodeScore2 lookupLink lookupNode
      clamp mem ev m hpa hpb h
    exact GA_compute_M_cells msg a b r p linkScore selfLinkScore nodeScore1 nodeScore2
      lookupLink lookupNode clamp mem ev m h hpa hpb
  · intro msg a b r p linkScore selfLinkScore nodeScore1 nodeScore2 lookupLink lookupNode
      clamp mem ha hb hr hl hs hn1 hn2 hp hpa hpb hbinA hbinB hbinR hne
    exact GA_compute_M_returns msg a b r p linkScore selfLinkScore nodeScore1 nodeScore2
      lookupLink lookupNode clamp mem ha hb hr hl hs hn1 hn2 hp hpa hpb hbinA hbinB hbinR
      ⟨hne.1, hne.2.1, hne.2.2.1, hne.2.2.2.1, hne.2.2.2.2.1⟩ (fun _ => hne.2.2.2.2.2)
  · intro msg
    cases msg <;> rfl

/-- The value of a cell when the networks have the size of `p` and `p` is a
permutation: no score of `nodeScore2` is added. -/
theorem cell_full_match (a b r : GAMatrixReal) (p pInv : GAVectorInt)
    (linkScore selfLinkScore : GAMatrixReal) (nodeScore1 nodeScore2 : GAVectorReal)
    (lookupLink lookupNode : GAVectorReal) (clamp : GAClampMode)
    (hna : a.rows = p.size) (hnb : b.rows = p.size)
    (hpr : ∀ k : Int, 0 ≤ k → k < p.size → p.elts k < p.size)
    (hpir : ∀ k : Int, 0 ≤ k → k < p.size → pInv.elts k < p.size)
    (i j : Int) :
    addDouble
      (addDouble
        (sumDouble (((List.range a.rows).filter
            (fun k : Nat => (k : Int) ≠ j ∧ p.elts k ≠ i ∧ p.elts k < b.rows)).map
          (fun k : Nat =>
            linkScore.elts (GA_get_bin_number (a.elts j k) lookupLink clamp)
              (GA_get_bin_number (b.elts i (p.elts k)) lookupLink clamp))))
        (sumDouble [selfLinkScore.elts
          (GA_get_bin_number (a.elts j j) lookupLink clamp)
          (GA_get_bin_number (b.elts i i) lookupLink clamp)]))
      (sumDouble
        (nodeScore1.elts (GA_get_bin_number (r.elts j i) lookupNode clamp) ::
          (((List.range a.rows).filter
              (fun k : Nat => p.elts k ≥ b.rows ∧ (k : Int) ≠ j)).map
            (fun k : Nat =>
              nodeScore2.elts (GA_get_bin_number (r.elts k i) lookupNode clamp)) ++
           ((List.range b.rows).filter
              (fun k : Nat => pInv.elts k ≥ a.rows ∧ (k : Int) ≠ i)).map
            (fun k : Nat =>
              nodeScore2.elts
                (GA_get_bin_number (r.elts j k) lookupNode clamp))))) =
    addDouble
      (addDouble
        (sumDouble (((List.range p.size).filter
            (fun k : Nat => (k : Int) ≠ j ∧ p.elts k ≠ i)).map
          (fun k : Nat =>
            linkScore.elts (GA_get_bin_number (a.elts j k) lookupLink clamp)
              (GA_get_bin_number (b.elts i (p.elts k)) lookupLink clamp))))
        (sumDouble [selfLinkScore.elts
          (GA_get_bin_number (a.elts j j) lookupLink clamp)
          (GA_get_bin_number (b.elts i i) lookupLink clamp)]))
      (sumDouble [nodeScore1.elts (GA_get_bin_number (r.elts j i) lookupNode clamp)]) := by
  have e1 : (List.range a.rows).filter
      (fun k : Nat => (k : Int) ≠ j ∧ p.elts k ≠ i ∧ p.elts k < b.rows) =
      (List.range p.size).filter (fun k : Nat => (k : Int) ≠ j ∧ p.elts k ≠ i) := by
    rw [hna]
    apply List.filter_congr
    intro k hk
    rw [List.mem_range] at hk
    have := hpr k (by omega) (by omega)
    simp only [decide_eq_decide]
    constructor
    · exact fun h => ⟨h.1, h.2.1⟩
    · exact fun h => ⟨h.1, h.2, by omega⟩
  have e2 : (List.range a.rows).filter
      (fun k : Nat => p.elts k ≥ b.rows ∧ (k : Int) ≠ j) = [] := by
    rw [List.filter_eq_nil_iff]
    intro k hk
    rw [List.mem_range] at hk
    have := hpr k (by omega) (by omega)
    simp only [decide_eq_true_eq, not_and]
    intro h
    omega
  have e3 : (List.range b.rows).filter
      (fun k : Nat => pInv.elts k ≥ a.rows ∧ (k : Int) ≠ i) = [] := by
    rw [List.filter_eq_nil_iff]
    intro k hk
    rw [List.mem_range] at hk
    have := hpir k (by omega) (by omega)
    simp only [decide_eq_true_eq, not_and]
    intro h
    omega
  rw [e1, e2, e3]
  rfl

/-- C38: when both networks have the size of `p`, `a.rows = b.rows = p.size`,
and `p` is a permutation of `0..p.size-1`, the result of `GA_compute_M` does
not depend on `nodeScore2`: the runs with `nodeScore2` and with any other
vector `nodeScore2'` that return a matrix return matrices with the same
cells, and each cell is `result[i][j] = ` (the sum of
`linkScore[aBin[j][k]][bBin[i][p[k]]]` over the `k ≠ j` with `p[k] ≠ i`)
` + selfLinkScore[aBin[j][j]][bBin[i][i]] + nodeScore1[rBin[j][i]]`, where
`aBin`, `bBin` and `rBin` hold the bin numbers of the elements of `a`, `b` and
`r`.  The sums are sums of values of type `double` in the order of the code:
the sum of the link scores starts at `0.0` and adds its terms in the order of
`k`, and the self link score and the node score are each added to `0.0`
first.  Both runs return a matrix when the inputs pass the validations of
`GA_compute_M`, no binning fails and the tables `linkScore`, `selfLinkScore`
and `nodeScore1` are not empty. -/
theorem GA_compute_M_full_match (msg : GAMessageFunc) (a b r : GAMatrixReal)
    (p : GAVectorInt)
    (linkScore selfLinkScore : GAMatrixReal) (nodeScore1 nodeScore2 nodeScore2' : GAVectorReal)
    (lookupLink lookupNode : GAVectorReal) (clamp : GAClampMode) (mem : ComputeMem)
    (hp : IsPermutation p) (hna : a.rows = p.size) (hnb : b.rows = p.size) :
    (∀ (ev ev' : List GAMessage) (m m' : GAMatrixReal),
      GA_compute_M msg a b r p linkScore selfLinkScore nodeScore1 nodeScore2 lookupLink
        lookupNode clamp mem = Outcome.returned ev (some m) →
      GA_compute_M msg a b r p linkScore selfLinkScore nodeScore1 nodeScore2' lookupLink
        lookupNode clamp mem = Outcome.returned ev' (some m') →
      ∀ i j : Int, 0 ≤ i → i < p.size → 0 ≤ j → j < p.size →
        m'.elts i j = m.elts i j ∧
        m.elts i j =
          addDouble
            (addDouble
              (sumDouble (((List.range p.size).filter
                  (fun k : Nat => (k : Int) ≠ j ∧ p.elts k ≠ i)).map
                (fun k : Nat =>
                  linkScore.elts (GA_get_bin_number (a.elts j k) lookupLink clamp)
                    (GA_get_bin_number (b.elts i (p.elts k)) lookupLink clamp))))
              (sumDouble [selfLinkScore.elts
                (GA_get_bin_number (a.elts j j) lookupLink clamp)
                (GA_get_bin_number (b.elts i i) lookupLink clamp)]))
            (sumDouble
              [nodeScore1.elts (GA_get_bin_number (r.elts j i) lookupNode clamp)])) ∧
    (a.rows = a.cols → b.rows = b.cols → r.rows = a.rows ∧ r.cols = b.rows →
      ((lookupLink.size : Int) - 1 ≤ linkScore.rows ∧
        (lookupLink.size : Int) - 1 ≤ linkScore.cols) →
      ((lookupLink.size : Int) - 1 ≤ selfLinkScore.rows ∧
        (lookupLink.size : Int) - 1 ≤ selfLinkScore.cols) →
      (lookupNode.size : Int) - 1 ≤ nodeScore1.size →
      (lookupNode.size : Int) - 1 ≤ nodeScore2.size →
      (lookupNode.size : Int) - 1 ≤ nodeScore2'.size →
      (∀ x y : Int, 0 ≤ x → x < a.rows → 0 ≤ y → y < a.cols →
        GA_get_bin_number (a.elts x y) lookupLink clamp ≠ -1) →
      (∀ x y : Int, 0 ≤ x → x < b.rows → 0 ≤ y → y < b.cols →
        GA_get_bin_number (b.elts x y) lookupLink clamp ≠ -1) →
      (∀ x y : Int, 0 ≤ x → x < r.rows → 0 ≤ y → y < r.cols →
        GA_get_bin_number (r.elts x y) lookupNode clamp ≠ -1) →
      (1 ≤ linkScore.rows ∧ 1 ≤ linkScore.cols ∧ 1 ≤ selfLinkScore.rows ∧
        1 ≤ selfLinkScore.cols ∧ 1 ≤ nodeScore1.size) →
      ∃ m m' : GAMatrixReal,
        GA_compute_M msg a b r p linkScore selfLinkScore nodeScore1 nodeScore2 lookupLink
          lookupNode clamp mem = Outcome.returned [] (some m) ∧
        GA_compute_M msg a b r p linkScore selfLinkScore nodeScore1 nodeScore2' lookupLink
          lookupNode clamp mem = Outcome.returned [] (some m')) := by
  constructor
  · intro ev ev' m m' h h' i j i0 i1 j0 j1
    obtain ⟨pInv, hinv, hcells⟩ := GA_compute_M_cells msg a b r p linkScore selfLinkScore
      nodeScore1 nodeScore2 lookupLink lookupNode clamp mem ev m h (by omega) (by omega)
    obtain ⟨pInv', hinv', hcells'⟩ := GA_compute_M_cells msg a b r p linkScore selfLinkScore
      nodeScore1 nodeScore2' lookupLink lookupNode clamp mem ev' m' h' (by omega) (by omega)
    obtain ⟨pInv2, hinv2, hps, _, _, hpi⟩ := invert_spec p mem.pInv hp
    have e1 : pInv = pInv2 := by
      have := hinv.symm.trans hinv2
      simp only [InvertOutcome.returned.injEq] at this
      exact this
    have e2 : pInv' = pInv2 := by
      have := hinv'.symm.trans hinv2
      simp only [InvertOutcome.returned.injEq] at this
      exact this
    have hpir : ∀ k : Int, 0 ≤ k → k < p.size → pInv2.elts k < p.size := by
      intro k k0 k1
      have := hpi.1 k k0 (by rw [hps]; exact k1)
      rw [hps] at this
      exact this.2
    have hpr : ∀ k : Int, 0 ≤ k → k < p.size → p.elts k < p.size :=
      fun k k0 k1 => (hp.1 k k0 k1).2
    have c := hcells i j i0 (by omega) j0 (by omega)
    have c' := hcells' i j i0 (by omega) j0 (by omega)
    rw [e1, cell_full_match a b r p pInv2 linkScore selfLinkScore nodeScore1 nodeScore2
      lookupLink lookupNode clamp hna hnb hpr hpir i j] at c
    rw [e2, cell_full_match a b r p pInv2 linkScore selfLinkScore nodeScore1 nodeScore2'
      lookupLink lookupNode clamp hna hnb hpr hpir i j] at c'
    exact ⟨by rw [c, c'], c⟩
  · intro ha hb hr hl hs hn1 hn2 hn2' hbinA hbinB hbinR hne
    obtain ⟨m, e⟩ := GA_compute_M_returns msg a b r p linkScore selfLinkScore nodeScore1
      nodeScore2 lookupLink lookupNode clamp mem ha hb hr hl hs hn1 hn2 hp (by omega)
      (by omega) hbinA hbinB hbinR hne (fun h => by omega)
    obtain ⟨m', e'⟩ := GA_compute_M_returns msg a b r p linkScore selfLinkScore nodeScore1
      nodeScore2' lookupLink lookupNode clamp mem ha hb hr hl hs hn1 hn2' hp (by omega)
      (by omega) hbinA hbinB hbinR hne (fun h => by omega)
    exact ⟨m, m', e, e'⟩

theorem GA_compute_M_full_match_witness :
    IsPermutation (vectorOfInt [2, 0, 1]) ∧ path3.rows = (vectorOfInt [2, 0, 1]).size ∧
    ∃ m m' : GAMatrixReal,
      GA_compute_M GAMessageFunc.GA_msg_R path3 path3 path3 (vectorOfInt [2, 0, 1]) linkTable
        selfTable (vectorOfReal [9, 10]) (vectorOfReal [11, 12]) lookup012 lookup012
        GAClampMode.GA_CLAMP_DISABLED zeroMem = Outcome.returned [] (some m) ∧
      GA_compute_M GAMessageFunc.GA_msg_R path3 path3 path3 (vectorOfInt [2, 0, 1]) linkTable
        selfTable (vectorOfReal [9, 10]) (vectorOfReal [13, 14]) lookup012 lookup012
        GAClampMode.GA_CLAMP_DISABLED zeroMem = Outcome.returned [] (some m') ∧
      m'.elts 0 0 = m.elts 0 0 ∧
      m.elts 0 0 =
        addDouble
          (addDouble
            (sumDouble (((List.range (vectorOfInt [2, 0, 1]).size).filter
                (fun k : Nat => (k : Int) ≠ 0 ∧ (vectorOfInt [2, 0, 1]).elts k ≠ 0)).map
              (fun k : Nat =>
                linkTable.elts
                  (GA_get_bin_number (path3.elts 0 k) lookup012
                    GAClampMode.GA_CLAMP_DISABLED)
                  (GA_get_bin_number (path3.elts 0 ((vectorOfInt [2, 0, 1]).elts k))
                    lookup012 GAClampMode.GA_CLAMP_DISABLED))))
            (sumDouble [selfTable.elts
              (GA_get_bin_number (path3.elts 0 0) lookup012 GAClampMode.GA_CLAMP_DISABLED)
              (GA_get_bin_number (path3.elts 0 0) lookup012
                GAClampMode.GA_CLAMP_DISABLED)]))
          (sumDouble
            [(vectorOfReal [9, 10]).elts
              (GA_get_bin_number (path3.elts 0 0) lookup012
                GAClampMode.GA_CLAMP_DISABLED)]) ∧
      m.elts 0 0 = addDouble (addDouble (sumDouble [2]) (sumDouble [5])) (sumDouble [9]) :=
  ⟨isPermutation_swap3, rfl, _, _, rfl, rfl,
    ((GA_compute_M_full_match GAMessageFunc.GA_msg_R path3 path3 path3 (vectorOfInt [2, 0, 1])
      linkTable selfTable (vectorOfReal [9, 10]) (vectorOfReal [11, 12])
      (vectorOfReal [13, 14]) lookup012 lookup012 GAClampMode.GA_CLAMP_DISABLED zeroMem
      isPermutation_swap3 rfl rfl).1 [] [] _ _ rfl rfl 0 0 (by decide) (by decide)
      (by decide) (by decide)).1,
    ((GA_compute_M_full_match GAMessageFunc.GA_msg_R path3 path3 path3 (vectorOfInt [2, 0, 1])
      linkTable selfTable (vectorOfReal [9, 10]) (vectorOfReal [11, 12])
      (vectorOfReal [13, 14]) lookup012 lookup012 GAClampMode.GA_CLAMP_DISABLED zeroMem
      isPermutation_swap3 rfl rfl).1 [] [] _ _ rfl rfl 0 0 (by decide) (by decide)
      (by decide) (by decide)).2,
    rfl⟩

/-- C37, what the code does: the validations of `GA_compute_M` do not keep
its reads within bounds.

First, `p->size` is never compared with the sizes of the networks.  Take the
network A of two nodes (`zero2`), the network B of one node, `r` of 2 × 1
elements, `p = [0]`, the lookup vectors `[0, 1]`, clamping enabled and score
tables with one element.  The lookup vectors are not empty, the entries of
`p` are not negative, the inversion of `p` returns, every dimension
validation passes and the three binnings return.  But for the cell `(0, 0)`
the loop over `k < a->rows` evaluates `p->elts[1]`, and `p` has one element
only: the read `p[1]` is outside the bounds of `p`, and the run of
`GA_compute_M` ends there, in undefined behaviour, with either message
function.

Second, a lookup vector with a single value has the bin 0, and the
validations accept score tables without elements for it.  Take networks of
one node, `p = [0]`, the lookup vectors `[0]`, clamping enabled and empty
score tables: every validation passes, and for the cell `(0, 0)` the run
reads an element of `selfLinkScore`, which has none. -/
theorem GA_compute_M_reads_outside :
    (((0 < lookup01.size ∧ ∀ k : Int, 0 ≤ k → k < perm1.size → 0 ≤ perm1.elts k) ∧
      ∀ msg : GAMessageFunc,
        GA_compute_M msg zero2 (oneByOne 0) zero21 perm1 (oneByOne 1) (oneByOne 1)
          (vectorOfReal [1]) (vectorOfReal [1]) lookup01 lookup01
          GAClampMode.GA_CLAMP_ENABLED zeroMem =
        Outcome.undefined [] (Fault.readOutside (IndexedRead.vector "p" perm1.size 1))) ∧
    ∀ msg : GAMessageFunc, ∃ (pInv : GAVectorInt) (aBin bBin rBin : GAMatrixInt),
      GA_invert_permutation_int perm1 zeroMem.pInv = InvertOutcome.returned pInv ∧
      GA_matrix_to_bin_real msg zero2 lookup01 GAClampMode.GA_CLAMP_ENABLED zeroMem.aBin =
        Outcome.returned [] (some aBin) ∧
      GA_matrix_to_bin_real msg (oneByOne 0) lookup01 GAClampMode.GA_CLAMP_ENABLED
        zeroMem.bBin = Outcome.returned [] (some bBin) ∧
      GA_matrix_to_bin_real msg zero21 lookup01 GAClampMode.GA_CLAMP_ENABLED zeroMem.rBin =
        Outcome.returned [] (some rBin) ∧
      IndexedRead.vector "p" perm1.size 1 ∈
        computeReads zero2 (oneByOne 0) perm1 pInv (oneByOne 1) (oneByOne 1)
          (vectorOfReal [1]) (vectorOfReal [1]) aBin bBin rBin ∧
      ¬ (IndexedRead.vector "p" perm1.size 1).inBounds) ∧
    ((0 < lookup0.size ∧
      ∀ msg : GAMessageFunc,
        GA_compute_M msg (oneByOne 0) (oneByOne 0) (oneByOne 0) perm1 emptyMatrix emptyMatrix
          (vectorOfReal []) (vectorOfReal []) lookup0 lookup0
          GAClampMode.GA_CLAMP_ENABLED zeroMem =
        Outcome.undefined []
          (Fault.readOutside
            (IndexedRead.matrix "selfLinkScore" emptyMatrix.rows emptyMatrix.cols 0 0))) ∧
    ∀ msg : GAMessageFunc, ∃ (pInv : GAVectorInt) (aBin bBin rBin : GAMatrixInt),
      GA_invert_permutation_int perm1 zeroMem.pInv = InvertOutcome.returned pInv ∧
      GA_matrix_to_bin_real msg (oneByOne 0) lookup0 GAClampMode.GA_CLAMP_ENABLED
        zeroMem.aBin = Outcome.returned [] (some aBin) ∧
      GA_matrix_to_bin_real msg (oneByOne 0) lookup0 GAClampMode.GA_CLAMP_ENABLED
        zeroMem.bBin = Outcome.returned [] (some bBin) ∧
      GA_matrix_to_bin_real msg (oneByOne 0) lookup0 GAClampMode.GA_CLAMP_ENABLED
        zeroMem.rBin = Outcome.returned [] (some rBin) ∧
      IndexedRead.matrix "selfLinkScore" emptyMatrix.rows emptyMatrix.cols
          (aBin.elts 0 0) (bBin.elts 0 0) ∈
        computeReads (oneByOne 0) (oneByOne 0) perm1 pInv emptyMatrix emptyMatrix
          (vectorOfReal []) (vectorOfReal []) aBin bBin rBin ∧
      ¬ (IndexedRead.matrix "selfLinkScore" emptyMatrix.rows emptyMatrix.cols
          (aBin.elts 0 0) (bBin.elts 0 0)).inBounds) := by
  constructor
  · refine ⟨⟨⟨by decide, ?_⟩, ?_⟩, ?_⟩
    · intro k k0 k1
      have : k = 0 := by
        have : k < 1 := k1
        omega
      rw [this]; decide
    · intro msg
      cases msg <;> rfl
    · intro msg
      have hread : ∀ (pInv : GAVectorInt) (aBin bBin rBin : GAMatrixInt),
          IndexedRead.vector "p" perm1.size 1 ∈
            computeReads zero2 (oneByOne 0) perm1 pInv (oneByOne 1) (oneByOne 1)
              (vectorOfReal [1]) (vectorOfReal [1]) aBin bBin rBin := by
        intro pInv aBin bBin rBin
        unfold computeReads
        apply mem_readsOfLoop 1 _ 0 (by decide)
        apply mem_readsOfLoop 1 _ 0 (by decide)
        unfold computeCellReads
        rw [List.mem_append, List.mem_append]
        left; left
        rw [if_pos (by decide)]
        apply mem_readsOfLoop 2 _ 1 (by decide)
        rw [if_pos (by decide)]
        exact List.mem_cons_self _ _
      have hout : ¬ (IndexedRead.vector "p" perm1.size 1).inBounds := by
        intro h
        have h2 : (1 : Int) < (1 : Nat) := h.2
        omega
      cases msg
      · exact ⟨_, _, _, _, rfl, rfl, rfl, rfl, hread _ _ _ _, hout⟩
      · exact ⟨_, _, _, _, rfl, rfl, rfl, rfl, hread _ _ _ _, hout⟩
  · refine ⟨⟨by decide, ?_⟩, ?_⟩
    · intro msg
      cases msg <;> rfl
    · intro msg
      have hread : ∀ (pInv : GAVectorInt) (aBin bBin rBin : GAMatrixInt),
          IndexedRead.matrix "selfLinkScore" emptyMatrix.rows emptyMatrix.cols
              (aBin.elts 0 0) (bBin.elts 0 0) ∈
            computeReads (oneByOne 0) (oneByOne 0) perm1 pInv emptyMatrix emptyMatrix
              (vectorOfReal []) (vectorOfReal []) aBin bBin rBin := by
        intro pInv aBin bBin rBin
        unfold computeReads
        apply mem_readsOfLoop 1 _ 0 (by decide)
        apply mem_readsOfLoop 1 _ 0 (by decide)
        unfold computeCellReads
        rw [List.mem_append, List.mem_append]
        left; right
        rw [if_pos (by decide)]
        simp
      have hout : ∀ x y : Int,
          ¬ (IndexedRead.matrix "selfLinkScore" emptyMatrix.rows emptyMatrix.cols
            x y).inBounds := by
        intro x y h
        have h1 : (0 : Int) ≤ x := h.1
        have h2 : x < ((0 : Nat) : Int) := h.2.1
        omega
      cases msg
      · exact ⟨_, _, _, _, rfl, rfl, rfl, rfl, hread _ _ _ _, hout _ _⟩
      · exact ⟨_, _, _, _, rfl, rfl, rfl, rfl, hread _ _ _ _, hout _ _⟩

/-- When the loop of `GA_invert_permutation_int` ends in a store through the
null pointer, the one message reported is that of `GA_vector_get_elt_int`;
when it ends in a store before the first element, the element of the vector
read in that pass is negative. -/
theorem invertLoop_faults (vec : GAVectorInt) (n : Nat) (i : Int) (e : Int → Int) :
    (∀ (k : Int) (ev : List GAMessage), invertLoop vec i n e = InvertOutcome.nullStore k ev →
      ev = [{ text := "[GA_vector_get_elt_int] Index out of range.",
              level := GAMessageLevel.GA_MSG_ERROR }]) ∧
    (∀ k index : Int, invertLoop vec i n e = InvertOutcome.storeOutside k index →
      i ≤ k ∧ k < i + n ∧ vec.elts k < 0) := by
  induction n generalizing i e with
  | zero =>
    constructor
    · intro k ev h
      simp [invertLoop] at h
    · intro k index h
      simp [invertLoop] at h
  | succ n ih =>
    by_cases hlt : vec.elts i < vec.size
    · have hstep : invertLoop vec i (n + 1) e =
          if vec.elts i < 0 then InvertOutcome.storeOutside i (vec.elts i)
          else invertLoop vec (i + 1) n (Function.update e (vec.elts i) i) := by
        simp only [invertLoop]
        rw [GA_vector_get_elt_int_ok { size := vec.size, elts := e } (vec.elts i) hlt]
      rw [hstep]
      by_cases hneg : vec.elts i < 0
      · rw [if_pos hneg]
        constructor
        · intro k ev h
          simp at h
        · intro k index h
          simp only [InvertOutcome.storeOutside.injEq] at h
          rw [← h.1]
          push_cast
          exact ⟨le_refl _, by omega, hneg⟩
      · rw [if_neg hneg]
        obtain ⟨h1, h2⟩ := ih (i + 1) (Function.update e (vec.elts i) i)
        refine ⟨h1, ?_⟩
        intro k index h
        obtain ⟨a, b, c⟩ := h2 k index h
        push_cast
        exact ⟨by omega, by omega, c⟩
    · have hstep : invertLoop vec i (n + 1) e =
          InvertOutcome.nullStore i
            [{ text := "[GA_vector_get_elt_int] Index out of range.",
               level := GAMessageLevel.GA_MSG_ERROR }] := by
        simp only [invertLoop]
        unfold GA_vector_get_elt_int
        rw [if_neg hlt]
      rw [hstep]
      constructor
      · intro k ev h
        simp only [InvertOutcome.nullStore.injEq] at h
        exact h.2.symm
      · intro k index h
        simp at h

/-- With `GA_msg_R` a run of `GA_compute_M` in which the binning of an element
of `a`, `b` or `r` fails, on a vector `p` without a negative element, is left
at an error message. -/
theorem GA_compute_M_R_aborts (a b r : GAMatrixReal) (p : GAVectorInt)
    (linkScore selfLinkScore : GAMatrixReal) (nodeScore1 nodeScore2 : GAVectorReal)
    (lookupLink lookupNode : GAVectorReal) (clamp : GAClampMode) (mem : ComputeMem)
    (hp0 : ∀ k : Int, 0 ≤ k → k < p.size → 0 ≤ p.elts k)
    (hfail : (∃ x y : Int, 0 ≤ x ∧ x < a.rows ∧ 0 ≤ y ∧ y < a.cols ∧
        GA_get_bin_number (a.elts x y) lookupLink clamp = -1) ∨
      (∃ x y : Int, 0 ≤ x ∧ x < b.rows ∧ 0 ≤ y ∧ y < b.cols ∧
        GA_get_bin_number (b.elts x y) lookupLink clamp = -1) ∨
      (∃ x y : Int, 0 ≤ x ∧ x < r.rows ∧ 0 ≤ y ∧ y < r.cols ∧
        GA_get_bin_number (r.elts x y) lookupNode clamp = -1)) :
    ∃ text : String,
      GA_compute_M GAMessageFunc.GA_msg_R a b r p linkScore selfLinkScore nodeScore1
        nodeScore2 lookupLink lookupNode clamp mem =
      Outcome.aborted [{ text := text, level := GAMessageLevel.GA_MSG_ERROR }] := by
  unfold GA_compute_M
  cases hinv : GA_invert_permutation_int p mem.pInv with
  | nullStore i ev =>
    dsimp only
    have := (invertLoop_faults p p.size 0 mem.pInv).1 i ev hinv
    rw [this]
    exact ⟨_, rfl⟩
  | storeOutside i index =>
    exfalso
    obtain ⟨k0, k1, hneg⟩ := (invertLoop_faults p p.size 0 mem.pInv).2 i index hinv
    have := hp0 i k0 (by omega)
    omega
  | returned pInv =>
    dsimp only
    split_ifs
    · exact ⟨_, computeError_R _⟩
    · exact ⟨_, computeError_R _⟩
    · exact ⟨_, computeError_R _⟩
    · exact ⟨_, computeError_R _⟩
    · exact ⟨_, computeError_R _⟩
    · exact ⟨_, computeError_R _⟩
    · exact ⟨_, computeError_R _⟩
    · by_cases fA : ∃ x y : Int, 0 ≤ x ∧ x < a.rows ∧ 0 ≤ y ∧ y < a.cols ∧
          GA_get_bin_number (a.elts x y) lookupLink clamp = -1
      · obtain ⟨ev, e, text, ht⟩ := GA_matrix_to_bin_real_R a lookupLink clamp mem.aBin fA
        rw [e, ht]
        exact ⟨text, rfl⟩
      · push_neg at fA
        obtain ⟨aBin, eA⟩ := GA_matrix_to_bin_real_ok GAMessageFunc.GA_msg_R a lookupLink
          clamp mem.aBin (fun x y x0 x1 y0 y1 => fA x y x0 x1 y0 y1)
        rw [eA, Outcome.returned_nil_bind]
        dsimp only
        by_cases fB : ∃ x y : Int, 0 ≤ x ∧ x < b.rows ∧ 0 ≤ y ∧ y < b.cols ∧
            GA_get_bin_number (b.elts x y) lookupLink clamp = -1
        · obtain ⟨ev, e, text, ht⟩ := GA_matrix_to_bin_real_R b lookupLink clamp mem.bBin fB
          rw [e, ht]
          exact ⟨text, rfl⟩
        · push_neg at fB
          obtain ⟨bBin, eB⟩ := GA_matrix_to_bin_real_ok GAMessageFunc.GA_msg_R b lookupLink
            clamp mem.bBin (fun x y x0 x1 y0 y1 => fB x y x0 x1 y0 y1)
          rw [eB, Outcome.returned_nil_bind]
          dsimp only
          have fR : ∃ x y : Int, 0 ≤ x ∧ x < r.rows ∧ 0 ≤ y ∧ y < r.cols ∧
              GA_get_bin_number (r.elts x y) lookupNode clamp = -1 := by
            rcases hfail with h | h | h
            · obtain ⟨x, y, x0, x1, y0, y1, hb⟩ := h
              exact absurd hb (fA x y x0 x1 y0 y1)
            · obtain ⟨x, y, x0, x1, y0, y1, hb⟩ := h
              exact absurd hb (fB x y x0 x1 y0 y1)
            · exact h
          obtain ⟨ev, e, text, ht⟩ := GA_matrix_to_bin_real_R r lookupNode clamp mem.rBin fR
          rw [e, ht]
          exact ⟨text, rfl⟩

/-- With `GA_msg_default` a run of `GA_compute_M` in which the inversion of
`p` returns and the validations pass comes to the loops over the cells: the
three binnings return, with the error value -1 for the elements whose binning
fails. -/
theorem GA_compute_M_default_goes_on (a b r : GAMatrixReal) (p pInv : GAVectorInt)
    (linkScore selfLinkScore : GAMatrixReal) (nodeScore1 nodeScore2 : GAVectorReal)
    (lookupLink lookupNode : GAVectorReal) (clamp : GAClampMode) (mem : ComputeMem)
    (hinv : GA_invert_permutation_int p mem.pInv = InvertOutcome.returned pInv)
    (ha : a.rows = a.cols) (hb : b.rows = b.cols)
    (hr : r.rows = a.rows ∧ r.cols = b.rows)
    (hl : (lookupLink.size : Int) - 1 ≤ linkScore.rows ∧
      (lookupLink.size : Int) - 1 ≤ linkScore.cols)
    (hs : (lookupLink.size : Int) - 1 ≤ selfLinkScore.rows ∧
      (lookupLink.size : Int) - 1 ≤ selfLinkScore.cols)
    (hn1 : (lookupNode.size : Int) - 1 ≤ nodeScore1.size)
    (hn2 : (lookupNode.size : Int) - 1 ≤ nodeScore2.size) :
    ∃ (ev : List GAMessage) (aBin bBin rBin : GAMatrixInt),
      (∀ x y : Int, 0 ≤ x → x < a.rows → 0 ≤ y → y < a.cols →
        aBin.elts x y = GA_get_bin_number (a.elts x y) lookupLink clamp) ∧
      (∀ x y : Int, 0 ≤ x → x < b.rows → 0 ≤ y → y < b.cols →
        bBin.elts x y = GA_get_bin_number (b.elts x y) lookupLink clamp) ∧
      (∀ x y : Int, 0 ≤ x → x < r.rows → 0 ≤ y → y < r.cols →
        rBin.elts x y = GA_get_bin_number (r.elts x y) lookupNode clamp) ∧
      GA_compute_M GAMessageFunc.GA_msg_default a b r p linkScore selfLinkScore nodeScore1
          nodeScore2 lookupLink lookupNode clamp mem =
        (Outcome.returned ev ()).bind (fun _ =>
          (computeLoop a b p pInv linkScore selfLinkScore nodeScore1 nodeScore2
            aBin bBin rBin (GA_matrix_init_zero_real p.size p.size mem.result)).bind
            (fun e => Outcome.returned []
              (some { rows := p.size, cols := p.size, elts := e }))) := by
  obtain ⟨evA, aBin, eA⟩ := GA_matrix_to_bin_real_default a lookupLink clamp mem.aBin
  obtain ⟨evB, bBin, eB⟩ := GA_matrix_to_bin_real_default b lookupLink clamp mem.bBin
  obtain ⟨evR, rBin, eR⟩ := GA_matrix_to_bin_real_default r lookupNode clamp mem.rBin
  obtain ⟨aBin2, e1, _, _, gA⟩ := GA_matrix_to_bin_real_value _ _ _ _ _ _ _ eA
  obtain ⟨bBin2, e2, _, _, gB⟩ := GA_matrix_to_bin_real_value _ _ _ _ _ _ _ eB
  obtain ⟨rBin2, e3, _, _, gR⟩ := GA_matrix_to_bin_real_value _ _ _ _ _ _ _ eR
  rw [← Option.some.inj e1] at gA
  rw [← Option.some.inj e2] at gB
  rw [← Option.some.inj e3] at gR
  refine ⟨evA ++ (evB ++ evR), aBin, bBin, rBin, gA, gB, gR, ?_⟩
  unfold GA_compute_M
  rw [hinv]
  dsimp only
  rw [if_neg (by simp [ha]), if_neg (by simp [hb]), if_neg (by simp [hr.1, hr.2]),
    if_neg (by omega), if_neg (by omega), if_neg (by omega), if_neg (by omega)]
  rw [eA, eB, eR]
  cases hL : (computeLoop a b p pInv linkScore selfLinkScore nodeScore1 nodeScore2
      aBin bBin rBin (GA_matrix_init_zero_real p.size p.size mem.result)) <;>
    simp [Outcome.bind, hL, List.append_assoc]

/-- C23, what the code does.  When the inversion of `p` returns, a violated
precondition on the dimensions (`a` or `b` not square, `r` not of
`a.rows × b.rows` elements, `linkScore` or `selfLinkScore` with fewer than
`lookupLink.size - 1` rows or columns, `nodeScore1` or `nodeScore2` with fewer
than `lookupNode.size - 1` elements) gives one message of the level
`GA_MSG_ERROR` and no result matrix: with `GA_msg_default` the null pointer is
returned, with `GA_msg_R` the call is left at the message.

But `GA_compute_M` inverts `p` before it tests any dimension, and the
inversion does not return for every `p`.  With the matrix `a` of 2 × 1
elements, which is not square, and `p = [0, 5]`, whose element 5 is not an
index of `p`: `GA_vector_get_elt_int` reports `Index out of range.` and
returns the null pointer, and with `GA_msg_default` the inversion stores
through it, undefined behaviour, where the error of the dimensions is to be
returned.  (With `GA_msg_R` the call is left at the message of
`GA_vector_get_elt_int`.)  With `p = [-1]` the inversion stores before the
first element of `pInv`, with either message function. -/
theorem GA_compute_M_dimension_error :
    (∀ (msg : GAMessageFunc) (a b r : GAMatrixReal) (p pInv : GAVectorInt)
        (linkScore selfLinkScore : GAMatrixReal) (nodeScore1 nodeScore2 : GAVectorReal)
        (lookupLink lookupNode : GAVectorReal) (clamp : GAClampMode) (mem : ComputeMem),
      GA_invert_permutation_int p mem.pInv = InvertOutcome.returned pInv →
      (a.rows ≠ a.cols ∨ b.rows ≠ b.cols ∨ r.rows ≠ a.rows ∨ r.cols ≠ b.rows ∨
        (linkScore.rows : Int) < (lookupLink.size : Int) - 1 ∨
        (linkScore.cols : Int) < (lookupLink.size : Int) - 1 ∨
        (selfLinkScore.rows : Int) < (lookupLink.size : Int) - 1 ∨
        (selfLinkScore.cols : Int) < (lookupLink.size : Int) - 1 ∨
        (nodeScore1.size : Int) < (lookupNode.size : Int) - 1 ∨
        (nodeScore2.size : Int) < (lookupNode.size : Int) - 1) →
      ∃ text : String,
        GA_compute_M msg a b r p linkScore selfLinkScore nodeScore1 nodeScore2 lookupLink
            lookupNode clamp mem =
          Outcome.returned [{ text := text, level := GAMessageLevel.GA_MSG_ERROR }] none ∧
          msg = GAMessageFunc.GA_msg_default ∨
        GA_compute_M msg a b r p linkScore selfLinkScore nodeScore1 nodeScore2 lookupLink
            lookupNode clamp mem =
          Outcome.aborted [{ text := text, level := GAMessageLevel.GA_MSG_ERROR }] ∧
          msg = GAMessageFunc.GA_msg_R) ∧
    (zero21.rows ≠ zero21.cols ∧
      GA_compute_M GAMessageFunc.GA_msg_default zero21 (oneByOne 0) (oneByOne 0)
          (vectorOfInt [0, 5]) (oneByOne 1) (oneByOne 1) (vectorOfReal [1]) (vectorOfReal [1])
          lookup01 lookup01 GAClampMode.GA_CLAMP_DISABLED zeroMem =
        Outcome.undefined
          [{ text := "[GA_vector_get_elt_int] Index out of range.",
             level := GAMessageLevel.GA_MSG_ERROR }]
          (Fault.nullStore 1) ∧
      GA_compute_M GAMessageFunc.GA_msg_R zero21 (oneByOne 0) (oneByOne 0)
          (vectorOfInt [0, 5]) (oneByOne 1) (oneByOne 1) (vectorOfReal [1]) (vectorOfReal [1])
          lookup01 lookup01 GAClampMode.GA_CLAMP_DISABLED zeroMem =
        Outcome.aborted
          [{ text := "[GA_vector_get_elt_int] Index out of range.",
             level := GAMessageLevel.GA_MSG_ERROR }] ∧
      ∀ msg : GAMessageFunc,
        GA_compute_M msg zero21 (oneByOne 0) (oneByOne 0)
            (vectorOfInt [-1]) (oneByOne 1) (oneByOne 1) (vectorOfReal [1]) (vectorOfReal [1])
            lookup01 lookup01 GAClampMode.GA_CLAMP_DISABLED zeroMem =
          Outcome.undefined [] (Fault.storeOutside 0 (-1))) := by
  refine ⟨?_, by decide, rfl, rfl, fun msg => by cases msg <;> rfl⟩
  intro msg a b r p pInv linkScore selfLinkScore nodeScore1 nodeScore2 lookupLink lookupNode
    clamp mem hinv hbad
  unfold GA_compute_M
  rw [hinv]
  dsimp only
  split_ifs
  · exact ⟨_, computeError_outcome msg _⟩
  · exact ⟨_, computeError_outcome msg _⟩
  · exact ⟨_, computeError_outcome msg _⟩
  · exact ⟨_, computeError_outcome msg _⟩
  · exact ⟨_, computeError_outcome msg _⟩
  · exact ⟨_, computeError_outcome msg _⟩
  · exact ⟨_, computeError_outcome msg _⟩
  · exfalso
    omega

/-- C24, amended: what a binning failure inside `GA_compute_M` does depends on
the message function.  Let `p` have no negative element and let the binning
of an element of `a` or `b` with `lookupLink`, or of an element of `r` with
`lookupNode`, fail (`GA_get_bin_number` has the value -1: with clamping
disabled the element is outside of the range of the lookup vector, or the
lookup vector is empty).  With `GA_msg_R`, the message function of the
package, `GA_compute_M` is aborted: the run is left at an error message and
no result matrix is returned.  With `GA_msg_default`, which returns, the
failure does not abort `GA_compute_M`: when the inversion of `p` returns and
the validations pass, the three binnings return matrices of bin numbers that
hold the error value -1, and the run goes on to the loops over the cells with
them. -/
theorem GA_compute_M_binning_failure (a b r : GAMatrixReal) (p : GAVectorInt)
    (linkScore selfLinkScore : GAMatrixReal) (nodeScore1 nodeScore2 : GAVectorReal)
    (lookupLink lookupNode : GAVectorReal) (clamp : GAClampMode) (mem : ComputeMem)
    (hp0 : ∀ k : Int, 0 ≤ k → k < p.size → 0 ≤ p.elts k)
    (hfail : (∃ x y : Int, 0 ≤ x ∧ x < a.rows ∧ 0 ≤ y ∧ y < a.cols ∧
        GA_get_bin_number (a.elts x y) lookupLink clamp = -1) ∨
      (∃ x y : Int, 0 ≤ x ∧ x < b.rows ∧ 0 ≤ y ∧ y < b.cols ∧
        GA_get_bin_number (b.elts x y) lookupLink clamp = -1) ∨
      (∃ x y : Int, 0 ≤ x ∧ x < r.rows ∧ 0 ≤ y ∧ y < r.cols ∧
        GA_get_bin_number (r.elts x y) lookupNode clamp = -1)) :
    (∃ text : String,
      GA_compute_M GAMessageFunc.GA_msg_R a b r p linkScore selfLinkScore nodeScore1
        nodeScore2 lookupLink lookupNode clamp mem =
      Outcome.aborted [{ text := text, level := GAMessageLevel.GA_MSG_ERROR }]) ∧
    (∀ pInv : GAVectorInt,
      GA_invert_permutation_int p mem.pInv = InvertOutcome.returned pInv →
      a.rows = a.cols → b.rows = b.cols → r.rows = a.rows ∧ r.cols = b.rows →
      ((lookupLink.size : Int) - 1 ≤ linkScore.rows ∧
        (lookupLink.size : Int) - 1 ≤ linkScore.cols) →
      ((lookupLink.size : Int) - 1 ≤ selfLinkScore.rows ∧
        (lookupLink.size : Int) - 1 ≤ selfLinkScore.cols) →
      (lookupNode.size : Int) - 1 ≤ nodeScore1.size →
      (lookupNode.size : Int) - 1 ≤ nodeScore2.size →
      ∃ (ev : List GAMessage) (aBin bBin rBin : GAMatrixInt),
        (∀ x y : Int, 0 ≤ x → x < a.rows → 0 ≤ y → y < a.cols →
          aBin.elts x y = GA_get_bin_number (a.elts x y) lookupLink clamp) ∧
        (∀ x y : Int, 0 ≤ x → x < b.rows → 0 ≤ y → y < b.cols →
          bBin.elts x y = GA_get_bin_number (b.elts x y) lookupLink clamp) ∧
        (∀ x y : Int, 0 ≤ x → x < r.rows → 0 ≤ y → y < r.cols →
          rBin.elts x y = GA_get_bin_number (r.elts x y) lookupNode clamp) ∧
        GA_compute_M GAMessageFunc.GA_msg_default a b r p linkScore selfLinkScore nodeScore1
            nodeScore2 lookupLink lookupNode clamp mem =
          (Outcome.returned ev ()).bind (fun _ =>
            (computeLoop a b p pInv linkScore selfLinkScore nodeScore1 nodeScore2
              aBin bBin rBin (GA_matrix_init_zero_real p.size p.size mem.result)).bind
              (fun e => Outcome.returned []
                (some { rows := p.size, cols := p.size, elts := e })))) :=
  ⟨GA_compute_M_R_aborts a b r p linkScore selfLinkScore nodeScore1 nodeScore2 lookupLink
    lookupNode clamp mem hp0 hfail,
   fun pInv hinv ha hb hr hl hs hn1 hn2 =>
    GA_compute_M_default_goes_on a b r p pInv linkScore selfLinkScore nodeScore1 nodeScore2
      lookupLink lookupNode clamp mem hinv ha hb hr hl hs hn1 hn2⟩

theorem isPermutation_id2 : IsPermutation (vectorOfInt [0, 1]) := by
  constructor
  · intro k h0 h1
    have h3 : k < 2 := h1
    have : k = 0 ∨ k = 1 := by omega
    rcases this with e | e <;> subst e <;> decide
  · intro k l k0 k1 l0 l1
    have h3 : k < 2 := k1
    have h4 : l < 2 := l1
    have hk : k = 0 ∨ k = 1 := by omega
    have hl : l = 0 ∨ l = 1 := by omega
    rcases hk with e | e <;> rcases hl with f | f <;> subst e <;> subst f <;> decide

theorem GA_compute_M_binning_failure_witness :
    (∀ k : Int, 0 ≤ k → k < (vectorOfInt [0, 1]).size → 0 ≤ (vectorOfInt [0, 1]).elts k) ∧
    GA_get_bin_number (far2.elts 0 1) lookup01 GAClampMode.GA_CLAMP_DISABLED = -1 ∧
    ∃ text : String,
      GA_compute_M GAMessageFunc.GA_msg_R far2 (oneByOne 0) zero21 (vectorOfInt [0, 1])
        (oneByOne 1) (oneByOne 1) (vectorOfReal [1]) (vectorOfReal [1]) lookup01 lookup01
        GAClampMode.GA_CLAMP_DISABLED zeroMem =
      Outcome.aborted [{ text := text, level := GAMessageLevel.GA_MSG_ERROR }] :=
  ⟨fun k k0 k1 => (isPermutation_id2.1 k k0 k1).1, by decide,
    (GA_compute_M_binning_failure far2 (oneByOne 0) zero21 (vectorOfInt [0, 1])
      (oneByOne 1) (oneByOne 1) (vectorOfReal [1]) (vectorOfReal [1]) lookup01 lookup01
      GAClampMode.GA_CLAMP_DISABLED zeroMem
      (fun k k0 k1 => (isPermutation_id2.1 k k0 k1).1)
      (Or.inl ⟨0, 1, by decide, by decide, by decide, by decide, by decide⟩)).1⟩

/-- C24 fails as stated: with clamping disabled and the lookup vectors
`[0, 1]`, the element 5 of `a = [[0, 5], [0, 0]]` is outside of the range of
`lookupLink`, and yet with `GA_msg_default`, the initial message function of
the library, `GA_compute_M` reports the error of `GA_get_bin_number` and
returns a result matrix: with the network B of one node and `p = [0, 1]`, the
bin number of `a[0][1]` is not used.  Where the bin number -1 is used, as for
`a = [[5]]`, the run reads `selfLinkScore->elts[-1][0]`, outside of the
table: undefined behaviour, not the return of an error. -/
theorem GA_compute_M_binning_goes_on :
    GA_get_bin_number (far2.elts 0 1) lookup01 GAClampMode.GA_CLAMP_DISABLED = -1 ∧
    (∃ m : GAMatrixReal,
      GA_compute_M GAMessageFunc.GA_msg_default far2 (oneByOne 0) zero21 (vectorOfInt [0, 1])
        (oneByOne 1) (oneByOne 1) (vectorOfReal [1]) (vectorOfReal [1]) lookup01 lookup01
        GAClampMode.GA_CLAMP_DISABLED zeroMem =
      Outcome.returned [{ text := binRangeText, level := GAMessageLevel.GA_MSG_ERROR }]
        (some m) ∧ m.rows = 2 ∧ m.cols = 2) ∧
    GA_get_bin_number ((oneByOne 5).elts 0 0) lookup01 GAClampMode.GA_CLAMP_DISABLED = -1 ∧
    GA_compute_M GAMessageFunc.GA_msg_default (oneByOne 5) (oneByOne 0) (oneByOne 0) perm1
        (oneByOne 1) (oneByOne 1) (vectorOfReal [1]) (vectorOfReal [1]) lookup01 lookup01
        GAClampMode.GA_CLAMP_DISABLED zeroMem =
      Outcome.undefined [{ text := binRangeText, level := GAMessageLevel.GA_MSG_ERROR }]
        (Fault.readOutside (IndexedRead.matrix "selfLinkScore" 1 1 (-1) 0)) :=
  ⟨by decide, ⟨_, rfl, rfl, rfl⟩, by decide, rfl⟩

namespace LAP

/-- In exact arithmetic `LAP_lap` returns on every cost matrix, when enough
turns are allowed to its loops. -/
theorem LAP_lap_returns_always (dim : Nat) (c : Int → Int → Int) (s0 : St) :
    ∃ (fuel : Nat) (r : Result), LAP_lap fuel dim c s0 = some r := by
  obtain ⟨lo, hi, hlohi, hc⟩ := exists_bounds dim c
  have h4 := afterTransfer_arrTerm dim c s0 lo hi hlohi hc
  obtain ⟨m1, s5, e5, h5⟩ := arrPass_term dim c lo hi _ hc _ h4
  obtain ⟨m2, s6, e6, h6⟩ := arrPass_term dim c lo hi _ hc _ h5
  have h6' := arrTerm_augTerm dim lo hi _ s6 h6
  have hnf := h6'.fle
  have lift : ∀ (a b : Nat) (x y : St), a ≤ b → arrPass a dim c x = some y →
      arrPass b dim c x = some y := fun a b x y hab e =>
    mono_le_of_step (fun m (a : St) => arrPass m dim c a)
      (fun m a r hr => arrPass_mono dim c a m r hr) a b x y hab e
  have liftA : ∀ (a b n : Nat) (x y : St), a ≤ b → augment a dim c n x = some y →
      augment b dim c n x = some y := fun a b n x y hab e =>
    mono_le_of_step (fun m (a : St) => augment m dim c n a)
      (fun m a r hr => augment_mono dim c n a m r hr) a b x y hab e
  obtain ⟨s7, e7, _, _⟩ := augment_term dim c s6 h6' (dim + 1) (le_refl _) s6.numfree.toNat
    (by omega)
  have e5' := lift m1 (max (max m1 m2) (dim + 1)) _ _
    (le_trans (le_max_left _ _) (le_max_left _ _)) e5
  have e6' := lift m2 (max (max m1 m2) (dim + 1)) _ _
    (le_trans (le_max_right _ _) (le_max_left _ _)) e6
  have e7' := liftA (dim + 1) (max (max m1 m2) (dim + 1)) _ _ _ (le_max_right _ _) e7
  refine ⟨max (max m1 m2) (dim + 1), ?_⟩
  rw [LAP_lap_stages, e5']
  dsimp only
  rw [e6']
  dsimp only
  rw [e7']
  exact ⟨_, rfl⟩

/-- On `costWrap` the run of `LAP_lap` in 32-bit arithmetic does not return,
whatever number of turns is allowed to its loops. -/
theorem LAP_lap32_costWrap (s0 : St) (fuel : Nat) : LAP_lap32 fuel 3 costWrap s0 = none := by
  have e : arrPhase32 fuel 3 costWrap s0 = none := by
    obtain ⟨nf, hstart⟩ := costWrap_transfer32 s0
    unfold arrPhase32
    have e : arrPass32 fuel 3 costWrap
        (reductionTransfer32 3 costWrap (afterColRed 3 costWrap s0)) = none := by
      unfold arrPass32
      rw [nf]
      exact arrLoop32_start fuel _ hstart
    rw [e]
  unfold LAP_lap32
  rw [e]

end LAP

/-- C8, amended: `GA_linear_assignment_solve` rejects a cost matrix that is
not square with an error message and the null result before any call of
`LAP_lap`; for a square matrix every vector it returns has `rows` elements,
and in exact arithmetic, that is on every run in which no operation on an
`int` overflows, it returns for every square matrix. -/
theorem GA_linear_assignment_solve_square (m : GAMatrixInt) (mem : LAP.St) :
    (m.rows ≠ m.cols → ∀ fuel : Nat,
      GA_linear_assignment_solve fuel m mem =
        some { events := [SolveEvent.message
                 "[GA_linear_assignment_solve] Cost matrix is not a square matrix"
                 GAMessageLevel.GA_MSG_ERROR],
               result := none }) ∧
    (m.rows = m.cols →
      (∀ (fuel : Nat) (out : SolveOutcome), GA_linear_assignment_solve fuel m mem = some out →
        out.events = [SolveEvent.lapCall m.rows] ∧
        ∃ vec : GAVectorInt, out.result = some vec ∧ vec.size = m.rows) ∧
      ∃ (fuel : Nat) (out : SolveOutcome),
        GA_linear_assignment_solve fuel m mem = some out) := by
  constructor
  · intro h fuel
    simp [GA_linear_assignment_solve, h]
  · intro h
    have hsolve : ∀ fuel : Nat, GA_linear_assignment_solve fuel m mem =
        match LAP.LAP_lap fuel m.rows m.elts (solveBuffers m.rows mem) with
        | none => none
        | some r => some { events := [SolveEvent.lapCall m.rows],
                           result := some { size := m.rows, elts := r.colsol } } := by
      intro fuel
      unfold GA_linear_assignment_solve
      rw [if_neg (by simp [h])]
      rfl
    constructor
    · intro fuel out ho
      rw [hsolve] at ho
      cases hl : LAP.LAP_lap fuel m.rows m.elts (solveBuffers m.rows mem) with
      | none => rw [hl] at ho; exact absurd ho (by simp)
      | some r =>
        rw [hl] at ho
        have hout := (Option.some.inj ho).symm
        rw [hout]
        exact ⟨rfl, _, rfl, rfl⟩
    · obtain ⟨fuel, r, e⟩ := LAP.LAP_lap_returns_always m.rows m.elts (solveBuffers m.rows mem)
      exact ⟨fuel, _, by rw [hsolve, e]⟩

/-- C8 fails as stated: the matrix `costWrap` of 3 × 3 elements is square, its
elements are between 0 and `BIG`, and with the 32-bit arithmetic of `int` the
call of `GA_linear_assignment_solve` on it does not return, whatever number of
turns is allowed to the loops of `LAP_lap` and whatever the content of the
allocated memory: the augmenting row reduction of `LAP_lap` goes on for
ever. -/
theorem GA_linear_assignment_solve32_never_returns :
    costWrapMatrix.rows = costWrapMatrix.cols ∧
    (∀ i : Nat, i < 3 → ∀ j : Nat, j < 3 →
      0 ≤ costWrapMatrix.elts i j ∧ costWrapMatrix.elts i j < LAP.BIG) ∧
    ∀ (mem : LAP.St) (fuel : Nat),
      GA_linear_assignment_solve32 fuel costWrapMatrix mem = none := by
  refine ⟨rfl, by decide, ?_⟩
  intro mem fuel
  unfold GA_linear_assignment_solve32
  rw [if_neg (by decide)]
  dsimp only
  have := LAP.LAP_lap32_costWrap
    { mem with rowsol := GA_vector_init_zero_int costWrapMatrix.rows mem.rowsol,
               colsol := GA_vector_init_zero_int costWrapMatrix.rows mem.colsol,
               u := GA_vector_init_zero_int costWrapMatrix.rows mem.u,
               v := GA_vector_init_zero_int costWrapMatrix.rows mem.v } fuel
  exact (by
    show (match LAP.LAP_lap32 fuel 3 LAP.costWrap _ with
      | none => none
      | some r => some _) = none
    rw [this])
